import Mathlib

/-!
# librpc: value tree and call multiplexer

A shallow embedding of `src/rpc_object.c` and `src/rpc_connection.c`.

* Objects live in an explicit heap (`Heap`); an `rpc_object_t` is an address.
  `malloc` hands out fresh addresses, `free` empties a cell and is logged.
* A nullable pointer is an `Option`; `none` is `NULL`.
* A function that can `abort()`, fail an `assert`, or dereference storage that
  is not allocated returns `none` at that point.  Recursive functions over the
  heap take a fuel argument and return `none` when it runs out.
* Machine integers are `Nat`/`Int` with explicit wrap-around.
-/

namespace Librpc

/-! ## Machine integers and bytes -/

/-- Number of values of `size_t` (LP64). -/
def SIZE_T_MOD : Nat := 2 ^ 64

/-- Conversion of a signed integer to `size_t`. -/
def to_size_t (x : Int) : Nat := (x % (2 ^ 64 : Int)).toNat

/-- Wrap-around of a 32-bit `int` (`gint`), as the atomic operations do it. -/
def wrap_int32 (x : Int) : Int := (x + 2 ^ 31) % 2 ^ 32 - 2 ^ 31

/-- UTF-8 bytes of one character. -/
def utf8_encode_char (c : Char) : List Nat :=
  let v := c.toNat
  if v < 0x80 then [v]
  else if v < 0x800 then [0xC0 + v / 64, 0x80 + v % 64]
  else if v < 0x10000 then [0xE0 + v / 4096, 0x80 + (v / 64) % 64, 0x80 + v % 64]
  else [0xF0 + v / 262144, 0x80 + (v / 4096) % 64, 0x80 + (v / 64) % 64, 0x80 + v % 64]

/-- Bytes of a C string (without the terminating NUL). -/
def c_bytes (s : String) : List Nat := (s.toList.map utf8_encode_char).flatten

/-- The C string that starts at the first character of a text: the
characters before the first NUL. This is what `strdup` copies. -/
def c_str (s : String) : String := String.mk (s.toList.takeWhile (fun c => c ≠ Char.ofNat 0))

/-- Conversion `(size_t)d` of a double given by its IEEE-754 bits: truncation
toward zero.  Inputs for which C leaves the conversion undefined (NaN,
infinities, values outside the range of `size_t`) give 0 here. -/
def double_to_size_t (bits : Nat) : Nat :=
  let sign := (bits / 2 ^ 63) % 2
  let e := (bits / 2 ^ 52) % 2 ^ 11
  let m := bits % 2 ^ 52
  if e = 0 then 0
  else if e = 2047 then 0
  else
    let mant := 2 ^ 52 + m
    let mag := if 1075 ≤ e then mant * 2 ^ (e - 1075) else mant / 2 ^ (1075 - e)
    if sign = 0 then (if mag < 2 ^ 64 then mag else 0) else 0

/-! ## Objects and the heap -/

/-- The enumeration `rpc_type_t`. -/
inductive rpc_type_t where
  | RPC_TYPE_NULL
  | RPC_TYPE_BOOL
  | RPC_TYPE_UINT64
  | RPC_TYPE_INT64
  | RPC_TYPE_DOUBLE
  | RPC_TYPE_DATE
  | RPC_TYPE_STRING
  | RPC_TYPE_BINARY
  | RPC_TYPE_FD
  | RPC_TYPE_DICTIONARY
  | RPC_TYPE_ARRAY
  deriving DecidableEq, Repr

/-- The payload `union rpc_value` together with its discriminator `ro_type`.
A `GDateTime` is represented by its unix time in seconds, a double by its
IEEE-754 bits, a `GArray` by the list of its element pointers and a
`GHashTable` by the list of its entries in iteration order. -/
inductive rpc_value where
  | rv_null
  | rv_b (b : Bool)
  | rv_ui (n : Nat)
  | rv_i (i : Int)
  | rv_d (bits : Nat)
  | rv_datetime (secs : Int)
  | rv_str (s : String)
  | rv_bin (bytes : List Nat) (copy : Bool)
  | rv_fd (fd : Int)
  | rv_dict (entries : List (String × Nat))
  | rv_list (items : List Nat)
  deriving DecidableEq, Repr

/-- Discriminator of a payload. -/
def rpc_value.type : rpc_value → rpc_type_t
  | .rv_null => .RPC_TYPE_NULL
  | .rv_b _ => .RPC_TYPE_BOOL
  | .rv_ui _ => .RPC_TYPE_UINT64
  | .rv_i _ => .RPC_TYPE_INT64
  | .rv_d _ => .RPC_TYPE_DOUBLE
  | .rv_datetime _ => .RPC_TYPE_DATE
  | .rv_str _ => .RPC_TYPE_STRING
  | .rv_bin _ _ => .RPC_TYPE_BINARY
  | .rv_fd _ => .RPC_TYPE_FD
  | .rv_dict _ => .RPC_TYPE_DICTIONARY
  | .rv_list _ => .RPC_TYPE_ARRAY

/-- Object pointers stored in a payload: array elements and dictionary values. -/
def rpc_value.children : rpc_value → List Nat
  | .rv_dict entries => entries.map Prod.snd
  | .rv_list items => items
  | _ => []

/-- The record `struct rpc_object`. -/
structure rpc_object where
  ro_refcnt : Int
  ro_value : rpc_value
  deriving DecidableEq, Repr

/-- Type tag of an object. -/
def rpc_object.ro_type (o : rpc_object) : rpc_type_t := o.ro_value.type

/-- Object storage. `cells[a]` is `some o` while address `a` is allocated;
`freed` logs every `free` of an object, oldest first. -/
structure Heap where
  cells : List (Option rpc_object)
  freed : List Nat
  deriving DecidableEq, Repr

/-- Heap with nothing allocated. -/
def Heap.empty : Heap := ⟨[], []⟩

/-- Number of addresses handed out so far; the next `malloc` returns it. -/
def Heap.size (h : Heap) : Nat := h.cells.length

/-- Dereference. -/
def Heap.get (h : Heap) (a : Nat) : Option rpc_object :=
  match h.cells[a]? with
  | some (some o) => some o
  | _ => none

/-- Store to an object. -/
def Heap.set (h : Heap) (a : Nat) (o : rpc_object) : Heap :=
  ⟨h.cells.set a (some o), h.freed⟩

/-- The call `malloc` followed by initialisation. -/
def Heap.alloc (h : Heap) (o : rpc_object) : Heap × Nat :=
  (⟨h.cells ++ [some o], h.freed⟩, h.cells.length)

/-- The call `free(object)`. -/
def Heap.free (h : Heap) (a : Nat) : Heap :=
  ⟨h.cells.set a none, h.freed ++ [a]⟩

/-! ## `rpc_object.c`: creation, reference counting -/

/-- Source function `rpc_prim_create`: a new object with reference count 1. -/
def rpc_prim_create (h : Heap) (val : rpc_value) : Heap × Nat :=
  h.alloc { ro_refcnt := 1, ro_value := val }

/-- Source function `rpc_data_hash`: djb2 over the bytes, last byte first. -/
def rpc_data_hash (data : List Nat) : Nat :=
  data.foldr (fun b hash => ((hash <<< 5) + hash + b) % SIZE_T_MOD) 5381

/-- GLib `g_string_hash`: a 32-bit `guint`, characters read as `signed char`. -/
def g_string_hash (s : String) : Nat :=
  ((c_bytes s).foldl
    (fun (hh : Int) b => ((hh * 32 - hh + (if b < 128 then (b : Int) else (b : Int) - 256))
      % (2 ^ 32 : Int))) 0).toNat

/-- Source function `rpc_retain`: atomic increment of the reference count. -/
def rpc_retain (h : Heap) (object : Nat) : Option Heap :=
  match h.get object with
  | none => none
  | some o => some (h.set object { o with ro_refcnt := wrap_int32 (o.ro_refcnt + 1) })

/-- Iteration of `rpc_array_apply` over the elements from index `i` on. The
visitor receives the index, the element and the state captured by the block,
and returns the new state and whether to continue. The result carries the
"broke" flag. -/
def apply_items {σ : Type} (applier : Nat → Nat → σ → Option (σ × Bool)) :
    List Nat → Nat → σ → Option (σ × Bool)
  | [], _, s => some (s, false)
  | v :: rest, i, s =>
    match applier i v s with
    | none => none
    | some (s1, true) => apply_items applier rest (i + 1) s1
    | some (s1, false) => some (s1, true)

/-- Iteration of `rpc_dictionary_apply` over the entries: it stops at the
first entry the visitor rejects and the function returns `true` in any case. -/
def apply_entries {σ : Type} (applier : String → Nat → σ → Option (σ × Bool)) :
    List (String × Nat) → σ → Option (σ × Bool)
  | [], s => some (s, true)
  | (k, v) :: rest, s =>
    match applier k v s with
    | none => none
    | some (s1, true) => apply_entries applier rest s1
    | some (s1, false) => some (s1, true)

/-- Source function `rpc_array_apply`. The elements are those the array holds
when the iteration starts. -/
def rpc_array_apply {σ : Type} (h : Heap) (array : Nat)
    (applier : Nat → Nat → σ → Option (σ × Bool)) (s : σ) : Option (σ × Bool) :=
  match h.get array with
  | some ⟨_, .rv_list items⟩ => apply_items applier items 0 s
  | _ => none

/-- Source function `rpc_dictionary_apply`. -/
def rpc_dictionary_apply {σ : Type} (h : Heap) (dictionary : Nat)
    (applier : String → Nat → σ → Option (σ × Bool)) (s : σ) : Option (σ × Bool) :=
  match h.get dictionary with
  | some ⟨_, .rv_dict entries⟩ => apply_entries applier entries s
  | _ => none

/-- Source function `rpc_release_impl`. Returns the heap and the returned
`int`; `none` when the assertion `ro_refcnt > 0` fails or the object is not
allocated. -/
def rpc_release_impl : Nat → Heap → Nat → Option (Heap × Int)
  | 0, _, _ => none
  | fuel + 1, h, object =>
    match h.get object with
    | none => none
    | some o =>
      if ¬ (0 < o.ro_refcnt) then none
      else
        let cnt := wrap_int32 (o.ro_refcnt - 1)
        let h1 := h.set object { o with ro_refcnt := cnt }
        if cnt = 0 then
          match o.ro_value with
          | .rv_list _ =>
            match rpc_array_apply h1 object
              (fun _ v (hh : Heap) =>
                (rpc_release_impl fuel hh v).map (fun r => (r.1, true))) h1 with
            | none => none
            | some (h2, _) => some (h2.free object, 0)
          | .rv_dict entries =>
            match apply_entries
              (fun _ v (hh : Heap) =>
                (rpc_release_impl fuel hh v).map (fun r => (r.1, true))) entries h1 with
            | none => none
            | some (h2, _) => some (h2.free object, 0)
          | _ => some (h1.free object, 0)
        else some (h1, cnt)

/-- Source function `rpc_get_type`. -/
def rpc_get_type (h : Heap) (object : Nat) : Option rpc_type_t :=
  (h.get object).map rpc_object.ro_type

/-! ## `rpc_object.c`: constructors and accessors -/

/-- Source function `rpc_null_create`. -/
def rpc_null_create (h : Heap) : Heap × Nat := rpc_prim_create h .rv_null

/-- Source function `rpc_bool_create`. -/
def rpc_bool_create (h : Heap) (value : Bool) : Heap × Nat := rpc_prim_create h (.rv_b value)

/-- Source function `rpc_int64_create`. -/
def rpc_int64_create (h : Heap) (value : Int) : Heap × Nat := rpc_prim_create h (.rv_i value)

/-- Source function `rpc_uint64_create`. -/
def rpc_uint64_create (h : Heap) (value : Nat) : Heap × Nat := rpc_prim_create h (.rv_ui value)

/-- Source function `rpc_double_create`. -/
def rpc_double_create (h : Heap) (bits : Nat) : Heap × Nat := rpc_prim_create h (.rv_d bits)

/-- Source function `rpc_date_create`. -/
def rpc_date_create (h : Heap) (interval : Int) : Heap × Nat :=
  rpc_prim_create h (.rv_datetime interval)

/-- Source function `rpc_data_create`; the length is that of `bytes`. -/
def rpc_data_create (h : Heap) (bytes : List Nat) (copy : Bool) : Heap × Nat :=
  rpc_prim_create h (.rv_bin bytes copy)

/-- Source function `rpc_string_create`. -/
def rpc_string_create (h : Heap) (string : String) : Heap × Nat :=
  rpc_prim_create h (.rv_str string)

/-- Source function `rpc_fd_create`. -/
def rpc_fd_create (h : Heap) (fd : Int) : Heap × Nat := rpc_prim_create h (.rv_fd fd)

/-- Source function `rpc_array_create`. -/
def rpc_array_create (h : Heap) : Heap × Nat := rpc_prim_create h (.rv_list [])

/-- Source function `rpc_dictionary_create`. -/
def rpc_dictionary_create (h : Heap) : Heap × Nat := rpc_prim_create h (.rv_dict [])

/-- Source function `rpc_bool_get_value`. -/
def rpc_bool_get_value (o : rpc_object) : Bool :=
  match o.ro_value with
  | .rv_b b => b
  | _ => false

/-- Source function `rpc_int64_get_value`. -/
def rpc_int64_get_value (o : rpc_object) : Int :=
  match o.ro_value with
  | .rv_i i => i
  | _ => -1

/-- Source function `rpc_uint64_get_value`. -/
def rpc_uint64_get_value (o : rpc_object) : Nat :=
  match o.ro_value with
  | .rv_ui n => n
  | _ => 0

/-- Source function `rpc_date_get_value`. -/
def rpc_date_get_value (o : rpc_object) : Int :=
  match o.ro_value with
  | .rv_datetime secs => secs
  | _ => 0

/-- Source function `rpc_data_get_length`. -/
def rpc_data_get_length (o : rpc_object) : Nat :=
  match o.ro_value with
  | .rv_bin bytes _ => bytes.length
  | _ => 0

/-- Source function `rpc_data_get_bytes_ptr`; `none` is the `NULL` result. -/
def rpc_data_get_bytes_ptr (o : rpc_object) : Option (List Nat) :=
  match o.ro_value with
  | .rv_bin bytes _ => some bytes
  | _ => none

/-- Source function `rpc_string_get_string_ptr`; `none` is the `NULL` result. -/
def rpc_string_get_string_ptr (o : rpc_object) : Option String :=
  match o.ro_value with
  | .rv_str s => some s
  | _ => none

/-- Source function `rpc_fd_get_value`. -/
def rpc_fd_get_value (o : rpc_object) : Int :=
  match o.ro_value with
  | .rv_fd fd => fd
  | _ => 0

/-! ## `rpc_object.c`: hash and equality -/

/-- Source function `rpc_hash`. -/
def rpc_hash : Nat → Heap → Nat → Option Nat
  | 0, _, _ => none
  | fuel + 1, h, object =>
    match h.get object with
    | none => none
    | some o =>
      match o.ro_value with
      | .rv_null => some 0
      | .rv_b b => some (if b then 1 else 0)
      | .rv_i i => some (to_size_t i)
      | .rv_ui n => some (n % SIZE_T_MOD)
      | .rv_d bits => some (double_to_size_t bits)
      | .rv_fd fd => some (to_size_t fd)
      | .rv_datetime _ => some (to_size_t (rpc_date_get_value o))
      | .rv_str s => some (g_string_hash s)
      | .rv_bin bytes _ => some (rpc_data_hash bytes)
      | .rv_dict _ =>
        (rpc_dictionary_apply h object
          (fun k v (hash : Nat) =>
            (rpc_hash fuel h v).map
              (fun hv => ((hash ^^^ rpc_data_hash (c_bytes k)) ^^^ hv, true))) 0).map Prod.fst
      | .rv_list _ =>
        (rpc_array_apply h object
          (fun _ v (hash : Nat) =>
            (rpc_hash fuel h v).map (fun hv => (hash ^^^ hv, true))) 0).map Prod.fst

/-- Source function `rpc_equal`. -/
def rpc_equal (fuel : Nat) (h : Heap) (o1 o2 : Nat) : Option Bool :=
  match rpc_hash fuel h o1, rpc_hash fuel h o2 with
  | some h1, some h2 => some (decide (h1 = h2))
  | _, _ => none

/-! ## `rpc_object.c`: arrays -/

/-- Source function `rpc_array_append_stolen_value`. -/
def rpc_array_append_stolen_value (h : Heap) (array value : Nat) : Option Heap :=
  match h.get array with
  | some ⟨rc, .rv_list items⟩ => some (h.set array ⟨rc, .rv_list (items ++ [value])⟩)
  | _ => none

/-- Source function `rpc_array_append_value`. -/
def rpc_array_append_value (h : Heap) (array value : Nat) : Option Heap :=
  match rpc_array_append_stolen_value h array value with
  | none => none
  | some h1 => rpc_retain h1 value

/-- The padding loop of `rpc_array_steal_value`, run `n` times: each round
appends a new Null object to the array. -/
def steal_pad : Nat → Heap → Nat → Option Heap
  | 0, h, _ => some h
  | n + 1, h, array =>
    match rpc_array_append_value (rpc_prim_create h .rv_null).1 array
        (rpc_prim_create h .rv_null).2 with
    | none => none
    | some h1 => steal_pad n h1 array

/-- Source function `rpc_array_steal_value`. The loop counter is
`(int)(index - len)`; reading a slot past the end of the array gives `none`. -/
def rpc_array_steal_value (fuel : Nat) (h : Heap) (array index value : Nat) : Option Heap :=
  match h.get array with
  | some ⟨_, .rv_list items⟩ =>
    let i := wrap_int32 (((index : Int) - (items.length : Int)) % 2 ^ 64)
    match steal_pad (if 0 ≤ i then i.toNat + 1 else 0) h array with
    | none => none
    | some h1 =>
      match h1.get array with
      | some ⟨_, .rv_list items1⟩ =>
        match items1[index]? with
        | none => none
        | some ro =>
          match rpc_release_impl fuel h1 ro with
          | none => none
          | some (h2, _) =>
            match h2.get array with
            | some ⟨rc2, .rv_list items2⟩ =>
              some (h2.set array ⟨rc2, .rv_list (items2.set index value)⟩)
            | _ => none
      | _ => none
  | _ => none

/-- Source function `rpc_array_set_value`. -/
def rpc_array_set_value (fuel : Nat) (h : Heap) (array index value : Nat) : Option Heap :=
  match rpc_array_steal_value fuel h array index value with
  | none => none
  | some h1 => rpc_retain h1 value

/-- Source function `rpc_array_get_value`; the inner `none` is the `NULL` result. -/
def rpc_array_get_value (h : Heap) (array index : Nat) : Option (Option Nat) :=
  match h.get array with
  | none => none
  | some o =>
    match o.ro_value with
    | .rv_list items => some (if index ≥ items.length then none else items[index]?)
    | _ => some none

/-- Source function `rpc_array_get_count`. -/
def rpc_array_get_count (h : Heap) (array : Nat) : Option Nat :=
  match h.get array with
  | none => none
  | some o =>
    match o.ro_value with
    | .rv_list items => some items.length
    | _ => some 0

/-! ## `rpc_object.c`: dictionaries -/

/-- GLib `g_hash_table_insert` on the entry list: the value of an existing key
is replaced in place, a new key is added. -/
def entries_insert (entries : List (String × Nat)) (key : String) (value : Nat) :
    List (String × Nat) :=
  match entries.lookup key with
  | none => entries ++ [(key, value)]
  | some _ => entries.map (fun e => if e.1 = key then (e.1, value) else e)

/-- Source function `rpc_dictionary_steal_value`. The table was created with
`rpc_release_impl` as value destructor, so a replaced value is released. -/
def rpc_dictionary_steal_value (fuel : Nat) (h : Heap) (dictionary : Nat) (key : String)
    (value : Nat) : Option Heap :=
  match h.get dictionary with
  | some ⟨rc, .rv_dict entries⟩ =>
    let h1 := h.set dictionary ⟨rc, .rv_dict (entries_insert entries key value)⟩
    match entries.lookup key with
    | none => some h1
    | some old => (rpc_release_impl fuel h1 old).map Prod.fst
  | _ => none

/-- Source function `rpc_dictionary_set_value`. -/
def rpc_dictionary_set_value (fuel : Nat) (h : Heap) (dictionary : Nat) (key : String)
    (value : Nat) : Option Heap :=
  match rpc_dictionary_steal_value fuel h dictionary key value with
  | none => none
  | some h1 => rpc_retain h1 value

/-- Source function `rpc_dictionary_remove_key`. -/
def rpc_dictionary_remove_key (fuel : Nat) (h : Heap) (dictionary : Nat) (key : String) :
    Option Heap :=
  match h.get dictionary with
  | some ⟨rc, .rv_dict entries⟩ =>
    let h1 := h.set dictionary ⟨rc, .rv_dict (entries.filter (fun e => e.1 ≠ key))⟩
    match entries.lookup key with
    | none => some h1
    | some old => (rpc_release_impl fuel h1 old).map Prod.fst
  | _ => none

/-- Source function `rpc_dictionary_get_value`; the inner `none` is `NULL`. -/
def rpc_dictionary_get_value (h : Heap) (dictionary : Nat) (key : String) :
    Option (Option Nat) :=
  match h.get dictionary with
  | some ⟨_, .rv_dict entries⟩ => some (entries.lookup key)
  | _ => none

/-- Source function `rpc_dictionary_get_string`. -/
def rpc_dictionary_get_string (h : Heap) (dictionary : Nat) (key : String) :
    Option (Option String) :=
  match rpc_dictionary_get_value h dictionary key with
  | none => none
  | some none => some none
  | some (some xstring) =>
    match h.get xstring with
    | none => none
    | some o => some (rpc_string_get_string_ptr o)

/-- Source function `rpc_dictionary_get_uint64`. -/
def rpc_dictionary_get_uint64 (h : Heap) (dictionary : Nat) (key : String) : Option Nat :=
  match rpc_dictionary_get_value h dictionary key with
  | none => none
  | some none => some 0
  | some (some xuint) =>
    match h.get xuint with
    | none => none
    | some o => some (rpc_uint64_get_value o)

/-- Source function `rpc_dictionary_get_int64`. -/
def rpc_dictionary_get_int64 (h : Heap) (dictionary : Nat) (key : String) : Option Int :=
  match rpc_dictionary_get_value h dictionary key with
  | none => none
  | some none => some 0
  | some (some xint) =>
    match h.get xint with
    | none => none
    | some o => some (rpc_int64_get_value o)

/-- Source function `rpc_dictionary_set_string`. -/
def rpc_dictionary_set_string (fuel : Nat) (h : Heap) (dictionary : Nat) (key value : String) :
    Option Heap :=
  rpc_dictionary_steal_value fuel (rpc_string_create h value).1 dictionary key
    (rpc_string_create h value).2

/-- Source function `rpc_dictionary_set_int64`. -/
def rpc_dictionary_set_int64 (fuel : Nat) (h : Heap) (dictionary : Nat) (key : String)
    (value : Int) : Option Heap :=
  rpc_dictionary_steal_value fuel (rpc_int64_create h value).1 dictionary key
    (rpc_int64_create h value).2

/-- Source function `rpc_dictionary_set_uint64`. -/
def rpc_dictionary_set_uint64 (fuel : Nat) (h : Heap) (dictionary : Nat) (key : String)
    (value : Nat) : Option Heap :=
  rpc_dictionary_steal_value fuel (rpc_uint64_create h value).1 dictionary key
    (rpc_uint64_create h value).2

/-! ## `rpc_object.c`: deep copy -/

/-- Source function `rpc_copy`. A String is copied through `strdup`, which
stops at the first NUL of the text. -/
def rpc_copy : Nat → Heap → Nat → Option (Heap × Nat)
  | 0, _, _ => none
  | fuel + 1, h, object =>
    match h.get object with
    | none => none
    | some o =>
      match o.ro_value with
      | .rv_null => some (rpc_null_create h)
      | .rv_b b => some (rpc_bool_create h b)
      | .rv_i i => some (rpc_int64_create h i)
      | .rv_ui n => some (rpc_uint64_create h n)
      | .rv_datetime _ => some (rpc_date_create h (rpc_date_get_value o))
      | .rv_d bits => some (rpc_double_create h bits)
      | .rv_fd fd => some (rpc_fd_create h fd)
      | .rv_str s => some (rpc_string_create h (c_str s))
      | .rv_bin bytes _ => some (rpc_data_create h bytes true)
      | .rv_dict _ =>
        match rpc_dictionary_apply (rpc_dictionary_create h).1 object
          (fun k v (hh : Heap) =>
            match rpc_copy fuel hh v with
            | none => none
            | some (h2, c) =>
              (rpc_dictionary_set_value (fuel + 1) h2 (rpc_dictionary_create h).2 k c).map
                (fun h3 => (h3, true)))
          (rpc_dictionary_create h).1 with
        | none => none
        | some (h4, _) => some (h4, (rpc_dictionary_create h).2)
      | .rv_list _ =>
        match rpc_array_apply (rpc_array_create h).1 object
          (fun idx v (hh : Heap) =>
            match rpc_copy fuel hh v with
            | none => none
            | some (h2, c) =>
              (rpc_array_set_value (fuel + 1) h2 (rpc_array_create h).2 idx c).map
                (fun h3 => (h3, true)))
          (rpc_array_create h).1 with
        | none => none
        | some (h4, _) => some (h4, (rpc_array_create h).2)

/-! ## Value trees

The content of an object, read off the heap: its kind and, recursively, the
content of its elements. Reference counts, addresses and the ownership flag
of binary data are not part of the content. -/

/-- A value as a tree. -/
inductive Tree where
  | null
  | bool (b : Bool)
  | uint64 (n : Nat)
  | int64 (i : Int)
  | double (bits : Nat)
  | date (secs : Int)
  | string (s : String)
  | binary (bytes : List Nat)
  | fd (fd : Int)
  | dictionary (entries : List (String × Tree))
  | array (items : List Tree)
  deriving Repr

/-- Map with a function that may fail; fails when any element fails. -/
def mapOpt {α β : Type} (f : α → Option β) : List α → Option (List β)
  | [] => some []
  | a :: rest =>
    match f a with
    | none => none
    | some b =>
      match mapOpt f rest with
      | none => none
      | some bs => some (b :: bs)

/-- The tree stored at address `a`, when the objects reachable from `a` are
all allocated, nest at most `fuel` deep and every dictionary among them has
distinct keys (as a hash table has). -/
def toTree : Nat → Heap → Nat → Option Tree
  | 0, _, _ => none
  | fuel + 1, h, a =>
    match h.get a with
    | none => none
    | some o =>
      match o.ro_value with
      | .rv_null => some .null
      | .rv_b b => some (.bool b)
      | .rv_ui n => some (.uint64 n)
      | .rv_i i => some (.int64 i)
      | .rv_d bits => some (.double bits)
      | .rv_datetime secs => some (.date secs)
      | .rv_str s => some (.string s)
      | .rv_bin bytes _ => some (.binary bytes)
      | .rv_fd fd => some (.fd fd)
      | .rv_dict entries =>
        if (entries.map Prod.fst).Nodup then
          (mapOpt (fun e => (toTree fuel h e.2).map (fun t => (e.1, t))) entries).map
            Tree.dictionary
        else none
      | .rv_list items => (mapOpt (toTree fuel h) items).map Tree.array

mutual
/-- The value `rpc_hash` computes, as a function of the tree. -/
def Tree.hash : Tree → Nat
  | .null => 0
  | .bool b => if b then 1 else 0
  | .uint64 n => n % SIZE_T_MOD
  | .int64 i => to_size_t i
  | .double bits => double_to_size_t bits
  | .date secs => to_size_t secs
  | .string s => g_string_hash s
  | .binary bytes => rpc_data_hash bytes
  | .fd x => to_size_t x
  | .dictionary entries => Tree.hashEntries 0 entries
  | .array items => Tree.hashItems 0 items
/-- Accumulation of `rpc_hash` over dictionary entries. -/
def Tree.hashEntries : Nat → List (String × Tree) → Nat
  | acc, [] => acc
  | acc, (k, v) :: rest =>
    Tree.hashEntries ((acc ^^^ rpc_data_hash (c_bytes k)) ^^^ Tree.hash v) rest
/-- Accumulation of `rpc_hash` over array elements. -/
def Tree.hashItems : Nat → List Tree → Nat
  | acc, [] => acc
  | acc, v :: rest => Tree.hashItems (acc ^^^ Tree.hash v) rest
end

mutual
/-- Number of Fd leaves of a value tree. -/
def Tree.fd_count : Tree → Nat
  | .fd _ => 1
  | .array items => Tree.fd_count_items items
  | .dictionary entries => Tree.fd_count_entries entries
  | _ => 0
/-- Number of Fd leaves in the values of dictionary entries. -/
def Tree.fd_count_entries : List (String × Tree) → Nat
  | [] => 0
  | (_, t) :: rest => Tree.fd_count t + Tree.fd_count_entries rest
/-- Number of Fd leaves in array elements. -/
def Tree.fd_count_items : List Tree → Nat
  | [] => 0
  | t :: rest => Tree.fd_count t + Tree.fd_count_items rest
end

mutual
/-- The tree with every String cut at its first NUL: the content that
`rpc_copy` gives to the copy of a value. -/
def Tree.strdup : Tree → Tree
  | .null => .null
  | .bool b => .bool b
  | .uint64 n => .uint64 n
  | .int64 i => .int64 i
  | .double bits => .double bits
  | .date secs => .date secs
  | .string s => .string (c_str s)
  | .binary bytes => .binary bytes
  | .fd d => .fd d
  | .dictionary entries => .dictionary (Tree.strdup_entries entries)
  | .array items => .array (Tree.strdup_items items)
/-- The entries with every String value cut at its first NUL. -/
def Tree.strdup_entries : List (String × Tree) → List (String × Tree)
  | [] => []
  | (k, t) :: rest => (k, Tree.strdup t) :: Tree.strdup_entries rest
/-- The items with every String cut at its first NUL. -/
def Tree.strdup_items : List Tree → List Tree
  | [] => []
  | t :: rest => Tree.strdup t :: Tree.strdup_items rest
end

/-- A heap with the String `a`, NUL, `b` (address 0), as
`rpc_string_create_with_format("a%cb", 0)` makes it. -/
def ex_nul_heap : Heap :=
  { cells := [some ⟨1, .rv_str "a\x00b"⟩], freed := [] }

/-! ## `rpc_connection.c`: state

The records `struct rpc_call`, `struct rpc_inbound_call` and
`struct rpc_connection` are declared in `internal.h`; their fields are those
the functions of `rpc_connection.c` use. -/

/-- Constant `DEFAULT_RPC_TIMEOUT`. -/
def DEFAULT_RPC_TIMEOUT : Nat := 60

/-- Constant `MAX_FDS`. -/
def MAX_FDS : Nat := 128

/-- Value of `EINVAL` in `errno.h`. -/
def EINVAL : Int := 22

/-- Value of `ENXIO` in `errno.h`. -/
def ENXIO : Int := 6

/-- Value of `ENOTSUP` in `errno.h` (Linux). -/
def ENOTSUP : Int := 95

/-- Value of `ETIMEDOUT` in `errno.h` (Linux). -/
def ETIMEDOUT : Nat := 110

/-- The enumeration of call states. -/
inductive rpc_call_status_t where
  | RPC_CALL_IN_PROGRESS
  | RPC_CALL_MORE_AVAILABLE
  | RPC_CALL_DONE
  | RPC_CALL_ERROR
  | RPC_CALL_ABORTED
  deriving DecidableEq, Repr

/-- The record `struct rpc_call` (mutex and condition variable left out). -/
structure rpc_call where
  rc_id : Nat
  rc_type : String
  rc_method : String
  rc_args : Option Nat
  rc_status : rpc_call_status_t
  rc_result : Option Nat
  rc_seqno : Nat
  deriving DecidableEq, Repr

/-- The record `struct rpc_inbound_call`. -/
structure rpc_inbound_call where
  ric_id : Nat
  ric_args : Option Nat
  ric_name : Option String
  ric_consumer_seqno : Int
  deriving DecidableEq, Repr

/-- What the transport callback `rco_send_msg` receives: the serialized frame
(represented by the tree it encodes), the descriptor array and `nfds`. -/
structure wire_msg where
  buf : Tree
  fds : List (Option Int)
  nfds : Nat

/-- One invocation of a handler of the dispatch table. -/
structure handler_call where
  ns : String
  name : String
  args : Option Nat
  id : Nat
  deriving DecidableEq, Repr

/-- A connection together with the storage it works on.
* `heap`: the objects; `calls`: storage of the `struct rpc_call` records, a
  call pointer being an index (`none` once freed);
* `rco_calls`, `rco_inbound_calls`, `rco_subscriptions`: the hash tables,
  keyed by string content; `rco_event_queue`: the queue, oldest first;
* `rco_send_msg`: the result the transport gives for a message; `sent`: the
  messages handed to the transport, oldest first;
* `sources`: the calls whose timeout source is attached to the main context;
* `handled`, `server_dispatched`: record of the handlers invoked by the
  dispatcher and of the calls handed to `rpc_server_dispatch`. -/
structure State where
  heap : Heap
  calls : List (Option rpc_call)
  rco_server : Option Nat
  rco_calls : List (String × Nat)
  rco_inbound_calls : List (String × rpc_inbound_call)
  rco_subscriptions : List (String × Int)
  rco_event_queue : List Nat
  rco_rpc_timeout : Nat
  rco_send_msg : wire_msg → Int
  sent : List wire_msg
  sources : List Nat
  handled : List handler_call
  server_dispatched : List rpc_inbound_call

/-- GLib `g_hash_table_insert` on a table keyed by string. -/
def table_insert {β : Type} (t : List (String × β)) (key : String) (value : β) :
    List (String × β) :=
  match t.lookup key with
  | none => t ++ [(key, value)]
  | some _ => t.map (fun e => if e.1 = key then (e.1, value) else e)

/-- Modelled from the spec: the codec `rpc_msgpack_serialize` is a pluggable
serializer that is not part of the sources at hand; it turns a value tree into
bytes that decode to the same tree, so the buffer is represented by the tree
the object holds at the time of the call. It fails on an object that is not a
well-formed tree. -/
def rpc_msgpack_serialize (fuel : Nat) (h : Heap) (obj : Nat) : Option Tree :=
  toTree fuel h obj

/-! ## `rpc_connection.c`: frames -/

/-- Source function `rpc_serialize_fds`. The state of the walk is the heap,
the array `fds` and, inside a container, the running `counter`; writing past
the end of `fds` gives `none`. -/
def rpc_serialize_fds : Nat → Heap → List (Option Int) → Nat → Nat →
    Option (Heap × List (Option Int) × Nat)
  | 0, _, _, _, _ => none
  | fuel + 1, h, fds, obj, idx =>
    match h.get obj with
    | none => none
    | some o =>
      match o.ro_value with
      | .rv_fd fd =>
        if idx < fds.length then
          some (h.set obj { o with ro_value := .rv_fd (wrap_int32 idx) },
            fds.set idx (some fd), (idx + 1) % SIZE_T_MOD)
        else none
      | .rv_list _ =>
        (rpc_array_apply h obj
          (fun _ i (st : Heap × List (Option Int) × Nat) =>
            (rpc_serialize_fds fuel st.1 st.2.1 i idx).map
              (fun r => ((r.1, r.2.1, (st.2.2 + r.2.2) % SIZE_T_MOD), true)))
          (h, fds, idx)).map Prod.fst
      | .rv_dict _ =>
        (rpc_dictionary_apply h obj
          (fun _ i (st : Heap × List (Option Int) × Nat) =>
            (rpc_serialize_fds fuel st.1 st.2.1 i idx).map
              (fun r => ((r.1, r.2.1, (st.2.2 + r.2.2) % SIZE_T_MOD), true)))
          (h, fds, idx)).map Prod.fst
      | _ => some (h, fds, idx)

/-- Source function `rpc_restore_fds`. Reading `fds` outside the array, or at
a slot that was never written, gives `none`; `nfds` is not used. -/
def rpc_restore_fds : Nat → Heap → Nat → List (Option Int) → Nat → Option Heap
  | 0, _, _, _, _ => none
  | fuel + 1, h, obj, fds, nfds =>
    match h.get obj with
    | none => none
    | some o =>
      match o.ro_value with
      | .rv_fd fd =>
        if 0 ≤ fd then
          match fds[fd.toNat]? with
          | some (some d) => some (h.set obj { o with ro_value := .rv_fd d })
          | _ => none
        else none
      | .rv_list _ =>
        (rpc_array_apply h obj
          (fun _ item (hh : Heap) =>
            (rpc_restore_fds fuel hh item fds nfds).map (fun r => (r, true))) h).map Prod.fst
      | .rv_dict _ =>
        (rpc_dictionary_apply h obj
          (fun _ value (hh : Heap) =>
            (rpc_restore_fds fuel hh value fds nfds).map (fun r => (r, true))) h).map Prod.fst
      | _ => some h

/-- Source function `rpc_pack_frame`; `id = none` is the `NULL` argument. -/
def rpc_pack_frame (fuel : Nat) (h : Heap) (ns name : String) (id : Option Nat) (args : Nat) :
    Option (Heap × Nat) :=
  match rpc_dictionary_set_string fuel (rpc_dictionary_create h).1 (rpc_dictionary_create h).2
      "namespace" ns with
  | none => none
  | some h2 =>
    match rpc_dictionary_set_string fuel h2 (rpc_dictionary_create h).2 "name" name with
    | none => none
    | some h3 =>
      match rpc_dictionary_set_value fuel
          (match id with | some _ => h3 | none => (rpc_null_create h3).1)
          (rpc_dictionary_create h).2 "id"
          (match id with | some i => i | none => (rpc_null_create h3).2) with
      | none => none
      | some h5 =>
        match rpc_dictionary_set_value fuel h5 (rpc_dictionary_create h).2 "args" args with
        | none => none
        | some h6 => some (h6, (rpc_dictionary_create h).2)

/-- Source function `rpc_send_frame`. The frame is serialized first, then the
descriptor walk runs on it, then it is released, and the transport receives
the buffer, the array `fds` and `nfds`, which is still 0. -/
def rpc_send_frame (fuel : Nat) (st : State) (frame : Nat) : Option (State × Int) :=
  match rpc_msgpack_serialize fuel st.heap frame with
  | none => some (st, -1)
  | some buf =>
    match rpc_serialize_fds fuel st.heap (List.replicate MAX_FDS none) frame 0 with
    | none => none
    | some (h1, fds, _) =>
      match rpc_release_impl fuel h1 frame with
      | none => none
      | some (h2, _) =>
        some ({ st with heap := h2, sent := st.sent ++ [⟨buf, fds, 0⟩] },
          st.rco_send_msg ⟨buf, fds, 0⟩)

/-- Source function `rpc_connection_send_err`, for a description without
conversion specifications. -/
def rpc_connection_send_err (fuel : Nat) (st : State) (id : Option Nat) (code : Int)
    (descr : String) : Option State :=
  match rpc_dictionary_set_int64 fuel (rpc_dictionary_create st.heap).1
      (rpc_dictionary_create st.heap).2 "code" code with
  | none => none
  | some h2 =>
    match rpc_dictionary_set_string fuel h2 (rpc_dictionary_create st.heap).2 "message" descr with
    | none => none
    | some h3 =>
      match rpc_pack_frame fuel h3 "rpc" "error" id (rpc_dictionary_create st.heap).2 with
      | none => none
      | some (h4, frame) => (rpc_send_frame fuel { st with heap := h4 } frame).map Prod.fst

/-! ## `rpc_connection.c`: handlers of the dispatch table -/

/-- The lookup `g_hash_table_lookup(conn->rco_calls, rpc_string_get_string_ptr(id))`.
The outer `none` is the crash on an `id` that is not allocated or not a
string (a `NULL` key); the inner `none` is the `NULL` result. -/
def lookup_call (st : State) (id : Nat) : Option (Option Nat) :=
  match st.heap.get id with
  | none => none
  | some o =>
    match rpc_string_get_string_ptr o with
    | none => none
    | some key => some (st.rco_calls.lookup key)

/-- Stores through a call pointer; `none` when the record is not allocated. -/
def update_call (st : State) (call : Nat) (f : rpc_call → rpc_call) : Option State :=
  match st.calls[call]? with
  | some (some c) => some { st with calls := st.calls.set call (some (f c)) }
  | _ => none

/-- Source function `on_rpc_call`. -/
def on_rpc_call (fuel : Nat) (st : State) (args : Option Nat) (id : Nat) : Option State :=
  match st.rco_server with
  | none => rpc_connection_send_err fuel st (some id) ENOTSUP "Not supported"
  | some _ =>
    match args with
    | none => none
    | some a =>
      match rpc_dictionary_get_value st.heap a "args",
        rpc_dictionary_get_string st.heap a "method", st.heap.get id with
      | some ric_args, some ric_name, some o =>
        match rpc_string_get_string_ptr o with
        | none => none
        | some key =>
          some { st with
            rco_inbound_calls := table_insert st.rco_inbound_calls key
              { ric_id := id, ric_args := ric_args, ric_name := ric_name,
                ric_consumer_seqno := 0 },
            server_dispatched := st.server_dispatched ++
              [{ ric_id := id, ric_args := ric_args, ric_name := ric_name,
                 ric_consumer_seqno := 0 }] }
      | _, _, _ => none

/-- Source function `on_rpc_response`. -/
def on_rpc_response (st : State) (args : Option Nat) (id : Nat) : Option State :=
  match lookup_call st id with
  | none => none
  | some none => some st
  | some (some call) =>
    update_call st call
      (fun c => { c with rc_status := .RPC_CALL_DONE, rc_result := args })

/-- Source function `on_rpc_fragment`. -/
def on_rpc_fragment (st : State) (args : Option Nat) (id : Nat) : Option State :=
  match lookup_call st id with
  | none => none
  | some none => some st
  | some (some call) =>
    match args with
    | none => none
    | some a =>
      match rpc_dictionary_get_uint64 st.heap a "seqno",
        rpc_dictionary_get_value st.heap a "fragment" with
      | some seqno, some payload =>
        update_call st call
          (fun c => { c with rc_status := .RPC_CALL_MORE_AVAILABLE, rc_result := payload,
                             rc_seqno := seqno })
      | _, _ => none

/-- Source function `on_rpc_continue`. -/
def on_rpc_continue (st : State) (_args : Option Nat) (id : Nat) : Option State :=
  match st.heap.get id with
  | none => none
  | some o =>
    match rpc_string_get_string_ptr o with
    | none => none
    | some key =>
      match st.rco_inbound_calls.lookup key with
      | none => some st
      | some call =>
        some { st with
          rco_inbound_calls := table_insert st.rco_inbound_calls key
            { call with ric_consumer_seqno := call.ric_consumer_seqno + 1 } }

/-- Source function `on_rpc_end`. -/
def on_rpc_end (st : State) (_args : Option Nat) (id : Nat) : Option State :=
  match lookup_call st id with
  | none => none
  | some none => some st
  | some (some call) =>
    update_call st call
      (fun c => { c with rc_status := .RPC_CALL_DONE, rc_result := none })

/-- Source function `on_rpc_abort`: the call is looked up and nothing else
is done. -/
def on_rpc_abort (st : State) (_args : Option Nat) (id : Nat) : Option State :=
  match lookup_call st id with
  | none => none
  | some none => some st
  | some (some _) => some st

/-- Source function `on_rpc_error`. -/
def on_rpc_error (st : State) (args : Option Nat) (id : Nat) : Option State :=
  match lookup_call st id with
  | none => none
  | some none => some st
  | some (some call) =>
    update_call st call
      (fun c => { c with rc_status := .RPC_CALL_ERROR, rc_result := args })

/-- Source function `on_events_event`; the queue refuses a `NULL` item. -/
def on_events_event (st : State) (args : Option Nat) (_id : Nat) : Option State :=
  match args with
  | none => some st
  | some a => some { st with rco_event_queue := st.rco_event_queue ++ [a] }

/-- Source function `on_events_event_burst`. -/
def on_events_event_burst (st : State) (args : Option Nat) (_id : Nat) : Option State :=
  match args with
  | none => none
  | some a =>
    (rpc_array_apply st.heap a
      (fun _ value (q : List Nat) => some (q ++ [value], true)) st.rco_event_queue).map
      (fun r => { st with rco_event_queue := r.1 })

/-- Source function `on_events_subscribe`. -/
def on_events_subscribe (st : State) (args : Option Nat) (_id : Nat) : Option State :=
  match args with
  | none => none
  | some a =>
    (rpc_array_apply st.heap a
      (fun _ value (subs : List (String × Int)) =>
        match st.heap.get value with
        | none => none
        | some o =>
          match rpc_string_get_string_ptr o with
          | none => none
          | some name =>
            some (table_insert subs name
              (wrap_int32 ((match subs.lookup name with | none => 0 | some r => r) + 1)), true))
      st.rco_subscriptions).map
      (fun r => { st with rco_subscriptions := r.1 })

/-- Source function `on_events_unsubscribe`. -/
def on_events_unsubscribe (st : State) (args : Option Nat) (_id : Nat) : Option State :=
  match args with
  | none => none
  | some a =>
    (rpc_array_apply st.heap a
      (fun _ value (subs : List (String × Int)) =>
        match st.heap.get value with
        | none => none
        | some o =>
          match rpc_string_get_string_ptr o with
          | none => none
          | some name =>
            match subs.lookup name with
            | none => some (subs, true)
            | some r => some (table_insert subs name (wrap_int32 (r - 1)), true))
      st.rco_subscriptions).map
      (fun r => { st with rco_subscriptions := r.1 })

/-- The handlers a dispatch-table entry can point to. -/
inductive handler_fn where
  | on_rpc_call
  | on_rpc_response
  | on_rpc_fragment
  | on_rpc_continue
  | on_rpc_end
  | on_rpc_abort
  | on_rpc_error
  | on_events_event
  | on_events_event_burst
  | on_events_subscribe
  | on_events_unsubscribe
  deriving DecidableEq, Repr

/-- The record `struct message_handler`. -/
structure message_handler where
  ns : String
  name : String
  handler : handler_fn
  deriving DecidableEq, Repr

/-- The table `handlers` (without the terminating entry). -/
def handlers : List message_handler :=
  [ ⟨"rpc", "call", .on_rpc_call⟩,
    ⟨"rpc", "response", .on_rpc_response⟩,
    ⟨"rpc", "fragment", .on_rpc_fragment⟩,
    ⟨"rpc", "continue", .on_rpc_continue⟩,
    ⟨"rpc", "end", .on_rpc_end⟩,
    ⟨"rpc", "abort", .on_rpc_abort⟩,
    ⟨"rpc", "error", .on_rpc_error⟩,
    ⟨"events", "event", .on_events_event⟩,
    ⟨"events", "event_burst", .on_events_event_burst⟩,
    ⟨"events", "subscribe", .on_events_subscribe⟩,
    ⟨"events", "unsubscribe", .on_events_unsubscribe⟩ ]

/-- The call `h->handler(conn, args, id)`. -/
def handler_fn.run (f : handler_fn) (fuel : Nat) (st : State) (args : Option Nat) (id : Nat) :
    Option State :=
  match f with
  | .on_rpc_call => Librpc.on_rpc_call fuel st args id
  | .on_rpc_response => Librpc.on_rpc_response st args id
  | .on_rpc_fragment => Librpc.on_rpc_fragment st args id
  | .on_rpc_continue => Librpc.on_rpc_continue st args id
  | .on_rpc_end => Librpc.on_rpc_end st args id
  | .on_rpc_abort => Librpc.on_rpc_abort st args id
  | .on_rpc_error => Librpc.on_rpc_error st args id
  | .on_events_event => Librpc.on_events_event st args id
  | .on_events_event_burst => Librpc.on_events_event_burst st args id
  | .on_events_subscribe => Librpc.on_events_subscribe st args id
  | .on_events_unsubscribe => Librpc.on_events_unsubscribe st args id

/-- Source function `rpc_connection_dispatch`. Each handler invocation is
recorded in `handled`. -/
def rpc_connection_dispatch (fuel : Nat) (st : State) (frame : Nat) : Option State :=
  match rpc_dictionary_get_value st.heap frame "id",
    rpc_dictionary_get_string st.heap frame "namespace",
    rpc_dictionary_get_string st.heap frame "name" with
  | some (some id), some (some ns), some (some name) =>
    match handlers.find? (fun hd => hd.ns = ns ∧ hd.name = name) with
    | some hd =>
      match rpc_dictionary_get_value st.heap frame "args" with
      | none => none
      | some args =>
        hd.handler.run fuel
          { st with handled := st.handled ++ [⟨hd.ns, hd.name, args, id⟩] } args id
    | none => rpc_connection_send_err fuel st (some id) ENXIO "No request handler found"
  | some id, some _, some _ =>
    rpc_connection_send_err fuel st id EINVAL "Malformed request"
  | _, _, _ => none

/-! ## `rpc_connection.c`: calls -/

/-- Source function `rpc_call_timeout`; the `gboolean` result is `false`. -/
def rpc_call_timeout (fuel : Nat) (st : State) (call : Nat) : Option (State × Bool) :=
  match st.calls[call]? with
  | some (some c) =>
    match rpc_dictionary_set_uint64 fuel (rpc_dictionary_create st.heap).1
        (rpc_dictionary_create st.heap).2 "code" ETIMEDOUT with
    | none => none
    | some h2 =>
      match rpc_dictionary_set_string fuel h2 (rpc_dictionary_create st.heap).2 "message"
          "Call timed out" with
      | none => none
      | some h3 =>
        some ({ st with
          heap := h3,
          calls := st.calls.set call
            (some { c with rc_status := .RPC_CALL_ERROR,
                           rc_result := some (rpc_dictionary_create st.heap).2 }) }, false)
  | _ => none

/-- GLib main loop, for the timeout source of `call`: when the source is
attached its callback runs, and the source is destroyed when the callback
returns `false`. -/
def g_timeout_dispatch (fuel : Nat) (st : State) (call : Nat) : Option State :=
  if call ∈ st.sources then
    match rpc_call_timeout fuel st call with
    | none => none
    | some (st1, again) =>
      some (if again then st1 else { st1 with sources := st1.sources.filter (fun c => c ≠ call) })
  else some st

/-- Source function `rpc_call_abort`; the `int` result is 0. -/
def rpc_call_abort (fuel : Nat) (st : State) (call : Nat) : Option (State × Int) :=
  match st.calls[call]? with
  | some (some c) =>
    match rpc_pack_frame fuel (rpc_null_create st.heap).1 "rpc" "abort" (some c.rc_id)
        (rpc_null_create st.heap).2 with
    | none => none
    | some (h1, frame) =>
      match rpc_send_frame fuel { st with heap := h1 } frame with
      | none => none
      | some (st1, _) => some (st1, 0)
  | _ => none

/-- Source function `rpc_call_status`. -/
def rpc_call_status (st : State) (call : Nat) : Option rpc_call_status_t :=
  match st.calls[call]? with
  | some (some c) => some c.rc_status
  | _ => none

/-- Source function `rpc_call_result`; the inner `none` is `NULL`. -/
def rpc_call_result (st : State) (call : Nat) : Option (Option Nat) :=
  match st.calls[call]? with
  | some (some c) => some c.rc_result
  | _ => none

/-! ## Sequences of retain and release on one object -/

/-- A step of a holder of references to an object. -/
inductive ref_op where
  | retain
  | release
  deriving DecidableEq, Repr

/-- The reference count after a sequence of steps, from count `c`. -/
def refcnt_after (c : Int) : List ref_op → Int
  | [] => c
  | .retain :: rest => refcnt_after (wrap_int32 (c + 1)) rest
  | .release :: rest => refcnt_after (wrap_int32 (c - 1)) rest

/-- What is observed right after one call of `rpc_release_impl`: the returned
value, the log of frees and the cell of the object. -/
structure release_record where
  ret : Int
  freed : List Nat
  cell : Option rpc_object
  deriving DecidableEq, Repr

/-- Runs the steps on `object` with `rpc_retain` and `rpc_release_impl`, and
records every release. -/
def run_ref_ops (fuel : Nat) : Heap → Nat → List ref_op → Option (Heap × List release_record)
  | h, _, [] => some (h, [])
  | h, object, .retain :: rest =>
    match rpc_retain h object with
    | none => none
    | some h1 => run_ref_ops fuel h1 object rest
  | h, object, .release :: rest =>
    match rpc_release_impl fuel h object with
    | none => none
    | some (h1, ret) =>
      match run_ref_ops fuel h1 object rest with
      | none => none
      | some (h2, log) => some (h2, ⟨ret, h1.freed, h1.get object⟩ :: log)

/-! ## Example states -/

/-- A heap holding the id `"id-1"` (address 0) and four inbound frames for
it: `rpc/response` (4), `rpc/fragment` (9), `rpc/end` (11), `rpc/error` (16),
`rpc/abort` (18). -/
def ex_heap : Heap :=
  { cells :=
      [ some ⟨1, .rv_str "id-1"⟩,
        some ⟨1, .rv_str "rpc"⟩,
        some ⟨1, .rv_str "response"⟩,
        some ⟨1, .rv_i 5⟩,
        some ⟨1, .rv_dict [("namespace", 1), ("name", 2), ("id", 0), ("args", 3)]⟩,
        some ⟨1, .rv_str "fragment"⟩,
        some ⟨1, .rv_ui 1⟩,
        some ⟨1, .rv_str "chunk"⟩,
        some ⟨1, .rv_dict [("seqno", 6), ("fragment", 7)]⟩,
        some ⟨1, .rv_dict [("namespace", 1), ("name", 5), ("id", 0), ("args", 8)]⟩,
        some ⟨1, .rv_str "end"⟩,
        some ⟨1, .rv_dict [("namespace", 1), ("name", 10), ("id", 0)]⟩,
        some ⟨1, .rv_str "error"⟩,
        some ⟨1, .rv_dict [("code", 14), ("message", 15)]⟩,
        some ⟨1, .rv_i 5⟩,
        some ⟨1, .rv_str "boom"⟩,
        some ⟨1, .rv_dict [("namespace", 1), ("name", 12), ("id", 0), ("args", 13)]⟩,
        some ⟨1, .rv_str "abort"⟩,
        some ⟨1, .rv_dict [("namespace", 1), ("name", 17), ("id", 0)]⟩ ],
    freed := [] }

/-- A pending call with id `"id-1"`, as `rpc_connection_call` leaves it. -/
def ex_call : rpc_call :=
  { rc_id := 0, rc_type := "call", rc_method := "hello", rc_args := none,
    rc_status := .RPC_CALL_IN_PROGRESS, rc_result := none, rc_seqno := 0 }

/-- A client connection with the one pending call `ex_call`, its timeout
source attached, over `ex_heap`. -/
def ex_state : State :=
  { heap := ex_heap, calls := [some ex_call], rco_server := none,
    rco_calls := [("id-1", 0)], rco_inbound_calls := [], rco_subscriptions := [],
    rco_event_queue := [], rco_rpc_timeout := DEFAULT_RPC_TIMEOUT,
    rco_send_msg := fun _ => 0, sent := [], sources := [0], handled := [],
    server_dispatched := [] }

/-- The terminal states of an outbound call: Done, Error, Aborted. -/
def rpc_call_status_t.terminal : rpc_call_status_t → Bool
  | .RPC_CALL_DONE => true
  | .RPC_CALL_ERROR => true
  | .RPC_CALL_ABORTED => true
  | _ => false

/-- The state `ex_state` after its call has completed with result 3. -/
def ex_state_done : State :=
  { ex_state with
    calls := [some { ex_call with rc_status := .RPC_CALL_DONE, rc_result := some 3 }] }

/-- The state `ex_state_done` with an empty outbound-call table. -/
def ex_state_unlisted : State := { ex_state_done with rco_calls := [] }

/-- A heap of sample values: Null (0), Bool false (1), Int64 1, 2, 3 (2, 3, 4),
the array `[1, 2]` (5) and the array `[3]` (6). -/
def ex_values : Heap :=
  { cells :=
      [ some ⟨1, .rv_null⟩,
        some ⟨1, .rv_b false⟩,
        some ⟨2, .rv_i 1⟩,
        some ⟨2, .rv_i 2⟩,
        some ⟨2, .rv_i 3⟩,
        some ⟨1, .rv_list [2, 3]⟩,
        some ⟨1, .rv_list [4]⟩ ],
    freed := [] }

/-! ## Relations between heaps -/

/-- The heap `h2` has the cells of `h` at all addresses below `b`. -/
def Heap.same_below (h h2 : Heap) (b : Nat) : Prop :=
  ∀ x, x < b → h2.cells[x]? = h.cells[x]?

/-- The heap `h2` has the payloads of `h` at the addresses from `lo` up to,
and not including, `hi`; reference counts may differ. -/
def Heap.same_values (h h2 : Heap) (lo hi : Nat) : Prop :=
  ∀ x, lo ≤ x → x < hi →
    (h2.get x).map (fun o => o.ro_value) = (h.get x).map (fun o => o.ro_value)

/-- Every object at an address from `b` on points only to addresses from `b`
on. -/
def Heap.closed_above (h : Heap) (b : Nat) : Prop :=
  ∀ x o, b ≤ x → h.get x = some o → ∀ ch ∈ o.ro_value.children, b ≤ ch

/-- The object `x` is `a` or is nested in `a`, at most `depth` levels down. -/
def nested_in : Nat → Heap → Nat → Nat → Bool
  | 0, _, a, x => a == x
  | depth + 1, h, a, x =>
    a == x ||
      match h.get a with
      | none => false
      | some o => o.ro_value.children.any (fun ch => nested_in depth h ch x)

/-- What a successful `rpc_copy` of a tree `t` from heap `h` establishes: the
copy `c` is the first new address, nothing was freed, the old cells are as
they were, the copy reads as `t` in every heap that has the payloads of the
new cells, and the new cells point to new cells only. -/
def copy_post (n : Nat) (h h1 : Heap) (c : Nat) (t : Tree) : Prop :=
  c = h.size ∧ h.size < h1.size ∧ h1.freed = h.freed ∧ h.same_below h1 h.size ∧
  (∀ h2, h1.same_values h2 h.size h1.size → toTree n h2 c = some t) ∧
  h1.closed_above h.size

/-- The heap `h2` is `h` up to the numbers stored in Fd objects: every object
of `h` is in `h2` with the same reference count and the same payload, or with
an Fd payload in place of an Fd payload. -/
def Heap.fd_rewritten (h h2 : Heap) : Prop :=
  ∀ x o, h.get x = some o →
    ∃ o2, h2.get x = some o2 ∧ o2.ro_refcnt = o.ro_refcnt ∧
      (o2.ro_value = o.ro_value ∨ ∃ a b, o.ro_value = .rv_fd a ∧ o2.ro_value = .rv_fd b)

/-! ## Mutations of a container -/

/-- The heap `H` has the cells of `h0` below `b`, and its objects from `b`
on point to objects from `b` on only. -/
def frame_inv (h0 H : Heap) (b : Nat) : Prop :=
  h0.same_below H b ∧ H.closed_above b ∧ b ≤ H.size

/-- A step of a client that modifies containers: the creation of a new value
(by one of the `rpc_*_create` functions) or one call of a setter. -/
inductive mutation where
  | create (val : rpc_value)
  | array_set (array index value : Nat)
  | array_steal (array index value : Nat)
  | array_append (array value : Nat)
  | array_append_stolen (array value : Nat)
  | dictionary_set (dictionary : Nat) (key : String) (value : Nat)
  | dictionary_steal (dictionary : Nat) (key : String) (value : Nat)
  | dictionary_remove (dictionary : Nat) (key : String)

/-- The effect of a step on the heap. -/
def mutation.run (fuel : Nat) (h : Heap) : mutation → Option Heap
  | .create val => some (rpc_prim_create h val).1
  | .array_set a i v => rpc_array_set_value fuel h a i v
  | .array_steal a i v => rpc_array_steal_value fuel h a i v
  | .array_append a v => rpc_array_append_value h a v
  | .array_append_stolen a v => rpc_array_append_stolen_value h a v
  | .dictionary_set d k v => rpc_dictionary_set_value fuel h d k v
  | .dictionary_steal d k v => rpc_dictionary_steal_value fuel h d k v
  | .dictionary_remove d k => rpc_dictionary_remove_key fuel h d k

/-- A step is a mutation of the value `c` when the container it modifies is
`c` or nested in `c` (at most `depth` levels down, for any `depth`), and the
value it stores is an object at an address from `b` on; a created value has
no elements yet. -/
def mutation.on (depth : Nat) (h : Heap) (c b : Nat) : mutation → Bool
  | .create val => val.children.isEmpty
  | .array_set a _ v => nested_in depth h c a && decide (b ≤ v)
  | .array_steal a _ v => nested_in depth h c a && decide (b ≤ v)
  | .array_append a v => nested_in depth h c a && decide (b ≤ v)
  | .array_append_stolen a v => nested_in depth h c a && decide (b ≤ v)
  | .dictionary_set d _ v => nested_in depth h c d && decide (b ≤ v)
  | .dictionary_steal d _ v => nested_in depth h c d && decide (b ≤ v)
  | .dictionary_remove d _ => nested_in depth h c d

/-- Runs the steps in order. -/
def run_mutations (fuel : Nat) : Heap → List mutation → Option Heap
  | h, [] => some h
  | h, m :: rest =>
    match m.run fuel h with
    | none => none
    | some h1 => run_mutations fuel h1 rest

/-- Every step of the sequence, run from `h`, is a mutation of `c` in the
heap it is applied to. -/
def mutations_on (depth fuel : Nat) (c b : Nat) : Heap → List mutation → Bool
  | _, [] => true
  | h, m :: rest =>
    m.on depth h c b &&
      match m.run fuel h with
      | none => true
      | some h1 => mutations_on depth fuel c b h1 rest

/-- The heap and the address that `rpc_copy` gives for the array `[1, 2]` of
`ex_values`: the copy is at address 7, its elements at 8 and 10. -/
def ex_copied : Heap × Nat := (rpc_copy 2 ex_values 5).getD (Heap.empty, 0)

/-- Mutations of the copy at address 7: a new Int64 (address 12) is set at
index 0 and appended, a new dictionary (address 13) is appended, and a key is
set in that dictionary and removed again. -/
def ex_mutations : List mutation :=
  [ .create (.rv_i 9),
    .array_set 7 0 12,
    .array_append 7 12,
    .create (.rv_dict []),
    .array_append 7 13,
    .dictionary_set 13 "k" 12,
    .dictionary_remove 13 "k" ]

/-- The heap after `ex_mutations`. -/
def ex_mutated : Heap := (run_mutations 2 ex_copied.1 ex_mutations).getD Heap.empty

/-- A heap with an inbound frame (address 2) that has an `id` and a `name`
and no `namespace`. -/
def ex_malformed_heap : Heap :=
  { cells :=
      [ some ⟨1, .rv_str "id-9"⟩,
        some ⟨1, .rv_str "call"⟩,
        some ⟨1, .rv_dict [("id", 0), ("name", 1)]⟩ ],
    freed := [] }

/-- The connection `ex_state` over `ex_malformed_heap`. -/
def ex_malformed_state : State := { ex_state with heap := ex_malformed_heap }

/-- A heap with an inbound frame (address 3) that has the id `"id-7"`, the
namespace `"rpc"` and the name `"ping"`, a pair the dispatch table does not
have. -/
def ex_unknown_heap : Heap :=
  { cells :=
      [ some ⟨1, .rv_str "id-7"⟩,
        some ⟨1, .rv_str "rpc"⟩,
        some ⟨1, .rv_str "ping"⟩,
        some ⟨1, .rv_dict [("namespace", 1), ("name", 2), ("id", 0)]⟩ ],
    freed := [] }

/-- The connection `ex_state` over `ex_unknown_heap`. -/
def ex_unknown_state : State := { ex_state with heap := ex_unknown_heap }

/-- A heap with the frame (address 6) that `rpc_connection_send_response`
packs for the id `"id-1"` (address 0) and the response `[Fd 7, Fd 9]`
(address 3, elements at 1 and 2). -/
def ex_fd_heap : Heap :=
  { cells :=
      [ some ⟨2, .rv_str "id-1"⟩,
        some ⟨1, .rv_fd 7⟩,
        some ⟨1, .rv_fd 9⟩,
        some ⟨2, .rv_list [1, 2]⟩,
        some ⟨1, .rv_str "rpc"⟩,
        some ⟨1, .rv_str "response"⟩,
        some ⟨1, .rv_dict [("namespace", 4), ("name", 5), ("id", 0), ("args", 3)]⟩ ],
    freed := [] }

/-- The connection `ex_state` over `ex_fd_heap`. -/
def ex_fd_state : State := { ex_state with heap := ex_fd_heap }

/-- A heap with the frame (address 5) that `rpc_connection_send_response`
packs for the id `"id-1"` (address 0) and the response `[Fd 7]` (address 2,
element at 1). -/
def ex_fd1_heap : Heap :=
  { cells :=
      [ some ⟨2, .rv_str "id-1"⟩,
        some ⟨1, .rv_fd 7⟩,
        some ⟨2, .rv_list [1]⟩,
        some ⟨1, .rv_str "rpc"⟩,
        some ⟨1, .rv_str "response"⟩,
        some ⟨1, .rv_dict [("namespace", 3), ("name", 4), ("id", 0), ("args", 2)]⟩ ],
    freed := [] }

/-- The connection `ex_state` over `ex_fd1_heap`. -/
def ex_fd1_state : State := { ex_state with heap := ex_fd1_heap }

/-- A heap with the frame (address 133) that `rpc_connection_send_response`
packs for the id `"id-1"` (address 0) and a response that is an array
(address 130) of the 129 values `Fd 0`, ..., `Fd 128` (addresses 1 to 129). -/
def ex_many_fds_heap : Heap :=
  { cells :=
      [some ⟨2, .rv_str "id-1"⟩] ++
      (List.range 129).map (fun d => some ⟨1, .rv_fd d⟩) ++
      [ some ⟨2, .rv_list ((List.range 129).map (fun d => d + 1))⟩,
        some ⟨1, .rv_str "rpc"⟩,
        some ⟨1, .rv_str "response"⟩,
        some ⟨1, .rv_dict [("namespace", 131), ("name", 132), ("id", 0), ("args", 130)]⟩ ],
    freed := [] }

/-- The connection `ex_state` over `ex_many_fds_heap`. -/
def ex_many_fds_state : State := { ex_state with heap := ex_many_fds_heap }

/-- The values of `rc_seqno` of the call record `call` after each frame of a
sequence of inbound frames, dispatched in order. -/
def seqno_trace (fuel : Nat) (call : Nat) : State → List Nat → Option (List Nat)
  | _, [] => some []
  | st, frame :: rest =>
    match rpc_connection_dispatch fuel st frame with
    | none => none
    | some st1 =>
      match st1.calls[call]?, seqno_trace fuel call st1 rest with
      | some (some c), some tr => some (c.rc_seqno :: tr)
      | _, _ => none

/-- The object `frame` of the heap `h` is an `rpc/fragment` frame for the
call id `key` whose args carry the UInt64 `seqno` and a `fragment`. -/
def is_fragment_frame (h : Heap) (key : String) (frame seqno : Nat) : Prop :=
  ∃ (id a sobj : Nat) (ro rs : Int) (p : Option Nat),
    rpc_dictionary_get_value h frame "id" = some (some id) ∧
    h.get id = some ⟨ro, .rv_str key⟩ ∧
    rpc_dictionary_get_string h frame "namespace" = some (some "rpc") ∧
    rpc_dictionary_get_string h frame "name" = some (some "fragment") ∧
    rpc_dictionary_get_value h frame "args" = some (some a) ∧
    rpc_dictionary_get_value h a "seqno" = some (some sobj) ∧
    h.get sobj = some ⟨rs, .rv_ui seqno⟩ ∧
    rpc_dictionary_get_value h a "fragment" = some p

/-- A heap with the id `"id-1"` (address 0) and two `rpc/fragment` frames for
it: one with seqno 5 (address 6) and one with seqno 2 (address 10). -/
def ex_fragments_heap : Heap :=
  { cells :=
      [ some ⟨1, .rv_str "id-1"⟩,
        some ⟨1, .rv_str "rpc"⟩,
        some ⟨1, .rv_str "fragment"⟩,
        some ⟨1, .rv_ui 5⟩,
        some ⟨1, .rv_str "a"⟩,
        some ⟨1, .rv_dict [("seqno", 3), ("fragment", 4)]⟩,
        some ⟨1, .rv_dict [("namespace", 1), ("name", 2), ("id", 0), ("args", 5)]⟩,
        some ⟨1, .rv_ui 2⟩,
        some ⟨1, .rv_str "b"⟩,
        some ⟨1, .rv_dict [("seqno", 7), ("fragment", 8)]⟩,
        some ⟨1, .rv_dict [("namespace", 1), ("name", 2), ("id", 0), ("args", 9)]⟩ ],
    freed := [] }

/-- The connection `ex_state` over `ex_fragments_heap`. -/
def ex_fragments_state : State := { ex_state with heap := ex_fragments_heap }

/-- Dispatch of a sequence of inbound frames, in order. -/
def dispatch_all (fuel : Nat) : State → List Nat → Option State
  | st, [] => some st
  | st, frame :: rest =>
    match rpc_connection_dispatch fuel st frame with
    | none => none
    | some st1 => dispatch_all fuel st1 rest

/-- The object `frame` of the heap `h` is an `events/subscribe` frame
(`sub = true`) or an `events/unsubscribe` frame (`sub = false`) whose args
are an array of Strings with the contents `names`. -/
def is_events_frame (h : Heap) (frame : Nat) (sub : Bool) (names : List String) : Prop :=
  ∃ (id a : Nat) (ra : Int) (items : List Nat),
    rpc_dictionary_get_value h frame "id" = some (some id) ∧
    rpc_dictionary_get_string h frame "namespace" = some (some "events") ∧
    rpc_dictionary_get_string h frame "name" =
      some (some (if sub then "subscribe" else "unsubscribe")) ∧
    rpc_dictionary_get_value h frame "args" = some (some a) ∧
    h.get a = some ⟨ra, .rv_list items⟩ ∧
    items.map (fun x => (h.get x).bind rpc_string_get_string_ptr) = names.map some

/-- The subscribes (`true`) and unsubscribes (`false`) of the name `n` that a
sequence of frames carries, in order; a frame is given by its address, its
kind and the names in its args. -/
def name_ops (n : String) (frames : List (Nat × Bool × List String)) : List Bool :=
  frames.flatMap (fun f => (f.2.2.filter (fun x => x = n)).map (fun _ => f.2.1))

/-- A heap with an `events/subscribe` frame (address 6) and an
`events/unsubscribe` frame (address 7), both for the one name `"ev"` and with
a Null id, as `rpc_connection_subscribe_event` and
`rpc_connection_unsubscribe_event` of the peer pack them. -/
def ex_events_heap : Heap :=
  { cells :=
      [ some ⟨2, .rv_null⟩,
        some ⟨2, .rv_str "events"⟩,
        some ⟨1, .rv_str "subscribe"⟩,
        some ⟨1, .rv_str "unsubscribe"⟩,
        some ⟨1, .rv_str "ev"⟩,
        some ⟨2, .rv_list [4]⟩,
        some ⟨1, .rv_dict [("namespace", 1), ("name", 2), ("id", 0), ("args", 5)]⟩,
        some ⟨1, .rv_dict [("namespace", 1), ("name", 3), ("id", 0), ("args", 5)]⟩ ],
    freed := [] }

/-- The connection `ex_state` over `ex_events_heap`. -/
def ex_events_state : State := { ex_state with heap := ex_events_heap }

/-- What one subscribe (`true`) or unsubscribe (`false`) of a name does to
the entry of that name in `rco_subscriptions` (`none`: no entry). -/
def refcount_step (r : Option Int) (sub : Bool) : Option Int :=
  match r, sub with
  | none, true => some (wrap_int32 (0 + 1))
  | some c, true => some (wrap_int32 (c + 1))
  | none, false => none
  | some c, false => some (wrap_int32 (c - 1))

/-- The loop of `rpc_array_create_ex`: the objects are appended in order. -/
def append_values : Heap → Nat → List Nat → Option Heap
  | h, _, [] => some h
  | h, array, v :: rest =>
    match rpc_array_append_value h array v with
    | none => none
    | some h1 => append_values h1 array rest

/-- Source function `rpc_array_create_ex`, for the objects `objects[0]`, ...,
`objects[count - 1]`. -/
def rpc_array_create_ex (h : Heap) (objects : List Nat) : Option (Heap × Nat) :=
  (append_values (rpc_array_create h).1 (rpc_array_create h).2 objects).map
    (fun h1 => (h1, (rpc_array_create h).2))

/-- Source function `rpc_connection_subscribe_event`. -/
def rpc_connection_subscribe_event (fuel : Nat) (st : State) (name : String) :
    Option (State × Int) :=
  match rpc_array_create_ex (rpc_string_create st.heap name).1
      [(rpc_string_create st.heap name).2] with
  | none => none
  | some (h2, args) =>
    match rpc_pack_frame fuel h2 "events" "subscribe" none args with
    | none => none
    | some (h3, frame) =>
      match rpc_send_frame fuel { st with heap := h3 } frame with
      | none => none
      | some (st1, r) => some (st1, if r ≠ 0 then -1 else 0)

/-- Source function `rpc_connection_unsubscribe_event`; after a successful
send it releases the string and the array it made (`rpc_release`, a macro of
`object.h` over `rpc_release_impl`). -/
def rpc_connection_unsubscribe_event (fuel : Nat) (st : State) (name : String) :
    Option (State × Int) :=
  match rpc_array_create_ex (rpc_string_create st.heap name).1
      [(rpc_string_create st.heap name).2] with
  | none => none
  | some (h2, args) =>
    match rpc_pack_frame fuel h2 "events" "unsubscribe" none args with
    | none => none
    | some (h3, frame) =>
      match rpc_send_frame fuel { st with heap := h3 } frame with
      | none => none
      | some (st1, r) =>
        if r ≠ 0 then some (st1, -1)
        else
          match rpc_release_impl fuel st1.heap (rpc_string_create st.heap name).2 with
          | none => none
          | some (h4, _) =>
            match rpc_release_impl fuel h4 args with
            | none => none
            | some (h5, _) => some ({ st1 with heap := h5 }, 0)

/-- A sequence of calls of `rpc_connection_subscribe_event` (`true`) and
`rpc_connection_unsubscribe_event` (`false`) for one event name. -/
def run_subscribe_calls (fuel : Nat) (name : String) : State → List Bool → Option State
  | st, [] => some st
  | st, b :: rest =>
    match (if b then rpc_connection_subscribe_event fuel st name
           else rpc_connection_unsubscribe_event fuel st name) with
    | none => none
    | some (st1, _) => run_subscribe_calls fuel name st1 rest

/-- The frame that a subscribe (`true`) or unsubscribe (`false`) call for
the event `name` sends. -/
def subscribe_frame (b : Bool) (name : String) : Tree :=
  .dictionary [("namespace", .string "events"),
    ("name", .string (if b then "subscribe" else "unsubscribe")), ("id", .null),
    ("args", .array [.string name])]

/-- One invocation `handler(name, data)` made by the event worker; handlers
are identified by numbers. -/
structure event_call where
  handler : Nat
  name : String
  args : Option Nat
  deriving DecidableEq, Repr

/-- Source function `rpc_event_worker`. `popped` are the values that
`g_async_queue_pop` returns, in order (`none` is `NULL`), and the last
argument is the record of the handler invocations made so far; the result is
that record when the worker exits. The worker reads the values of
`rco_subscriptions` as `struct rpc_subscription` records (declared in
`internal.h`): `rsu_handlers` gives the handler list of the entries that are
such records, first handler first, and `rco_event_handler` is the catch-all
handler of the connection (`none`: not set). The result is `none` when the
worker crashes and when the queue runs dry, where the worker waits. -/
def rpc_event_worker (st : State) (rsu_handlers : List (String × List Nat))
    (rco_event_handler : Option Nat) : List (Option Nat) → List event_call →
    Option (List event_call)
  | [], _ => none
  | none :: _, log => some log
  | some event :: rest, log =>
    match rpc_dictionary_get_string st.heap event "name",
      rpc_dictionary_get_value st.heap event "args", rco_event_handler with
    | some (some name), some data, some catch_all =>
      match st.rco_subscriptions.lookup name with
      | none =>
        rpc_event_worker st rsu_handlers rco_event_handler rest
          (log ++ [⟨catch_all, name, data⟩])
      | some _ =>
        match rsu_handlers.lookup name with
        | none => none
        | some handlers =>
          rpc_event_worker st rsu_handlers rco_event_handler rest
            (log ++ handlers.map (fun handler => ⟨handler, name, data⟩) ++
              [⟨catch_all, name, data⟩])
    | _, _, _ => none

/-- A heap with three events: `{name: "ev", args: 5}` (address 2),
`{name: "other"}` (address 4) and `{name: "late"}` (address 6). -/
def ex_worker_heap : Heap :=
  { cells :=
      [ some ⟨1, .rv_str "ev"⟩,
        some ⟨1, .rv_i 5⟩,
        some ⟨1, .rv_dict [("name", 0), ("args", 1)]⟩,
        some ⟨1, .rv_str "other"⟩,
        some ⟨1, .rv_dict [("name", 3)]⟩,
        some ⟨1, .rv_str "late"⟩,
        some ⟨1, .rv_dict [("name", 5)]⟩ ],
    freed := [] }

/-- A connection over `ex_worker_heap` with the reference count 1 for `"ev"`
in `rco_subscriptions`, as `on_events_subscribe` leaves it, and the first two
events in its queue. -/
def ex_worker_state : State :=
  { ex_state with heap := ex_worker_heap, rco_subscriptions := [("ev", 1)],
                  rco_event_queue := [2, 4] }

/-- A slot of a container: an index of an array or a key of a dictionary. -/
inductive slot where
  | index (i : Nat)
  | key (k : String)
  deriving DecidableEq, Repr

/-- The call `rpc_array_steal_value` or `rpc_dictionary_steal_value`, by the
kind of the slot. -/
def steal_value (fuel : Nat) (h : Heap) (container : Nat) : slot → Nat → Option Heap
  | .index i, value => rpc_array_steal_value fuel h container i value
  | .key k, value => rpc_dictionary_steal_value fuel h container k value

/-- The call `rpc_array_set_value` or `rpc_dictionary_set_value`, by the kind
of the slot. -/
def set_value (fuel : Nat) (h : Heap) (container : Nat) : slot → Nat → Option Heap
  | .index i, value => rpc_array_set_value fuel h container i value
  | .key k, value => rpc_dictionary_set_value fuel h container k value

/-- The call `rpc_array_get_value` or `rpc_dictionary_get_value`, by the kind
of the slot. -/
def get_value (h : Heap) (container : Nat) : slot → Option (Option Nat)
  | .index i => rpc_array_get_value h container i
  | .key k => rpc_dictionary_get_value h container k

/-- The container is of the kind the slot belongs to. For an array, the
sizes are such that the loop counter `(int)(index - len)` of
`rpc_array_steal_value` does not wrap: the array has at most 2^31 elements
and the index is less than 2^31 past its end. -/
def slot_of (h : Heap) (container : Nat) : slot → Prop
  | .index i =>
    ∃ rc items, h.get container = some ⟨rc, .rv_list items⟩ ∧ items.length ≤ 2 ^ 31 ∧
      i < items.length + 2 ^ 31
  | .key _ => ∃ rc entries, h.get container = some ⟨rc, .rv_dict entries⟩

/-- The object a slot holds, `none` for an index past the end of the array
and for a key the dictionary does not have. -/
def occupant (h : Heap) (container : Nat) : slot → Option Nat
  | .index i =>
    match h.get container with
    | some ⟨_, .rv_list items⟩ => items[i]?
    | _ => none
  | .key k =>
    match h.get container with
    | some ⟨_, .rv_dict entries⟩ => entries.lookup k
    | _ => none

/-- The object at `x` is allocated and its reference count is a positive
`int`. -/
def count_ok (h : Heap) (x : Nat) : Bool :=
  match h.get x with
  | some o => decide (0 < o.ro_refcnt ∧ o.ro_refcnt < 2 ^ 31)
  | none => false

/-- The references that the object at `x` has left after the visits `seen`,
each of which took one: its reference count in `h` less the number of its
visits. An address that is not allocated has none. -/
def references_left (h : Heap) (seen : List Nat) (x : Nat) : Int :=
  match h.get x with
  | some o => o.ro_refcnt - (seen.count x : Int)
  | none => 0

/-- The visits of the objects of a list in order, each continuing the
sequence of visits of the one before. -/
def visit_each (visit : List Nat → Nat → Option (List Nat)) :
    List Nat → List Nat → Option (List Nat)
  | [], seen => some seen
  | c :: rest, seen =>
    match visit seen c with
    | none => none
    | some seen1 => visit_each visit rest seen1

/-- The sequence of the objects that `rpc_release_impl(a)` visits, appended to
the visits `seen` made before it. Each visit takes one reference of the
object; a visit that takes the last reference goes on to the elements of the
object, in order. The result is `none` when the object visited has no
reference left (the assertion `ro_refcnt > 0` fails) or is not allocated, and
when the nesting is deeper than `fuel`. -/
def release_visits : Nat → Heap → List Nat → Nat → Option (List Nat)
  | 0, _, _, _ => none
  | fuel + 1, h, seen, a =>
    if references_left h seen a ≤ 0 then none
    else if references_left h seen a = 1 then
      match h.get a with
      | none => none
      | some o => visit_each (release_visits fuel h) o.ro_value.children (seen ++ [a])
    else some (seen ++ [a])

/-- The object at `x` after the visits `seen`, while the releases of the
objects `stack` are still running: an object that was visited and has no
reference left is freed unless its release is still running, and every other
object has its reference count lowered by the number of its visits. -/
def cell_after (h : Heap) (seen stack : List Nat) (x : Nat) : Option rpc_object :=
  if x ∈ seen ∧ references_left h seen x ≤ 0 ∧ x ∉ stack then none
  else (h.get x).map (fun o => { o with ro_refcnt := o.ro_refcnt - (seen.count x : Int) })

/-- The heap `H` is the heap `h` after the visits `seen`, while the releases
of the objects `stack` are still running. -/
def after_visits (h : Heap) (seen stack : List Nat) (H : Heap) : Prop :=
  H.size = h.size ∧ (∀ x ∈ stack, references_left h seen x ≤ 0) ∧
  ∀ x, H.get x = cell_after h seen stack x

/-- The slot is empty, or the release of its occupant finds a reference to
take at every object it visits, every visited object has a reference count
that is a positive `int`, and `value` is not among the visited objects. -/
def occupant_released (fuel : Nat) (h : Heap) (container value : Nat) (s : slot) : Prop :=
  ∀ old, occupant h container s = some old →
    ∃ l, release_visits fuel h [] old = some l ∧ (∀ x ∈ l, count_ok h x = true) ∧ value ∉ l

/-- A heap with the Int64 1 (address 0, referenced by the array, by the
dictionary and by the caller), the Int64 7 (address 1, referenced by the
caller), the array `[1]` (address 2), the dictionary `{k: 1}` (address 3),
the Int64 9 (address 4, referenced by its array only) and the array `[9]`
(address 5). -/
def ex_slots : Heap :=
  { cells :=
      [ some ⟨3, .rv_i 1⟩,
        some ⟨1, .rv_i 7⟩,
        some ⟨1, .rv_list [0]⟩,
        some ⟨1, .rv_dict [("k", 0)]⟩,
        some ⟨1, .rv_i 9⟩,
        some ⟨1, .rv_list [4]⟩ ],
    freed := [] }

/-- A heap with the Int64 1 (address 0, referenced twice by the array at
address 1, once by the array at address 3 and once by the caller), the array
`[1, 1]` at address 1, referenced by the array at address 2 only, the array
`[[1, 1]]` (address 2), the array `[1]` at address 3, referenced by the
dictionary only, the dictionary `{k: [1]}` (address 4) and the Int64 7
(address 5, referenced by the caller). -/
def ex_nested : Heap :=
  { cells :=
      [ some ⟨4, .rv_i 1⟩,
        some ⟨1, .rv_list [0, 0]⟩,
        some ⟨1, .rv_list [1]⟩,
        some ⟨1, .rv_list [0]⟩,
        some ⟨1, .rv_dict [("k", 3)]⟩,
        some ⟨1, .rv_i 7⟩ ],
    freed := [] }

/-- The entries that an iteration visits when its visitor continues exactly
on the entries satisfying `keep`: the entries up to and including the first
one that the visitor rejects. -/
def visited {α : Type} (keep : α → Bool) (entries : List α) : List α :=
  entries.takeWhile keep ++ (entries.dropWhile keep).take 1

/-- The visitor rejects one of the entries, so that the iteration stops
early. -/
def stopped_early {α : Type} (keep : α → Bool) (entries : List α) : Bool :=
  entries.any (fun e => !keep e)

/-- Source function `rpc_array_remove_index`. The function aborts (`none`)
when `rpc_array_get_count(array) >= index`. GLib `g_array_remove_index` takes
the index as a `guint` and does nothing for an index that is not below the
length. -/
def rpc_array_remove_index (h : Heap) (array index : Nat) : Option Heap :=
  match h.get array with
  | some ⟨rc, .rv_list items⟩ =>
    if items.length ≥ index then none
    else if index % 2 ^ 32 < items.length then
      some (h.set array ⟨rc, .rv_list (items.eraseIdx (index % 2 ^ 32))⟩)
    else some h
  | _ => none

/-! ## `rpc_typing.c`

The records `struct rpct_type`, `struct rpct_typei`, `struct rpct_realm` and
`struct rpct_context` are declared in `internal.h`; their fields are those
the functions of `rpc_typing.c` use (parent, members and constraints of a
type are left out). -/

/-- The enumeration `rpct_class_t` of `typing.h`. -/
inductive rpct_class_t where
  | RPC_TYPING_STRUCT
  | RPC_TYPING_UNION
  | RPC_TYPING_ENUM
  | RPC_TYPING_TYPEDEF
  | RPC_TYPING_SPECIALIZATION
  | RPC_TYPING_BUILTIN
  deriving DecidableEq, Repr

/-- The record `struct rpct_type`. -/
structure rpct_type where
  realm : String
  name : String
  description : String
  clazz : rpct_class_t
  generic : Bool
  generic_vars : List String
  deriving DecidableEq, Repr

/-- The record `struct rpct_typei`: the flag `proxy`, a type and the array
`specializations`, whose entries can be `NULL` (`none`). The array itself is
allocated in every instance (`rpct_instantiate_type` is the only function that
makes one), so it is a list. -/
inductive rpct_typei where
  | mk (proxy : Bool) (type : rpct_type) (specializations : List (Option rpct_typei))

/-- The record `struct rpct_realm`; a function is represented by its name. -/
structure rpct_realm where
  name : String
  types : List (String × rpct_type)
  functions : List (String × String)
  deriving DecidableEq, Repr

/-- The record `struct rpct_context`, the value of the global `context`. -/
structure rpct_context where
  realms : List (String × rpct_realm)
  deriving DecidableEq, Repr

/-- Source function `rpct_find_realm`. -/
def rpct_find_realm (context : rpct_context) (realm : String) : Option rpct_realm :=
  context.realms.lookup realm

/-- Source function `rpct_find_type`; `none` is the `NULL` result. -/
def rpct_find_type (context : rpct_context) (realm_name name : String) : Option rpct_type :=
  match (match rpct_find_realm context realm_name with
         | none => rpct_find_realm context "*"
         | some realm => some realm) with
  | none => none
  | some realm => realm.types.lookup name

/-- One round of the loop of `rpct_parse_type`, at index `i`: the state is
`nesting`, `groups` and the array `variables` (here `vars`). The variable `istart` is never
assigned after its initialisation. -/
def rpct_parse_type_step (decl : List Char) (istart : Nat) (st : Int × Int × List String)
    (i : Nat) : Int × Int × List String :=
  match decl[i]? with
  | some '<' => (st.1 + 1, st.2.1, st.2.2)
  | some '>' => (st.1 - 1, st.2.1, st.2.2)
  | some ',' =>
    if st.1 = 0 then
      (st.1, st.2.1 + 1, st.2.2 ++ [String.mk ((decl.drop istart).take (i - istart))])
    else st
  | _ => st

/-- Source function `rpct_parse_type`, for text in which a byte is a
character: the strings in the array `variables` (here `vars`) afterwards
and the result `groups`. -/
def rpct_parse_type (decl : String) (vars : List String) : List String × Int :=
  (((List.range decl.length).foldl (rpct_parse_type_step decl.toList 0) (0, 0, vars)).2.2,
    ((List.range decl.length).foldl (rpct_parse_type_step decl.toList 0) (0, 0, vars)).2.1)

mutual
/-- Source function `rpct_canonical_type`; `none` when a specialization is
`NULL`. -/
def rpct_canonical_type : rpct_typei → Option String
  | .mk _ type specializations =>
    if !type.generic then some type.name
    else
      match rpct_canonical_loop specializations with
      | none => none
      | some args => some (type.name ++ "<" ++ args ++ ">")
/-- The loop of `rpct_canonical_type` over the specializations still to
come: inside the loop `i < len` holds, so a comma follows every one. -/
def rpct_canonical_loop : List (Option rpct_typei) → Option String
  | [] => some ""
  | none :: _ => none
  | some subtype :: rest =>
    match rpct_canonical_type subtype, rpct_canonical_loop rest with
    | some substr, some tail => some (substr ++ "," ++ tail)
    | _, _ => none
end

/-- The builtin type `int64` of the realm `*`, as `rpct_init` makes it. -/
def ex_int64 : rpct_type :=
  { realm := "*", name := "int64", description := "builtin int64 type",
    clazz := .RPC_TYPING_BUILTIN, generic := false, generic_vars := [] }

/-- The type `struct Point<T>` of the realm `geometry`, marked generic. -/
def ex_point : rpct_type :=
  { realm := "geometry", name := "Point", description := "a point",
    clazz := .RPC_TYPING_STRUCT, generic := true, generic_vars := ["T"] }

/-- The type instance `Point<int64>`. -/
def ex_point_int64 : rpct_typei := .mk false ex_point [some (.mk false ex_int64 [])]

/-- A context with the realm `geometry`, which declares `Point`, and the
global realm `*`, which declares `int64`. -/
def ex_context : rpct_context :=
  { realms :=
      [ ("*", { name := "*", types := [("int64", ex_int64)], functions := [] }),
        ("geometry", { name := "geometry", types := [("Point", ex_point)], functions := [] }) ] }

/-- Source function `rpct_read_file`, from the point where the file has been
read. The parts that are not in the sources at hand are arguments:
`contents` tells whether `g_file_get_contents` succeeded, `obj` is what the
YAML serializer loaded (`none`: `NULL`), `file_realm` is the realm that
`rpct_read_meta` stored in the file record (`none`: left `NULL`), and
`read_func` and `find_or_load` give, for a realm, a key and a context, what
the calls `rpct_read_func` and `rpct_find_or_load` (whose regular expressions
are macros of `internal.h`) do: the new context and the returned `int`, or
`none` for a crash. The result is the heap, the context and the returned
`int`. -/
def rpct_read_file (fuel : Nat) (h : Heap) (context : rpct_context) (contents : Bool)
    (obj : Option Nat) (file_realm : Option String)
    (read_func find_or_load : String → String → rpct_context → Option (rpct_context × Int)) :
    Option (Heap × rpct_context × Int) :=
  if !contents then some (h, context, -1)
  else
    match obj with
    | none => some (h, context, -1)
    | some o =>
      match rpc_dictionary_get_value h o "meta", file_realm with
      | some _, some realm =>
        match rpc_dictionary_apply h o
            (fun key _ (ctx : rpct_context) =>
              if key = "meta" then some (ctx, true)
              else if "function".toList.isPrefixOf key.toList then
                (read_func realm key ctx).map (fun r => (r.1, decide (r.2 = 0)))
              else (find_or_load realm key ctx).map (fun r => (r.1, decide (r.2 = 0))))
            (if rpct_find_realm context realm = none then
              ⟨table_insert context.realms realm ⟨realm, [], []⟩⟩
             else context) with
        | none => none
        | some (ctx2, flag) =>
          match rpc_release_impl fuel h o with
          | none => none
          | some (h2, _) => some (h2, ctx2, if flag then -1 else 0)
      | _, _ => none

/-- Source function `rpct_load_types`. -/
def rpct_load_types (fuel : Nat) (h : Heap) (context : rpct_context) (contents : Bool)
    (obj : Option Nat) (file_realm : Option String)
    (read_func find_or_load : String → String → rpct_context → Option (rpct_context × Int)) :
    Option (Heap × rpct_context × Int) :=
  rpct_read_file fuel h context contents obj file_realm read_func find_or_load

/-- A heap with a loaded schema document (address 21): a `meta` header with
the realm `geometry`, the declaration `struct Point<T>` with the members
`x: T` and `y: T`, and the declaration `function distance` with the arguments
`a: Point<int64>`, `b: Point<int64>` and the return type `double`. -/
def ex_schema : Heap :=
  { cells :=
      [ some ⟨1, .rv_i 1⟩,
        some ⟨1, .rv_str "geometry"⟩,
        some ⟨1, .rv_str "points"⟩,
        some ⟨1, .rv_dict [("version", 0), ("realm", 1), ("description", 2)]⟩,
        some ⟨1, .rv_str "T"⟩,
        some ⟨1, .rv_dict [("type", 4)]⟩,
        some ⟨1, .rv_str "T"⟩,
        some ⟨1, .rv_dict [("type", 6)]⟩,
        some ⟨1, .rv_dict [("x", 5), ("y", 7)]⟩,
        some ⟨1, .rv_str "a point"⟩,
        some ⟨1, .rv_dict [("description", 9), ("members", 8)]⟩,
        some ⟨1, .rv_str "a"⟩,
        some ⟨1, .rv_str "Point<int64>"⟩,
        some ⟨1, .rv_dict [("name", 11), ("type", 12)]⟩,
        some ⟨1, .rv_str "b"⟩,
        some ⟨1, .rv_str "Point<int64>"⟩,
        some ⟨1, .rv_dict [("name", 14), ("type", 15)]⟩,
        some ⟨1, .rv_list [13, 16]⟩,
        some ⟨1, .rv_str "double"⟩,
        some ⟨1, .rv_str "the distance"⟩,
        some ⟨1, .rv_dict [("description", 19), ("arguments", 17), ("return", 18)]⟩,
        some ⟨1, .rv_dict [("meta", 3), ("struct Point<T>", 10), ("function distance", 20)]⟩ ],
    freed := [] }

/-- A reader that succeeds on every declaration: it registers the type
`Point` for the key `struct Point<T>` and returns 0. -/
def ex_find_or_load (realm key : String) (context : rpct_context) :
    Option (rpct_context × Int) :=
  match rpct_find_realm context realm with
  | none => none
  | some r =>
    some (⟨table_insert context.realms realm
        ⟨r.name, table_insert r.types "Point" ⟨realm, "Point", key, .RPC_TYPING_STRUCT, true,
          ["T"]⟩, r.functions⟩⟩, 0)

/-- A reader that succeeds on every function declaration: it registers the
function `distance` and returns 0. -/
def ex_read_func (realm key : String) (context : rpct_context) :
    Option (rpct_context × Int) :=
  match rpct_find_realm context realm with
  | none => none
  | some r =>
    some (⟨table_insert context.realms realm
        ⟨r.name, r.types, table_insert r.functions "distance" key⟩⟩, 0)

/-- C library `memcpy(dest, src + off, n)` on byte arrays: `none` when the
bytes read are not all inside `src` or the bytes written are not all inside
`dest`. -/
def memcpy (dest src : List Nat) (off n : Nat) : Option (List Nat) :=
  if off + n ≤ src.length ∧ n ≤ dest.length then
    some ((src.drop off).take n ++ dest.drop n)
  else none

/-- Source function `rpc_data_get_bytes`: the buffer afterwards and the
returned count. -/
def rpc_data_get_bytes (o : rpc_object) (buffer : List Nat) (off length : Nat) :
    Option (List Nat × Nat) :=
  if o.ro_type ≠ .RPC_TYPE_BINARY then some (buffer, 0)
  else if off > rpc_data_get_length o then some (buffer, 0)
  else
    match rpc_data_get_bytes_ptr o with
    | none => none
    | some ptr =>
      (memcpy buffer ptr off (min length (rpc_data_get_length o - off))).map
        (fun b => (b, min length (rpc_data_get_length o - off)))

/-- Conversion of an integer to `int64_t`. -/
def wrap_int64 (x : Int) : Int := (x + 2 ^ 63) % 2 ^ 64 - 2 ^ 63

/-- Source function `rpc_call_continue`. Without `sync` the `int` result is
0. With `sync` the thread then waits in `rpc_call_wait_locked` until another
thread changes the status: the state given is the one at that point, and the
`int` result, which depends on that other thread, is left out (`none`). -/
def rpc_call_continue (fuel : Nat) (st : State) (call : Nat) (sync : Bool) :
    Option (State × Option Int) :=
  match st.calls[call]? with
  | some (some c) =>
    match rpc_pack_frame fuel (rpc_int64_create st.heap (wrap_int64 (c.rc_seqno + 1))).1
        "rpc" "continue" (some c.rc_id)
        (rpc_int64_create st.heap (wrap_int64 (c.rc_seqno + 1))).2 with
    | none => none
    | some (h1, frame) =>
      match rpc_send_frame fuel { st with heap := h1 } frame with
      | none => none
      | some (st1, _) =>
        (update_call st1 call (fun c => { c with rc_status := .RPC_CALL_IN_PROGRESS })).map
          (fun st2 => (st2, if sync then none else some 0))
  | _ => none

/-- The call of `ex_state` after the fragment with seqno 1 has arrived. -/
def ex_call_more : rpc_call :=
  { ex_call with rc_status := .RPC_CALL_MORE_AVAILABLE, rc_result := some 7, rc_seqno := 1 }

/-- The state `ex_state` with its call in state MoreAvailable. -/
def ex_state_more : State := { ex_state with calls := [some ex_call_more] }

/-- Source function `rpc_connection_send_fragment`. -/
def rpc_connection_send_fragment (fuel : Nat) (st : State) (id : Option Nat) (seqno : Int)
    (fragment : Nat) : Option State :=
  match rpc_dictionary_set_int64 fuel (rpc_dictionary_create st.heap).1
      (rpc_dictionary_create st.heap).2 "seqno" seqno with
  | none => none
  | some h2 =>
    match rpc_dictionary_set_value fuel h2 (rpc_dictionary_create st.heap).2 "fragment"
        fragment with
    | none => none
    | some h3 =>
      match rpc_pack_frame fuel h3 "rpc" "fragment" id (rpc_dictionary_create st.heap).2 with
      | none => none
      | some (h4, frame) => (rpc_send_frame fuel { st with heap := h4 } frame).map Prod.fst

/-- A heap of the receiving side: the id `"id-1"` (address 0) and the frame
(address 6) that `rpc_connection_send_fragment` builds for seqno 5 and the
fragment `"chunk"`, its `seqno` being an Int64. -/
def ex_int_seqno_heap : Heap :=
  { cells :=
      [ some ⟨1, .rv_str "id-1"⟩,
        some ⟨1, .rv_str "rpc"⟩,
        some ⟨1, .rv_str "fragment"⟩,
        some ⟨1, .rv_i 5⟩,
        some ⟨1, .rv_str "chunk"⟩,
        some ⟨1, .rv_dict [("seqno", 3), ("fragment", 4)]⟩,
        some ⟨1, .rv_dict [("namespace", 1), ("name", 2), ("id", 0), ("args", 5)]⟩ ],
    freed := [] }

/-- The state `ex_state` over `ex_int_seqno_heap`. -/
def ex_int_seqno_state : State := { ex_state with heap := ex_int_seqno_heap }

/-- Source function `rpc_new_id`; `uuid` is the string that
`g_uuid_string_random` gives. -/
def rpc_new_id (h : Heap) (uuid : String) : Heap × Nat := rpc_string_create h uuid

/-- Source function `rpc_call_alloc`: the record comes from `calloc`, so its
status is the first enumerator and its result is `NULL`; the strings `rc_type`
and `rc_method`, `NULL` at this point, are given as empty. `uuid` is the
string of `g_uuid_string_random`, used when `id` is `NULL`. -/
def rpc_call_alloc (st : State) (id : Option Nat) (uuid : String) : State × Nat :=
  ({ st with
      heap := (match id with | some _ => st.heap | none => (rpc_new_id st.heap uuid).1),
      calls := st.calls ++
        [some { rc_id := (match id with | some i => i | none => (rpc_new_id st.heap uuid).2),
                rc_type := "", rc_method := "", rc_args := none,
                rc_status := .RPC_CALL_IN_PROGRESS, rc_result := none, rc_seqno := 0 }] },
    st.calls.length)

/-- Source function `rpc_call_destroy`: the record is freed. -/
def rpc_call_destroy (st : State) (call : Nat) : State :=
  { st with calls := st.calls.set call none }

/-- Source function `rpc_connection_call`, on a connection that has a client
context to attach the timeout source to; `uuid` and `uuid2` are the strings of
the two calls of `g_uuid_string_random` (the second id, made by
`rpc_call_alloc`, is overwritten). The new record is at index
`st.calls.length`. The result is the state and the returned call, `none` for
`NULL`. -/
def rpc_connection_call (fuel : Nat) (st : State) (name : String) (args : Option Nat)
    (uuid uuid2 : String) : Option (State × Option Nat) :=
  match update_call
      (rpc_call_alloc
        { st with heap := (rpc_dictionary_create (rpc_new_id st.heap uuid).1).1 } none uuid2).1
      (rpc_call_alloc
        { st with heap := (rpc_dictionary_create (rpc_new_id st.heap uuid).1).1 } none uuid2).2
      (fun c => { c with rc_id := (rpc_new_id st.heap uuid).2, rc_type := "call",
                         rc_method := name, rc_args := args }) with
  | none => none
  | some st1 =>
    match rpc_dictionary_set_string fuel st1.heap
        (rpc_dictionary_create (rpc_new_id st.heap uuid).1).2 "method" name with
    | none => none
    | some h2 =>
      match rpc_dictionary_set_value fuel
          (match args with | some _ => h2 | none => (rpc_array_create h2).1)
          (rpc_dictionary_create (rpc_new_id st.heap uuid).1).2 "args"
          (match args with | some a => a | none => (rpc_array_create h2).2) with
      | none => none
      | some h3 =>
        match rpc_pack_frame fuel h3 "rpc" "call" (some (rpc_new_id st.heap uuid).2)
            (rpc_dictionary_create (rpc_new_id st.heap uuid).1).2 with
        | none => none
        | some (h4, frame) =>
          match h4.get (rpc_new_id st.heap uuid).2 with
          | none => none
          | some o =>
            match rpc_string_get_string_ptr o with
            | none => none
            | some key =>
              match rpc_send_frame fuel
                  { st1 with heap := h4,
                             rco_calls := table_insert st1.rco_calls key st.calls.length }
                  frame with
              | none => none
              | some (st2, r) =>
                if r ≠ 0 then some (rpc_call_destroy st2 st.calls.length, none)
                else
                  (update_call { st2 with sources := st2.sources ++ [st.calls.length] }
                    st.calls.length
                    (fun c => { c with rc_status := .RPC_CALL_IN_PROGRESS })).map
                    (fun st3 => (st3, some st.calls.length))

/-- The connection `ex_state` with a transport that refuses every message. -/
def ex_state_down : State := { ex_state with rco_send_msg := fun _ => -1 }

/-- The state `st1` differs from `st` at most in the record of the call that
the outbound-call table of `st` holds under the id `key` (and in the records
`handled` of the handlers invoked): the heap, the tables, the event queue,
the messages sent and the timeout sources are the same, no call record is
added or removed, and every other call record is as before. -/
def State.same_but_call (st st1 : State) (key : String) : Prop :=
  st1.heap = st.heap ∧ st1.rco_server = st.rco_server ∧ st1.rco_calls = st.rco_calls ∧
  st1.rco_inbound_calls = st.rco_inbound_calls ∧
  st1.rco_subscriptions = st.rco_subscriptions ∧
  st1.rco_event_queue = st.rco_event_queue ∧ st1.sent = st.sent ∧
  st1.sources = st.sources ∧ st1.server_dispatched = st.server_dispatched ∧
  st1.calls.length = st.calls.length ∧
  ∀ other, st.rco_calls.lookup key ≠ some other → st1.calls[other]? = st.calls[other]?

/-- The flag `proxy` of a type instance. -/
def rpct_typei.is_proxy : rpct_typei → Bool
  | .mk proxy _ _ => proxy

/-- The array `specializations` of a type instance. -/
def rpct_typei.specs : rpct_typei → List (Option rpct_typei)
  | .mk _ _ specializations => specializations

/-- The loop of `rpct_type_is_fully_specialized` over the entries still to
come: it returns `false` at the first entry that is `NULL` or a proxy. -/
def fully_specialized_loop : List (Option rpct_typei) → Bool
  | [] => true
  | none :: _ => false
  | some s :: rest => if s.is_proxy then false else fully_specialized_loop rest

/-- Source function `rpct_type_is_fully_specialized`. The array
`specializations` is allocated in every instance, so the test for `NULL` that
comes first does not apply. -/
def rpct_type_is_fully_specialized (inst : rpct_typei) : Bool :=
  fully_specialized_loop inst.specs

mutual
/-- Following the claim: some type instance nested inside the instance, at
any depth of its specializations, is a proxy placeholder. -/
def rpct_typei.has_inner_proxy : rpct_typei → Bool
  | .mk _ _ specializations => has_proxy_in specializations
/-- Some instance of the list, or some instance nested inside one of them, is
a proxy placeholder. -/
def has_proxy_in : List (Option rpct_typei) → Bool
  | [] => false
  | none :: rest => has_proxy_in rest
  | some s :: rest => s.is_proxy || s.has_inner_proxy || has_proxy_in rest
end

/-- The generic type `Box<T>` of the realm `*`. -/
def ex_box : rpct_type :=
  { realm := "*", name := "Box", description := "a box",
    clazz := .RPC_TYPING_STRUCT, generic := true, generic_vars := ["T"] }

/-- The instance `Box<Box<T>>` whose innermost argument is a proxy
placeholder. -/
def ex_box_box_proxy : rpct_typei :=
  .mk false ex_box [some (.mk false ex_box [some (.mk true ex_int64 [])])]

/-- The instance of `Box` whose specialization is missing. -/
def ex_box_missing : rpct_typei := .mk false ex_box [none]

/-- The table `builtin_types` (without the terminating `NULL`). -/
def builtin_types : List String :=
  ["null", "bool", "uint64", "int64", "double", "date", "string", "binray", "fd",
   "dictionary", "array", "shmem", "error", "any"]

/-- What `rpct_init` leaves: the value of the global `context`, the local
`realm` and the types the loop allocates, which the function stores nowhere,
and the returned `int`. -/
structure rpct_init_result where
  context : rpct_context
  realm : rpct_realm
  types : List rpct_type
  ret : Int
  deriving DecidableEq, Repr

/-- Source function `rpct_init`. The table `context->realms` is created empty
and nothing is inserted into it; the realm `*` gets an empty table of types,
and each type of the loop is overwritten by the next. -/
def rpct_init : rpct_init_result :=
  { context := { realms := [] },
    realm := { name := "*", types := [], functions := [] },
    types := builtin_types.map (fun b =>
      { realm := "*", name := b, description := "builtin " ++ b ++ " type",
        clazz := .RPC_TYPING_BUILTIN, generic := false, generic_vars := [] }),
    ret := 0 }

/-- Source function `rpct_instantiate_type`. The macro `INSTANCE_REGEX` of
`internal.h` is not at hand, so the matching is an argument: `regex decl` is
`none` when `g_regex_match` fails or no group matched, and otherwise the text
of group 1 (`decltype`) and of group 3 (`declvars`, `none` for `NULL`). The
outer `none` of the result means that the fuel ran out; the inner `none` is
the `NULL` result. An instance comes from `g_malloc0`, so it is no proxy. -/
def rpct_instantiate_type (regex : String → Option (String × Option String))
    (context : rpct_context) : Nat → String → String → Option (Option rpct_typei)
  | 0, _, _ => none
  | fuel + 1, decl, realm =>
    match regex decl with
    | none => some none
    | some (decltype, declvars) =>
      match rpct_find_type context realm decltype with
      | none => some none
      | some type =>
        if type.generic then
          match declvars with
          | none => some none
          | some dv =>
            if (rpct_parse_type dv []).1.length ≠ type.generic_vars.length then some none
            else
              (mapOpt (fun v => rpct_instantiate_type regex context fuel v realm)
                (rpct_parse_type dv []).1).map (fun subs => some (.mk false type subs))
        else some (some (.mk false type []))

/-- A matcher for declarations of the form `Name` and `Name<arguments>`, as
an example of `INSTANCE_REGEX`: group 1 is the text before the first `<`
(which must not be empty) and group 3 the text between that `<` and a final
`>`. -/
def ex_instance_regex (decl : String) : Option (String × Option String) :=
  if decl.toList.takeWhile (fun c => c ≠ '<') = [] then none
  else if (decl.toList.takeWhile (fun c => c ≠ '<')).length < decl.toList.length ∧
      decl.toList.getLast? = some '>' then
    some (String.mk (decl.toList.takeWhile (fun c => c ≠ '<')),
      some (String.mk
        ((decl.toList.drop ((decl.toList.takeWhile (fun c => c ≠ '<')).length + 1)).dropLast)))
  else some (String.mk (decl.toList.takeWhile (fun c => c ≠ '<')), none)

/-- A context whose global realm `*` declares `int64` and the generic type
`Box<T>`. -/
def ex_box_context : rpct_context :=
  { realms := [("*", { name := "*", types := [("int64", ex_int64), ("Box", ex_box)],
                       functions := [] })] }

/-! ## Heap lemmas -/

theorem Heap.get_lt {h : Heap} {a : Nat} {o : rpc_object} (hg : h.get a = some o) :
    a < h.size := by
  unfold Heap.get at hg
  unfold Heap.size
  by_contra hlt
  rw [List.getElem?_eq_none (by omega)] at hg
  simp at hg

theorem Heap.get_eq_of_cells {h h2 : Heap} {a : Nat} (hc : h2.cells[a]? = h.cells[a]?) :
    h2.get a = h.get a := by
  unfold Heap.get
  rw [hc]

theorem Heap.size_set (h : Heap) (a : Nat) (o : rpc_object) : (h.set a o).size = h.size := by
  simp [Heap.set, Heap.size]

theorem Heap.freed_set (h : Heap) (a : Nat) (o : rpc_object) : (h.set a o).freed = h.freed := rfl

theorem Heap.get_set_same {h : Heap} {a : Nat} (o : rpc_object) (hlt : a < h.size) :
    (h.set a o).get a = some o := by
  unfold Heap.size at hlt
  simp [Heap.set, Heap.get, List.getElem?_set, hlt]

theorem Heap.get_set_ne (h : Heap) {a x : Nat} (o : rpc_object) (hne : x ≠ a) :
    (h.set a o).get x = h.get x := by
  have hne2 : ¬ a = x := fun e => hne e.symm
  simp [Heap.set, Heap.get, List.getElem?_set, hne2]

theorem Heap.cells_set_ne (h : Heap) {a x : Nat} (o : rpc_object) (hne : x ≠ a) :
    (h.set a o).cells[x]? = h.cells[x]? := by
  have hne2 : ¬ a = x := fun e => hne e.symm
  simp [Heap.set, List.getElem?_set, hne2]

theorem Heap.size_alloc (h : Heap) (o : rpc_object) : (h.alloc o).1.size = h.size + 1 := by
  simp [Heap.alloc, Heap.size]

theorem Heap.alloc_snd (h : Heap) (o : rpc_object) : (h.alloc o).2 = h.size := rfl

theorem Heap.freed_alloc (h : Heap) (o : rpc_object) : (h.alloc o).1.freed = h.freed := rfl

theorem Heap.get_alloc_same (h : Heap) (o : rpc_object) : (h.alloc o).1.get h.size = some o := by
  simp [Heap.alloc, Heap.get, Heap.size]

theorem Heap.cells_alloc_lt (h : Heap) (o : rpc_object) {x : Nat} (hlt : x < h.size) :
    (h.alloc o).1.cells[x]? = h.cells[x]? := by
  unfold Heap.size at hlt
  simp [Heap.alloc, List.getElem?_append_left, hlt]

theorem Heap.get_alloc_ne (h : Heap) (o : rpc_object) {x : Nat} (hne : x ≠ h.size) :
    (h.alloc o).1.get x = h.get x := by
  unfold Heap.size at hne
  rcases Nat.lt_or_ge x h.cells.length with hlt | hge
  · simp [Heap.alloc, Heap.get, List.getElem?_append_left, hlt]
  · have h1 : h.cells.length < x := by omega
    simp [Heap.alloc, Heap.get]
    rw [List.getElem?_eq_none (by simp; omega), List.getElem?_eq_none (by omega)]

theorem Heap.size_free (h : Heap) (a : Nat) : (h.free a).size = h.size := by
  simp [Heap.free, Heap.size]

theorem Heap.get_free_same (h : Heap) (a : Nat) : (h.free a).get a = none := by
  unfold Heap.free Heap.get
  simp only [List.getElem?_set]
  split <;> simp_all

theorem Heap.get_free_ne (h : Heap) {a x : Nat} (hne : x ≠ a) : (h.free a).get x = h.get x := by
  have hne2 : ¬ a = x := fun e => hne e.symm
  simp [Heap.free, Heap.get, List.getElem?_set, hne2]

theorem Heap.cells_free_ne (h : Heap) {a x : Nat} (hne : x ≠ a) :
    (h.free a).cells[x]? = h.cells[x]? := by
  have hne2 : ¬ a = x := fun e => hne e.symm
  simp [Heap.free, List.getElem?_set, hne2]

theorem Heap.get_set (h : Heap) (a x : Nat) (o : rpc_object) :
    (h.set a o).get x = if x = a ∧ a < h.size then some o else h.get x := by
  by_cases hx : x = a
  · subst hx
    by_cases hlt : x < h.size
    · simp [Heap.get_set_same o hlt, hlt]
    · simp only [hlt, and_false, if_false]
      unfold Heap.size at hlt
      have hge : h.cells.length ≤ x := Nat.le_of_not_lt hlt
      simp only [Heap.set, Heap.get]
      rw [List.getElem?_eq_none (by simp; omega), List.getElem?_eq_none hge]
  · simp [Heap.get_set_ne h o hx, hx]

theorem Heap.get_alloc (h : Heap) (x : Nat) (o : rpc_object) :
    (h.alloc o).1.get x = if x = h.size then some o else h.get x := by
  by_cases hx : x = h.size
  · subst hx
    simp [Heap.get_alloc_same]
  · simp [Heap.get_alloc_ne h o hx, hx]

/-! ## Reference counting -/

theorem wrap_int32_id {x : Int} (h0 : -(2 ^ 31) ≤ x) (h1 : x < 2 ^ 31) : wrap_int32 x = x := by
  unfold wrap_int32
  omega

theorem wrap_int32_succ_pos {c : Int} (h0 : 0 < c) (h1 : c < 2 ^ 31)
    (hp : 0 < wrap_int32 (c + 1)) : c + 1 < 2 ^ 31 := by
  unfold wrap_int32 at hp
  omega

theorem release_leaf_keep {h : Heap} {v : Nat} {c : Int} {val : rpc_value} (fuel : Nat)
    (hg : h.get v = some ⟨c, val⟩) (hc : 1 < c) (hc2 : c < 2 ^ 31) :
    rpc_release_impl (fuel + 1) h v = some (h.set v ⟨c - 1, val⟩, c - 1) := by
  have hw : wrap_int32 (c - 1) = c - 1 := wrap_int32_id (by omega) (by omega)
  have hpos : 0 < c := by omega
  have hne : ¬ (c - 1 = 0) := by omega
  simp [rpc_release_impl, hg, hw, hpos, hne]

theorem release_leaf_free {h : Heap} {v : Nat} {val : rpc_value} (fuel : Nat)
    (hg : h.get v = some ⟨1, val⟩) (hleaf : val.children = []) :
    rpc_release_impl (fuel + 1) h v = some ((h.set v ⟨0, val⟩).free v, 0) := by
  have hw : wrap_int32 (1 - 1) = 0 := by decide
  have hlt := Heap.get_lt hg
  cases val <;>
    simp_all [rpc_release_impl, rpc_value.children, rpc_array_apply, Heap.get_set_same,
      apply_items, apply_entries]

theorem run_ref_ops_spec (fuel : Nat) (v : Nat) (val : rpc_value) (hleaf : val.children = []) :
    ∀ (ops : List ref_op) (h : Heap) (c : Int),
      h.get v = some ⟨c, val⟩ → 0 < c → c < 2 ^ 31 →
      (∀ k, k < ops.length → 0 < refcnt_after c (ops.take k)) →
      c + (ops.count .retain : Int) = (ops.count .release : Int) →
      ∃ h2 log, run_ref_ops (fuel + 1) h v ops = some (h2, log) ∧
        log.length = ops.count .release ∧
        (∀ j, j + 1 < ops.count .release →
          ∃ r, log[j]? = some ⟨r, h.freed, some ⟨r, val⟩⟩ ∧ 0 < r) ∧
        log[ops.count .release - 1]? = some ⟨0, h.freed ++ [v], none⟩ ∧
        h2.freed = h.freed ++ [v] ∧ h2.get v = none := by
  intro ops
  induction ops with
  | nil =>
    intro h c _ hc _ _ hcount
    simp at hcount
    omega
  | cons op rest ih =>
    intro h c hg hc hc2 hpos hcount
    have hlt := Heap.get_lt hg
    cases op with
    | retain =>
      simp only [List.count_cons_self, List.count_cons_of_ne (by decide : ref_op.release ≠ ref_op.retain)] at hcount ⊢
      have hne : rest ≠ [] := by
        rintro rfl
        simp at hcount
        omega
      have hl : 1 < (ref_op.retain :: rest).length := by
        cases rest with
        | nil => exact absurd rfl hne
        | cons _ _ => simp
      have h1 := hpos 1 hl
      simp [refcnt_after] at h1
      have hb := wrap_int32_succ_pos hc hc2 h1
      have hw : wrap_int32 (c + 1) = c + 1 := wrap_int32_id (by omega) hb
      have hg2 : (h.set v ⟨c + 1, val⟩).get v = some ⟨c + 1, val⟩ := Heap.get_set_same _ hlt
      have hpos2 : ∀ k, k < rest.length → 0 < refcnt_after (c + 1) (rest.take k) := by
        intro k hk
        have := hpos (k + 1) (by simp; omega)
        simpa [refcnt_after, hw] using this
      obtain ⟨h2, log, hrun, hlen, hfirst, hlast, hfreed, hgone⟩ :=
        ih (h.set v ⟨c + 1, val⟩) (c + 1) hg2 (by omega) hb hpos2 (by push_cast at hcount ⊢; omega)
      refine ⟨h2, log, ?_, hlen, ?_, ?_, ?_, hgone⟩
      · simp [run_ref_ops, rpc_retain, hg, hw, hrun]
      · simpa [Heap.freed_set] using hfirst
      · simpa [Heap.freed_set] using hlast
      · simpa [Heap.freed_set] using hfreed
    | release =>
      simp only [List.count_cons_self, List.count_cons_of_ne (by decide : ref_op.retain ≠ ref_op.release)] at hcount ⊢
      by_cases hne : rest = []
      · subst hne
        simp at hcount
        have hc1 : c = 1 := by omega
        subst hc1
        refine ⟨(h.set v ⟨0, val⟩).free v, [⟨0, h.freed ++ [v], none⟩], ?_, ?_, ?_, ?_, ?_, ?_⟩
        · simp [run_ref_ops, release_leaf_free fuel hg hleaf, Heap.get_free_same]
          simp [Heap.free, Heap.set]
        · simp
        · intro j hj
          simp at hj
        · simp
        · simp [Heap.free, Heap.set]
        · exact Heap.get_free_same _ _
      · have hl : 1 < (ref_op.release :: rest).length := by
          cases rest with
          | nil => exact absurd rfl hne
          | cons _ _ => simp
        have h1 := hpos 1 hl
        simp [refcnt_after] at h1
        have hw : wrap_int32 (c - 1) = c - 1 := wrap_int32_id (by omega) (by omega)
        rw [hw] at h1
        have hg2 : (h.set v ⟨c - 1, val⟩).get v = some ⟨c - 1, val⟩ := Heap.get_set_same _ hlt
        have hpos2 : ∀ k, k < rest.length → 0 < refcnt_after (c - 1) (rest.take k) := by
          intro k hk
          have := hpos (k + 1) (by simp; omega)
          simpa [refcnt_after, hw] using this
        obtain ⟨h2, log, hrun, hlen, hfirst, hlast, hfreed, hgone⟩ :=
          ih (h.set v ⟨c - 1, val⟩) (c - 1) hg2 (by omega) (by omega) hpos2
            (by push_cast at hcount ⊢; omega)
        have hcpos : 0 < rest.count ref_op.release := by
          have : (0 : Int) < (rest.count ref_op.release : Int) := by
            push_cast at hcount
            have := Int.natCast_nonneg (rest.count ref_op.retain)
            omega
          exact_mod_cast this
        refine ⟨h2, ⟨c - 1, h.freed, some ⟨c - 1, val⟩⟩ :: log, ?_, ?_, ?_, ?_, ?_, hgone⟩
        · simp [run_ref_ops, release_leaf_keep fuel hg (by omega : 1 < c) hc2, hrun, hg2,
            Heap.freed_set]
        · simp [hlen]
        · intro j hj
          cases j with
          | zero => exact ⟨c - 1, by simp, h1⟩
          | succ j =>
            obtain ⟨r, hr, hr0⟩ := hfirst j (by omega)
            exact ⟨r, by simpa [Heap.freed_set] using hr, hr0⟩
        · have : rest.count ref_op.release + 1 - 1 = (rest.count ref_op.release - 1) + 1 := by
            omega
          rw [this]
          simpa [Heap.freed_set] using hlast
        · simpa [Heap.freed_set] using hfreed

/-- C4: a freshly created value has reference count 1; after N retains and
N+1 releases, in any order that keeps the count positive before the last
release, each of the first N releases returns the positive remaining count
(the count then stored in the object) and frees nothing, and the last one
returns 0 and frees the object, which is the only free that happens. -/
theorem C4_release_frees_exactly_once (h : Heap) (val : rpc_value)
    (hleaf : val.children = []) (fuel N : Nat) (ops : List ref_op)
    (hret : ops.count .retain = N) (hrel : ops.count .release = N + 1)
    (hpos : ∀ k, k < ops.length → 0 < refcnt_after 1 (ops.take k)) :
    ∃ h2 log,
      run_ref_ops (fuel + 1) (rpc_prim_create h val).1 (rpc_prim_create h val).2 ops
        = some (h2, log) ∧
      log.length = N + 1 ∧
      (∀ j, j < N → ∃ r, log[j]? = some ⟨r, h.freed, some ⟨r, val⟩⟩ ∧ 0 < r) ∧
      log[N]? = some ⟨0, h.freed ++ [(rpc_prim_create h val).2], none⟩ ∧
      h2.freed = h.freed ++ [(rpc_prim_create h val).2] ∧
      h2.get (rpc_prim_create h val).2 = none := by
  have hg : (rpc_prim_create h val).1.get (rpc_prim_create h val).2 = some ⟨1, val⟩ :=
    Heap.get_alloc_same h _
  obtain ⟨h2, log, hrun, hlen, hfirst, hlast, hfreed, hgone⟩ :=
    run_ref_ops_spec fuel (rpc_prim_create h val).2 val hleaf ops (rpc_prim_create h val).1 1 hg
      (by decide) (by decide) hpos (by rw [hret, hrel]; push_cast; omega)
  refine ⟨h2, log, hrun, by rw [hlen, hrel], ?_, ?_, hfreed, hgone⟩
  · intro j hj
    exact hfirst j (by omega)
  · rw [hrel] at hlast
    exact hlast

/-- C4 at a concrete input: an Int64 value, retained twice and released
three times, the steps interleaved. -/
theorem C4_release_frees_exactly_once_witness :
    ∃ h2 log,
      run_ref_ops 1 (rpc_prim_create Heap.empty (.rv_i 7)).1
        (rpc_prim_create Heap.empty (.rv_i 7)).2
        [.retain, .release, .retain, .release, .release] = some (h2, log) ∧
      log.length = 2 + 1 ∧
      (∀ j, j < 2 → ∃ r, log[j]? = some ⟨r, Heap.empty.freed, some ⟨r, .rv_i 7⟩⟩ ∧ 0 < r) ∧
      log[2]? = some ⟨0, Heap.empty.freed ++ [(rpc_prim_create Heap.empty (.rv_i 7)).2], none⟩ ∧
      h2.freed = Heap.empty.freed ++ [(rpc_prim_create Heap.empty (.rv_i 7)).2] ∧
      h2.get (rpc_prim_create Heap.empty (.rv_i 7)).2 = none :=
  C4_release_frees_exactly_once Heap.empty (.rv_i 7) rfl 0 2
    [.retain, .release, .retain, .release, .release] (by decide) (by decide) (by decide)

/-! ## Dispatch of inbound frames to the outbound-call handlers -/

theorem dispatch_to_handler (fuel : Nat) (st : State) (frame id : Nat) (ns name : String)
    (args : Option Nat) (hd : message_handler)
    (hid : rpc_dictionary_get_value st.heap frame "id" = some (some id))
    (hns : rpc_dictionary_get_string st.heap frame "namespace" = some (some ns))
    (hname : rpc_dictionary_get_string st.heap frame "name" = some (some name))
    (hargs : rpc_dictionary_get_value st.heap frame "args" = some args)
    (hfind : handlers.find? (fun hd => hd.ns = ns ∧ hd.name = name) = some hd) :
    rpc_connection_dispatch fuel st frame =
      hd.handler.run fuel { st with handled := st.handled ++ [⟨hd.ns, hd.name, args, id⟩] }
        args id := by
  simp only [rpc_connection_dispatch, hid, hns, hname, hargs, hfind]

/-- C5: for an outbound call that is in the outbound-call table and in state
InProgress, dispatching an inbound frame that carries its id gives:
`rpc/response`: status Done, result = the frame's args; `rpc/fragment` (args a
dictionary with a `seqno` object and a `fragment`): status MoreAvailable,
result = the fragment, and as seqno what `rpc_uint64_get_value` reads from
the `seqno` object: the frame's seqno when that object is a UInt64, and 0
when it is an Int64, as it is in the frames `rpc_connection_send_fragment`
builds; `rpc/end`: status Done and no result; `rpc/error`: status Error,
result = the frame's args. The other fields of the call and the other calls
are as before. -/
theorem C5_inbound_frame_moves_call (fuel : Nat) (st : State) (frame id call : Nat)
    (name key : String) (args : Option Nat) (o : rpc_object) (c : rpc_call)
    (hid : rpc_dictionary_get_value st.heap frame "id" = some (some id))
    (hns : rpc_dictionary_get_string st.heap frame "namespace" = some (some "rpc"))
    (hname : rpc_dictionary_get_string st.heap frame "name" = some (some name))
    (hargs : rpc_dictionary_get_value st.heap frame "args" = some args)
    (ho : st.heap.get id = some o) (hkey : rpc_string_get_string_ptr o = some key)
    (htab : st.rco_calls.lookup key = some call)
    (hcall : st.calls[call]? = some (some c))
    (_hstat : c.rc_status = .RPC_CALL_IN_PROGRESS) :
    (name = "response" →
      ∃ st1, rpc_connection_dispatch fuel st frame = some st1 ∧
        st1.calls = st.calls.set call
          (some { c with rc_status := .RPC_CALL_DONE, rc_result := args })) ∧
    (name = "fragment" →
      ∀ (a sobj : Nat) (so : rpc_object) (p : Option Nat), args = some a →
        rpc_dictionary_get_value st.heap a "seqno" = some (some sobj) →
        st.heap.get sobj = some so →
        rpc_dictionary_get_value st.heap a "fragment" = some p →
        (∃ st1, rpc_connection_dispatch fuel st frame = some st1 ∧
          st1.calls = st.calls.set call
            (some { c with rc_status := .RPC_CALL_MORE_AVAILABLE, rc_result := p,
                           rc_seqno := rpc_uint64_get_value so })) ∧
        (∀ s, so.ro_value = .rv_ui s → rpc_uint64_get_value so = s) ∧
        (∀ s, so.ro_value = .rv_i s → rpc_uint64_get_value so = 0)) ∧
    (name = "end" →
      ∃ st1, rpc_connection_dispatch fuel st frame = some st1 ∧
        st1.calls = st.calls.set call
          (some { c with rc_status := .RPC_CALL_DONE, rc_result := none })) ∧
    (name = "error" →
      ∃ st1, rpc_connection_dispatch fuel st frame = some st1 ∧
        st1.calls = st.calls.set call
          (some { c with rc_status := .RPC_CALL_ERROR, rc_result := args })) := by
  refine ⟨?_, ?_, ?_, ?_⟩
  · intro hn
    subst hn
    rw [dispatch_to_handler fuel st frame id "rpc" "response" args
      ⟨"rpc", "response", .on_rpc_response⟩ hid hns hname hargs (by decide)]
    simp [handler_fn.run, on_rpc_response, lookup_call, update_call, ho, hkey, htab, hcall]
  · intro hn a sobj so p ha hs hsobj hp
    subst hn
    refine ⟨?_, ?_, ?_⟩
    · rw [dispatch_to_handler fuel st frame id "rpc" "fragment" args
        ⟨"rpc", "fragment", .on_rpc_fragment⟩ hid hns hname hargs (by decide)]
      simp [handler_fn.run, on_rpc_fragment, lookup_call, update_call, ho, hkey, htab, hcall,
        ha, rpc_dictionary_get_uint64, hs, hsobj, hp]
    · intro s hv
      simp [rpc_uint64_get_value, hv]
    · intro s hv
      simp [rpc_uint64_get_value, hv]
  · intro hn
    subst hn
    rw [dispatch_to_handler fuel st frame id "rpc" "end" args
      ⟨"rpc", "end", .on_rpc_end⟩ hid hns hname hargs (by decide)]
    simp [handler_fn.run, on_rpc_end, lookup_call, update_call, ho, hkey, htab, hcall]
  · intro hn
    subst hn
    rw [dispatch_to_handler fuel st frame id "rpc" "error" args
      ⟨"rpc", "error", .on_rpc_error⟩ hid hns hname hargs (by decide)]
    simp [handler_fn.run, on_rpc_error, lookup_call, update_call, ho, hkey, htab, hcall]

/-- C5 at concrete inputs: the four frames of `ex_heap` dispatched on
`ex_state`, whose call `"id-1"` is in progress and whose fragment frame has a
UInt64 seqno 1; and the fragment frame of `ex_int_seqno_state`, whose seqno
is the Int64 5 and is recorded as 0. -/
theorem C5_inbound_frame_moves_call_witness :
    (∃ st1, rpc_connection_dispatch 1 ex_state 4 = some st1 ∧
      st1.calls = [some { ex_call with rc_status := .RPC_CALL_DONE, rc_result := some 3 }]) ∧
    (∃ st1, rpc_connection_dispatch 1 ex_state 9 = some st1 ∧
      st1.calls = [some { ex_call with rc_status := .RPC_CALL_MORE_AVAILABLE,
                                       rc_result := some 7, rc_seqno := 1 }]) ∧
    (∃ st1, rpc_connection_dispatch 1 ex_state 11 = some st1 ∧
      st1.calls = [some { ex_call with rc_status := .RPC_CALL_DONE, rc_result := none }]) ∧
    (∃ st1, rpc_connection_dispatch 1 ex_state 16 = some st1 ∧
      st1.calls = [some { ex_call with rc_status := .RPC_CALL_ERROR, rc_result := some 13 }]) ∧
    (∃ st1, rpc_connection_dispatch 1 ex_int_seqno_state 6 = some st1 ∧
      st1.calls = [some { ex_call with rc_status := .RPC_CALL_MORE_AVAILABLE,
                                       rc_result := some 4, rc_seqno := 0 }]) ∧
    ex_int_seqno_heap.get 3 = some ⟨1, .rv_i 5⟩ :=
  ⟨(C5_inbound_frame_moves_call 1 ex_state 4 0 0 "response" "id-1" (some 3)
      ⟨1, .rv_str "id-1"⟩ ex_call (by decide) (by decide) (by decide) (by decide) (by decide)
      (by decide) (by decide) (by decide) (by decide)).1 rfl,
   ((C5_inbound_frame_moves_call 1 ex_state 9 0 0 "fragment" "id-1" (some 8)
      ⟨1, .rv_str "id-1"⟩ ex_call (by decide) (by decide) (by decide) (by decide) (by decide)
      (by decide) (by decide) (by decide) (by decide)).2.1 rfl 8 6 ⟨1, .rv_ui 1⟩ (some 7) rfl
      (by decide) (by decide) (by decide)).1,
   (C5_inbound_frame_moves_call 1 ex_state 11 0 0 "end" "id-1" none
      ⟨1, .rv_str "id-1"⟩ ex_call (by decide) (by decide) (by decide) (by decide) (by decide)
      (by decide) (by decide) (by decide) (by decide)).2.2.1 rfl,
   (C5_inbound_frame_moves_call 1 ex_state 16 0 0 "error" "id-1" (some 13)
      ⟨1, .rv_str "id-1"⟩ ex_call (by decide) (by decide) (by decide) (by decide) (by decide)
      (by decide) (by decide) (by decide) (by decide)).2.2.2 rfl,
   ((C5_inbound_frame_moves_call 1 ex_int_seqno_state 6 0 0 "fragment" "id-1" (some 5)
      ⟨1, .rv_str "id-1"⟩ ex_call (by decide) (by decide) (by decide) (by decide) (by decide)
      (by decide) (by decide) (by decide) (by decide)).2.1 rfl 5 3 ⟨1, .rv_i 5⟩ (some 4) rfl
      (by decide) (by decide) (by decide)).1,
   by decide⟩

/-! ## Timeout -/

/-- The callback `rpc_call_timeout` sets Error and a new payload
`{code: ETIMEDOUT, message}` on the call, whatever its status is. -/
theorem rpc_call_timeout_spec (fuel : Nat) (st : State) (call : Nat) (c : rpc_call)
    (hcall : st.calls[call]? = some (some c)) :
    ∃ h3, rpc_call_timeout fuel st call =
        some ({ st with
          heap := h3,
          calls := st.calls.set call
            (some { c with rc_status := .RPC_CALL_ERROR, rc_result := some st.heap.size }) },
          false) ∧
      toTree 2 h3 st.heap.size =
        some (.dictionary [("code", .uint64 ETIMEDOUT), ("message", .string "Call timed out")]) ∧
      rpc_dictionary_get_uint64 h3 st.heap.size "code" = some ETIMEDOUT := by
  simp +arith [rpc_call_timeout, hcall, rpc_dictionary_set_uint64, rpc_dictionary_set_string,
    rpc_dictionary_create, rpc_uint64_create, rpc_string_create, rpc_prim_create,
    rpc_dictionary_steal_value, Heap.get_set, Heap.get_alloc, Heap.alloc_snd, Heap.size_alloc,
    Heap.size_set, entries_insert, List.lookup, toTree, mapOpt, rpc_dictionary_get_uint64,
    rpc_dictionary_get_value, rpc_uint64_get_value]

/-- C9: when the timeout source of a call that is still InProgress fires, the
call gets status Error and as result a new dictionary `{code: ETIMEDOUT,
message: "Call timed out"}`; the callback returns `false` and the source is
no longer attached afterwards, so the timer does not fire again. -/
theorem C9_timeout_sets_error (fuel : Nat) (st : State) (call : Nat) (c : rpc_call)
    (hcall : st.calls[call]? = some (some c))
    (_hstat : c.rc_status = .RPC_CALL_IN_PROGRESS)
    (hsrc : call ∈ st.sources) :
    ∃ st1 d,
      g_timeout_dispatch fuel st call = some st1 ∧
      (rpc_call_timeout fuel st call).map Prod.snd = some false ∧
      st1.calls[call]? =
        some (some { c with rc_status := .RPC_CALL_ERROR, rc_result := some d }) ∧
      rpc_call_status_t.terminal .RPC_CALL_ERROR = true ∧
      toTree 2 st1.heap d =
        some (.dictionary [("code", .uint64 ETIMEDOUT), ("message", .string "Call timed out")]) ∧
      rpc_dictionary_get_uint64 st1.heap d "code" = some ETIMEDOUT ∧
      call ∉ st1.sources := by
  obtain ⟨h3, hrun, htree, hcode⟩ := rpc_call_timeout_spec fuel st call c hcall
  have hlt : call < st.calls.length := by
    by_contra hge
    rw [List.getElem?_eq_none (by omega)] at hcall
    exact absurd hcall (by simp)
  refine ⟨{ st with
      heap := h3,
      calls := st.calls.set call
        (some { c with rc_status := .RPC_CALL_ERROR, rc_result := some st.heap.size }),
      sources := st.sources.filter (fun x => x ≠ call) }, st.heap.size, ?_, ?_, ?_, rfl, ?_, ?_, ?_⟩
  · simp only [g_timeout_dispatch, hsrc, if_true, hrun]
    rfl
  · rw [hrun]
    rfl
  · simp [List.getElem?_set, hlt]
  · exact htree
  · exact hcode
  · simp

/-- C9 at a concrete input: the timeout of the pending call of `ex_state`. -/
theorem C9_timeout_sets_error_witness :
    ∃ st1 d,
      g_timeout_dispatch 1 ex_state 0 = some st1 ∧
      (rpc_call_timeout 1 ex_state 0).map Prod.snd = some false ∧
      st1.calls[0]? =
        some (some { ex_call with rc_status := .RPC_CALL_ERROR, rc_result := some d }) ∧
      rpc_call_status_t.terminal .RPC_CALL_ERROR = true ∧
      toTree 2 st1.heap d =
        some (.dictionary [("code", .uint64 ETIMEDOUT), ("message", .string "Call timed out")]) ∧
      rpc_dictionary_get_uint64 st1.heap d "code" = some ETIMEDOUT ∧
      0 ∉ st1.sources :=
  C9_timeout_sets_error 1 ex_state 0 ex_call (by decide) (by decide) (by decide)

/-! ## Terminal calls -/

/-- C6, counterexample: the call of `ex_state` reaches Done by an
`rpc/response` frame; a late `rpc/error` frame for its id then turns it into
Error with another result, and so does its timeout source, which is still
attached and fires. -/
theorem C6_counterexample :
    (rpc_connection_dispatch 1 ex_state 4).bind (fun s => rpc_call_status s 0)
      = some .RPC_CALL_DONE ∧
    (rpc_connection_dispatch 1 ex_state 4).bind (fun s => rpc_call_result s 0)
      = some (some 3) ∧
    ((rpc_connection_dispatch 1 ex_state 4).bind (fun s => rpc_connection_dispatch 1 s 16)).bind
      (fun s => rpc_call_status s 0) = some .RPC_CALL_ERROR ∧
    ((rpc_connection_dispatch 1 ex_state 4).bind (fun s => rpc_connection_dispatch 1 s 16)).bind
      (fun s => rpc_call_result s 0) = some (some 13) ∧
    (rpc_connection_dispatch 1 ex_state 4).map (fun s => s.sources) = some [0] ∧
    ((rpc_connection_dispatch 1 ex_state 4).bind (fun s => g_timeout_dispatch 1 s 0)).bind
      (fun s => rpc_call_status s 0) = some .RPC_CALL_ERROR ∧
    ((rpc_connection_dispatch 1 ex_state 4).bind (fun s => g_timeout_dispatch 1 s 0)).bind
      (fun s => rpc_call_result s 0) = some (some 19) := by
  decide

/-- C6, amended: for a call in a terminal state, a late `rpc/response`,
`rpc/fragment`, `rpc/end` or `rpc/error` frame is dropped (no call changes)
when its id is not in the outbound-call table; when the id is still in the
table the frame is applied as on a call in progress (`rpc/response` gives
Done with the frame's args, `rpc/error` gives Error with the frame's args) and
leaves the timeout source attached; and the timeout source, when attached
and fired, gives Error with a new timeout payload. -/
theorem C6_terminal_call_amended (fuel : Nat) (st : State) (frame id call : Nat)
    (name key : String) (args : Option Nat) (o : rpc_object) (c : rpc_call)
    (hid : rpc_dictionary_get_value st.heap frame "id" = some (some id))
    (hns : rpc_dictionary_get_string st.heap frame "namespace" = some (some "rpc"))
    (hname : rpc_dictionary_get_string st.heap frame "name" = some (some name))
    (hargs : rpc_dictionary_get_value st.heap frame "args" = some args)
    (ho : st.heap.get id = some o) (hkey : rpc_string_get_string_ptr o = some key)
    (hcall : st.calls[call]? = some (some c))
    (_hterm : c.rc_status.terminal = true) :
    (st.rco_calls.lookup key = none → name ∈ ["response", "fragment", "end", "error"] →
      ∃ st1, rpc_connection_dispatch fuel st frame = some st1 ∧ st1.calls = st.calls) ∧
    (st.rco_calls.lookup key = some call → name = "response" →
      ∃ st1, rpc_connection_dispatch fuel st frame = some st1 ∧
        st1.calls = st.calls.set call
          (some { c with rc_status := .RPC_CALL_DONE, rc_result := args }) ∧
        st1.sources = st.sources) ∧
    (st.rco_calls.lookup key = some call → name = "error" →
      ∃ st1, rpc_connection_dispatch fuel st frame = some st1 ∧
        st1.calls = st.calls.set call
          (some { c with rc_status := .RPC_CALL_ERROR, rc_result := args }) ∧
        st1.sources = st.sources) ∧
    (call ∈ st.sources →
      ∃ st1 d, g_timeout_dispatch fuel st call = some st1 ∧
        st1.calls[call]? =
          some (some { c with rc_status := .RPC_CALL_ERROR, rc_result := some d }) ∧
        toTree 2 st1.heap d =
          some (.dictionary
            [("code", .uint64 ETIMEDOUT), ("message", .string "Call timed out")])) := by
  refine ⟨?_, ?_, ?_, ?_⟩
  · intro hnone hmem
    simp only [List.mem_cons, List.mem_singleton, List.not_mem_nil, or_false] at hmem
    rcases hmem with hn | hn | hn | hn <;> subst hn
    · rw [dispatch_to_handler fuel st frame id "rpc" "response" args
        ⟨"rpc", "response", .on_rpc_response⟩ hid hns hname hargs (by decide)]
      simp [handler_fn.run, on_rpc_response, lookup_call, ho, hkey, hnone]
    · rw [dispatch_to_handler fuel st frame id "rpc" "fragment" args
        ⟨"rpc", "fragment", .on_rpc_fragment⟩ hid hns hname hargs (by decide)]
      simp [handler_fn.run, on_rpc_fragment, lookup_call, ho, hkey, hnone]
    · rw [dispatch_to_handler fuel st frame id "rpc" "end" args
        ⟨"rpc", "end", .on_rpc_end⟩ hid hns hname hargs (by decide)]
      simp [handler_fn.run, on_rpc_end, lookup_call, ho, hkey, hnone]
    · rw [dispatch_to_handler fuel st frame id "rpc" "error" args
        ⟨"rpc", "error", .on_rpc_error⟩ hid hns hname hargs (by decide)]
      simp [handler_fn.run, on_rpc_error, lookup_call, ho, hkey, hnone]
  · intro htab hn
    subst hn
    rw [dispatch_to_handler fuel st frame id "rpc" "response" args
      ⟨"rpc", "response", .on_rpc_response⟩ hid hns hname hargs (by decide)]
    simp [handler_fn.run, on_rpc_response, lookup_call, update_call, ho, hkey, htab, hcall]
  · intro htab hn
    subst hn
    rw [dispatch_to_handler fuel st frame id "rpc" "error" args
      ⟨"rpc", "error", .on_rpc_error⟩ hid hns hname hargs (by decide)]
    simp [handler_fn.run, on_rpc_error, lookup_call, update_call, ho, hkey, htab, hcall]
  · intro hsrc
    obtain ⟨h3, hrun, htree, _⟩ := rpc_call_timeout_spec fuel st call c hcall
    have hlt : call < st.calls.length := by
      by_contra hge
      rw [List.getElem?_eq_none (by omega)] at hcall
      exact absurd hcall (by simp)
    refine ⟨{ st with
        heap := h3,
        calls := st.calls.set call
          (some { c with rc_status := .RPC_CALL_ERROR, rc_result := some st.heap.size }),
        sources := st.sources.filter (fun x => x ≠ call) }, st.heap.size, ?_, ?_, htree⟩
    · simp only [g_timeout_dispatch, hsrc, if_true, hrun]
      rfl
    · simp [List.getElem?_set, hlt]

/-- C6, amended, at concrete inputs: on `ex_state_unlisted` the late
`rpc/error` frame is dropped; on `ex_state_done` the late `rpc/error` frame
and the timeout both overwrite the completed call. -/
theorem C6_terminal_call_amended_witness :
    (∃ st1, rpc_connection_dispatch 1 ex_state_unlisted 16 = some st1 ∧
      st1.calls = ex_state_unlisted.calls) ∧
    (∃ st1, rpc_connection_dispatch 1 ex_state_done 16 = some st1 ∧
      st1.calls = [some { ex_call with rc_status := .RPC_CALL_ERROR, rc_result := some 13 }] ∧
      st1.sources = [0]) ∧
    (∃ st1 d, g_timeout_dispatch 1 ex_state_done 0 = some st1 ∧
      st1.calls[0]? =
        some (some { ex_call with rc_status := .RPC_CALL_ERROR, rc_result := some d }) ∧
      toTree 2 st1.heap d =
        some (.dictionary
          [("code", .uint64 ETIMEDOUT), ("message", .string "Call timed out")])) :=
  ⟨(C6_terminal_call_amended 1 ex_state_unlisted 16 0 0 "error" "id-1" (some 13)
      ⟨1, .rv_str "id-1"⟩ _ (by decide) (by decide) (by decide) (by decide) (by decide)
      (by decide) (by decide : ex_state_unlisted.calls[0]? = some (some
        { ex_call with rc_status := .RPC_CALL_DONE, rc_result := some 3 })) (by decide)).1
      (by decide) (by decide),
   (C6_terminal_call_amended 1 ex_state_done 16 0 0 "error" "id-1" (some 13)
      ⟨1, .rv_str "id-1"⟩ _ (by decide) (by decide) (by decide) (by decide) (by decide)
      (by decide) (by decide : ex_state_done.calls[0]? = some (some
        { ex_call with rc_status := .RPC_CALL_DONE, rc_result := some 3 })) (by decide)).2.2.1
      (by decide) rfl,
   (C6_terminal_call_amended 1 ex_state_done 16 0 0 "error" "id-1" (some 13)
      ⟨1, .rv_str "id-1"⟩ _ (by decide) (by decide) (by decide) (by decide) (by decide)
      (by decide) (by decide : ex_state_done.calls[0]? = some (some
        { ex_call with rc_status := .RPC_CALL_DONE, rc_result := some 3 })) (by decide)).2.2.2
      (by decide)⟩

/-! ## Abort -/

/-- C8, counterexample: the `rpc/abort` frame for the pending call of
`ex_state` reaches the handler `on_rpc_abort`, and the call is still
InProgress afterwards, not Aborted. -/
theorem C8_counterexample :
    (rpc_connection_dispatch 1 ex_state 18).map (fun s => s.handled)
      = some [⟨"rpc", "abort", none, 0⟩] ∧
    (rpc_connection_dispatch 1 ex_state 18).bind (fun s => rpc_call_status s 0)
      = some .RPC_CALL_IN_PROGRESS ∧
    rpc_call_status_t.RPC_CALL_IN_PROGRESS ≠ rpc_call_status_t.RPC_CALL_ABORTED := by
  decide

/-- C8, amended: an inbound `rpc/abort` frame is routed to `on_rpc_abort`,
which looks the id up and changes nothing: every call keeps its status and
result, the tables, the heap and the sent messages are as before. -/
theorem C8_inbound_abort_changes_nothing (fuel : Nat) (st : State) (frame id : Nat)
    (key : String) (args : Option Nat) (o : rpc_object)
    (hid : rpc_dictionary_get_value st.heap frame "id" = some (some id))
    (hns : rpc_dictionary_get_string st.heap frame "namespace" = some (some "rpc"))
    (hname : rpc_dictionary_get_string st.heap frame "name" = some (some "abort"))
    (hargs : rpc_dictionary_get_value st.heap frame "args" = some args)
    (ho : st.heap.get id = some o) (hkey : rpc_string_get_string_ptr o = some key) :
    ∃ st1, rpc_connection_dispatch fuel st frame = some st1 ∧
      st1.handled = st.handled ++ [⟨"rpc", "abort", args, id⟩] ∧
      st1.calls = st.calls ∧ st1.rco_calls = st.rco_calls ∧
      st1.rco_inbound_calls = st.rco_inbound_calls ∧ st1.heap = st.heap ∧
      st1.sent = st.sent ∧ st1.sources = st.sources := by
  rw [dispatch_to_handler fuel st frame id "rpc" "abort" args
    ⟨"rpc", "abort", .on_rpc_abort⟩ hid hns hname hargs (by decide)]
  cases hl : st.rco_calls.lookup key <;>
    simp [handler_fn.run, on_rpc_abort, lookup_call, ho, hkey, hl]

/-- C8, amended, at a concrete input: the `rpc/abort` frame of `ex_heap`. -/
theorem C8_inbound_abort_changes_nothing_witness :
    ∃ st1, rpc_connection_dispatch 1 ex_state 18 = some st1 ∧
      st1.handled = ex_state.handled ++ [⟨"rpc", "abort", none, 0⟩] ∧
      st1.calls = ex_state.calls ∧ st1.rco_calls = ex_state.rco_calls ∧
      st1.rco_inbound_calls = ex_state.rco_inbound_calls ∧ st1.heap = ex_state.heap ∧
      st1.sent = ex_state.sent ∧ st1.sources = ex_state.sources :=
  C8_inbound_abort_changes_nothing 1 ex_state 18 0 "id-1" none ⟨1, .rv_str "id-1"⟩
    (by decide) (by decide) (by decide) (by decide) (by decide) (by decide)

/-! ## Hash and equality -/

theorem mapOpt_cons_some {α β : Type} {f : α → Option β} {a : α} {rest : List α} {bs : List β}
    (h : mapOpt f (a :: rest) = some bs) :
    ∃ b bs1, f a = some b ∧ mapOpt f rest = some bs1 ∧ bs = b :: bs1 := by
  simp only [mapOpt] at h
  cases hfa : f a with
  | none => simp [hfa] at h
  | some b =>
    cases hr : mapOpt f rest with
    | none => simp [hfa, hr] at h
    | some bs1 =>
      simp [hfa, hr] at h
      exact ⟨b, bs1, rfl, rfl, h.symm⟩

theorem hash_entries_of_trees (n : Nat) (h : Heap)
    (ih : ∀ a t, toTree n h a = some t → rpc_hash n h a = some (Tree.hash t)) :
    ∀ (entries : List (String × Nat)) (ts : List (String × Tree)) (acc : Nat),
      mapOpt (fun e => (toTree n h e.2).map (fun t => (e.1, t))) entries = some ts →
      apply_entries
        (fun k v (hash : Nat) =>
          (rpc_hash n h v).map (fun hv => ((hash ^^^ rpc_data_hash (c_bytes k)) ^^^ hv, true)))
        entries acc = some (Tree.hashEntries acc ts, true) := by
  intro entries
  induction entries with
  | nil =>
    intro ts acc hm
    simp [mapOpt] at hm
    subst hm
    simp [apply_entries, Tree.hashEntries]
  | cons e rest ihl =>
    intro ts acc hm
    obtain ⟨b, bs1, hb, hrest, rfl⟩ := mapOpt_cons_some hm
    obtain ⟨k, v⟩ := e
    cases ht : toTree n h v with
    | none => simp [ht] at hb
    | some t =>
      simp [ht] at hb
      subst hb
      simp [apply_entries, ih v t ht, Tree.hashEntries, ihl bs1 _ hrest]

theorem hash_items_of_trees (n : Nat) (h : Heap)
    (ih : ∀ a t, toTree n h a = some t → rpc_hash n h a = some (Tree.hash t)) :
    ∀ (items : List Nat) (ts : List Tree) (acc i : Nat),
      mapOpt (toTree n h) items = some ts →
      apply_items
        (fun _ v (hash : Nat) => (rpc_hash n h v).map (fun hv => (hash ^^^ hv, true)))
        items i acc = some (Tree.hashItems acc ts, false) := by
  intro items
  induction items with
  | nil =>
    intro ts acc i hm
    simp [mapOpt] at hm
    subst hm
    simp [apply_items, Tree.hashItems]
  | cons v rest ihl =>
    intro ts acc i hm
    obtain ⟨t, bs1, hb, hrest, rfl⟩ := mapOpt_cons_some hm
    simp [apply_items, ih v t hb, Tree.hashItems, ihl bs1 _ _ hrest]

theorem hash_of_tree : ∀ (n : Nat) (h : Heap) (a : Nat) (t : Tree),
    toTree n h a = some t → rpc_hash n h a = some (Tree.hash t) := by
  intro n
  induction n with
  | zero => intro h a t ht; simp [toTree] at ht
  | succ n ih =>
    intro h a t ht
    unfold toTree at ht
    unfold rpc_hash
    cases hg : h.get a with
    | none => simp [hg] at ht
    | some o =>
      obtain ⟨rc, val⟩ := o
      simp only [hg] at ht ⊢
      cases val with
      | rv_dict entries =>
        simp only at ht ⊢
        split at ht
        · cases hm : mapOpt (fun e => (toTree n h e.2).map (fun t => (e.1, t))) entries with
          | none => simp [hm] at ht
          | some ts =>
            simp [hm] at ht
            subst ht
            simp [rpc_dictionary_apply, hg, hash_entries_of_trees n h (ih h) entries ts 0 hm,
              Tree.hash]
        · simp at ht
      | rv_list items =>
        simp only at ht ⊢
        cases hm : mapOpt (toTree n h) items with
        | none => simp [hm] at ht
        | some ts =>
          simp [hm] at ht
          subst ht
          simp [rpc_array_apply, hg, hash_items_of_trees n h (ih h) items ts 0 0 hm, Tree.hash]
      | _ =>
        simp at ht
        subst ht
        simp [Tree.hash, rpc_date_get_value]

/-- C1, counterexample: `rpc_equal` holds between Null and Bool false, which
differ in kind (both hash to 0), and between the arrays `[1, 2]` and `[3]`,
which differ in length and content (both hash to 3). -/
theorem C1_counterexample :
    rpc_equal 2 ex_values 0 1 = some true ∧
    rpc_get_type ex_values 0 = some .RPC_TYPE_NULL ∧
    rpc_get_type ex_values 1 = some .RPC_TYPE_BOOL ∧
    rpc_equal 2 ex_values 5 6 = some true ∧
    rpc_array_get_count ex_values 5 = some 2 ∧
    rpc_array_get_count ex_values 6 = some 1 := by
  decide

/-- C1, amended: `rpc_equal(a, b)` is true exactly when `rpc_hash(a)` and
`rpc_hash(b)` are the same number. Structurally equal values (same tree
`toTree`) have the same hash and are therefore `rpc_equal`; the converse
does not hold. -/
theorem C1_equal_iff_same_hash (n : Nat) (h : Heap) (a b : Nat) :
    (rpc_equal n h a b = some true ↔
      ∃ x, rpc_hash n h a = some x ∧ rpc_hash n h b = some x) ∧
    (∀ x y, rpc_hash n h a = some x → rpc_hash n h b = some y →
      rpc_equal n h a b = some (decide (x = y))) ∧
    (∀ t, toTree n h a = some t → toTree n h b = some t →
      rpc_equal n h a b = some true ∧ rpc_hash n h a = rpc_hash n h b) := by
  refine ⟨?_, ?_, ?_⟩
  · unfold rpc_equal
    cases ha : rpc_hash n h a with
    | none => simp
    | some x =>
      cases hb : rpc_hash n h b with
      | none => simp
      | some y =>
        simp only [Option.some.injEq, decide_eq_true_eq]
        constructor
        · intro hxy
          exact ⟨x, rfl, hxy.symm⟩
        · rintro ⟨z, rfl, rfl⟩
          rfl
  · intro x y ha hb
    simp [rpc_equal, ha, hb]
  · intro t hta htb
    have ha := hash_of_tree n h a t hta
    have hb := hash_of_tree n h b t htb
    simp [rpc_equal, ha, hb]

/-- C1, amended, at a concrete input: the Int64 1 of `ex_values` compared
with itself. -/
theorem C1_equal_iff_same_hash_witness :
    rpc_equal 1 ex_values 2 2 = some true ∧ rpc_hash 1 ex_values 2 = rpc_hash 1 ex_values 2 :=
  (C1_equal_iff_same_hash 1 ex_values 2 2).2.2 (.int64 1) rfl rfl

/-! ## Deep copy -/

theorem mapOpt_imp {α β : Type} {f g : α → Option β}
    (hfg : ∀ a b, f a = some b → g a = some b) :
    ∀ (l : List α) (bs : List β), mapOpt f l = some bs → mapOpt g l = some bs := by
  intro l
  induction l with
  | nil => intro bs h; simpa [mapOpt] using h
  | cons a rest ih =>
    intro bs h
    obtain ⟨b, bs1, hb, hrest, rfl⟩ := mapOpt_cons_some h
    simp [mapOpt, hfg a b hb, ih bs1 hrest]

theorem mapOpt_append {α β : Type} {f : α → Option β} :
    ∀ (l1 l2 : List α) (b1 b2 : List β), mapOpt f l1 = some b1 → mapOpt f l2 = some b2 →
      mapOpt f (l1 ++ l2) = some (b1 ++ b2) := by
  intro l1
  induction l1 with
  | nil =>
    intro l2 b1 b2 h1 h2
    simp [mapOpt] at h1
    subst h1
    simpa using h2
  | cons a rest ih =>
    intro l2 b1 b2 h1 h2
    obtain ⟨b, bs1, hb, hrest, rfl⟩ := mapOpt_cons_some h1
    simp [mapOpt, hb, ih l2 bs1 b2 hrest h2]

theorem toTree_agree : ∀ (n : Nat) (h h2 : Heap) (a : Nat) (t : Tree),
    toTree n h a = some t →
    (∀ x, x < h.size → (h2.get x).map (fun o => o.ro_value) = (h.get x).map (fun o => o.ro_value)) →
    toTree n h2 a = some t := by
  intro n
  induction n with
  | zero => intro h h2 a t ht; simp [toTree] at ht
  | succ n ih =>
    intro h h2 a t ht hag
    unfold toTree at ht ⊢
    cases hg : h.get a with
    | none => simp [hg] at ht
    | some o =>
      have hlt := Heap.get_lt hg
      have hv := hag a hlt
      rw [hg] at hv
      cases hg2 : h2.get a with
      | none => simp [hg2] at hv
      | some o2 =>
        simp [hg2] at hv
        simp only [hg] at ht
        simp only [hv]
        cases hval : o.ro_value with
        | rv_dict entries =>
          simp only [hval] at ht ⊢
          split at ht
          · rename_i hnd
            simp only [hnd, if_true]
            cases hm : mapOpt (fun e => (toTree n h e.2).map (fun t => (e.1, t))) entries with
            | none => simp [hm] at ht
            | some ts =>
              have := mapOpt_imp (f := fun e => (toTree n h e.2).map (fun t => (e.1, t)))
                (g := fun e => (toTree n h2 e.2).map (fun t => (e.1, t)))
                (by
                  intro e b hb
                  cases hte : toTree n h e.2 with
                  | none => simp [hte] at hb
                  | some t1 =>
                    simp [hte] at hb
                    simp [ih h h2 e.2 t1 hte hag, hb]) entries ts hm
              rw [this]
              rw [hm] at ht
              exact ht
          · simp at ht
        | rv_list items =>
          simp only [hval] at ht ⊢
          cases hm : mapOpt (toTree n h) items with
          | none => simp [hm] at ht
          | some ts =>
            have := mapOpt_imp (f := toTree n h) (g := toTree n h2)
              (fun x b hb => ih h h2 x b hb hag) items ts hm
            rw [this]
            rw [hm] at ht
            exact ht
        | _ =>
          simp only [hval] at ht ⊢
          exact ht

theorem wrap_int32_zero_diff (n : Nat) :
    wrap_int32 (((n : Int) - (n : Int)) % 2 ^ 64) = 0 := by
  simp [wrap_int32]

theorem rpc_retain_eq {H : Heap} {v : Nat} {o : rpc_object} (hg : H.get v = some o) :
    rpc_retain H v = some (H.set v { o with ro_refcnt := wrap_int32 (o.ro_refcnt + 1) }) := by
  simp [rpc_retain, hg]

theorem append_stolen_eq {H : Heap} {a : Nat} {rc : Int} {items : List Nat} (v : Nat)
    (hg : H.get a = some ⟨rc, .rv_list items⟩) :
    rpc_array_append_stolen_value H a v = some (H.set a ⟨rc, .rv_list (items ++ [v])⟩) := by
  simp [rpc_array_append_stolen_value, hg]

theorem array_set_value_at_end (f : Nat) (H : Heap) (tmp c : Nat) (rc : Int) (cs : List Nat)
    (oc : rpc_object) (hg : H.get tmp = some ⟨rc, .rv_list cs⟩) (hc : H.get c = some oc)
    (hne : c ≠ tmp) :
    rpc_array_set_value (f + 1) H tmp cs.length c =
      some ((((((H.alloc ⟨1, .rv_null⟩).1.set tmp ⟨rc, .rv_list (cs ++ [H.size])⟩).set H.size
        ⟨2, .rv_null⟩).set H.size ⟨1, .rv_null⟩).set tmp ⟨rc, .rv_list (cs ++ [c])⟩).set c
        { oc with ro_refcnt := wrap_int32 (oc.ro_refcnt + 1) }) := by
  have hlt := Heap.get_lt hg
  have hltc := Heap.get_lt hc
  have h1 : tmp ≠ H.size := by omega
  have h2 : c ≠ H.size := by omega
  have h1' : H.size ≠ tmp := by omega
  have h2' : H.size ≠ c := by omega
  have hne2 : tmp ≠ c := fun e => hne e.symm
  -- the heaps along the way
  have ga : (H.alloc ⟨1, .rv_null⟩).1.get tmp = some ⟨rc, .rv_list cs⟩ := by
    rw [Heap.get_alloc_ne _ _ h1, hg]
  have gb : ((H.alloc ⟨1, .rv_null⟩).1.set tmp ⟨rc, .rv_list (cs ++ [H.size])⟩).get H.size
      = some ⟨1, .rv_null⟩ := by
    rw [Heap.get_set_ne _ _ h1', Heap.get_alloc_same]
  have hpad : steal_pad 1 H tmp = some (((H.alloc ⟨1, .rv_null⟩).1.set tmp
      ⟨rc, .rv_list (cs ++ [H.size])⟩).set H.size ⟨2, .rv_null⟩) := by
    simp only [steal_pad, rpc_prim_create, Heap.alloc_snd, rpc_array_append_value,
      append_stolen_eq H.size ga, rpc_retain_eq gb]
    rfl
  have gc : (((H.alloc ⟨1, .rv_null⟩).1.set tmp ⟨rc, .rv_list (cs ++ [H.size])⟩).set H.size
      ⟨2, .rv_null⟩).get tmp = some ⟨rc, .rv_list (cs ++ [H.size])⟩ := by
    rw [Heap.get_set_ne _ _ h1, Heap.get_set_same _ (by simp [Heap.size_alloc]; omega)]
  have gc2 : (((H.alloc ⟨1, .rv_null⟩).1.set tmp ⟨rc, .rv_list (cs ++ [H.size])⟩).set H.size
      ⟨2, .rv_null⟩).get H.size = some ⟨2, .rv_null⟩ := by
    rw [Heap.get_set_same _ (by simp [Heap.size_set, Heap.size_alloc])]
  have hrel := release_leaf_keep f gc2 (by decide) (by decide)
  have gd : ((((H.alloc ⟨1, .rv_null⟩).1.set tmp ⟨rc, .rv_list (cs ++ [H.size])⟩).set H.size
      ⟨2, .rv_null⟩).set H.size ⟨2 - 1, .rv_null⟩).get tmp
      = some ⟨rc, .rv_list (cs ++ [H.size])⟩ := by
    rw [Heap.get_set_ne _ _ h1, gc]
  have ge : (((((H.alloc ⟨1, .rv_null⟩).1.set tmp ⟨rc, .rv_list (cs ++ [H.size])⟩).set H.size
      ⟨2, .rv_null⟩).set H.size ⟨2 - 1, .rv_null⟩).set tmp ⟨rc, .rv_list (cs ++ [c])⟩).get c
      = some oc := by
    rw [Heap.get_set_ne _ _ hne, Heap.get_set_ne _ _ h2, Heap.get_set_ne _ _ h2,
      Heap.get_set_ne _ _ hne, Heap.get_alloc_ne _ _ h2, hc]
  have hidx : (cs ++ [H.size])[cs.length]? = some H.size := by simp
  have hset : (cs ++ [H.size]).set cs.length c = cs ++ [c] := by simp
  simp only [rpc_array_set_value, rpc_array_steal_value, hg, wrap_int32_zero_diff]
  simp only [le_refl, if_true, Int.toNat_zero, Nat.zero_add, hpad, gc, hidx, hrel, gd, hset,
    rpc_retain_eq ge]
  rfl

theorem toTree_some_get {n : Nat} {h : Heap} {a : Nat} {t : Tree} (ht : toTree n h a = some t) :
    ∃ o, h.get a = some o := by
  cases n with
  | zero => simp [toTree] at ht
  | succ n =>
    unfold toTree at ht
    cases hg : h.get a with
    | none => simp [hg] at ht
    | some o => exact ⟨o, rfl⟩

theorem Heap.same_values_refl (h : Heap) (lo hi : Nat) : h.same_values h lo hi :=
  fun _ _ _ => rfl

theorem array_set_value_at_end_props (f : Nat) (H : Heap) (tmp c : Nat) (rc : Int)
    (cs : List Nat) (oc : rpc_object) (hg : H.get tmp = some ⟨rc, .rv_list cs⟩)
    (hc : H.get c = some oc) (hne : c ≠ tmp) :
    ∃ H1, rpc_array_set_value (f + 1) H tmp cs.length c = some H1 ∧
      H1.size = H.size + 1 ∧ H1.freed = H.freed ∧
      H1.get tmp = some ⟨rc, .rv_list (cs ++ [c])⟩ ∧
      H1.get H.size = some ⟨1, .rv_null⟩ ∧
      H1.get c = some { oc with ro_refcnt := wrap_int32 (oc.ro_refcnt + 1) } ∧
      (∀ x, x ≠ tmp → x ≠ c → x < H.size → H1.cells[x]? = H.cells[x]?) := by
  have hlt := Heap.get_lt hg
  have hltc := Heap.get_lt hc
  have h1 : tmp ≠ H.size := by omega
  have h2 : c ≠ H.size := by omega
  have h1' : H.size ≠ tmp := by omega
  have h2' : H.size ≠ c := by omega
  have hne2 : tmp ≠ c := fun e => hne e.symm
  refine ⟨_, array_set_value_at_end f H tmp c rc cs oc hg hc hne, ?_, ?_, ?_, ?_, ?_, ?_⟩
  · simp [Heap.size_set, Heap.size_alloc]
  · simp [Heap.freed_set, Heap.freed_alloc]
  · rw [Heap.get_set_ne _ _ hne2, Heap.get_set_same _ (by simp [Heap.size_set, Heap.size_alloc]; omega)]
  · rw [Heap.get_set_ne _ _ h2', Heap.get_set_ne _ _ h1',
      Heap.get_set_same _ (by simp [Heap.size_set, Heap.size_alloc])]
  · rw [Heap.get_set_same _ (by simp [Heap.size_set, Heap.size_alloc]; omega)]
  · intro x hx1 hx2 hx3
    have hx4 : x ≠ H.size := by omega
    rw [Heap.cells_set_ne _ _ hx2, Heap.cells_set_ne _ _ hx1, Heap.cells_set_ne _ _ hx4,
      Heap.cells_set_ne _ _ hx4, Heap.cells_set_ne _ _ hx1, Heap.cells_alloc_lt _ _ hx3]

theorem copy_items_loop (n : Nat) (h0 : Heap) (g : Tree → Tree)
    (ih : ∀ h v t, toTree n h v = some t →
      ∃ h1 c, rpc_copy n h v = some (h1, c) ∧ copy_post n h h1 c (g t)) :
    ∀ (rest : List Nat) (tsrest : List Tree) (hh : Heap) (cs : List Nat) (tsdone : List Tree),
      mapOpt (toTree n h0) rest = some tsrest →
      hh.get h0.size = some ⟨1, .rv_list cs⟩ →
      hh.freed = h0.freed → h0.same_below hh h0.size →
      (∀ h2, hh.same_values h2 (h0.size + 1) hh.size → mapOpt (toTree n h2) cs = some tsdone) →
      hh.closed_above h0.size →
      ∃ hf csf,
        apply_items
          (fun idx v (hx : Heap) =>
            match rpc_copy n hx v with
            | none => none
            | some (h2, c) =>
              (rpc_array_set_value (n + 1) h2 h0.size idx c).map (fun h3 => (h3, true)))
          rest cs.length hh = some (hf, false) ∧
        hf.get h0.size = some ⟨1, .rv_list csf⟩ ∧ hf.freed = h0.freed ∧
        h0.same_below hf h0.size ∧ hh.size ≤ hf.size ∧
        (∀ h2, hf.same_values h2 (h0.size + 1) hf.size →
          mapOpt (toTree n h2) csf = some (tsdone ++ tsrest.map g)) ∧
        hf.closed_above h0.size := by
  intro rest
  induction rest with
  | nil =>
    intro tsrest hh cs tsdone hm hg hfr hsb hp5 hcl
    simp [mapOpt] at hm
    subst hm
    exact ⟨hh, cs, by simp [apply_items], hg, hfr, hsb, le_refl _, by simpa using hp5, hcl⟩
  | cons v rest ihl =>
    intro tsrest hh cs tsdone hm hg hfr hsb hp5 hcl
    obtain ⟨t, ts1, hv, hrest, rfl⟩ := mapOpt_cons_some hm
    have htmp := Heap.get_lt hg
    have hv1 : toTree n hh v = some t := by
      refine toTree_agree n h0 hh v t hv ?_
      intro x hx
      rw [Heap.get_eq_of_cells (hsb x hx)]
    obtain ⟨h1, c, hcopy, hc, hsz, hfr1, hsb1, hp51, hcl1⟩ := ih hh v t hv1
    have hg1 : h1.get h0.size = some ⟨1, .rv_list cs⟩ := by
      rw [Heap.get_eq_of_cells (hsb1 _ htmp), hg]
    obtain ⟨oc, hoc⟩ := toTree_some_get (hp51 h1 (Heap.same_values_refl _ _ _))
    have hne : c ≠ h0.size := by omega
    obtain ⟨H1, hset, hs1, hf1, hgt, hnul, hgc, hoth⟩ :=
      array_set_value_at_end_props n h1 h0.size c 1 cs oc hg1 hoc hne
    have hsbn : h0.same_below H1 h0.size := by
      intro x hx
      rw [hoth x (by omega) (by omega) (by omega), hsb1 x (by omega), hsb x hx]
    have hp5n : ∀ h2, H1.same_values h2 (h0.size + 1) H1.size →
        mapOpt (toTree n h2) (cs ++ [c]) = some (tsdone ++ [g t]) := by
      intro h2 hsv
      refine mapOpt_append cs [c] tsdone [g t] ?_ ?_
      · apply hp5
        intro x hx1 hx2
        rw [hsv x hx1 (by omega),
          Heap.get_eq_of_cells (hoth x (by omega) (by omega) (by omega)),
          Heap.get_eq_of_cells (hsb1 x hx2)]
      · have : toTree n h2 c = some (g t) := by
          apply hp51
          intro x hx1 hx2
          rw [hsv x (by omega) (by omega)]
          by_cases hxc : x = c
          · subst hxc
            rw [hgc, hoc]
            rfl
          · rw [Heap.get_eq_of_cells (hoth x (by omega) hxc hx2)]
        simp [mapOpt, this]
    have hcln : H1.closed_above h0.size := by
      intro x o hx hxo ch hch
      by_cases hxt : x = h0.size
      · subst hxt
        rw [hgt] at hxo
        cases hxo
        simp only [rpc_value.children, List.mem_append, List.mem_singleton] at hch
        rcases hch with hch | hch
        · exact hcl h0.size _ (le_refl _) hg ch (by simpa [rpc_value.children] using hch)
        · omega
      · by_cases hxc : x = c
        · subst hxc
          rw [hgc] at hxo
          cases hxo
          have := hcl1 x oc (by omega) hoc ch hch
          omega
        · have hxlt := Heap.get_lt hxo
          rw [hs1] at hxlt
          by_cases hxn : x = h1.size
          · subst hxn
            rw [hnul] at hxo
            cases hxo
            simp [rpc_value.children] at hch
          · have hx1 : x < h1.size := by omega
            rw [Heap.get_eq_of_cells (hoth x hxt hxc hx1)] at hxo
            by_cases hxh : x < hh.size
            · rw [Heap.get_eq_of_cells (hsb1 x hxh)] at hxo
              exact hcl x o hx hxo ch hch
            · have := hcl1 x o (by omega) hxo ch hch
              omega
    obtain ⟨hf, csf, happ, hgf, hff, hsbf, hszf, hp5f, hclf⟩ :=
      ihl ts1 H1 (cs ++ [c]) (tsdone ++ [g t]) hrest hgt (by rw [hf1, hfr1, hfr]) hsbn hp5n hcln
    refine ⟨hf, csf, ?_, hgf, hff, hsbf, by omega, ?_, hclf⟩
    · simp only [apply_items, hcopy, hset, Option.map_some']
      simpa using happ
    · simpa using hp5f
theorem lookup_none_of_not_mem {β : Type} (es : List (String × β)) (k : String)
    (hk : k ∉ es.map Prod.fst) : es.lookup k = none := by
  induction es with
  | nil => rfl
  | cons e rest ih =>
    obtain ⟨k1, v1⟩ := e
    simp only [List.map_cons, List.mem_cons, not_or] at hk
    have hne : (k == k1) = false := by simpa using hk.1
    simp [List.lookup, hne, ih hk.2]

theorem dict_set_value_new_key (f : Nat) (H : Heap) (tmp c : Nat) (k : String) (rc : Int)
    (es : List (String × Nat)) (oc : rpc_object)
    (hg : H.get tmp = some ⟨rc, .rv_dict es⟩) (hk : es.lookup k = none)
    (hc : H.get c = some oc) (hne : c ≠ tmp) :
    ∃ H1, rpc_dictionary_set_value f H tmp k c = some H1 ∧
      H1.size = H.size ∧ H1.freed = H.freed ∧
      H1.get tmp = some ⟨rc, .rv_dict (es ++ [(k, c)])⟩ ∧
      H1.get c = some { oc with ro_refcnt := wrap_int32 (oc.ro_refcnt + 1) } ∧
      (∀ x, x ≠ tmp → x ≠ c → H1.cells[x]? = H.cells[x]?) := by
  have hlt := Heap.get_lt hg
  have hltc := Heap.get_lt hc
  have hne2 : tmp ≠ c := fun e => hne e.symm
  have g1 : (H.set tmp ⟨rc, .rv_dict (es ++ [(k, c)])⟩).get c = some oc := by
    rw [Heap.get_set_ne _ _ hne, hc]
  refine ⟨(H.set tmp ⟨rc, .rv_dict (es ++ [(k, c)])⟩).set c
      { oc with ro_refcnt := wrap_int32 (oc.ro_refcnt + 1) }, ?_, ?_, ?_, ?_, ?_, ?_⟩
  · simp only [rpc_dictionary_set_value, rpc_dictionary_steal_value, hg, hk, entries_insert,
      rpc_retain_eq g1]
  · simp [Heap.size_set]
  · simp [Heap.freed_set]
  · rw [Heap.get_set_ne _ _ hne2, Heap.get_set_same _ hlt]
  · rw [Heap.get_set_same _ (by simp [Heap.size_set]; exact hltc)]
  · intro x hx1 hx2
    rw [Heap.cells_set_ne _ _ hx2, Heap.cells_set_ne _ _ hx1]

theorem copy_entries_loop (n : Nat) (h0 : Heap) (g : Tree → Tree)
    (ih : ∀ h v t, toTree n h v = some t →
      ∃ h1 c, rpc_copy n h v = some (h1, c) ∧ copy_post n h h1 c (g t)) :
    ∀ (rest : List (String × Nat)) (tsrest : List (String × Tree)) (hh : Heap)
      (es : List (String × Nat)) (tsdone : List (String × Tree)),
      mapOpt (fun e => (toTree n h0 e.2).map (fun t => (e.1, t))) rest = some tsrest →
      (es.map Prod.fst ++ rest.map Prod.fst).Nodup →
      hh.get h0.size = some ⟨1, .rv_dict es⟩ →
      hh.freed = h0.freed → h0.same_below hh h0.size →
      (∀ h2, hh.same_values h2 (h0.size + 1) hh.size →
        mapOpt (fun e => (toTree n h2 e.2).map (fun t => (e.1, t))) es = some tsdone) →
      hh.closed_above h0.size →
      ∃ hf esf,
        apply_entries
          (fun k v (hx : Heap) =>
            match rpc_copy n hx v with
            | none => none
            | some (h2, c) =>
              (rpc_dictionary_set_value (n + 1) h2 h0.size k c).map (fun h3 => (h3, true)))
          rest hh = some (hf, true) ∧
        hf.get h0.size = some ⟨1, .rv_dict esf⟩ ∧
        esf.map Prod.fst = es.map Prod.fst ++ rest.map Prod.fst ∧
        hf.freed = h0.freed ∧
        h0.same_below hf h0.size ∧ hh.size ≤ hf.size ∧
        (∀ h2, hf.same_values h2 (h0.size + 1) hf.size →
          mapOpt (fun e => (toTree n h2 e.2).map (fun t => (e.1, t))) esf
            = some (tsdone ++ tsrest.map (fun e => (e.1, g e.2)))) ∧
        hf.closed_above h0.size := by
  intro rest
  induction rest with
  | nil =>
    intro tsrest hh es tsdone hm _ hg hfr hsb hp5 hcl
    simp [mapOpt] at hm
    subst hm
    exact ⟨hh, es, by simp [apply_entries], hg, by simp, hfr, hsb, le_refl _,
      by simpa using hp5, hcl⟩
  | cons e rest ihl =>
    intro tsrest hh es tsdone hm hnd hg hfr hsb hp5 hcl
    obtain ⟨kt, ts1, hkv, hrest, rfl⟩ := mapOpt_cons_some hm
    obtain ⟨k, v⟩ := e
    cases hv : toTree n h0 v with
    | none => simp [hv] at hkv
    | some t =>
    simp [hv] at hkv
    subst hkv
    have htmp := Heap.get_lt hg
    have hv1 : toTree n hh v = some t := by
      refine toTree_agree n h0 hh v t hv ?_
      intro x hx
      rw [Heap.get_eq_of_cells (hsb x hx)]
    obtain ⟨h1, c, hcopy, hc, hsz, hfr1, hsb1, hp51, hcl1⟩ := ih hh v t hv1
    have hg1 : h1.get h0.size = some ⟨1, .rv_dict es⟩ := by
      rw [Heap.get_eq_of_cells (hsb1 _ htmp), hg]
    obtain ⟨oc, hoc⟩ := toTree_some_get (hp51 h1 (Heap.same_values_refl _ _ _))
    have hne : c ≠ h0.size := by omega
    have hknew : es.lookup k = none := by
      apply lookup_none_of_not_mem
      intro hmem
      have := List.nodup_append.mp hnd
      exact this.2.2 hmem (by simp)
    obtain ⟨H1, hset, hs1, hf1, hgt, hgc, hoth⟩ :=
      dict_set_value_new_key (n + 1) h1 h0.size c k 1 es oc hg1 hknew hoc hne
    have hsbn : h0.same_below H1 h0.size := by
      intro x hx
      rw [hoth x (by omega) (by omega), hsb1 x (by omega), hsb x hx]
    have hp5n : ∀ h2, H1.same_values h2 (h0.size + 1) H1.size →
        mapOpt (fun e => (toTree n h2 e.2).map (fun t => (e.1, t))) (es ++ [(k, c)])
          = some (tsdone ++ [(k, g t)]) := by
      intro h2 hsv
      refine mapOpt_append es [(k, c)] tsdone [(k, g t)] ?_ ?_
      · apply hp5
        intro x hx1 hx2
        rw [hsv x hx1 (by omega),
          Heap.get_eq_of_cells (hoth x (by omega) (by omega)),
          Heap.get_eq_of_cells (hsb1 x hx2)]
      · have : toTree n h2 c = some (g t) := by
          apply hp51
          intro x hx1 hx2
          rw [hsv x (by omega) (by omega)]
          by_cases hxc : x = c
          · subst hxc
            rw [hgc, hoc]
            rfl
          · rw [Heap.get_eq_of_cells (hoth x (by omega) hxc)]
        simp [mapOpt, this]
    have hcln : H1.closed_above h0.size := by
      intro x o hx hxo ch hch
      by_cases hxt : x = h0.size
      · subst hxt
        rw [hgt] at hxo
        cases hxo
        simp only [rpc_value.children, List.map_append, List.map_cons, List.map_nil,
          List.mem_append, List.mem_singleton] at hch
        rcases hch with hch | hch
        · exact hcl h0.size _ (le_refl _) hg ch (by simpa [rpc_value.children] using hch)
        · omega
      · by_cases hxc : x = c
        · subst hxc
          rw [hgc] at hxo
          cases hxo
          have := hcl1 x oc (by omega) hoc ch hch
          omega
        · rw [Heap.get_eq_of_cells (hoth x hxt hxc)] at hxo
          by_cases hxh : x < hh.size
          · rw [Heap.get_eq_of_cells (hsb1 x hxh)] at hxo
            exact hcl x o hx hxo ch hch
          · have := hcl1 x o (by omega) hxo ch hch
            omega
    have hndn : ((es ++ [(k, c)]).map Prod.fst ++ rest.map Prod.fst).Nodup := by
      simpa using hnd
    obtain ⟨hf, esf, happ, hgf, hkeys, hff, hsbf, hszf, hp5f, hclf⟩ :=
      ihl ts1 H1 (es ++ [(k, c)]) (tsdone ++ [(k, g t)]) hrest hndn hgt
        (by rw [hf1, hfr1, hfr]) hsbn hp5n hcln
    refine ⟨hf, esf, ?_, hgf, ?_, hff, hsbf, by omega, ?_, hclf⟩
    · simp only [apply_entries, hcopy, hset, Option.map_some']
      exact happ
    · simpa using hkeys
    · simpa using hp5f
theorem prim_create_post (n : Nat) (h : Heap) (val : rpc_value) (t : Tree)
    (hleaf : val.children = [])
    (hread : ∀ (h2 : Heap) (o2 : rpc_object), h2.get h.size = some o2 → o2.ro_value = val →
      toTree (n + 1) h2 h.size = some t) :
    copy_post (n + 1) h (rpc_prim_create h val).1 (rpc_prim_create h val).2 t := by
  refine ⟨rfl, ?_, rfl, ?_, ?_, ?_⟩
  · simp [rpc_prim_create, Heap.size_alloc]
  · intro x hx
    exact Heap.cells_alloc_lt h _ hx
  · intro h2 hsv
    have := hsv h.size (le_refl _) (by simp [rpc_prim_create, Heap.size_alloc])
    simp only [rpc_prim_create, Heap.alloc_snd, Heap.get_alloc_same, Option.map_some'] at this ⊢
    cases hg2 : h2.get h.size with
    | none => simp [hg2] at this
    | some o2 =>
      simp [hg2] at this
      exact hread h2 o2 hg2 this
  · intro x o hx hxo ch hch
    by_cases hxe : x = h.size
    · subst hxe
      simp only [rpc_prim_create, Heap.get_alloc_same, Option.some.injEq] at hxo
      subst hxo
      simp [hleaf] at hch
    · simp only [rpc_prim_create, Heap.get_alloc_ne _ _ hxe] at hxo
      have := Heap.get_lt hxo
      omega

theorem strdup_items_eq (l : List Tree) : Tree.strdup_items l = l.map Tree.strdup := by
  induction l with
  | nil => simp [Tree.strdup_items]
  | cons t rest ih => simp [Tree.strdup_items, ih]

theorem strdup_entries_eq (l : List (String × Tree)) :
    Tree.strdup_entries l = l.map (fun e => (e.1, e.2.strdup)) := by
  induction l with
  | nil => simp [Tree.strdup_entries]
  | cons e rest ih =>
    obtain ⟨k, t⟩ := e
    simp [Tree.strdup_entries, ih]

theorem copy_spec : ∀ (n : Nat) (h : Heap) (v : Nat) (t : Tree), toTree n h v = some t →
    ∃ h1 c, rpc_copy n h v = some (h1, c) ∧ copy_post n h h1 c t.strdup := by
  intro n
  induction n with
  | zero => intro h v t ht; simp [toTree] at ht
  | succ n ih =>
    intro h v t ht
    unfold toTree at ht
    unfold rpc_copy
    cases hg : h.get v with
    | none => simp [hg] at ht
    | some o =>
      obtain ⟨rc, val⟩ := o
      have hvlt := Heap.get_lt hg
      simp only [hg] at ht ⊢
      cases val with
      | rv_dict entries =>
        simp only at ht ⊢
        split at ht
        · rename_i hnd
          cases hm : mapOpt (fun e => (toTree n h e.2).map (fun t => (e.1, t))) entries with
          | none => simp [hm] at ht
          | some ts =>
            simp [hm] at ht
            subst ht
            have hne : v ≠ h.size := by omega
            have hgv : (rpc_dictionary_create h).1.get v = some ⟨rc, .rv_dict entries⟩ := by
              simp only [rpc_dictionary_create, rpc_prim_create, Heap.get_alloc_ne _ _ hne, hg]
            obtain ⟨hf, esf, happ, hgf, hkeys, hff, hsbf, hszf, hp5f, hclf⟩ :=
              copy_entries_loop n h Tree.strdup (ih) entries ts (rpc_dictionary_create h).1 [] [] hm
                (by simpa using hnd)
                (by simp [rpc_dictionary_create, rpc_prim_create, Heap.get_alloc_same])
                rfl
                (fun x hx => Heap.cells_alloc_lt h _ hx)
                (fun _ _ => rfl)
                (by
                  intro x o hx hxo ch hch
                  by_cases hxe : x = h.size
                  · subst hxe
                    simp only [rpc_dictionary_create, rpc_prim_create, Heap.get_alloc_same,
                      Option.some.injEq] at hxo
                    subst hxo
                    simp [rpc_value.children] at hch
                  · simp only [rpc_dictionary_create, rpc_prim_create,
                      Heap.get_alloc_ne _ _ hxe] at hxo
                    have := Heap.get_lt hxo
                    omega)
            have hsz1 : (rpc_dictionary_create h).1.size = h.size + 1 := by
              simp [rpc_dictionary_create, rpc_prim_create, Heap.size_alloc]
            refine ⟨hf, h.size, ?_, rfl, by omega, hff, hsbf, ?_, hclf⟩
            · simp only [rpc_dictionary_apply, hgv]
              simp only [rpc_dictionary_create, rpc_prim_create, Heap.alloc_snd] at happ ⊢
              simp only [happ]
            · intro h2 hsv
              have h2g := hsv h.size (le_refl _) (by omega)
              rw [hgf] at h2g
              cases hg2 : h2.get h.size with
              | none => simp [hg2] at h2g
              | some o2 =>
                simp [hg2] at h2g
                have hp := hp5f h2 (fun x hx1 hx2 => hsv x (by omega) hx2)
                have hnd2 : (esf.map Prod.fst).Nodup := by
                  rw [hkeys]
                  simpa using hnd
                unfold toTree
                simp only [hg2, h2g, hnd2, if_true]
                simp at hp
                simp [hp, Tree.strdup, strdup_entries_eq, strdup_items_eq]
        · simp at ht
      | rv_list items =>
        simp only at ht ⊢
        cases hm : mapOpt (toTree n h) items with
        | none => simp [hm] at ht
        | some ts =>
          simp [hm] at ht
          subst ht
          have hne : v ≠ h.size := by omega
          have hgv : (rpc_array_create h).1.get v = some ⟨rc, .rv_list items⟩ := by
            simp only [rpc_array_create, rpc_prim_create, Heap.get_alloc_ne _ _ hne, hg]
          obtain ⟨hf, csf, happ, hgf, hff, hsbf, hszf, hp5f, hclf⟩ :=
            copy_items_loop n h Tree.strdup (ih) items ts (rpc_array_create h).1 [] [] hm
              (by simp [rpc_array_create, rpc_prim_create, Heap.get_alloc_same])
              rfl
              (fun x hx => Heap.cells_alloc_lt h _ hx)
              (fun _ _ => rfl)
              (by
                intro x o hx hxo ch hch
                by_cases hxe : x = h.size
                · subst hxe
                  simp only [rpc_array_create, rpc_prim_create, Heap.get_alloc_same,
                    Option.some.injEq] at hxo
                  subst hxo
                  simp [rpc_value.children] at hch
                · simp only [rpc_array_create, rpc_prim_create,
                    Heap.get_alloc_ne _ _ hxe] at hxo
                  have := Heap.get_lt hxo
                  omega)
          have hsz1 : (rpc_array_create h).1.size = h.size + 1 := by
            simp [rpc_array_create, rpc_prim_create, Heap.size_alloc]
          refine ⟨hf, h.size, ?_, rfl, by omega, hff, hsbf, ?_, hclf⟩
          · simp only [rpc_array_apply, hgv]
            simp only [rpc_array_create, rpc_prim_create, Heap.alloc_snd, List.length_nil]
              at happ ⊢
            simp only [happ]
          · intro h2 hsv
            have h2g := hsv h.size (le_refl _) (by omega)
            rw [hgf] at h2g
            cases hg2 : h2.get h.size with
            | none => simp [hg2] at h2g
            | some o2 =>
              simp [hg2] at h2g
              have hp := hp5f h2 (fun x hx1 hx2 => hsv x (by omega) hx2)
              unfold toTree
              simp only [hg2, h2g]
              simp at hp
              simp [hp, Tree.strdup, strdup_entries_eq, strdup_items_eq]
      | rv_null =>
        simp at ht; subst ht
        exact ⟨_, _, rfl, prim_create_post n h _ _ rfl
          (fun h2 o2 h1 h2v => by unfold toTree; simp [h1, h2v, Tree.strdup])⟩
      | rv_b b =>
        simp at ht; subst ht
        exact ⟨_, _, rfl, prim_create_post n h _ _ rfl
          (fun h2 o2 h1 h2v => by unfold toTree; simp [h1, h2v, Tree.strdup])⟩
      | rv_ui u =>
        simp at ht; subst ht
        exact ⟨_, _, rfl, prim_create_post n h _ _ rfl
          (fun h2 o2 h1 h2v => by unfold toTree; simp [h1, h2v, Tree.strdup])⟩
      | rv_i i =>
        simp at ht; subst ht
        exact ⟨_, _, rfl, prim_create_post n h _ _ rfl
          (fun h2 o2 h1 h2v => by unfold toTree; simp [h1, h2v, Tree.strdup])⟩
      | rv_d d =>
        simp at ht; subst ht
        exact ⟨_, _, rfl, prim_create_post n h _ _ rfl
          (fun h2 o2 h1 h2v => by unfold toTree; simp [h1, h2v, Tree.strdup])⟩
      | rv_datetime s =>
        simp at ht; subst ht
        exact ⟨_, _, rfl, prim_create_post n h _ _ rfl
          (fun h2 o2 h1 h2v => by unfold toTree; simp [h1, h2v, rpc_date_get_value, Tree.strdup])⟩
      | rv_str s =>
        simp at ht; subst ht
        exact ⟨_, _, rfl, prim_create_post n h _ _ rfl
          (fun h2 o2 h1 h2v => by unfold toTree; simp [h1, h2v, Tree.strdup])⟩
      | rv_bin bytes cp =>
        simp at ht; subst ht
        exact ⟨_, _, rfl, prim_create_post n h _ _ rfl
          (fun h2 o2 h1 h2v => by unfold toTree; simp [h1, h2v, Tree.strdup])⟩
      | rv_fd fd =>
        simp at ht; subst ht
        exact ⟨_, _, rfl, prim_create_post n h _ _ rfl
          (fun h2 o2 h1 h2v => by unfold toTree; simp [h1, h2v, Tree.strdup])⟩

/-- C2: for every value `v` (an object that reads as a tree `t`), `rpc_copy`
returns a new object, and that object reads as `t` with every String cut at
its first NUL, because a String is copied through `strdup`. So the copy is
structurally equal to `v`, `rpc_equal(v, rpc_copy(v))` holds and the hashes
are the same number when no String of `v` contains a NUL; in general
`rpc_equal` compares the hash of `t` with the hash of the cut tree. The
original still reads as `t` after the copy. -/
theorem C2_copy_cuts_strings_at_nul (n : Nat) (h : Heap) (v : Nat) (t : Tree)
    (ht : toTree n h v = some t) :
    ∃ h1 c, rpc_copy n h v = some (h1, c) ∧
      toTree n h1 c = some t.strdup ∧ toTree n h1 v = some t ∧
      rpc_hash n h1 c = some (Tree.hash t.strdup) ∧
      rpc_hash n h1 v = some (Tree.hash t) ∧
      rpc_hash n h v = some (Tree.hash t) ∧
      rpc_equal n h1 v c = some (decide (Tree.hash t = Tree.hash t.strdup)) ∧
      (t.strdup = t →
        rpc_equal n h1 v c = some true ∧ rpc_hash n h1 c = rpc_hash n h v) := by
  obtain ⟨h1, c, hcopy, _, _, _, hsb, hp5, _⟩ := copy_spec n h v t ht
  have htc : toTree n h1 c = some t.strdup := hp5 h1 (Heap.same_values_refl _ _ _)
  have htv : toTree n h1 v = some t := by
    refine toTree_agree n h h1 v t ht ?_
    intro x hx
    rw [Heap.get_eq_of_cells (hsb x hx)]
  have hhc := hash_of_tree n h1 c t.strdup htc
  have hhv := hash_of_tree n h1 v t htv
  have hh := hash_of_tree n h v t ht
  refine ⟨h1, c, hcopy, htc, htv, hhc, hhv, hh, ?_, ?_⟩
  · simp [rpc_equal, hhc, hhv]
  · intro hsame
    rw [hsame] at hhc
    refine ⟨?_, ?_⟩
    · simp [rpc_equal, hhc, hhv]
    · rw [hhc, hh]

/-- C2 at concrete inputs: the copy of the String `a`, NUL, `b` of
`ex_nul_heap` is the String `a`, `rpc_equal` of the two is false and their
hashes differ; the copy of the array `[1, 2]` of `ex_values` is equal to
it. -/
theorem C2_copy_cuts_strings_at_nul_witness :
    (∃ h1 c, rpc_copy 1 ex_nul_heap 0 = some (h1, c) ∧
      toTree 1 h1 c = some (Tree.string "a\x00b").strdup ∧
      toTree 1 h1 0 = some (.string "a\x00b") ∧
      rpc_hash 1 h1 c = some (Tree.hash (Tree.string "a\x00b").strdup) ∧
      rpc_hash 1 h1 0 = some (Tree.hash (.string "a\x00b")) ∧
      rpc_hash 1 ex_nul_heap 0 = some (Tree.hash (.string "a\x00b")) ∧
      rpc_equal 1 h1 0 c =
        some (decide (Tree.hash (.string "a\x00b") = Tree.hash (Tree.string "a\x00b").strdup)) ∧
      ((Tree.string "a\x00b").strdup = .string "a\x00b" →
        rpc_equal 1 h1 0 c = some true ∧ rpc_hash 1 h1 c = rpc_hash 1 ex_nul_heap 0)) ∧
    (Tree.string "a\x00b").strdup = .string "a" ∧
    Tree.hash (.string "a\x00b") = 93315 ∧ Tree.hash (.string "a") = 97 ∧
    (rpc_copy 1 ex_nul_heap 0).bind (fun r => rpc_equal 1 r.1 0 r.2) = some false ∧
    (rpc_copy 2 ex_values 5).bind (fun r => rpc_equal 2 r.1 5 r.2) = some true :=
  ⟨C2_copy_cuts_strings_at_nul 1 ex_nul_heap 0 (.string "a\x00b") rfl,
   rfl, by decide, by decide, by decide, by decide⟩

/-! ## Mutations of a copy -/

theorem nested_ge {H : Heap} {b : Nat} (hcl : H.closed_above b) :
    ∀ (depth a x : Nat), nested_in depth H a x = true → b ≤ a → b ≤ x := by
  intro depth
  induction depth with
  | zero =>
    intro a x hr ha
    simp [nested_in] at hr
    omega
  | succ depth ih =>
    intro a x hr ha
    simp only [nested_in, Bool.or_eq_true, beq_iff_eq] at hr
    rcases hr with hr | hr
    · omega
    · cases hg : H.get a with
      | none => simp [hg] at hr
      | some o =>
        simp only [hg, List.any_eq_true] at hr
        obtain ⟨ch, hch, hrec⟩ := hr
        exact ih ch x hrec (hcl a o ha hg ch hch)

theorem inv_set {h0 H : Heap} {b a : Nat} {o : rpc_object} (hinv : frame_inv h0 H b)
    (ha : b ≤ a) (hch : ∀ ch ∈ o.ro_value.children, b ≤ ch) : frame_inv h0 (H.set a o) b := by
  obtain ⟨hsb, hcl, hsz⟩ := hinv
  refine ⟨?_, ?_, by rw [Heap.size_set]; exact hsz⟩
  · intro x hx
    rw [Heap.cells_set_ne _ _ (by omega), hsb x hx]
  · intro x o1 hx hxo ch hc
    by_cases hxa : x = a
    · subst hxa
      have hlt := Heap.get_lt hxo
      rw [Heap.size_set] at hlt
      rw [Heap.get_set_same _ hlt] at hxo
      cases hxo
      exact hch ch hc
    · rw [Heap.get_set_ne _ _ hxa] at hxo
      exact hcl x o1 hx hxo ch hc

theorem inv_alloc {h0 H : Heap} {b : Nat} {o : rpc_object} (hinv : frame_inv h0 H b)
    (hch : ∀ ch ∈ o.ro_value.children, b ≤ ch) : frame_inv h0 (H.alloc o).1 b := by
  obtain ⟨hsb, hcl, hsz⟩ := hinv
  refine ⟨?_, ?_, by rw [Heap.size_alloc]; omega⟩
  · intro x hx
    rw [Heap.cells_alloc_lt _ _ (by omega), hsb x hx]
  · intro x o1 hx hxo ch hc
    by_cases hxa : x = H.size
    · subst hxa
      rw [Heap.get_alloc_same] at hxo
      cases hxo
      exact hch ch hc
    · rw [Heap.get_alloc_ne _ _ hxa] at hxo
      exact hcl x o1 hx hxo ch hc

theorem inv_free {h0 H : Heap} {b a : Nat} (hinv : frame_inv h0 H b) (ha : b ≤ a) :
    frame_inv h0 (H.free a) b := by
  obtain ⟨hsb, hcl, hsz⟩ := hinv
  refine ⟨?_, ?_, by rw [Heap.size_free]; exact hsz⟩
  · intro x hx
    rw [Heap.cells_free_ne _ (by omega), hsb x hx]
  · intro x o1 hx hxo ch hc
    by_cases hxa : x = a
    · subst hxa
      rw [Heap.get_free_same] at hxo
      cases hxo
    · rw [Heap.get_free_ne _ hxa] at hxo
      exact hcl x o1 hx hxo ch hc

theorem inv_retain {h0 H H1 : Heap} {b v : Nat} (hinv : frame_inv h0 H b) (hv : b ≤ v)
    (hr : rpc_retain H v = some H1) : frame_inv h0 H1 b := by
  unfold rpc_retain at hr
  cases hg : H.get v with
  | none => simp [hg] at hr
  | some o =>
    simp [hg] at hr
    subst hr
    exact inv_set hinv hv (fun ch hc => hinv.2.1 v o hv hg ch hc)

theorem inv_release_entries (fuel : Nat) (h0 : Heap) (b : Nat)
    (ih : ∀ H p H1 r, frame_inv h0 H b → b ≤ p → rpc_release_impl fuel H p = some (H1, r) →
      frame_inv h0 H1 b) :
    ∀ (entries : List (String × Nat)) (H H1 : Heap) (fl : Bool), frame_inv h0 H b →
      (∀ e ∈ entries, b ≤ e.2) →
      apply_entries
        (fun _ v (hh : Heap) => (rpc_release_impl fuel hh v).map (fun r => (r.1, true)))
        entries H = some (H1, fl) →
      frame_inv h0 H1 b := by
  intro entries
  induction entries with
  | nil =>
    intro H H1 fl hinv _ happ
    simp [apply_entries] at happ
    rw [← happ.1]
    exact hinv
  | cons e rest ihl =>
    intro H H1 fl hinv hge happ
    obtain ⟨k, v⟩ := e
    simp only [apply_entries] at happ
    cases hr : rpc_release_impl fuel H v with
    | none => simp [hr] at happ
    | some res =>
      obtain ⟨H2, r⟩ := res
      simp [hr] at happ
      have hinv2 := ih H v H2 r hinv (hge (k, v) (by simp)) hr
      exact ihl H2 H1 fl hinv2 (fun e he => hge e (by simp [he])) happ

theorem inv_release_items (fuel : Nat) (h0 : Heap) (b : Nat)
    (ih : ∀ H p H1 r, frame_inv h0 H b → b ≤ p → rpc_release_impl fuel H p = some (H1, r) →
      frame_inv h0 H1 b) :
    ∀ (items : List Nat) (i : Nat) (H H1 : Heap) (fl : Bool), frame_inv h0 H b →
      (∀ e ∈ items, b ≤ e) →
      apply_items
        (fun _ v (hh : Heap) => (rpc_release_impl fuel hh v).map (fun r => (r.1, true)))
        items i H = some (H1, fl) →
      frame_inv h0 H1 b := by
  intro items
  induction items with
  | nil =>
    intro i H H1 fl hinv _ happ
    simp [apply_items] at happ
    rw [← happ.1]
    exact hinv
  | cons v rest ihl =>
    intro i H H1 fl hinv hge happ
    simp only [apply_items] at happ
    cases hr : rpc_release_impl fuel H v with
    | none => simp [hr] at happ
    | some res =>
      obtain ⟨H2, r⟩ := res
      simp [hr] at happ
      have hinv2 := ih H v H2 r hinv (hge v (by simp)) hr
      exact ihl (i + 1) H2 H1 fl hinv2 (fun e he => hge e (by simp [he])) happ

theorem inv_release (h0 : Heap) (b : Nat) : ∀ (fuel : Nat) (H : Heap) (p : Nat) (H1 : Heap)
    (r : Int), frame_inv h0 H b → b ≤ p → rpc_release_impl fuel H p = some (H1, r) →
    frame_inv h0 H1 b := by
  intro fuel
  induction fuel with
  | zero => intro H p H1 r _ _ hr; simp [rpc_release_impl] at hr
  | succ fuel ih =>
    intro H p H1 r hinv hp hr
    unfold rpc_release_impl at hr
    cases hg : H.get p with
    | none => simp [hg] at hr
    | some o =>
      obtain ⟨rc, val⟩ := o
      simp only [hg] at hr
      have hchild : ∀ ch ∈ val.children, b ≤ ch := fun ch hc => hinv.2.1 p _ hp hg ch hc
      have hlt := Heap.get_lt hg
      have hinv1 : frame_inv h0 (H.set p ⟨wrap_int32 (rc - 1), val⟩) b :=
        inv_set hinv hp hchild
      split at hr
      · simp at hr
      · split at hr
        · cases val with
          | rv_list items =>
            simp only [rpc_array_apply, Heap.get_set_same _ hlt] at hr
            cases happ : apply_items
                (fun _ v (hh : Heap) => (rpc_release_impl fuel hh v).map (fun r => (r.1, true)))
                items 0 (H.set p ⟨wrap_int32 (rc - 1), .rv_list items⟩) with
            | none => simp [happ] at hr
            | some res =>
              obtain ⟨H2, fl⟩ := res
              simp [happ] at hr
              rw [← hr.1]
              exact inv_free (inv_release_items fuel h0 b ih items 0 _ H2 fl hinv1
                (by simpa [rpc_value.children] using hchild) happ) hp
          | rv_dict entries =>
            simp only at hr
            cases happ : apply_entries
                (fun _ v (hh : Heap) => (rpc_release_impl fuel hh v).map (fun r => (r.1, true)))
                entries (H.set p ⟨wrap_int32 (rc - 1), .rv_dict entries⟩) with
            | none => simp [happ] at hr
            | some res =>
              obtain ⟨H2, fl⟩ := res
              simp [happ] at hr
              rw [← hr.1]
              exact inv_free (inv_release_entries fuel h0 b ih entries _ H2 fl hinv1
                (by
                  intro e he
                  exact hchild e.2 (by simp [rpc_value.children]; exact ⟨e.1, he⟩)) happ) hp
          | _ =>
            simp at hr
            rw [← hr.1]
            exact inv_free hinv1 hp
        · simp at hr
          rw [← hr.1]
          exact hinv1
theorem inv_append_stolen {h0 H H1 : Heap} {b a v : Nat} (hinv : frame_inv h0 H b)
    (ha : b ≤ a) (hv : b ≤ v) (hr : rpc_array_append_stolen_value H a v = some H1) :
    frame_inv h0 H1 b := by
  unfold rpc_array_append_stolen_value at hr
  cases hg : H.get a with
  | none => simp [hg] at hr
  | some o =>
    obtain ⟨rc, val⟩ := o
    cases val <;> simp [hg] at hr
    subst hr
    refine inv_set hinv ha ?_
    intro ch hc
    simp only [rpc_value.children, List.mem_append, List.mem_singleton] at hc
    rcases hc with hc | hc
    · exact hinv.2.1 a _ ha hg ch (by simpa [rpc_value.children] using hc)
    · omega

theorem inv_append {h0 H H1 : Heap} {b a v : Nat} (hinv : frame_inv h0 H b)
    (ha : b ≤ a) (hv : b ≤ v) (hr : rpc_array_append_value H a v = some H1) :
    frame_inv h0 H1 b := by
  unfold rpc_array_append_value at hr
  cases hs : rpc_array_append_stolen_value H a v with
  | none => simp [hs] at hr
  | some H2 =>
    simp [hs] at hr
    exact inv_retain (inv_append_stolen hinv ha hv hs) hv hr

theorem inv_steal_pad {h0 : Heap} {b a : Nat} (ha : b ≤ a) : ∀ (n : Nat) (H H1 : Heap),
    frame_inv h0 H b → steal_pad n H a = some H1 → frame_inv h0 H1 b := by
  intro n
  induction n with
  | zero =>
    intro H H1 hinv hr
    simp [steal_pad] at hr
    subst hr
    exact hinv
  | succ n ih =>
    intro H H1 hinv hr
    simp only [steal_pad] at hr
    cases hs : rpc_array_append_value (rpc_prim_create H .rv_null).1 a
        (rpc_prim_create H .rv_null).2 with
    | none => simp [hs] at hr
    | some H2 =>
      simp [hs] at hr
      have hinv1 : frame_inv h0 (rpc_prim_create H .rv_null).1 b :=
        inv_alloc hinv (by simp [rpc_value.children])
      have hnew : b ≤ (rpc_prim_create H .rv_null).2 := hinv.2.2
      exact ih H2 H1 (inv_append hinv1 ha hnew hs) hr

theorem inv_array_steal {h0 H H1 : Heap} {b a i v : Nat} (fuel : Nat)
    (hinv : frame_inv h0 H b) (ha : b ≤ a) (hv : b ≤ v)
    (hr : rpc_array_steal_value fuel H a i v = some H1) : frame_inv h0 H1 b := by
  unfold rpc_array_steal_value at hr
  cases hg : H.get a with
  | none => simp [hg] at hr
  | some o =>
    obtain ⟨rc, val⟩ := o
    cases val <;> simp only [hg] at hr <;> try contradiction
    rename_i items
    split at hr
    · contradiction
    · rename_i Hp hp
      have hinvp := inv_steal_pad ha _ H Hp hinv hp
      cases hg1 : Hp.get a with
      | none => simp [hg1] at hr
      | some o1 =>
        obtain ⟨rc1, val1⟩ := o1
        cases val1 <;> simp only [hg1] at hr <;> try contradiction
        rename_i items1
        cases hi : items1[i]? with
        | none => simp [hi] at hr
        | some ro =>
          simp only [hi] at hr
          have hro : b ≤ ro := by
            apply hinvp.2.1 a _ ha hg1 ro
            simp only [rpc_value.children]
            exact List.getElem?_mem hi
          cases hrel : rpc_release_impl fuel Hp ro with
          | none => simp [hrel] at hr
          | some res =>
            obtain ⟨H2, r⟩ := res
            simp only [hrel] at hr
            have hinv2 := inv_release h0 b fuel Hp ro H2 r hinvp hro hrel
            cases hg2 : H2.get a with
            | none => simp [hg2] at hr
            | some o2 =>
              obtain ⟨rc2, val2⟩ := o2
              cases val2 <;> simp only [hg2] at hr <;> try contradiction
              rename_i items2
              simp only [Option.some.injEq] at hr
              subst hr
              refine inv_set hinv2 ha ?_
              intro ch hc
              simp only [rpc_value.children] at hc
              rcases List.mem_or_eq_of_mem_set hc with hc | hc
              · exact hinv2.2.1 a _ ha hg2 ch (by simpa [rpc_value.children] using hc)
              · omega

theorem inv_array_set {h0 H H1 : Heap} {b a i v : Nat} (fuel : Nat)
    (hinv : frame_inv h0 H b) (ha : b ≤ a) (hv : b ≤ v)
    (hr : rpc_array_set_value fuel H a i v = some H1) : frame_inv h0 H1 b := by
  unfold rpc_array_set_value at hr
  cases hs : rpc_array_steal_value fuel H a i v with
  | none => simp [hs] at hr
  | some H2 =>
    simp [hs] at hr
    exact inv_retain (inv_array_steal fuel hinv ha hv hs) hv hr

theorem mem_entries_insert {entries : List (String × Nat)} {k : String} {v ch : Nat}
    (hc : ch ∈ (entries_insert entries k v).map Prod.snd) :
    ch ∈ entries.map Prod.snd ∨ ch = v := by
  unfold entries_insert at hc
  split at hc
  · simp only [List.map_append, List.map_cons, List.map_nil, List.mem_append,
      List.mem_singleton] at hc
    exact hc
  · simp only [List.map_map, List.mem_map, Function.comp] at hc
    obtain ⟨e, he, hev⟩ := hc
    split at hev
    · right
      exact hev.symm
    · left
      exact List.mem_map.mpr ⟨e, he, hev⟩

theorem lookup_mem_snd {entries : List (String × Nat)} {k : String} {old : Nat}
    (hl : entries.lookup k = some old) : old ∈ entries.map Prod.snd := by
  induction entries with
  | nil => simp [List.lookup] at hl
  | cons e rest ih =>
    obtain ⟨k1, v1⟩ := e
    simp only [List.lookup] at hl
    split at hl
    · simp at hl
      simp [hl]
    · simp [ih hl]

theorem inv_dict_steal {h0 H H1 : Heap} {b d v : Nat} {k : String} (fuel : Nat)
    (hinv : frame_inv h0 H b) (hd : b ≤ d) (hv : b ≤ v)
    (hr : rpc_dictionary_steal_value fuel H d k v = some H1) : frame_inv h0 H1 b := by
  unfold rpc_dictionary_steal_value at hr
  cases hg : H.get d with
  | none => simp [hg] at hr
  | some o =>
    obtain ⟨rc, val⟩ := o
    cases val <;> simp only [hg] at hr <;> try contradiction
    rename_i entries
    have hold : ∀ ch ∈ entries.map Prod.snd, b ≤ ch := fun ch hc =>
      hinv.2.1 d _ hd hg ch (by simpa [rpc_value.children] using hc)
    have hinv1 : frame_inv h0 (H.set d ⟨rc, .rv_dict (entries_insert entries k v)⟩) b := by
      refine inv_set hinv hd ?_
      intro ch hc
      simp only [rpc_value.children] at hc
      rcases mem_entries_insert hc with hc | hc
      · exact hold ch hc
      · omega
    cases hl : entries.lookup k with
    | none =>
      simp [hl] at hr
      subst hr
      exact hinv1
    | some old =>
      simp only [hl] at hr
      cases hrel : rpc_release_impl fuel
          (H.set d ⟨rc, .rv_dict (entries_insert entries k v)⟩) old with
      | none => simp [hrel] at hr
      | some res =>
        obtain ⟨H2, r⟩ := res
        simp [hrel] at hr
        subst hr
        exact inv_release h0 b fuel _ old H2 r hinv1 (hold old (lookup_mem_snd hl)) hrel

theorem inv_dict_set {h0 H H1 : Heap} {b d v : Nat} {k : String} (fuel : Nat)
    (hinv : frame_inv h0 H b) (hd : b ≤ d) (hv : b ≤ v)
    (hr : rpc_dictionary_set_value fuel H d k v = some H1) : frame_inv h0 H1 b := by
  unfold rpc_dictionary_set_value at hr
  cases hs : rpc_dictionary_steal_value fuel H d k v with
  | none => simp [hs] at hr
  | some H2 =>
    simp [hs] at hr
    exact inv_retain (inv_dict_steal fuel hinv hd hv hs) hv hr

theorem inv_dict_remove {h0 H H1 : Heap} {b d : Nat} {k : String} (fuel : Nat)
    (hinv : frame_inv h0 H b) (hd : b ≤ d)
    (hr : rpc_dictionary_remove_key fuel H d k = some H1) : frame_inv h0 H1 b := by
  unfold rpc_dictionary_remove_key at hr
  cases hg : H.get d with
  | none => simp [hg] at hr
  | some o =>
    obtain ⟨rc, val⟩ := o
    cases val <;> simp only [hg] at hr <;> try contradiction
    rename_i entries
    have hold : ∀ ch ∈ entries.map Prod.snd, b ≤ ch := fun ch hc =>
      hinv.2.1 d _ hd hg ch (by simpa [rpc_value.children] using hc)
    have hinv1 : frame_inv h0
        (H.set d ⟨rc, .rv_dict (entries.filter (fun e => e.1 ≠ k))⟩) b := by
      refine inv_set hinv hd ?_
      intro ch hc
      simp only [rpc_value.children, List.mem_map] at hc
      obtain ⟨e, he, hev⟩ := hc
      exact hold ch (List.mem_map.mpr ⟨e, (List.mem_filter.mp he).1, hev⟩)
    cases hl : entries.lookup k with
    | none =>
      simp only [hl, Option.some.injEq] at hr
      subst hr
      exact hinv1
    | some old =>
      simp only [hl] at hr
      cases hrel : rpc_release_impl fuel
          (H.set d ⟨rc, .rv_dict (entries.filter (fun e => e.1 ≠ k))⟩) old with
      | none => simp only [hrel, Option.map_none', reduceCtorEq] at hr
      | some res =>
        obtain ⟨H2, r⟩ := res
        simp only [hrel, Option.map_some', Option.some.injEq] at hr
        subst hr
        exact inv_release h0 b fuel _ old H2 r hinv1 (hold old (lookup_mem_snd hl)) hrel

theorem inv_mutation {h0 H H1 : Heap} {b c : Nat} (depth fuel : Nat) (m : mutation)
    (hinv : frame_inv h0 H b) (hc : b ≤ c) (hon : m.on depth H c b = true)
    (hr : m.run fuel H = some H1) : frame_inv h0 H1 b := by
  cases m with
  | create val =>
    simp only [mutation.run, Option.some.injEq] at hr
    subst hr
    simp only [mutation.on, List.isEmpty_iff] at hon
    exact inv_alloc hinv (by simp [hon])
  | array_set a i v =>
    simp only [mutation.on, Bool.and_eq_true, decide_eq_true_eq] at hon
    exact inv_array_set fuel hinv (nested_ge hinv.2.1 depth c a hon.1 hc) hon.2 hr
  | array_steal a i v =>
    simp only [mutation.on, Bool.and_eq_true, decide_eq_true_eq] at hon
    exact inv_array_steal fuel hinv (nested_ge hinv.2.1 depth c a hon.1 hc) hon.2 hr
  | array_append a v =>
    simp only [mutation.on, Bool.and_eq_true, decide_eq_true_eq] at hon
    exact inv_append hinv (nested_ge hinv.2.1 depth c a hon.1 hc) hon.2 hr
  | array_append_stolen a v =>
    simp only [mutation.on, Bool.and_eq_true, decide_eq_true_eq] at hon
    exact inv_append_stolen hinv (nested_ge hinv.2.1 depth c a hon.1 hc) hon.2 hr
  | dictionary_set d k v =>
    simp only [mutation.on, Bool.and_eq_true, decide_eq_true_eq] at hon
    exact inv_dict_set fuel hinv (nested_ge hinv.2.1 depth c d hon.1 hc) hon.2 hr
  | dictionary_steal d k v =>
    simp only [mutation.on, Bool.and_eq_true, decide_eq_true_eq] at hon
    exact inv_dict_steal fuel hinv (nested_ge hinv.2.1 depth c d hon.1 hc) hon.2 hr
  | dictionary_remove d k =>
    simp only [mutation.on] at hon
    exact inv_dict_remove fuel hinv (nested_ge hinv.2.1 depth c d hon hc) hr

theorem inv_mutations {h0 : Heap} {b c : Nat} (depth fuel : Nat) (hc : b ≤ c) :
    ∀ (ms : List mutation) (H H1 : Heap), frame_inv h0 H b →
      mutations_on depth fuel c b H ms = true →
      run_mutations fuel H ms = some H1 → frame_inv h0 H1 b := by
  intro ms
  induction ms with
  | nil =>
    intro H H1 hinv _ hr
    simp [run_mutations] at hr
    subst hr
    exact hinv
  | cons m rest ih =>
    intro H H1 hinv hon hr
    simp only [run_mutations] at hr
    simp only [mutations_on, Bool.and_eq_true] at hon
    cases hm : m.run fuel H with
    | none => simp [hm] at hr
    | some H2 =>
      simp only [hm] at hr hon
      exact ih H2 H1 (inv_mutation depth fuel m hinv hc hon.1 hm) hon.2 hr

/-- C3: let `c = rpc_copy(v)` for a value `v`. After any sequence of
mutations of `c` (setting or appending an array element, setting or removing
a dictionary key, on `c` or on a container nested in `c` at any depth, the
values stored being objects created by or after the copy), every cell that
existed before the copy is exactly as it was, reference counts included, and
`v` still reads as the same tree. -/
theorem C3_copy_is_deep (n depth fuel : Nat) (h : Heap) (v : Nat) (t : Tree)
    (ht : toTree n h v = some t) (h1 : Heap) (c : Nat)
    (hcopy : rpc_copy n h v = some (h1, c)) (ms : List mutation) (h2 : Heap)
    (hon : mutations_on depth fuel c h.size h1 ms = true)
    (hrun : run_mutations fuel h1 ms = some h2) :
    h.same_below h2 h.size ∧ toTree n h2 v = some t ∧ h.size ≤ c := by
  obtain ⟨h1', c', hcopy', hc, hsz, _, hsb, _, hcl⟩ := copy_spec n h v t ht
  rw [hcopy] at hcopy'
  simp only [Option.some.injEq, Prod.mk.injEq] at hcopy'
  obtain ⟨rfl, rfl⟩ := hcopy'
  have hinv : frame_inv h h1 h.size := ⟨hsb, hcl, by omega⟩
  have hinv2 := inv_mutations depth fuel (by omega) ms h1 h2 hinv hon hrun
  refine ⟨hinv2.1, ?_, by omega⟩
  refine toTree_agree n h h2 v t ht ?_
  intro x hx
  rw [Heap.get_eq_of_cells (hinv2.1 x hx)]

/-- C3 at a concrete input: the array `[1, 2]` of `ex_values` is copied and
the copy is mutated by `ex_mutations`. -/
theorem C3_copy_is_deep_witness :
    ex_values.same_below ex_mutated ex_values.size ∧
      toTree 2 ex_mutated 5 = some (.array [.int64 1, .int64 2]) ∧
      ex_values.size ≤ ex_copied.2 :=
  C3_copy_is_deep 2 1 2 ex_values 5 (.array [.int64 1, .int64 2]) rfl ex_copied.1 ex_copied.2
    (by decide) ex_mutations ex_mutated (by decide) (by decide)

/-! ## Sending a frame -/

theorem Heap.fd_rewritten_refl (h : Heap) : h.fd_rewritten h :=
  fun _ o hg => ⟨o, hg, rfl, Or.inl rfl⟩

theorem Heap.fd_rewritten_trans {h h2 h3 : Heap} (h12 : h.fd_rewritten h2)
    (h23 : h2.fd_rewritten h3) : h.fd_rewritten h3 := by
  intro x o hg
  obtain ⟨o2, hg2, hrc2, hv2⟩ := h12 x o hg
  obtain ⟨o3, hg3, hrc3, hv3⟩ := h23 x o2 hg2
  refine ⟨o3, hg3, by rw [hrc3, hrc2], ?_⟩
  rcases hv2 with hv2 | ⟨a, b, ha, hb⟩
  · rcases hv3 with hv3 | ⟨a, b, ha, hb⟩
    · exact Or.inl (by rw [hv3, hv2])
    · exact Or.inr ⟨a, b, by rw [← hv2, ha], hb⟩
  · rcases hv3 with hv3 | ⟨a', b', ha', hb'⟩
    · exact Or.inr ⟨a, b, ha, by rw [hv3, hb]⟩
    · exact Or.inr ⟨a, b', ha, hb'⟩

theorem mapOpt_some_of_forall {α β : Type} {f : α → Option β} :
    ∀ (l : List α), (∀ a ∈ l, ∃ b, f a = some b) → ∃ bs, mapOpt f l = some bs := by
  intro l
  induction l with
  | nil => intro _; exact ⟨[], rfl⟩
  | cons a rest ih =>
    intro hall
    obtain ⟨b, hb⟩ := hall a (by simp)
    obtain ⟨bs, hbs⟩ := ih (fun x hx => hall x (by simp [hx]))
    exact ⟨b :: bs, by simp [mapOpt, hb, hbs]⟩

theorem mapOpt_some_forall {α β : Type} {f : α → Option β} :
    ∀ (l : List α) (bs : List β), mapOpt f l = some bs → ∀ a ∈ l, ∃ b, f a = some b := by
  intro l
  induction l with
  | nil => intro _ _ a ha; simp at ha
  | cons a rest ih =>
    intro bs h x hx
    obtain ⟨b, bs1, hb, hrest, rfl⟩ := mapOpt_cons_some h
    simp only [List.mem_cons] at hx
    rcases hx with rfl | hx
    · exact ⟨b, hb⟩
    · exact ih bs1 hrest x hx

/-- The elements of a well-formed container are well-formed one level down. -/
theorem toTree_children {n : Nat} {h : Heap} {a : Nat} {t : Tree} {o : rpc_object}
    (ht : toTree (n + 1) h a = some t) (hg : h.get a = some o) :
    ∀ ch ∈ o.ro_value.children, ∃ tc, toTree n h ch = some tc := by
  unfold toTree at ht
  simp only [hg] at ht
  obtain ⟨rc, val⟩ := o
  cases val with
  | rv_dict entries =>
    simp only at ht
    split at ht
    · cases hm : mapOpt (fun e => (toTree n h e.2).map (fun t => (e.1, t))) entries with
      | none => simp [hm] at ht
      | some ts =>
        intro ch hch
        simp only [rpc_value.children, List.mem_map] at hch
        obtain ⟨e, he, rfl⟩ := hch
        obtain ⟨b, hb⟩ := mapOpt_some_forall entries ts hm e he
        cases hte : toTree n h e.2 with
        | none => simp [hte] at hb
        | some tc => exact ⟨tc, rfl⟩
    · simp at ht
  | rv_list items =>
    simp only at ht
    cases hm : mapOpt (toTree n h) items with
    | none => simp [hm] at ht
    | some ts =>
      intro ch hch
      exact mapOpt_some_forall items ts hm ch (by simpa [rpc_value.children] using hch)
  | _ => intro ch hch; simp [rpc_value.children] at hch

/-- Being a well-formed tree does not depend on the numbers in Fd objects. -/
theorem toTree_some_of_fd_rewritten : ∀ (n : Nat) (h h2 : Heap) (a : Nat) (t : Tree),
    h.fd_rewritten h2 → toTree n h a = some t → ∃ t2, toTree n h2 a = some t2 := by
  intro n
  induction n with
  | zero => intro h h2 a t _ ht; simp [toTree] at ht
  | succ n ih =>
    intro h h2 a t hrw ht
    obtain ⟨o, hg⟩ := toTree_some_get ht
    have hch := toTree_children ht hg
    obtain ⟨o2, hg2, _, hv⟩ := hrw a o hg
    unfold toTree at ht ⊢
    simp only [hg] at ht
    simp only [hg2]
    rcases hv with hv | ⟨x, y, hx, hy⟩
    · rw [hv]
      cases hval : o.ro_value with
      | rv_dict entries =>
        simp only [hval] at ht ⊢
        split at ht
        · rename_i hnd
          simp only [hnd, if_true]
          obtain ⟨bs, hbs⟩ := mapOpt_some_of_forall
            (f := fun e => (toTree n h2 e.2).map (fun t => (e.1, t))) entries (by
              intro e he
              obtain ⟨tc, htc⟩ := hch e.2 (by
                simp only [hval, rpc_value.children, List.mem_map]
                exact ⟨e, he, rfl⟩)
              obtain ⟨t2, ht2⟩ := ih h h2 e.2 tc hrw htc
              exact ⟨(e.1, t2), by simp [ht2]⟩)
          exact ⟨_, by rw [hbs]; rfl⟩
        · simp at ht
      | rv_list items =>
        simp only [hval] at ht ⊢
        obtain ⟨bs, hbs⟩ := mapOpt_some_of_forall (f := toTree n h2) items (by
          intro e he
          obtain ⟨tc, htc⟩ := hch e (by simpa [hval, rpc_value.children] using he)
          exact ih h h2 e tc hrw htc)
        exact ⟨_, by rw [hbs]; rfl⟩
      | _ => simp
    · rw [hy]
      exact ⟨_, rfl⟩
theorem walk_items_loop (n : Nat) (h : Heap) (idx L : Nat)
    (ih : ∀ (hh : Heap) (fds : List (Option Int)) (obj : Nat) (t : Tree),
      toTree n hh obj = some t → idx < fds.length →
      ∃ h2 fds2 c, rpc_serialize_fds n hh fds obj idx = some (h2, fds2, c) ∧
        hh.fd_rewritten h2 ∧ fds2.length = fds.length) :
    ∀ (items : List Nat) (i : Nat) (hh : Heap) (fds1 : List (Option Int)) (cnt : Nat),
      (∀ v ∈ items, ∃ t, toTree n h v = some t) → h.fd_rewritten hh → fds1.length = L →
      idx < L →
      ∃ h2 fds2 c2,
        apply_items
          (fun _ i (st : Heap × List (Option Int) × Nat) =>
            (rpc_serialize_fds n st.1 st.2.1 i idx).map
              (fun r => ((r.1, r.2.1, (st.2.2 + r.2.2) % SIZE_T_MOD), true)))
          items i (hh, fds1, cnt) = some ((h2, fds2, c2), false) ∧
        h.fd_rewritten h2 ∧ fds2.length = L := by
  intro items
  induction items with
  | nil =>
    intro i hh fds1 cnt _ hrw hlen _
    exact ⟨hh, fds1, cnt, by simp [apply_items], hrw, hlen⟩
  | cons v rest ihl =>
    intro i hh fds1 cnt hall hrw hlen hidx
    obtain ⟨t, ht⟩ := hall v (by simp)
    obtain ⟨t2, ht2⟩ := toTree_some_of_fd_rewritten n h hh v t hrw ht
    obtain ⟨h2, fds2, c, hw, hrw2, hlen2⟩ := ih hh fds1 v t2 ht2 (by omega)
    obtain ⟨h3, fds3, c3, happ, hrw3, hlen3⟩ :=
      ihl (i + 1) h2 fds2 ((cnt + c) % SIZE_T_MOD) (fun x hx => hall x (by simp [hx]))
        (Heap.fd_rewritten_trans hrw hrw2) (by omega) hidx
    exact ⟨h3, fds3, c3, by simp [apply_items, hw, happ], hrw3, hlen3⟩

theorem walk_entries_loop (n : Nat) (h : Heap) (idx L : Nat)
    (ih : ∀ (hh : Heap) (fds : List (Option Int)) (obj : Nat) (t : Tree),
      toTree n hh obj = some t → idx < fds.length →
      ∃ h2 fds2 c, rpc_serialize_fds n hh fds obj idx = some (h2, fds2, c) ∧
        hh.fd_rewritten h2 ∧ fds2.length = fds.length) :
    ∀ (entries : List (String × Nat)) (hh : Heap) (fds1 : List (Option Int)) (cnt : Nat),
      (∀ e ∈ entries, ∃ t, toTree n h e.2 = some t) → h.fd_rewritten hh → fds1.length = L →
      idx < L →
      ∃ h2 fds2 c2,
        apply_entries
          (fun _ i (st : Heap × List (Option Int) × Nat) =>
            (rpc_serialize_fds n st.1 st.2.1 i idx).map
              (fun r => ((r.1, r.2.1, (st.2.2 + r.2.2) % SIZE_T_MOD), true)))
          entries (hh, fds1, cnt) = some ((h2, fds2, c2), true) ∧
        h.fd_rewritten h2 ∧ fds2.length = L := by
  intro entries
  induction entries with
  | nil =>
    intro hh fds1 cnt _ hrw hlen _
    exact ⟨hh, fds1, cnt, by simp [apply_entries], hrw, hlen⟩
  | cons e rest ihl =>
    intro hh fds1 cnt hall hrw hlen hidx
    obtain ⟨k, v⟩ := e
    obtain ⟨t, ht⟩ := hall (k, v) (by simp)
    obtain ⟨t2, ht2⟩ := toTree_some_of_fd_rewritten n h hh v t hrw ht
    obtain ⟨h2, fds2, c, hw, hrw2, hlen2⟩ := ih hh fds1 v t2 ht2 (by omega)
    obtain ⟨h3, fds3, c3, happ, hrw3, hlen3⟩ :=
      ihl h2 fds2 ((cnt + c) % SIZE_T_MOD) (fun x hx => hall x (by simp [hx]))
        (Heap.fd_rewritten_trans hrw hrw2) (by omega) hidx
    exact ⟨h3, fds3, c3, by simp [apply_entries, hw, happ], hrw3, hlen3⟩

/-- The descriptor walk returns on every well-formed tree when `idx` is inside
the array `fds`, and changes nothing but the numbers in Fd objects. -/
theorem walk_spec : ∀ (n : Nat) (h : Heap) (fds : List (Option Int)) (obj idx : Nat) (t : Tree),
    toTree n h obj = some t → idx < fds.length →
    ∃ h2 fds2 c, rpc_serialize_fds n h fds obj idx = some (h2, fds2, c) ∧
      h.fd_rewritten h2 ∧ fds2.length = fds.length := by
  intro n
  induction n with
  | zero => intro h fds obj idx t ht; simp [toTree] at ht
  | succ n ih =>
    intro h fds obj idx t ht hidx
    obtain ⟨o, hg⟩ := toTree_some_get ht
    have hch := toTree_children ht hg
    have hlt := Heap.get_lt hg
    unfold rpc_serialize_fds
    simp only [hg]
    obtain ⟨rc, val⟩ := o
    cases val with
    | rv_fd fd =>
      simp only [hidx, if_true]
      refine ⟨_, _, _, rfl, ?_, by simp⟩
      intro x o1 hx
      by_cases hxo : x = obj
      · subst hxo
        rw [hg] at hx
        cases hx
        exact ⟨_, Heap.get_set_same _ hlt, rfl, Or.inr ⟨_, _, rfl, rfl⟩⟩
      · exact ⟨o1, by rw [Heap.get_set_ne _ _ hxo, hx], rfl, Or.inl rfl⟩
    | rv_list items =>
      obtain ⟨h2, fds2, c2, happ, hrw, hlen⟩ :=
        walk_items_loop n h idx fds.length (fun hh f ob t1 => ih hh f ob idx t1) items 0 h fds idx
          (fun v hv => hch v (by simpa [rpc_value.children] using hv))
          (Heap.fd_rewritten_refl h) rfl hidx
      exact ⟨h2, fds2, c2, by simp [rpc_array_apply, hg, happ], hrw, hlen⟩
    | rv_dict entries =>
      obtain ⟨h2, fds2, c2, happ, hrw, hlen⟩ :=
        walk_entries_loop n h idx fds.length (fun hh f ob t1 => ih hh f ob idx t1) entries h fds
          idx
          (fun e he => hch e.2 (by
            simp only [rpc_value.children, List.mem_map]
            exact ⟨e, he, rfl⟩))
          (Heap.fd_rewritten_refl h) rfl hidx
      exact ⟨h2, fds2, c2, by simp [rpc_dictionary_apply, hg, happ], hrw, hlen⟩
    | _ => exact ⟨h, fds, idx, rfl, Heap.fd_rewritten_refl h, rfl⟩

theorem toTree_succ : ∀ (n : Nat) (h : Heap) (a : Nat) (t : Tree),
    toTree n h a = some t → toTree (n + 1) h a = some t := by
  intro n
  induction n with
  | zero => intro h a t ht; simp [toTree] at ht
  | succ n ih =>
    intro h a t ht
    unfold toTree at ht ⊢
    cases hg : h.get a with
    | none => simp [hg] at ht
    | some o =>
      simp only [hg] at ht ⊢
      cases hval : o.ro_value with
      | rv_dict entries =>
        simp only [hval] at ht ⊢
        split at ht
        · rename_i hnd
          simp only [hnd, if_true]
          cases hm : mapOpt (fun e => (toTree n h e.2).map (fun t => (e.1, t))) entries with
          | none => simp [hm] at ht
          | some ts =>
            have := mapOpt_imp (f := fun e => (toTree n h e.2).map (fun t => (e.1, t)))
              (g := fun e => (toTree (n + 1) h e.2).map (fun t => (e.1, t)))
              (by
                intro e b hb
                cases hte : toTree n h e.2 with
                | none => simp [hte] at hb
                | some t1 =>
                  simp [hte] at hb
                  simp [ih h e.2 t1 hte, hb]) entries ts hm
            rw [this]
            rw [hm] at ht
            exact ht
        · simp at ht
      | rv_list items =>
        simp only [hval] at ht ⊢
        cases hm : mapOpt (toTree n h) items with
        | none => simp [hm] at ht
        | some ts =>
          have := mapOpt_imp (f := toTree n h) (g := toTree (n + 1) h)
            (fun x b hb => ih h x b hb) items ts hm
          rw [this]
          rw [hm] at ht
          exact ht
      | _ =>
        simp only [hval] at ht ⊢
        exact ht

theorem toTree_mono {n m : Nat} {h : Heap} {a : Nat} {t : Tree} (ht : toTree n h a = some t)
    (hle : n ≤ m) : toTree m h a = some t := by
  induction hle with
  | refl => exact ht
  | step _ ih => exact toTree_succ _ h a t ih

theorem toTree_pos {n : Nat} {h : Heap} {a : Nat} {t : Tree} (ht : toTree n h a = some t) :
    0 < n := by
  cases n with
  | zero => simp [toTree] at ht
  | succ n => omega

theorem fd_rewritten_get_str {h h2 : Heap} (hrw : h.fd_rewritten h2) {x : Nat} {rc : Int}
    {s : String} (hg : h.get x = some ⟨rc, .rv_str s⟩) : h2.get x = some ⟨rc, .rv_str s⟩ := by
  obtain ⟨o2, hg2, hrc, hv⟩ := hrw x _ hg
  obtain ⟨rc2, v2⟩ := o2
  simp only at hrc hv
  rcases hv with hv | ⟨a, b, ha, _⟩
  · rw [hg2, hrc, hv]
  · cases ha

theorem fd_rewritten_get_dict {h h2 : Heap} (hrw : h.fd_rewritten h2) {x : Nat} {rc : Int}
    {es : List (String × Nat)} (hg : h.get x = some ⟨rc, .rv_dict es⟩) :
    h2.get x = some ⟨rc, .rv_dict es⟩ := by
  obtain ⟨o2, hg2, hrc, hv⟩ := hrw x _ hg
  obtain ⟨rc2, v2⟩ := o2
  simp only at hrc hv
  rcases hv with hv | ⟨a, b, ha, _⟩
  · rw [hg2, hrc, hv]
  · cases ha

theorem fd_rewritten_get_rc {h h2 : Heap} (hrw : h.fd_rewritten h2) {x : Nat} {rc : Int}
    {v : rpc_value} (hg : h.get x = some ⟨rc, v⟩) : ∃ v2, h2.get x = some ⟨rc, v2⟩ := by
  obtain ⟨o2, hg2, hrc, _⟩ := hrw x _ hg
  obtain ⟨rc2, v2⟩ := o2
  simp only at hrc
  exact ⟨v2, by rw [hg2, hrc]⟩

/-- Sending a frame `{namespace, name, id, args}` whose strings are owned by
the frame and whose id and args objects are shared: the message carries the
tree of the frame and `nfds = 0`, the frame is released, the args object
loses one reference, and the objects outside the frame keep their reference
counts and, Fd numbers apart, their payloads. -/
theorem send_frame_heap (m : Nat) (st : State) (s p1 p2 i a : Nat) (ns name : String)
    (ri ra : Int) (vi va : rpc_value) (ti ta : Tree)
    (hs : st.heap.get s =
      some ⟨1, .rv_dict [("namespace", p1), ("name", p2), ("id", i), ("args", a)]⟩)
    (h1 : st.heap.get p1 = some ⟨1, .rv_str ns⟩)
    (h2 : st.heap.get p2 = some ⟨1, .rv_str name⟩)
    (hi : st.heap.get i = some ⟨ri, vi⟩) (hri : 1 < ri) (hri2 : ri < 2 ^ 31)
    (ha : st.heap.get a = some ⟨ra, va⟩) (hra : 1 < ra) (hra2 : ra < 2 ^ 31)
    (hd : s ≠ p1 ∧ s ≠ p2 ∧ s ≠ i ∧ s ≠ a ∧ p1 ≠ p2 ∧ p1 ≠ i ∧ p1 ≠ a ∧ p2 ≠ i ∧ p2 ≠ a ∧ i ≠ a)
    (hti : toTree (m + 1) st.heap i = some ti) (hta : toTree (m + 1) st.heap a = some ta) :
    ∃ hf fds,
      rpc_send_frame (m + 2) st s =
        some ({ st with
            heap := hf,
            sent := st.sent ++
              [⟨.dictionary [("namespace", .string ns), ("name", .string name), ("id", ti),
                  ("args", ta)], fds, 0⟩] },
          st.rco_send_msg
            ⟨.dictionary [("namespace", .string ns), ("name", .string name), ("id", ti),
              ("args", ta)], fds, 0⟩) ∧
      (∃ va2, hf.get a = some ⟨ra - 1, va2⟩ ∧
        (va2 = va ∨ ∃ x y, va = .rv_fd x ∧ va2 = .rv_fd y)) ∧
      (∀ x o, x ≠ s → x ≠ p1 → x ≠ p2 → x ≠ i → x ≠ a → st.heap.get x = some o →
        ∃ o2, hf.get x = some o2 ∧ o2.ro_refcnt = o.ro_refcnt ∧
          (o2.ro_value = o.ro_value ∨
            ∃ x y, o.ro_value = .rv_fd x ∧ o2.ro_value = .rv_fd y)) := by
  obtain ⟨d1, d2, d3, d4, d5, d6, d7, d8, d9, d10⟩ := hd
  -- serialization
  have hser : toTree (m + 2) st.heap s =
      some (.dictionary [("namespace", .string ns), ("name", .string name), ("id", ti),
        ("args", ta)]) := by
    have e1 : toTree (m + 1) st.heap p1 = some (.string ns) := by
      unfold toTree; simp [h1]
    have e2 : toTree (m + 1) st.heap p2 = some (.string name) := by
      unfold toTree; simp [h2]
    have hnd : (List.map Prod.fst
        [("namespace", p1), ("name", p2), ("id", i), ("args", a)]).Nodup := by
      simp only [List.map_cons, List.map_nil]
      decide
    unfold toTree
    simp only [hs, hnd, if_true, mapOpt, e1, e2, hti, hta, Option.map_some']
  -- descriptor walk
  obtain ⟨hw, fds, c, hwalk, hrw, _⟩ :=
    walk_spec (m + 2) st.heap (List.replicate MAX_FDS none) s 0 _ hser (by simp [MAX_FDS])
  have gs := fd_rewritten_get_dict hrw hs
  have g1 := fd_rewritten_get_str hrw h1
  have g2 := fd_rewritten_get_str hrw h2
  obtain ⟨vi2, gi⟩ := fd_rewritten_get_rc hrw hi
  obtain ⟨oa2, ga0, hrca, hva⟩ := hrw a _ ha
  obtain ⟨rca2, va2⟩ := oa2
  simp only at hrca hva
  have ga : hw.get a = some ⟨ra, va2⟩ := by rw [ga0, hrca]
  have ls := Heap.get_lt gs
  have l1 := Heap.get_lt g1
  have l2 := Heap.get_lt g2
  have li := Heap.get_lt gi
  have la := Heap.get_lt ga
  -- release of the frame
  have hw0 : wrap_int32 (1 - 1) = 0 := by decide
  obtain ⟨H0, hH0⟩ : ∃ H0, H0 = hw.set s
      ⟨0, .rv_dict [("namespace", p1), ("name", p2), ("id", i), ("args", a)]⟩ := ⟨_, rfl⟩
  have r1 := @release_leaf_free H0 p1 (.rv_str ns) m
    (by rw [hH0, Heap.get_set_ne _ _ (Ne.symm d1), g1]) rfl
  obtain ⟨Ha, hHa⟩ : ∃ Ha, Ha = (H0.set p1 ⟨0, .rv_str ns⟩).free p1 := ⟨_, rfl⟩
  rw [← hHa] at r1
  have r2 := @release_leaf_free Ha p2 (.rv_str name) m
    (by rw [hHa, Heap.get_free_ne _ (Ne.symm d5), Heap.get_set_ne _ _ (Ne.symm d5), hH0,
      Heap.get_set_ne _ _ (Ne.symm d2), g2]) rfl
  obtain ⟨Hb, hHb⟩ : ∃ Hb, Hb = (Ha.set p2 ⟨0, .rv_str name⟩).free p2 := ⟨_, rfl⟩
  rw [← hHb] at r2
  have r3 := @release_leaf_keep Hb i ri vi2 m
    (by rw [hHb, Heap.get_free_ne _ (Ne.symm d8), Heap.get_set_ne _ _ (Ne.symm d8), hHa,
      Heap.get_free_ne _ (Ne.symm d6), Heap.get_set_ne _ _ (Ne.symm d6), hH0,
      Heap.get_set_ne _ _ (Ne.symm d3), gi]) hri hri2
  obtain ⟨Hc, hHc⟩ : ∃ Hc, Hc = Hb.set i ⟨ri - 1, vi2⟩ := ⟨_, rfl⟩
  rw [← hHc] at r3
  have r4 := @release_leaf_keep Hc a ra va2 m
    (by rw [hHc, Heap.get_set_ne _ _ (Ne.symm d10), hHb,
      Heap.get_free_ne _ (Ne.symm d9), Heap.get_set_ne _ _ (Ne.symm d9), hHa,
      Heap.get_free_ne _ (Ne.symm d7), Heap.get_set_ne _ _ (Ne.symm d7), hH0,
      Heap.get_set_ne _ _ (Ne.symm d4), ga]) hra hra2
  have hrel : rpc_release_impl (m + 2) hw s = some ((Hc.set a ⟨ra - 1, va2⟩).free s, 0) := by
    unfold rpc_release_impl
    simp only [gs, hw0, ← hH0, apply_entries, r1, r2, r3, r4, Option.map_some']
    simp
  refine ⟨(Hc.set a ⟨ra - 1, va2⟩).free s, fds, ?_, ⟨va2, ?_, hva⟩, ?_⟩
  · simp only [rpc_send_frame, rpc_msgpack_serialize, hser, hwalk, hrel]
  · rw [Heap.get_free_ne _ (Ne.symm d4)]
    refine Heap.get_set_same _ ?_
    rw [hHc, Heap.size_set, hHb, Heap.size_free, Heap.size_set, hHa, Heap.size_free,
      Heap.size_set, hH0, Heap.size_set]
    exact la
  · intro x o xs x1 x2 xi xa hx
    obtain ⟨o2, hx2, hrc2, hv2⟩ := hrw x o hx
    refine ⟨o2, ?_, hrc2, hv2⟩
    rw [Heap.get_free_ne _ xs, Heap.get_set_ne _ _ xa, hHc, Heap.get_set_ne _ _ xi, hHb,
      Heap.get_free_ne _ x2, Heap.get_set_ne _ _ x2, hHa, Heap.get_free_ne _ x1,
      Heap.get_set_ne _ _ x1, hH0, Heap.get_set_ne _ _ xs, hx2]

/-- Sending a frame `{namespace, name, id, args}` whose strings are owned by
the frame and whose id and args objects are shared: the message carries the
tree of the frame and `nfds = 0`, and the frame is released. -/
theorem send_frame_spec (m : Nat) (st : State) (s p1 p2 i a : Nat) (ns name : String)
    (ri ra : Int) (vi va : rpc_value) (ti ta : Tree)
    (hs : st.heap.get s =
      some ⟨1, .rv_dict [("namespace", p1), ("name", p2), ("id", i), ("args", a)]⟩)
    (h1 : st.heap.get p1 = some ⟨1, .rv_str ns⟩)
    (h2 : st.heap.get p2 = some ⟨1, .rv_str name⟩)
    (hi : st.heap.get i = some ⟨ri, vi⟩) (hri : 1 < ri) (hri2 : ri < 2 ^ 31)
    (ha : st.heap.get a = some ⟨ra, va⟩) (hra : 1 < ra) (hra2 : ra < 2 ^ 31)
    (hd : s ≠ p1 ∧ s ≠ p2 ∧ s ≠ i ∧ s ≠ a ∧ p1 ≠ p2 ∧ p1 ≠ i ∧ p1 ≠ a ∧ p2 ≠ i ∧ p2 ≠ a ∧ i ≠ a)
    (hti : toTree (m + 1) st.heap i = some ti) (hta : toTree (m + 1) st.heap a = some ta) :
    ∃ hf fds,
      rpc_send_frame (m + 2) st s =
        some ({ st with
            heap := hf,
            sent := st.sent ++
              [⟨.dictionary [("namespace", .string ns), ("name", .string name), ("id", ti),
                  ("args", ta)], fds, 0⟩] },
          st.rco_send_msg
            ⟨.dictionary [("namespace", .string ns), ("name", .string name), ("id", ti),
              ("args", ta)], fds, 0⟩) := by
  obtain ⟨hf, fds, hsend, _⟩ :=
    send_frame_heap m st s p1 p2 i a ns name ri ra vi va ti ta hs h1 h2 hi hri hri2 ha hra hra2
      hd hti hta
  exact ⟨hf, fds, hsend⟩

theorem steal_fresh_new_key (f : Nat) (H : Heap) (d : Nat) (k : String) (val : rpc_value)
    (rc : Int) (es : List (String × Nat))
    (hg : H.get d = some ⟨rc, .rv_dict es⟩) (hk : es.lookup k = none) :
    ∃ H1, rpc_dictionary_steal_value f (rpc_prim_create H val).1 d k (rpc_prim_create H val).2
        = some H1 ∧
      H1.size = H.size + 1 ∧ H1.freed = H.freed ∧
      H1.get d = some ⟨rc, .rv_dict (es ++ [(k, H.size)])⟩ ∧
      H1.get H.size = some ⟨1, val⟩ ∧
      (∀ x, x ≠ d → x ≠ H.size → H1.get x = H.get x) := by
  have hlt := Heap.get_lt hg
  have hne : d ≠ H.size := by omega
  have g0 : (H.alloc ⟨1, val⟩).1.get d = some ⟨rc, .rv_dict es⟩ := by
    rw [Heap.get_alloc_ne _ _ hne, hg]
  refine ⟨(H.alloc ⟨1, val⟩).1.set d ⟨rc, .rv_dict (es ++ [(k, H.size)])⟩, ?_, ?_, ?_, ?_, ?_,
    ?_⟩
  · simp only [rpc_dictionary_steal_value, rpc_prim_create, g0, hk, entries_insert,
      Heap.alloc_snd]
  · simp [Heap.size_set, Heap.size_alloc]
  · rfl
  · rw [Heap.get_set_same _ (by rw [Heap.size_alloc]; omega)]
  · rw [Heap.get_set_ne _ _ (Ne.symm hne), Heap.get_alloc_same]
  · intro x hx1 hx2
    rw [Heap.get_set_ne _ _ hx1, Heap.get_alloc_ne _ _ hx2]

theorem set_value_new_key (f : Nat) (H : Heap) (d c : Nat) (k : String) (rc rcc : Int)
    (es : List (String × Nat)) (vc : rpc_value)
    (hg : H.get d = some ⟨rc, .rv_dict es⟩) (hk : es.lookup k = none)
    (hc : H.get c = some ⟨rcc, vc⟩) (hne : c ≠ d) (h0 : 0 < rcc) (h1 : rcc < 2 ^ 31 - 1) :
    ∃ H1, rpc_dictionary_set_value f H d k c = some H1 ∧
      H1.size = H.size ∧ H1.freed = H.freed ∧
      H1.get d = some ⟨rc, .rv_dict (es ++ [(k, c)])⟩ ∧
      H1.get c = some ⟨rcc + 1, vc⟩ ∧
      (∀ x, x ≠ d → x ≠ c → H1.get x = H.get x) := by
  obtain ⟨H1, hset, hsz, hfr, hgd, hgc, hoth⟩ :=
    dict_set_value_new_key f H d c k rc es ⟨rcc, vc⟩ hg hk hc hne
  have hw : wrap_int32 (rcc + 1) = rcc + 1 := wrap_int32_id (by omega) (by omega)
  simp only [hw] at hgc
  exact ⟨H1, hset, hsz, hfr, hgd, hgc, fun x hx1 hx2 => Heap.get_eq_of_cells (hoth x hx1 hx2)⟩

/-- The frame built by `rpc_pack_frame` with an id object. -/
theorem pack_frame_some (f k : Nat) (h : Heap) (ns name : String) (i a : Nat) (ri ra : Int)
    (vi va : rpc_value) (ti ta : Tree)
    (hi : h.get i = some ⟨ri, vi⟩) (hri : 0 < ri) (hri2 : ri < 2 ^ 31 - 1)
    (ha : h.get a = some ⟨ra, va⟩) (hra : 0 < ra) (hra2 : ra < 2 ^ 31 - 1) (hne : i ≠ a)
    (hti : toTree k h i = some ti) (hta : toTree k h a = some ta) :
    ∃ H, rpc_pack_frame f h ns name (some i) a = some (H, h.size) ∧
      H.get h.size = some ⟨1, .rv_dict [("namespace", h.size + 1), ("name", h.size + 2),
        ("id", i), ("args", a)]⟩ ∧
      H.get (h.size + 1) = some ⟨1, .rv_str ns⟩ ∧
      H.get (h.size + 2) = some ⟨1, .rv_str name⟩ ∧
      H.get i = some ⟨ri + 1, vi⟩ ∧ H.get a = some ⟨ra + 1, va⟩ ∧
      toTree k H i = some ti ∧ toTree k H a = some ta := by
  have li := Heap.get_lt hi
  have la := Heap.get_lt ha
  -- the empty dictionary
  have g0 : (rpc_dictionary_create h).1.get h.size = some ⟨1, .rv_dict []⟩ :=
    Heap.get_alloc_same h _
  have s0 : (rpc_dictionary_create h).1.size = h.size + 1 := Heap.size_alloc h _
  have o0 : ∀ x, x ≠ h.size → (rpc_dictionary_create h).1.get x = h.get x :=
    fun x hx => Heap.get_alloc_ne h _ hx
  obtain ⟨H1, e1, s1, _, g1, n1, o1⟩ :=
    steal_fresh_new_key f (rpc_dictionary_create h).1 h.size "namespace" (.rv_str ns) 1 [] g0 rfl
  rw [s0] at s1 g1 n1 o1
  obtain ⟨H2, e2, s2, _, g2, n2, o2⟩ :=
    steal_fresh_new_key f H1 h.size "name" (.rv_str name) 1 _ g1 (by simp [List.lookup])
  rw [s1] at s2 g2 n2 o2
  have gi2 : H2.get i = some ⟨ri, vi⟩ := by
    rw [o2 i (by omega) (by omega), o1 i (by omega) (by omega), o0 i (by omega), hi]
  obtain ⟨H3, e3, s3, _, g3, n3, o3⟩ :=
    set_value_new_key f H2 h.size i "id" 1 ri _ vi g2 (by simp [List.lookup]) gi2 (by omega) hri hri2
  have ga3 : H3.get a = some ⟨ra, va⟩ := by
    rw [o3 a (by omega) (Ne.symm hne), o2 a (by omega) (by omega), o1 a (by omega) (by omega),
      o0 a (by omega), ha]
  obtain ⟨H4, e4, s4, _, g4, n4, o4⟩ :=
    set_value_new_key f H3 h.size a "args" 1 ra _ va g3 (by simp [List.lookup]) ga3 (by omega) hra hra2
  have gi4 : H4.get i = some ⟨ri + 1, vi⟩ := by
    rw [o4 i (by omega) hne, n3]
  have hval : ∀ x, x < h.size →
      (H4.get x).map (fun o => o.ro_value) = (h.get x).map (fun o => o.ro_value) := by
    intro x hx
    by_cases hxa : x = a
    · subst hxa
      rw [n4, ha]
      rfl
    · by_cases hxi : x = i
      · subst hxi
        rw [gi4, hi]
        rfl
      · rw [o4 x (by omega) hxa, o3 x (by omega) hxi, o2 x (by omega) (by omega),
          o1 x (by omega) (by omega), o0 x (by omega)]
  refine ⟨H4, ?_, ?_, ?_, ?_, gi4, n4, toTree_agree k h H4 i ti hti hval,
    toTree_agree k h H4 a ta hta hval⟩
  · simp only [rpc_pack_frame, rpc_dictionary_set_string, rpc_string_create]
    simp only [rpc_dictionary_create, rpc_prim_create, Heap.alloc_snd] at e1 e2 e3 e4 ⊢
    simp only [e1, e2, e3, e4]
  · simpa using g4
  · rw [o4 _ (by omega) (by omega), o3 _ (by omega) (by omega), o2 _ (by omega) (by omega), n1]
  · rw [o4 _ (by omega) (by omega), o3 _ (by omega) (by omega), n2]

/-- The frame built by `rpc_pack_frame` without an id: a new Null object
stands in for it, four objects are allocated, and the objects other than
`args` are as before. -/
theorem pack_frame_none_heap (f k : Nat) (h : Heap) (ns name : String) (a : Nat) (ra : Int)
    (va : rpc_value) (ta : Tree)
    (ha : h.get a = some ⟨ra, va⟩) (hra : 0 < ra) (hra2 : ra < 2 ^ 31 - 1)
    (hta : toTree k h a = some ta) :
    ∃ H, rpc_pack_frame f h ns name none a = some (H, h.size) ∧
      H.get h.size = some ⟨1, .rv_dict [("namespace", h.size + 1), ("name", h.size + 2),
        ("id", h.size + 3), ("args", a)]⟩ ∧
      H.get (h.size + 1) = some ⟨1, .rv_str ns⟩ ∧
      H.get (h.size + 2) = some ⟨1, .rv_str name⟩ ∧
      H.get (h.size + 3) = some ⟨1 + 1, .rv_null⟩ ∧ H.get a = some ⟨ra + 1, va⟩ ∧
      toTree k H (h.size + 3) = some .null ∧ toTree k H a = some ta ∧
      H.size = h.size + 4 ∧ (∀ x, x < h.size → x ≠ a → H.get x = h.get x) := by
  have la := Heap.get_lt ha
  have hk := toTree_pos hta
  have g0 : (rpc_dictionary_create h).1.get h.size = some ⟨1, .rv_dict []⟩ :=
    Heap.get_alloc_same h _
  have s0 : (rpc_dictionary_create h).1.size = h.size + 1 := Heap.size_alloc h _
  have o0 : ∀ x, x ≠ h.size → (rpc_dictionary_create h).1.get x = h.get x :=
    fun x hx => Heap.get_alloc_ne h _ hx
  obtain ⟨H1, e1, s1, _, g1, n1, o1⟩ :=
    steal_fresh_new_key f (rpc_dictionary_create h).1 h.size "namespace" (.rv_str ns) 1 [] g0 rfl
  rw [s0] at s1 g1 n1 o1
  obtain ⟨H2, e2, s2, _, g2, n2, o2⟩ :=
    steal_fresh_new_key f H1 h.size "name" (.rv_str name) 1 _ g1 (by simp [List.lookup])
  rw [s1] at s2 g2 n2 o2
  -- the Null object
  have sn : (rpc_null_create H2).1.size = h.size + 4 := by
    rw [rpc_null_create, rpc_prim_create, Heap.size_alloc, s2]
  have en : (rpc_null_create H2).2 = h.size + 3 := by
    rw [rpc_null_create, rpc_prim_create, Heap.alloc_snd, s2]
  have gn : (rpc_null_create H2).1.get (h.size + 3) = some ⟨1, .rv_null⟩ := by
    have hsame : (H2.alloc ⟨1, .rv_null⟩).1.get H2.size = some ⟨1, .rv_null⟩ :=
      Heap.get_alloc_same H2 _
    rw [s2] at hsame
    exact hsame
  have onl : ∀ x, x ≠ h.size + 3 → (rpc_null_create H2).1.get x = H2.get x := by
    intro x hx
    have hx2 : x ≠ H2.size := by rw [s2]; exact hx
    exact Heap.get_alloc_ne H2 _ hx2
  have g2n : (rpc_null_create H2).1.get h.size = some ⟨1, .rv_dict
      ([] ++ [("namespace", h.size + 1)] ++ [("name", h.size + 1 + 1)])⟩ := by
    rw [onl _ (by omega), g2]
  obtain ⟨H3, e3, s3, _, g3, n3, o3⟩ :=
    set_value_new_key f (rpc_null_create H2).1 h.size (h.size + 3) "id" 1 1 _ .rv_null g2n
      (by simp [List.lookup]) gn (by omega) (by decide) (by decide)
  have ga3 : H3.get a = some ⟨ra, va⟩ := by
    rw [o3 a (by omega) (by omega), onl a (by omega), o2 a (by omega) (by omega),
      o1 a (by omega) (by omega), o0 a (by omega), ha]
  obtain ⟨H4, e4, s4, _, g4, n4, o4⟩ :=
    set_value_new_key f H3 h.size a "args" 1 ra _ va g3 (by simp [List.lookup]) ga3 (by omega)
      hra hra2
  have gn4 : H4.get (h.size + 3) = some ⟨1 + 1, .rv_null⟩ := by
    rw [o4 _ (by omega) (by omega), n3]
  have hval : ∀ x, x < h.size →
      (H4.get x).map (fun o => o.ro_value) = (h.get x).map (fun o => o.ro_value) := by
    intro x hx
    by_cases hxa : x = a
    · subst hxa
      rw [n4, ha]
      rfl
    · rw [o4 x (by omega) hxa, o3 x (by omega) (by omega), onl x (by omega),
        o2 x (by omega) (by omega), o1 x (by omega) (by omega), o0 x (by omega)]
  refine ⟨H4, ?_, ?_, ?_, ?_, gn4, n4, ?_, toTree_agree k h H4 a ta hta hval, ?_, ?_⟩
  · simp only [rpc_pack_frame, rpc_dictionary_set_string, rpc_string_create]
    simp only [rpc_dictionary_create, rpc_prim_create, Heap.alloc_snd] at e1 e2 e3 e4 en ⊢
    simp only [e1, e2]
    rw [show (rpc_null_create H2).2 = h.size + 3 from by
      simp only [rpc_null_create, rpc_prim_create, Heap.alloc_snd]; exact en]
    simp only [e3, e4]
  · simpa using g4
  · rw [o4 _ (by omega) (by omega), o3 _ (by omega) (by omega), onl _ (by omega),
      o2 _ (by omega) (by omega), n1]
  · rw [o4 _ (by omega) (by omega), o3 _ (by omega) (by omega), onl _ (by omega), n2]
  · cases k with
    | zero => omega
    | succ k =>
      unfold toTree
      simp [gn4]
  · rw [s4, s3, sn]
  · intro x hx hxa
    rw [o4 x (by omega) hxa, o3 x (by omega) (by omega), onl x (by omega),
      o2 x (by omega) (by omega), o1 x (by omega) (by omega), o0 x (by omega)]

/-- The frame built by `rpc_pack_frame` without an id: a new Null object
stands in for it. -/
theorem pack_frame_none (f k : Nat) (h : Heap) (ns name : String) (a : Nat) (ra : Int)
    (va : rpc_value) (ta : Tree)
    (ha : h.get a = some ⟨ra, va⟩) (hra : 0 < ra) (hra2 : ra < 2 ^ 31 - 1)
    (hta : toTree k h a = some ta) :
    ∃ H, rpc_pack_frame f h ns name none a = some (H, h.size) ∧
      H.get h.size = some ⟨1, .rv_dict [("namespace", h.size + 1), ("name", h.size + 2),
        ("id", h.size + 3), ("args", a)]⟩ ∧
      H.get (h.size + 1) = some ⟨1, .rv_str ns⟩ ∧
      H.get (h.size + 2) = some ⟨1, .rv_str name⟩ ∧
      H.get (h.size + 3) = some ⟨1 + 1, .rv_null⟩ ∧ H.get a = some ⟨ra + 1, va⟩ ∧
      toTree k H (h.size + 3) = some .null ∧ toTree k H a = some ta := by
  obtain ⟨H, e, g0, g1, g2, g3, ga, t3, tta, _⟩ := pack_frame_none_heap f k h ns name a ra va ta
    ha hra hra2 hta
  exact ⟨H, e, g0, g1, g2, g3, ga, t3, tta⟩

/-- The payload `{code, message}` built by `rpc_connection_send_err`. -/
theorem err_args_spec (f : Nat) (h : Heap) (code : Int) (descr : String) :
    ∃ H1 H,
      rpc_dictionary_set_int64 f (rpc_dictionary_create h).1
          (rpc_dictionary_create h).2 "code" code = some H1 ∧
      rpc_dictionary_set_string f H1 (rpc_dictionary_create h).2 "message" descr = some H ∧
      H.size = h.size + 3 ∧
      H.get h.size = some ⟨1, .rv_dict [("code", h.size + 1), ("message", h.size + 2)]⟩ ∧
      toTree 2 H h.size =
        some (.dictionary [("code", .int64 code), ("message", .string descr)]) ∧
      (∀ x, x < h.size → H.get x = h.get x) := by
  have g0 : (rpc_dictionary_create h).1.get h.size = some ⟨1, .rv_dict []⟩ :=
    Heap.get_alloc_same h _
  have s0 : (rpc_dictionary_create h).1.size = h.size + 1 := Heap.size_alloc h _
  have o0 : ∀ x, x ≠ h.size → (rpc_dictionary_create h).1.get x = h.get x :=
    fun x hx => Heap.get_alloc_ne h _ hx
  obtain ⟨H1, e1, s1, _, g1, n1, o1⟩ :=
    steal_fresh_new_key f (rpc_dictionary_create h).1 h.size "code" (.rv_i code) 1 [] g0 rfl
  rw [s0] at s1 g1 n1 o1
  obtain ⟨H2, e2, s2, _, g2, n2, o2⟩ :=
    steal_fresh_new_key f H1 h.size "message" (.rv_str descr) 1 _ g1 (by simp [List.lookup])
  rw [s1] at s2 g2 n2 o2
  have gc : H2.get (h.size + 1) = some ⟨1, .rv_i code⟩ := by
    rw [o2 _ (by omega) (by omega), n1]
  refine ⟨H1, H2, ?_, ?_, by omega, by simpa using g2, ?_, ?_⟩
  · simp only [rpc_dictionary_set_int64, rpc_int64_create]
    exact e1
  · simp only [rpc_dictionary_set_string, rpc_string_create]
    simp only [rpc_dictionary_create, rpc_prim_create, Heap.alloc_snd] at e2 ⊢
    exact e2
  · have t1 : toTree 1 H2 (h.size + 1) = some (.int64 code) := by
      unfold toTree; simp [gc]
    have t2 : toTree 1 H2 (h.size + 1 + 1) = some (.string descr) := by
      unfold toTree; simp [n2]
    unfold toTree
    simp [g2, mapOpt, t1, t2]
  · intro x hx
    rw [o2 x (by omega) (by omega), o1 x (by omega) (by omega), o0 x (by omega)]

/-- The error frame `rpc_connection_send_err` sends, for an id object. -/
theorem send_err_some (m k : Nat) (st : State) (i : Nat) (ri : Int) (vi : rpc_value) (ti : Tree)
    (code : Int) (descr : String) (hk : k ≤ m + 1) (hm : 1 ≤ m)
    (hi : st.heap.get i = some ⟨ri, vi⟩) (hri : 0 < ri) (hri2 : ri < 2 ^ 31 - 1)
    (hti : toTree k st.heap i = some ti) :
    ∃ hf fds,
      rpc_connection_send_err (m + 2) st (some i) code descr =
        some { st with
          heap := hf,
          sent := st.sent ++
            [⟨.dictionary [("namespace", .string "rpc"), ("name", .string "error"), ("id", ti),
                ("args", .dictionary [("code", .int64 code), ("message", .string descr)])],
              fds, 0⟩] } := by
  have li := Heap.get_lt hi
  obtain ⟨H1, H, ea1, ea2, hsz, _, hta, hold⟩ := err_args_spec (m + 2) st.heap code descr
  obtain ⟨oa, hga⟩ := toTree_some_get hta
  have hga1 : H.get st.heap.size = some ⟨1, .rv_dict
      [("code", st.heap.size + 1), ("message", st.heap.size + 2)]⟩ := by assumption
  have hiH : H.get i = some ⟨ri, vi⟩ := by rw [hold i li, hi]
  have htiH : toTree (m + 1) H i = some ti := by
    refine toTree_mono (toTree_agree k st.heap H i ti hti ?_) hk
    intro x hx
    rw [hold x hx]
  have htaH : toTree (m + 1) H st.heap.size = some
      (.dictionary [("code", .int64 code), ("message", .string descr)]) :=
    toTree_mono hta (by omega)
  obtain ⟨H', epack, gs, g1, g2, gi, ga, tti, tta⟩ :=
    pack_frame_some (m + 2) (m + 1) H "rpc" "error" i st.heap.size ri 1 vi _ ti _ hiH hri hri2
      hga1 (by decide) (by decide) (by omega) htiH htaH
  rw [hsz] at epack gs g1 g2
  obtain ⟨hf, fds, hsend⟩ :=
    send_frame_spec m { st with heap := H' } (st.heap.size + 3) (st.heap.size + 3 + 1)
      (st.heap.size + 3 + 2) i st.heap.size "rpc" "error" (ri + 1) (1 + 1) vi _ ti _
      gs g1 g2 gi (by omega) (by omega) ga (by decide) (by decide)
      (by refine ⟨?_, ?_, ?_, ?_, ?_, ?_, ?_, ?_, ?_, ?_⟩ <;> omega) tti tta
  refine ⟨hf, fds, ?_⟩
  simp only [rpc_connection_send_err, ea1, ea2]
  simp only [rpc_dictionary_create, rpc_prim_create, Heap.alloc_snd] at epack ⊢
  simp only [epack, hsend, Option.map_some']

/-- The error frame `rpc_connection_send_err` sends when there is no id. -/
theorem send_err_none (m : Nat) (st : State) (code : Int) (descr : String) (hm : 1 ≤ m) :
    ∃ hf fds,
      rpc_connection_send_err (m + 2) st none code descr =
        some { st with
          heap := hf,
          sent := st.sent ++
            [⟨.dictionary [("namespace", .string "rpc"), ("name", .string "error"),
                ("id", .null),
                ("args", .dictionary [("code", .int64 code), ("message", .string descr)])],
              fds, 0⟩] } := by
  obtain ⟨H1, H, ea1, ea2, hsz, hga1, hta, hold⟩ := err_args_spec (m + 2) st.heap code descr
  have htaH : toTree (m + 1) H st.heap.size = some
      (.dictionary [("code", .int64 code), ("message", .string descr)]) :=
    toTree_mono hta (by omega)
  obtain ⟨H', epack, gs, g1, g2, gi, ga, tti, tta⟩ :=
    pack_frame_none (m + 2) (m + 1) H "rpc" "error" st.heap.size 1 _ _
      hga1 (by decide) (by decide) htaH
  rw [hsz] at epack gs g1 g2 gi tti
  obtain ⟨hf, fds, hsend⟩ :=
    send_frame_spec m { st with heap := H' } (st.heap.size + 3) (st.heap.size + 3 + 1)
      (st.heap.size + 3 + 2) (st.heap.size + 3 + 3) st.heap.size "rpc" "error" (1 + 1) (1 + 1)
      _ _ _ _
      gs g1 g2 gi (by decide) (by decide) ga (by decide) (by decide)
      (by refine ⟨?_, ?_, ?_, ?_, ?_, ?_, ?_, ?_, ?_, ?_⟩ <;> omega) tti tta
  refine ⟨hf, fds, ?_⟩
  simp only [rpc_connection_send_err, ea1, ea2]
  simp only [rpc_dictionary_create, rpc_prim_create, Heap.alloc_snd] at epack ⊢
  simp only [epack, hsend, Option.map_some']

theorem get_string_some_of_wf {k : Nat} {h : Heap} {frame : Nat} {t : Tree} {rc : Int}
    {es : List (String × Nat)} (key : String)
    (hwf : toTree (k + 1) h frame = some t) (hg : h.get frame = some ⟨rc, .rv_dict es⟩) :
    ∃ r, rpc_dictionary_get_string h frame key = some r := by
  unfold rpc_dictionary_get_string rpc_dictionary_get_value
  simp only [hg]
  cases hl : es.lookup key with
  | none => exact ⟨none, rfl⟩
  | some x =>
    obtain ⟨tc, htc⟩ := toTree_children hwf hg x (by
      simp only [rpc_value.children]
      exact lookup_mem_snd hl)
    obtain ⟨o, ho⟩ := toTree_some_get htc
    exact ⟨rpc_string_get_string_ptr o, by simp only [ho]⟩

/-- C10: for every well-formed dictionary frame in which `id`, `namespace` or
`name` is missing (for `namespace` and `name`: absent or not a String),
`rpc_connection_dispatch` invokes no handler, hands nothing to the server and
sends exactly one frame: `rpc/error` with args `{code: EINVAL, message:
"Malformed request"}`, addressed to the frame's id when there is one and to
Null otherwise. -/
theorem C10_malformed_frame_gets_einval (m k : Nat) (st : State) (frame : Nat) (t : Tree)
    (hk : k ≤ m + 1) (hm : 1 ≤ m)
    (hwf : toTree (k + 1) st.heap frame = some t)
    (hmiss : rpc_dictionary_get_value st.heap frame "id" = some none ∨
      rpc_dictionary_get_string st.heap frame "namespace" = some none ∨
      rpc_dictionary_get_string st.heap frame "name" = some none)
    (hrc : ∀ i o, rpc_dictionary_get_value st.heap frame "id" = some (some i) →
      st.heap.get i = some o → 0 < o.ro_refcnt ∧ o.ro_refcnt < 2 ^ 31 - 1) :
    ∃ st1 fds idt,
      rpc_connection_dispatch (m + 2) st frame = some st1 ∧
      st1.handled = st.handled ∧ st1.server_dispatched = st.server_dispatched ∧
      st1.calls = st.calls ∧
      st1.sent = st.sent ++
        [⟨.dictionary [("namespace", .string "rpc"), ("name", .string "error"), ("id", idt),
            ("args", .dictionary
              [("code", .int64 EINVAL), ("message", .string "Malformed request")])],
          fds, 0⟩] ∧
      (rpc_dictionary_get_value st.heap frame "id" = some none → idt = .null) ∧
      (∀ i, rpc_dictionary_get_value st.heap frame "id" = some (some i) →
        toTree k st.heap i = some idt) := by
  obtain ⟨o, hg⟩ := toTree_some_get hwf
  obtain ⟨rc, val⟩ := o
  have hdict : ∃ es, val = .rv_dict es := by
    cases val <;>
      first
        | exact ⟨_, rfl⟩
        | simp [rpc_dictionary_get_value, rpc_dictionary_get_string, hg] at hmiss
  obtain ⟨es, rfl⟩ := hdict
  have hid : rpc_dictionary_get_value st.heap frame "id" = some (es.lookup "id") := by
    simp only [rpc_dictionary_get_value, hg]
  obtain ⟨nsv, hns⟩ := get_string_some_of_wf "namespace" hwf hg
  obtain ⟨nmv, hname⟩ := get_string_some_of_wf "name" hwf hg
  rw [hid, hns, hname] at hmiss
  simp only [Option.some.injEq] at hmiss
  have hdisp : rpc_connection_dispatch (m + 2) st frame =
      rpc_connection_send_err (m + 2) st (es.lookup "id") EINVAL "Malformed request" := by
    simp only [rpc_connection_dispatch, hid, hns, hname]
    rcases hmiss with h1 | h1 | h1
    · rw [h1]
    · rw [h1]
      cases es.lookup "id" <;> rfl
    · rw [h1]
      cases es.lookup "id" <;> cases nsv <;> rfl
  rw [hdisp, hid]
  cases hl : es.lookup "id" with
  | none =>
    obtain ⟨hf, fds, hsend⟩ := send_err_none m st EINVAL "Malformed request" hm
    exact ⟨_, fds, .null, hsend, rfl, rfl, rfl, rfl, fun _ => rfl, fun i hi => by simp at hi⟩
  | some i =>
    obtain ⟨ti, hti⟩ := toTree_children hwf hg i (by
      simp only [rpc_value.children]
      exact lookup_mem_snd hl)
    obtain ⟨oi, hoi⟩ := toTree_some_get hti
    obtain ⟨ri, vi⟩ := oi
    have hb := hrc i _ (by rw [hid, hl]) hoi
    obtain ⟨hf, fds, hsend⟩ :=
      send_err_some m k st i ri vi ti EINVAL "Malformed request" hk hm hoi hb.1 hb.2 hti
    refine ⟨_, fds, ti, hsend, rfl, rfl, rfl, rfl, fun hn => by simp at hn, ?_⟩
    intro j hj
    simp only [Option.some.injEq] at hj
    subst hj
    exact hti

/-- C10 at a concrete input: the frame of `ex_malformed_heap`, which has no
`namespace`. -/
theorem C10_malformed_frame_gets_einval_witness :
    ∃ st1 fds idt,
      rpc_connection_dispatch 3 ex_malformed_state 2 = some st1 ∧
      st1.handled = ex_malformed_state.handled ∧
      st1.server_dispatched = ex_malformed_state.server_dispatched ∧
      st1.calls = ex_malformed_state.calls ∧
      st1.sent = ex_malformed_state.sent ++
        [⟨.dictionary [("namespace", .string "rpc"), ("name", .string "error"), ("id", idt),
            ("args", .dictionary
              [("code", .int64 EINVAL), ("message", .string "Malformed request")])],
          fds, 0⟩] ∧
      (rpc_dictionary_get_value ex_malformed_state.heap 2 "id" = some none → idt = .null) ∧
      (∀ i, rpc_dictionary_get_value ex_malformed_state.heap 2 "id" = some (some i) →
        toTree 1 ex_malformed_state.heap i = some idt) :=
  C10_malformed_frame_gets_einval 1 1 ex_malformed_state 2
    (.dictionary [("id", .string "id-9"), ("name", .string "call")])
    (by decide) (by decide) rfl (Or.inr (Or.inl (by decide)))
    (by
      intro i o hi ho
      have e : rpc_dictionary_get_value ex_malformed_state.heap 2 "id" = some (some 0) := by
        decide
      rw [e] at hi
      cases hi
      have e2 : ex_malformed_state.heap.get 0 = some ⟨1, .rv_str "id-9"⟩ := by decide
      rw [e2] at ho
      cases ho
      decide)

/-! ## Local abort -/

theorem send_frame_calls {fuel : Nat} {st st1 : State} {frame : Nat} {r : Int}
    (h : rpc_send_frame fuel st frame = some (st1, r)) :
    st1.calls = st.calls ∧ st1.rco_calls = st.rco_calls ∧ st1.handled = st.handled ∧
      st1.sources = st.sources := by
  unfold rpc_send_frame at h
  split at h
  · simp only [Option.some.injEq, Prod.mk.injEq] at h
    rw [← h.1]
    exact ⟨rfl, rfl, rfl, rfl⟩
  · split at h
    · simp at h
    · split at h
      · simp at h
      · simp only [Option.some.injEq, Prod.mk.injEq] at h
        rw [← h.1]
        exact ⟨rfl, rfl, rfl, rfl⟩

/-- Whenever `rpc_call_abort` returns, it returns 0 and has changed no call. -/
theorem abort_calls {fuel : Nat} {st st1 : State} {call : Nat} {r : Int}
    (h : rpc_call_abort fuel st call = some (st1, r)) :
    st1.calls = st.calls ∧ st1.rco_calls = st.rco_calls ∧ r = 0 := by
  unfold rpc_call_abort at h
  split at h
  · split at h
    · simp at h
    · rename_i h1 frame hp
      split at h
      · simp at h
      · rename_i st2 r2 hs
        simp only [Option.some.injEq, Prod.mk.injEq] at h
        have := send_frame_calls hs
        rw [← h.1, ← h.2]
        exact ⟨this.1, this.2.1, rfl⟩
  · simp at h

/-- The frame `rpc_call_abort` sends. -/
theorem abort_spec (m k : Nat) (st : State) (call : Nat) (c : rpc_call) (ri : Int)
    (vi : rpc_value) (ti : Tree) (hk : k ≤ m + 1)
    (hcall : st.calls[call]? = some (some c))
    (hi : st.heap.get c.rc_id = some ⟨ri, vi⟩) (hri : 0 < ri) (hri2 : ri < 2 ^ 31 - 1)
    (hti : toTree k st.heap c.rc_id = some ti) :
    ∃ hf fds,
      rpc_call_abort (m + 2) st call =
        some ({ st with
          heap := hf,
          sent := st.sent ++
            [⟨.dictionary [("namespace", .string "rpc"), ("name", .string "abort"), ("id", ti),
                ("args", .null)], fds, 0⟩] }, 0) := by
  have li := Heap.get_lt hi
  have gn : (rpc_null_create st.heap).1.get st.heap.size = some ⟨1, .rv_null⟩ :=
    Heap.get_alloc_same st.heap _
  have sn : (rpc_null_create st.heap).1.size = st.heap.size + 1 := Heap.size_alloc st.heap _
  have hold : ∀ x, x < st.heap.size → (rpc_null_create st.heap).1.get x = st.heap.get x :=
    fun x hx => Heap.get_alloc_ne st.heap _ (by omega)
  have hiH : (rpc_null_create st.heap).1.get c.rc_id = some ⟨ri, vi⟩ := by rw [hold _ li, hi]
  have htiH : toTree (m + 1) (rpc_null_create st.heap).1 c.rc_id = some ti := by
    refine toTree_mono (toTree_agree k st.heap _ c.rc_id ti hti ?_) hk
    intro x hx
    rw [hold x hx]
  have htaH : toTree (m + 1) (rpc_null_create st.heap).1 st.heap.size = some .null := by
    unfold toTree
    simp [gn]
  obtain ⟨H', epack, gs, g1, g2, gi, ga, tti, tta⟩ :=
    pack_frame_some (m + 2) (m + 1) (rpc_null_create st.heap).1 "rpc" "abort" c.rc_id
      st.heap.size ri 1 vi _ ti _ hiH hri hri2 gn (by decide) (by decide) (by omega) htiH htaH
  rw [sn] at epack gs g1 g2
  obtain ⟨hf, fds, hsend⟩ :=
    send_frame_spec m { st with heap := H' } (st.heap.size + 1) (st.heap.size + 1 + 1)
      (st.heap.size + 1 + 2) c.rc_id st.heap.size "rpc" "abort" (ri + 1) (1 + 1) vi _ ti _
      gs g1 g2 gi (by omega) (by omega) ga (by decide) (by decide)
      (by refine ⟨?_, ?_, ?_, ?_, ?_, ?_, ?_, ?_, ?_, ?_⟩ <;> omega) tti tta
  refine ⟨hf, fds, ?_⟩
  simp only [rpc_call_abort, hcall]
  simp only [rpc_null_create, rpc_prim_create, Heap.alloc_snd] at epack ⊢
  simp only [epack, hsend]

/-- C7, counterexample: `rpc_call_abort` on the pending call of `ex_state`
returns 0 and sends a frame, and the call is still InProgress, not Aborted;
on the completed call of `ex_state_done` it sends a frame as well. -/
theorem C7_counterexample :
    (rpc_call_abort 3 ex_state 0).map (fun r => r.2) = some 0 ∧
    (rpc_call_abort 3 ex_state 0).bind (fun r => rpc_call_status r.1 0)
      = some .RPC_CALL_IN_PROGRESS ∧
    rpc_call_status_t.RPC_CALL_IN_PROGRESS ≠ rpc_call_status_t.RPC_CALL_ABORTED ∧
    (rpc_call_abort 3 ex_state 0).map (fun r => r.1.sent.length) = some 1 ∧
    (rpc_call_abort 3 ex_state_done 0).map (fun r => r.1.sent.length) = some 1 := by
  decide

/-- C7, amended: `rpc_call_abort` sends one `rpc/abort` frame with the call's
id and Null args and returns 0, whatever the status of the call is; it changes
the status and the result of no call, so the call is not marked Aborted.
Calling it again returns 0 again and still changes no call. -/
theorem C7_abort_only_sends_frame (m k : Nat) (st : State) (call : Nat) (c : rpc_call)
    (ri : Int) (vi : rpc_value) (ti : Tree) (hk : k ≤ m + 1)
    (hcall : st.calls[call]? = some (some c))
    (hi : st.heap.get c.rc_id = some ⟨ri, vi⟩) (hri : 0 < ri) (hri2 : ri < 2 ^ 31 - 1)
    (hti : toTree k st.heap c.rc_id = some ti) :
    ∃ st1 fds,
      rpc_call_abort (m + 2) st call = some (st1, 0) ∧
      st1.calls = st.calls ∧
      st1.sent = st.sent ++
        [⟨.dictionary [("namespace", .string "rpc"), ("name", .string "abort"), ("id", ti),
            ("args", .null)], fds, 0⟩] ∧
      (∀ st2 r, rpc_call_abort (m + 2) st1 call = some (st2, r) →
        st2.calls = st.calls ∧ r = 0) := by
  obtain ⟨hf, fds, habort⟩ := abort_spec m k st call c ri vi ti hk hcall hi hri hri2 hti
  refine ⟨_, fds, habort, rfl, rfl, ?_⟩
  intro st2 r h2
  have := abort_calls h2
  exact ⟨this.1, this.2.2⟩

/-- C7, amended, at a concrete input: the pending call of `ex_state`. -/
theorem C7_abort_only_sends_frame_witness :
    ∃ st1 fds,
      rpc_call_abort 3 ex_state 0 = some (st1, 0) ∧
      st1.calls = ex_state.calls ∧
      st1.sent = ex_state.sent ++
        [⟨.dictionary [("namespace", .string "rpc"), ("name", .string "abort"),
            ("id", .string "id-1"), ("args", .null)], fds, 0⟩] ∧
      (∀ st2 r, rpc_call_abort 3 st1 0 = some (st2, r) →
        st2.calls = ex_state.calls ∧ r = 0) :=
  C7_abort_only_sends_frame 1 1 ex_state 0 ex_call 1 (.rv_str "id-1") (.string "id-1")
    (by decide) (by decide) (by decide) (by decide) (by decide) rfl

/-! ## Frames for an unknown handler -/

/-- C11: for every frame that carries an `id`, a `namespace` and a `name`
whose pair is not among the eleven pairs of the table `handlers`,
`rpc_connection_dispatch` invokes no handler, hands nothing to the server,
changes no call, and sends exactly one frame: `rpc/error`, addressed to the
frame's id, with args `{code: ENXIO, message: "No request handler found"}`;
`ENXIO` is the code this source uses for what is not found. -/
theorem C11_unknown_pair_gets_enxio (m k : Nat) (st : State) (frame i : Nat)
    (ns name : String) (ri : Int) (vi : rpc_value) (ti : Tree) (hk : k ≤ m + 1) (hm : 1 ≤ m)
    (hid : rpc_dictionary_get_value st.heap frame "id" = some (some i))
    (hns : rpc_dictionary_get_string st.heap frame "namespace" = some (some ns))
    (hname : rpc_dictionary_get_string st.heap frame "name" = some (some name))
    (hunk : ∀ hd ∈ handlers, ¬ (hd.ns = ns ∧ hd.name = name))
    (hi : st.heap.get i = some ⟨ri, vi⟩) (hri : 0 < ri) (hri2 : ri < 2 ^ 31 - 1)
    (hti : toTree k st.heap i = some ti) :
    handlers.length = 11 ∧
    ∃ st1 fds,
      rpc_connection_dispatch (m + 2) st frame = some st1 ∧
      st1.handled = st.handled ∧ st1.server_dispatched = st.server_dispatched ∧
      st1.calls = st.calls ∧
      st1.sent = st.sent ++
        [⟨.dictionary [("namespace", .string "rpc"), ("name", .string "error"), ("id", ti),
            ("args", .dictionary
              [("code", .int64 ENXIO), ("message", .string "No request handler found")])],
          fds, 0⟩] := by
  refine ⟨rfl, ?_⟩
  have hfind : handlers.find? (fun hd => hd.ns = ns ∧ hd.name = name) = none := by
    rw [List.find?_eq_none]
    intro hd hmem
    simpa using hunk hd hmem
  have hdisp : rpc_connection_dispatch (m + 2) st frame =
      rpc_connection_send_err (m + 2) st (some i) ENXIO "No request handler found" := by
    simp only [rpc_connection_dispatch, hid, hns, hname, hfind]
  obtain ⟨hf, fds, hsend⟩ :=
    send_err_some m k st i ri vi ti ENXIO "No request handler found" hk hm hi hri hri2 hti
  rw [hdisp, hsend]
  exact ⟨_, fds, rfl, rfl, rfl, rfl, rfl⟩

/-- C11 at a concrete input: the frame `rpc/ping` of `ex_unknown_heap`. -/
theorem C11_unknown_pair_gets_enxio_witness :
    handlers.length = 11 ∧
    ∃ st1 fds,
      rpc_connection_dispatch 3 ex_unknown_state 3 = some st1 ∧
      st1.handled = ex_unknown_state.handled ∧
      st1.server_dispatched = ex_unknown_state.server_dispatched ∧
      st1.calls = ex_unknown_state.calls ∧
      st1.sent = ex_unknown_state.sent ++
        [⟨.dictionary [("namespace", .string "rpc"), ("name", .string "error"),
            ("id", .string "id-7"),
            ("args", .dictionary
              [("code", .int64 ENXIO), ("message", .string "No request handler found")])],
          fds, 0⟩] :=
  C11_unknown_pair_gets_enxio 1 1 ex_unknown_state 3 0 "rpc" "ping" 1 (.rv_str "id-7")
    (.string "id-7") (by decide) (by decide) (by decide) (by decide) (by decide) (by decide)
    (by decide) (by decide) (by decide) rfl

/-! ## The descriptor walk -/

set_option maxRecDepth 8192

/-- C12, the code at the frame of `ex_fd_heap`, whose args are `[Fd 7, Fd 9]`:
the walk started at index 0 leaves the index 0 in both Fd leaves, stores
descriptor 9 in `fds[0]` and nothing in `fds[1]`, and `rpc_send_frame` hands
the transport the descriptor count 0. -/
theorem C12_walk_of_two_fd_leaves :
    (rpc_serialize_fds 3 ex_fd_heap (List.replicate MAX_FDS none) 6 0).map
        (fun r => (r.1.get 1, r.1.get 2, r.2.1[0]?, r.2.1[1]?)) =
      some (some ⟨1, .rv_fd 0⟩, some ⟨1, .rv_fd 0⟩, some (some 9), some none) ∧
    (rpc_send_frame 3 ex_fd_state 6).map
        (fun r => r.1.sent.map (fun m => (m.fds[0]?, m.fds[1]?, m.nfds))) =
      some [(some (some 9), some none, 0)] := by
  constructor <;> decide

/-- C13, the code at the array `[Fd 7, Fd 9]` of `ex_fd_heap`: after
`rpc_serialize_fds` and then `rpc_restore_fds` with the array the walk
filled, the value is `[Fd 9, Fd 9]`. -/
theorem C13_restore_after_walk_of_two_fd_leaves :
    toTree 2 ex_fd_heap 3 = some (.array [.fd 7, .fd 9]) ∧
    (rpc_serialize_fds 2 ex_fd_heap (List.replicate MAX_FDS none) 3 0).bind
        (fun r => (rpc_restore_fds 2 r.1 3 r.2.1 r.2.2).bind (fun h => toTree 2 h 3)) =
      some (.array [.fd 9, .fd 9]) := by
  constructor <;> rfl

/-- C15, the code at the frame of `ex_fd1_heap`, whose args are `[Fd 7]`:
the buffer handed to the transport encodes the Fd leaf with the descriptor
number 7; the index 0 is written into the leaf after the buffer was made. -/
theorem C15_buffer_holds_raw_descriptor :
    (rpc_send_frame 3 ex_fd1_state 5).map (fun r => r.1.sent.map (fun m => m.buf)) =
      some [.dictionary [("namespace", .string "rpc"), ("name", .string "response"),
        ("id", .string "id-1"), ("args", .array [.fd 7])]] ∧
    (rpc_send_frame 3 ex_fd1_state 5).map (fun r => r.1.heap.get 1) =
      some (some ⟨1, .rv_fd 0⟩) := by
  constructor
  · rfl
  · decide

/-! ## The limit on descriptors -/

/-- C14: `rpc_send_frame` compares nothing with `MAX_FDS`. For every frame
`{namespace, name, id, args}` as `rpc_pack_frame` makes it (the caller still
holding `id` and `args`), whatever trees `id` and `args` are and however many
Fd leaves they have, more than 128 included, `rpc_send_frame` does not fail:
it hands exactly one message to the transport, the serialization of the
frame with the descriptor count 0, and returns what the transport returns. -/
theorem C14_send_frame_checks_no_limit (m : Nat) (st : State) (s p1 p2 i a : Nat)
    (ns name : String) (ri ra : Int) (vi va : rpc_value) (ti ta : Tree)
    (hs : st.heap.get s =
      some ⟨1, .rv_dict [("namespace", p1), ("name", p2), ("id", i), ("args", a)]⟩)
    (h1 : st.heap.get p1 = some ⟨1, .rv_str ns⟩)
    (h2 : st.heap.get p2 = some ⟨1, .rv_str name⟩)
    (hi : st.heap.get i = some ⟨ri, vi⟩) (hri : 1 < ri) (hri2 : ri < 2 ^ 31)
    (ha : st.heap.get a = some ⟨ra, va⟩) (hra : 1 < ra) (hra2 : ra < 2 ^ 31)
    (hd : s ≠ p1 ∧ s ≠ p2 ∧ s ≠ i ∧ s ≠ a ∧ p1 ≠ p2 ∧ p1 ≠ i ∧ p1 ≠ a ∧ p2 ≠ i ∧ p2 ≠ a ∧ i ≠ a)
    (hti : toTree (m + 1) st.heap i = some ti) (hta : toTree (m + 1) st.heap a = some ta) :
    ∃ st1 msg,
      rpc_send_frame (m + 2) st s = some (st1, st.rco_send_msg msg) ∧
      st1.sent = st.sent ++ [msg] ∧
      msg.buf = .dictionary [("namespace", .string ns), ("name", .string name), ("id", ti),
        ("args", ta)] ∧
      msg.buf.fd_count = ti.fd_count + ta.fd_count ∧
      msg.nfds = 0 := by
  obtain ⟨hf, fds, hsend⟩ :=
    send_frame_spec m st s p1 p2 i a ns name ri ra vi va ti ta hs h1 h2 hi hri hri2 ha hra hra2
      hd hti hta
  refine ⟨_, ⟨_, fds, 0⟩, hsend, rfl, rfl, ?_, rfl⟩
  simp only [Tree.fd_count, Tree.fd_count_entries, Nat.zero_add, Nat.add_zero]

/-- C14 at a concrete input: the frame of `ex_many_fds_heap` contains 129 Fd
values, more than `MAX_FDS`; `rpc_send_frame` hands it to the transport and
returns the transport's result 0; the message has the descriptor count 0,
and of the 128 slots of its descriptor array only the first is written, with
the last descriptor, 128. -/
theorem C14_send_frame_checks_no_limit_witness :
    (∃ st1 msg,
      rpc_send_frame 3 ex_many_fds_state 133 =
        some (st1, ex_many_fds_state.rco_send_msg msg) ∧
      st1.sent = ex_many_fds_state.sent ++ [msg] ∧
      msg.buf = .dictionary [("namespace", .string "rpc"), ("name", .string "response"),
        ("id", .string "id-1"), ("args", .array ((List.range 129).map (fun d => .fd d)))] ∧
      msg.buf.fd_count =
        (Tree.string "id-1").fd_count +
          (Tree.array ((List.range 129).map (fun d => .fd d))).fd_count ∧
      msg.nfds = 0) ∧
    (toTree 3 ex_many_fds_heap 133).map Tree.fd_count = some 129 ∧ MAX_FDS < 129 ∧
    (rpc_send_frame 3 ex_many_fds_state 133).map (fun r => (r.1.sent.length, r.2)) =
      some (1, 0) ∧
    (rpc_send_frame 3 ex_many_fds_state 133).map
        (fun r => r.1.sent.map (fun w => (w.nfds, w.fds.length, w.fds[0]?,
          (w.fds.drop 1).all (fun d => d.isNone)))) =
      some [(0, 128, some (some 128), true)] :=
  ⟨C14_send_frame_checks_no_limit 1 ex_many_fds_state 133 131 132 0 130 "rpc" "response" 2 2
    (.rv_str "id-1") (.rv_list ((List.range 129).map (fun d => d + 1))) (.string "id-1")
    (.array ((List.range 129).map (fun d => .fd d)))
    (by decide) (by decide) (by decide) (by decide) (by decide) (by decide) (by decide)
    (by decide) (by decide) (by decide) rfl rfl,
   by decide, by decide, by decide, rfl⟩

/-! ## Sequence numbers of fragments -/

/-- Dispatch of one `rpc/fragment` frame for a listed call. -/
theorem dispatch_fragment (fuel : Nat) (st : State) (key : String) (call : Nat) (c : rpc_call)
    (frame seqno : Nat) (htab : st.rco_calls.lookup key = some call)
    (hcall : st.calls[call]? = some (some c))
    (hf : is_fragment_frame st.heap key frame seqno) :
    ∃ st1 c1, rpc_connection_dispatch fuel st frame = some st1 ∧
      st1.heap = st.heap ∧ st1.rco_calls = st.rco_calls ∧
      st1.calls[call]? = some (some c1) ∧ c1.rc_seqno = seqno := by
  obtain ⟨id, a, sobj, ro, rs, p, hid, ho, hns, hname, hargs, hs, hsobj, hp⟩ := hf
  have hlt : call < st.calls.length := by
    by_contra hge
    rw [List.getElem?_eq_none (by omega)] at hcall
    cases hcall
  rw [dispatch_to_handler fuel st frame id "rpc" "fragment" (some a)
    ⟨"rpc", "fragment", .on_rpc_fragment⟩ hid hns hname hargs (by decide)]
  refine ⟨{ st with
      handled := st.handled ++ [⟨"rpc", "fragment", some a, id⟩],
      calls := st.calls.set call
        (some { c with rc_status := .RPC_CALL_MORE_AVAILABLE, rc_result := p,
                       rc_seqno := seqno }) },
    { c with rc_status := .RPC_CALL_MORE_AVAILABLE, rc_result := p, rc_seqno := seqno },
    ?_, ?_⟩
  · simp only [handler_fn.run, on_rpc_fragment, lookup_call, ho, rpc_string_get_string_ptr,
      htab, rpc_dictionary_get_uint64, hs, hsobj, hp, rpc_uint64_get_value, update_call, hcall]
  · refine ⟨rfl, rfl, ?_, rfl⟩
    simp only [List.getElem?_set, hlt, if_true]

/-- C19, counterexample: the two fragment frames of `ex_fragments_heap`,
processed in order for the pending call of `ex_fragments_state`, record the
seqno values 5 and then 2: the first is not 1 and the second is smaller than
the first. -/
theorem C19_counterexample :
    seqno_trace 3 0 ex_fragments_state [6, 10] = some [5, 2] := by
  decide

/-- C19, amended: for every sequence of `rpc/fragment` frames processed for
one outbound call that is in the outbound-call table, the seqno value
recorded on the call after each frame is the UInt64 `seqno` that this frame
carries, whatever it is; the receiver does not compare it with the one
recorded before. -/
theorem C19_recorded_seqno_is_frame_seqno (fuel : Nat) (key : String) (call : Nat)
    (frames : List (Nat × Nat)) (st : State) (c : rpc_call)
    (htab : st.rco_calls.lookup key = some call)
    (hcall : st.calls[call]? = some (some c))
    (hfr : ∀ p ∈ frames, is_fragment_frame st.heap key p.1 p.2) :
    seqno_trace fuel call st (frames.map Prod.fst) = some (frames.map Prod.snd) := by
  induction frames generalizing st c with
  | nil => rfl
  | cons p rest ih =>
    obtain ⟨st1, c1, hd, hheap, htab1, hcall1, hseq⟩ :=
      dispatch_fragment fuel st key call c p.1 p.2 htab hcall (hfr p (List.mem_cons_self _ _))
    have hrest := ih st1 c1 (by rw [htab1]; exact htab) hcall1 (by
      intro q hq
      rw [hheap]
      exact hfr q (List.mem_cons_of_mem _ hq))
    simp only [List.map_cons, seqno_trace, hd, hcall1, hrest, hseq]

/-- C19, amended, at a concrete input: the frames with seqno 5 and 2 of
`ex_fragments_heap`. -/
theorem C19_recorded_seqno_is_frame_seqno_witness :
    seqno_trace 3 0 ex_fragments_state ([(6, 5), (10, 2)].map Prod.fst) =
      some ([(6, 5), (10, 2)].map Prod.snd) :=
  C19_recorded_seqno_is_frame_seqno 3 "id-1" 0 [(6, 5), (10, 2)] ex_fragments_state ex_call
    (by decide) (by decide) (by
      intro p hp
      simp only [List.mem_cons, List.mem_singleton, List.not_mem_nil, or_false] at hp
      rcases hp with rfl | rfl
      · exact ⟨0, 5, 3, 1, 1, some 4, by decide, by decide, by decide, by decide, by decide,
          by decide, by decide, by decide⟩
      · exact ⟨0, 9, 7, 1, 1, some 8, by decide, by decide, by decide, by decide, by decide,
          by decide, by decide, by decide⟩)

/-! ## Subscription accounting -/

theorem lookup_append_new {β : Type} (k k2 : String) (v : β) :
    ∀ (t : List (String × β)),
      (t ++ [(k, v)]).lookup k2 =
        match t.lookup k2 with
        | some x => some x
        | none => if k2 = k then some v else none := by
  intro t
  induction t with
  | nil =>
    by_cases h : k2 = k
    · subst h
      simp [List.lookup]
    · have hb : (k2 == k) = false := by simpa using h
      simp [List.lookup, hb, h]
  | cons e rest ih =>
    obtain ⟨a, b⟩ := e
    cases hb : (k2 == a) with
    | true => simp [List.lookup, hb]
    | false => simpa [List.lookup, hb] using ih

theorem lookup_map_replace {β : Type} (k k2 : String) (v : β) :
    ∀ (t : List (String × β)),
      (t.map (fun e => if e.1 = k then (e.1, v) else e)).lookup k2 =
        if k2 = k then (t.lookup k).map (fun _ => v) else t.lookup k2 := by
  intro t
  induction t with
  | nil => simp [List.lookup]
  | cons e rest ih =>
    obtain ⟨a, b⟩ := e
    rw [List.map_cons]
    by_cases hak : a = k
    · have e1 : (if (a, b).1 = k then ((a, b).1, v) else (a, b)) = (a, v) := if_pos hak
      rw [e1, List.lookup_cons, List.lookup_cons, ih]
      subst hak
      by_cases h2 : k2 = a
      · subst h2
        simp
      · have hb : (k2 == a) = false := by simpa using h2
        simp [hb, h2, List.lookup_cons]
    · have e1 : (if (a, b).1 = k then ((a, b).1, v) else (a, b)) = (a, b) := if_neg hak
      rw [e1, List.lookup_cons, List.lookup_cons, ih]
      by_cases h2 : k2 = k
      · subst h2
        have hb : (k2 == a) = false := by
          simpa using fun h => hak h.symm
        simp [hb]
      · simp only [h2, if_false, List.lookup_cons]

theorem lookup_table_insert {β : Type} (t : List (String × β)) (k k2 : String) (v : β) :
    (table_insert t k v).lookup k2 = if k2 = k then some v else t.lookup k2 := by
  unfold table_insert
  cases hl : t.lookup k with
  | none =>
    simp only [lookup_append_new]
    by_cases h2 : k2 = k
    · subst h2
      simp [hl]
    · simp only [h2, if_false]
      cases t.lookup k2 <;> rfl
  | some x =>
    simp only [lookup_map_replace, hl, Option.map_some']

theorem subscribe_loop (h : Heap) (n : String) :
    ∀ (items : List Nat) (names : List String) (i : Nat) (subs : List (String × Int)),
      items.map (fun x => (h.get x).bind rpc_string_get_string_ptr) = names.map some →
      ∃ subs1,
        apply_items
          (fun _ value (subs : List (String × Int)) =>
            match h.get value with
            | none => none
            | some o =>
              match rpc_string_get_string_ptr o with
              | none => none
              | some name =>
                some (table_insert subs name
                  (wrap_int32 ((match subs.lookup name with | none => 0 | some r => r) + 1)),
                  true))
          items i subs = some (subs1, false) ∧
        subs1.lookup n =
          ((names.filter (fun x => x = n)).map (fun _ => true)).foldl refcount_step
            (subs.lookup n) := by
  intro items
  induction items with
  | nil =>
    intro names i subs hn
    cases names with
    | nil => exact ⟨subs, rfl, rfl⟩
    | cons a b => simp at hn
  | cons v rest ih =>
    intro names i subs hn
    cases names with
    | nil => simp at hn
    | cons nm names1 =>
      simp only [List.map_cons, List.cons.injEq] at hn
      obtain ⟨hv, hrest⟩ := hn
      cases hg : h.get v with
      | none => simp [hg] at hv
      | some o =>
        simp only [hg, Option.some_bind] at hv
        obtain ⟨subs1, hloop, hlook⟩ := ih names1 (i + 1)
          (table_insert subs nm
            (wrap_int32 ((match subs.lookup nm with | none => 0 | some r => r) + 1))) hrest
        refine ⟨subs1, ?_, ?_⟩
        · simp only [apply_items, hg, hv]
          exact hloop
        · rw [hlook, lookup_table_insert]
          by_cases hnm : nm = n
          · subst hnm
            simp only [if_true, List.filter_cons, decide_True, List.map_cons, List.foldl_cons]
            cases subs.lookup nm <;> rfl
          · have hnm2 : ¬ n = nm := fun e => hnm e.symm
            simp only [hnm2, if_false, List.filter_cons, hnm, decide_False]
            rfl

theorem unsubscribe_loop (h : Heap) (n : String) :
    ∀ (items : List Nat) (names : List String) (i : Nat) (subs : List (String × Int)),
      items.map (fun x => (h.get x).bind rpc_string_get_string_ptr) = names.map some →
      ∃ subs1,
        apply_items
          (fun _ value (subs : List (String × Int)) =>
            match h.get value with
            | none => none
            | some o =>
              match rpc_string_get_string_ptr o with
              | none => none
              | some name =>
                match subs.lookup name with
                | none => some (subs, true)
                | some r => some (table_insert subs name (wrap_int32 (r - 1)), true))
          items i subs = some (subs1, false) ∧
        subs1.lookup n =
          ((names.filter (fun x => x = n)).map (fun _ => false)).foldl refcount_step
            (subs.lookup n) := by
  intro items
  induction items with
  | nil =>
    intro names i subs hn
    cases names with
    | nil => exact ⟨subs, rfl, rfl⟩
    | cons a b => simp at hn
  | cons v rest ih =>
    intro names i subs hn
    cases names with
    | nil => simp at hn
    | cons nm names1 =>
      simp only [List.map_cons, List.cons.injEq] at hn
      obtain ⟨hv, hrest⟩ := hn
      cases hg : h.get v with
      | none => simp [hg] at hv
      | some o =>
        simp only [hg, Option.some_bind] at hv
        cases hl : subs.lookup nm with
        | none =>
          obtain ⟨subs1, hloop, hlook⟩ := ih names1 (i + 1) subs hrest
          refine ⟨subs1, ?_, ?_⟩
          · simp only [apply_items, hg, hv, hl]
            exact hloop
          · rw [hlook]
            by_cases hnm : nm = n
            · subst hnm
              simp only [List.filter_cons, decide_True, if_true, List.map_cons, List.foldl_cons,
                hl]
              rfl
            · simp only [List.filter_cons, hnm, decide_False]
              rfl
        | some r =>
          obtain ⟨subs1, hloop, hlook⟩ := ih names1 (i + 1)
            (table_insert subs nm (wrap_int32 (r - 1))) hrest
          refine ⟨subs1, ?_, ?_⟩
          · simp only [apply_items, hg, hv, hl]
            exact hloop
          · rw [hlook, lookup_table_insert]
            by_cases hnm : nm = n
            · subst hnm
              simp only [if_true, List.filter_cons, decide_True, List.map_cons, List.foldl_cons,
                hl]
              rfl
            · have hnm2 : ¬ n = nm := fun e => hnm e.symm
              simp only [hnm2, if_false, List.filter_cons, hnm, decide_False]
              rfl

/-- Dispatch of one `events/subscribe` or `events/unsubscribe` frame. -/
theorem dispatch_events_frame (fuel : Nat) (st : State) (frame : Nat) (sub : Bool)
    (names : List String) (n : String) (hf : is_events_frame st.heap frame sub names) :
    ∃ st1, rpc_connection_dispatch fuel st frame = some st1 ∧ st1.heap = st.heap ∧
      st1.rco_subscriptions.lookup n =
        ((names.filter (fun x => x = n)).map (fun _ => sub)).foldl refcount_step
          (st.rco_subscriptions.lookup n) := by
  obtain ⟨id, a, ra, items, hid, hns, hname, hargs, ha, hitems⟩ := hf
  cases sub with
  | true =>
    rw [dispatch_to_handler fuel st frame id "events" "subscribe" (some a)
      ⟨"events", "subscribe", .on_events_subscribe⟩ hid hns hname hargs (by decide)]
    obtain ⟨subs1, hloop, hlook⟩ :=
      subscribe_loop st.heap n items names 0 st.rco_subscriptions hitems
    simp only [handler_fn.run, on_events_subscribe, rpc_array_apply, ha]
    erw [hloop]
    exact ⟨_, rfl, rfl, hlook⟩
  | false =>
    rw [dispatch_to_handler fuel st frame id "events" "unsubscribe" (some a)
      ⟨"events", "unsubscribe", .on_events_unsubscribe⟩ hid hns hname hargs (by decide)]
    obtain ⟨subs1, hloop, hlook⟩ :=
      unsubscribe_loop st.heap n items names 0 st.rco_subscriptions hitems
    simp only [handler_fn.run, on_events_unsubscribe, rpc_array_apply, ha]
    erw [hloop]
    exact ⟨_, rfl, rfl, hlook⟩

theorem dispatch_events_frames (fuel : Nat) (n : String) :
    ∀ (frames : List (Nat × Bool × List String)) (st : State),
      (∀ f ∈ frames, is_events_frame st.heap f.1 f.2.1 f.2.2) →
      ∃ st1, dispatch_all fuel st (frames.map Prod.fst) = some st1 ∧
        st1.rco_subscriptions.lookup n =
          (name_ops n frames).foldl refcount_step (st.rco_subscriptions.lookup n) := by
  intro frames
  induction frames with
  | nil => intro st _; exact ⟨st, rfl, rfl⟩
  | cons f rest ih =>
    intro st hfr
    obtain ⟨st1, hd, hheap, hlook⟩ :=
      dispatch_events_frame fuel st f.1 f.2.1 f.2.2 n (hfr f (List.mem_cons_self _ _))
    obtain ⟨st2, hall, hlook2⟩ := ih st1 (by
      intro g hg
      rw [hheap]
      exact hfr g (List.mem_cons_of_mem _ hg))
    refine ⟨st2, ?_, ?_⟩
    · simp only [List.map_cons, dispatch_all, hd, hall]
    · rw [hlook2, hlook]
      simp only [name_ops, List.flatMap_cons, List.foldl_append]

theorem wrap_int32_wrap_add (x y : Int) : wrap_int32 (wrap_int32 x + y) = wrap_int32 (x + y) := by
  unfold wrap_int32
  omega

theorem refcount_fold_some (ops : List Bool) :
    ∀ (r : Int), ops.foldl refcount_step (some (wrap_int32 r)) =
      some (wrap_int32 (r + (ops.count true : Int) - (ops.count false : Int))) := by
  induction ops with
  | nil => intro r; simp
  | cons b rest ih =>
    intro r
    cases b with
    | true =>
      have hc : List.count false (true :: rest) = List.count false rest := by simp
      simp only [List.foldl_cons, refcount_step, wrap_int32_wrap_add, ih, List.count_cons_self,
        hc]
      congr 2
      push_cast
      omega
    | false =>
      have e : wrap_int32 r - 1 = wrap_int32 r + (-1) := by omega
      have hc : List.count true (false :: rest) = List.count true rest := by simp
      simp only [List.foldl_cons, refcount_step, e, wrap_int32_wrap_add, ih,
        List.count_cons_self, hc]
      congr 2
      push_cast
      omega

theorem refcount_fold_none (ops : List Bool) :
    ops.foldl refcount_step none =
      match ops.dropWhile (fun b => !b) with
      | [] => none
      | l => some (wrap_int32 ((l.count true : Int) - (l.count false : Int))) := by
  induction ops with
  | nil => rfl
  | cons b rest ih =>
    cases b with
    | false =>
      simp only [List.foldl_cons, refcount_step, List.dropWhile_cons, Bool.not_false, if_true]
      exact ih
    | true =>
      have h1 : refcount_step none true = some (wrap_int32 1) := rfl
      have hc : List.count false (true :: rest) = List.count false rest := by simp
      simp only [List.foldl_cons, h1, refcount_fold_some, List.dropWhile_cons, Bool.not_true,
        Bool.false_eq_true, if_false, List.count_cons_self, hc]
      congr 2
      push_cast
      omega

/-- C16, counterexample: after the frames subscribe `"ev"`, unsubscribe
`"ev"`, unsubscribe `"ev"` of `ex_events_heap`, the refcount of `"ev"` is -1,
where the claim gives 0 and says that a refcount is never negative. -/
theorem C16_counterexample :
    (dispatch_all 3 ex_events_state [6, 7, 7]).map
        (fun s => s.rco_subscriptions.lookup "ev") = some (some (-1)) ∧
    ((-1 : Int) < 0) := by
  decide

/-- C16, amended: for every sequence of inbound `events/subscribe` and
`events/unsubscribe` frames (args an array of String names) received by a
connection that has no entry for the name `n`, all frames are handled and
afterwards, so after each frame of the sequence: while `n` has not been
subscribed it has no entry (unsubscribes of it are ignored); from its first
subscribe on, its refcount is the number of its subscribes minus the number of
its unsubscribes since then, as a 32-bit `int`, with no clamping at zero. -/
theorem C16_refcount_is_not_clamped (fuel : Nat) (n : String)
    (frames : List (Nat × Bool × List String)) (st : State)
    (hnew : st.rco_subscriptions.lookup n = none)
    (hfr : ∀ f ∈ frames, is_events_frame st.heap f.1 f.2.1 f.2.2) :
    ∃ st1, dispatch_all fuel st (frames.map Prod.fst) = some st1 ∧
      st1.rco_subscriptions.lookup n =
        match (name_ops n frames).dropWhile (fun b => !b) with
        | [] => none
        | l => some (wrap_int32 ((l.count true : Int) - (l.count false : Int))) := by
  obtain ⟨st1, hall, hlook⟩ := dispatch_events_frames fuel n frames st hfr
  refine ⟨st1, hall, ?_⟩
  rw [hlook, hnew]
  exact refcount_fold_none (name_ops n frames)

/-- C16, amended, at a concrete input: the frames subscribe, unsubscribe,
unsubscribe of `ex_events_heap`, for the name `"ev"`. -/
theorem C16_refcount_is_not_clamped_witness :
    ∃ st1,
      dispatch_all 3 ex_events_state
          ([(6, true, ["ev"]), (7, false, ["ev"]), (7, false, ["ev"])].map Prod.fst) =
        some st1 ∧
      st1.rco_subscriptions.lookup "ev" = some (-1) :=
  C16_refcount_is_not_clamped 3 "ev" [(6, true, ["ev"]), (7, false, ["ev"]), (7, false, ["ev"])]
    ex_events_state (by decide) (by
      intro f hf
      simp only [List.mem_cons, List.mem_singleton, List.not_mem_nil, or_false] at hf
      rcases hf with rfl | rfl | rfl
      · exact ⟨0, 5, 2, [4], by decide, by decide, by decide, by decide, by decide, by decide⟩
      · exact ⟨0, 5, 2, [4], by decide, by decide, by decide, by decide, by decide, by decide⟩
      · exact ⟨0, 5, 2, [4], by decide, by decide, by decide, by decide, by decide, by decide⟩)

/-! ## Subscribing to events -/

/-- The args `[name]` built by `rpc_connection_subscribe_event` and
`rpc_connection_unsubscribe_event`. -/
theorem event_args_spec (h : Heap) (name : String) :
    ∃ H, rpc_array_create_ex (rpc_string_create h name).1 [(rpc_string_create h name).2]
        = some (H, h.size + 1) ∧
      H.size = h.size + 2 ∧
      H.get h.size = some ⟨2, .rv_str name⟩ ∧
      H.get (h.size + 1) = some ⟨1, .rv_list [h.size]⟩ ∧
      (∀ x, x < h.size → H.get x = h.get x) := by
  obtain ⟨H1, hH1⟩ : ∃ H1, H1 = (rpc_string_create h name).1 := ⟨_, rfl⟩
  have s1 : H1.size = h.size + 1 := by rw [hH1]; exact Heap.size_alloc h _
  have g1 : H1.get h.size = some ⟨1, .rv_str name⟩ := by rw [hH1]; exact Heap.get_alloc_same h _
  have o1 : ∀ x, x ≠ h.size → H1.get x = h.get x := by
    intro x hx; rw [hH1]; exact Heap.get_alloc_ne h _ hx
  have e1 : (rpc_string_create h name).2 = h.size := rfl
  obtain ⟨H2, hH2⟩ : ∃ H2, H2 = (rpc_array_create H1).1 := ⟨_, rfl⟩
  have s2 : H2.size = h.size + 2 := by rw [hH2, rpc_array_create, rpc_prim_create,
    Heap.size_alloc, s1]
  have g2 : H2.get (h.size + 1) = some ⟨1, .rv_list []⟩ := by
    have hsame : (H1.alloc ⟨1, .rv_list []⟩).1.get H1.size = some ⟨1, .rv_list []⟩ :=
      Heap.get_alloc_same H1 _
    rw [s1] at hsame
    rw [hH2]
    exact hsame
  have o2 : ∀ x, x ≠ h.size + 1 → H2.get x = H1.get x := by
    intro x hx
    have hx2 : x ≠ H1.size := by rw [s1]; exact hx
    rw [hH2]
    exact Heap.get_alloc_ne H1 _ hx2
  have e2 : (rpc_array_create H1).2 = h.size + 1 := by
    rw [rpc_array_create, rpc_prim_create, Heap.alloc_snd, s1]
  have hst := append_stolen_eq (H := H2) h.size g2
  obtain ⟨H3, hH3⟩ : ∃ H3, H3 = H2.set (h.size + 1) ⟨1, .rv_list ([] ++ [h.size])⟩ := ⟨_, rfl⟩
  rw [← hH3] at hst
  have g3 : H3.get h.size = some ⟨1, .rv_str name⟩ := by
    rw [hH3, Heap.get_set_ne _ _ (by omega), o2 _ (by omega), g1]
  have hret := rpc_retain_eq g3
  have hw : wrap_int32 (1 + 1) = 2 := by decide
  simp only [hw] at hret
  refine ⟨H3.set h.size ⟨2, .rv_str name⟩, ?_, ?_, ?_, ?_, ?_⟩
  · simp only [rpc_array_create_ex, ← hH1, e1, e2, ← hH2, append_values,
      rpc_array_append_value, hst, hret, Option.map_some']
  · rw [Heap.size_set, hH3, Heap.size_set, s2]
  · refine Heap.get_set_same _ ?_
    rw [hH3, Heap.size_set, s2]
    omega
  · rw [Heap.get_set_ne _ _ (by omega), hH3]
    have hlt : h.size + 1 < H2.size := by rw [s2]; omega
    simpa using Heap.get_set_same (h := H2) ⟨1, .rv_list ([] ++ [h.size])⟩ hlt
  · intro x hx
    rw [Heap.get_set_ne _ _ (by omega), hH3, Heap.get_set_ne _ _ (by omega), o2 _ (by omega),
      o1 _ (by omega)]

/-- One call of `rpc_connection_subscribe_event`: one frame is sent. -/
theorem subscribe_event_spec (m : Nat) (st : State) (name : String) :
    ∃ hf fds,
      rpc_connection_subscribe_event (m + 3) st name =
        some ({ st with
            heap := hf,
            sent := st.sent ++ [⟨subscribe_frame true name, fds, 0⟩] },
          if st.rco_send_msg ⟨subscribe_frame true name, fds, 0⟩ ≠ 0 then -1 else 0) := by
  obtain ⟨H, ecreate, sH, gstr, garr, hold⟩ := event_args_spec st.heap name
  have tstr : toTree (m + 1) H st.heap.size = some (.string name) := by
    unfold toTree; simp [gstr]
  have targ : toTree (m + 2) H (st.heap.size + 1) = some (.array [.string name]) := by
    unfold toTree; simp [garr, mapOpt, tstr]
  obtain ⟨H', epack, g0, g1, g2, g3, ga, t3, tta, sH', oH'⟩ :=
    pack_frame_none_heap (m + 3) (m + 2) H "events" "subscribe" (st.heap.size + 1) 1
      (.rv_list [st.heap.size]) _ garr (by decide) (by decide) targ
  rw [sH] at epack g0 g1 g2 g3 t3
  obtain ⟨hf, fds, hsend, _⟩ :=
    send_frame_heap (m + 1) { st with heap := H' } (st.heap.size + 2) (st.heap.size + 2 + 1)
      (st.heap.size + 2 + 2) (st.heap.size + 2 + 3) (st.heap.size + 1) "events" "subscribe"
      (1 + 1) (1 + 1) .rv_null (.rv_list [st.heap.size]) .null (.array [.string name])
      g0 g1 g2 g3 (by decide) (by decide) ga (by decide) (by decide)
      (by refine ⟨?_, ?_, ?_, ?_, ?_, ?_, ?_, ?_, ?_, ?_⟩ <;> omega) t3 tta
  refine ⟨hf, fds, ?_⟩
  simp only [rpc_connection_subscribe_event, ecreate, epack, hsend]
  rfl

/-- One call of `rpc_connection_unsubscribe_event`: one frame is sent. -/
theorem unsubscribe_event_spec (m : Nat) (st : State) (name : String) :
    ∃ hf fds r,
      rpc_connection_unsubscribe_event (m + 3) st name =
        some ({ st with
            heap := hf,
            sent := st.sent ++ [⟨subscribe_frame false name, fds, 0⟩] }, r) := by
  obtain ⟨H, ecreate, sH, gstr, garr, hold⟩ := event_args_spec st.heap name
  have tstr : toTree (m + 1) H st.heap.size = some (.string name) := by
    unfold toTree; simp [gstr]
  have targ : toTree (m + 2) H (st.heap.size + 1) = some (.array [.string name]) := by
    unfold toTree; simp [garr, mapOpt, tstr]
  obtain ⟨H', epack, g0, g1, g2, g3, ga, t3, tta, sH', oH'⟩ :=
    pack_frame_none_heap (m + 3) (m + 2) H "events" "unsubscribe" (st.heap.size + 1) 1
      (.rv_list [st.heap.size]) _ garr (by decide) (by decide) targ
  have gstr' : H'.get st.heap.size = some ⟨2, .rv_str name⟩ := by
    rw [oH' _ (by omega) (by omega), gstr]
  rw [sH] at epack g0 g1 g2 g3 t3
  obtain ⟨hf, fds, hsend, ⟨va2, gaf, hva⟩, hrest⟩ :=
    send_frame_heap (m + 1) { st with heap := H' } (st.heap.size + 2) (st.heap.size + 2 + 1)
      (st.heap.size + 2 + 2) (st.heap.size + 2 + 3) (st.heap.size + 1) "events" "unsubscribe"
      (1 + 1) (1 + 1) .rv_null (.rv_list [st.heap.size]) .null (.array [.string name])
      g0 g1 g2 g3 (by decide) (by decide) ga (by decide) (by decide)
      (by refine ⟨?_, ?_, ?_, ?_, ?_, ?_, ?_, ?_, ?_, ?_⟩ <;> omega) t3 tta
  have hva2 : va2 = .rv_list [st.heap.size] := by
    rcases hva with e | ⟨x, y, e, _⟩
    · exact e
    · cases e
  subst hva2
  obtain ⟨o2, gsf, hrc, hv⟩ := hrest st.heap.size _ (by omega) (by omega) (by omega) (by omega)
    (by omega) gstr'
  obtain ⟨rc2, v2⟩ := o2
  simp only at hrc hv
  have hv2 : v2 = .rv_str name := by
    rcases hv with e | ⟨x, y, e, _⟩
    · exact e
    · cases e
  subst hv2
  subst hrc
  by_cases hr : st.rco_send_msg ⟨subscribe_frame false name, fds, 0⟩ ≠ 0
  · refine ⟨hf, fds, -1, ?_⟩
    simp only [rpc_connection_unsubscribe_event, ecreate, epack, hsend]
    have hr' : ({ st with heap := H' } : State).rco_send_msg
        ⟨subscribe_frame false name, fds, 0⟩ ≠ 0 := hr
    simp only [subscribe_frame, Bool.false_eq_true, if_false] at hr'
    rw [if_pos hr']
    rfl
  · have hr' : ¬ (({ st with heap := H' } : State).rco_send_msg
        ⟨subscribe_frame false name, fds, 0⟩ ≠ 0) := hr
    simp only [subscribe_frame, Bool.false_eq_true, if_false] at hr'
    -- release of the string, then of the array
    have r1 := @release_leaf_keep hf st.heap.size 2 (.rv_str name) (m + 2) gsf (by decide)
      (by decide)
    obtain ⟨Ha, hHa⟩ : ∃ Ha, Ha = hf.set st.heap.size ⟨2 - 1, .rv_str name⟩ := ⟨_, rfl⟩
    rw [← hHa] at r1
    have lstr := Heap.get_lt gsf
    have larr := Heap.get_lt gaf
    have ga1 : Ha.get (st.heap.size + 1) = some ⟨1, .rv_list [st.heap.size]⟩ := by
      rw [hHa, Heap.get_set_ne _ _ (by omega), gaf]
      rfl
    have gs1 : Ha.get st.heap.size = some ⟨1, .rv_str name⟩ := by
      rw [hHa]
      exact Heap.get_set_same _ lstr
    obtain ⟨Hb, hHb⟩ : ∃ Hb, Hb = Ha.set (st.heap.size + 1) ⟨0, .rv_list [st.heap.size]⟩ :=
      ⟨_, rfl⟩
    have gb1 : Hb.get (st.heap.size + 1) = some ⟨0, .rv_list [st.heap.size]⟩ := by
      rw [hHb]
      refine Heap.get_set_same _ ?_
      rw [hHa, Heap.size_set]
      exact larr
    have r2 := @release_leaf_free Hb st.heap.size (.rv_str name) (m + 1)
      (by rw [hHb, Heap.get_set_ne _ _ (by omega), gs1]) rfl
    have hw0 : wrap_int32 (1 - 1) = 0 := by decide
    have hrel : ∃ Hc, rpc_release_impl (m + 3) Ha (st.heap.size + 1) = some (Hc, 0) := by
      unfold rpc_release_impl
      simp only [ga1, hw0, ← hHb, rpc_array_apply, gb1, apply_items, r2, Option.map_some']
      simp
    obtain ⟨Hc, hHc⟩ := hrel
    refine ⟨Hc, fds, 0, ?_⟩
    have e1 : (rpc_string_create st.heap name).2 = st.heap.size := rfl
    simp only [rpc_connection_unsubscribe_event, ecreate, epack, hsend]
    rw [if_neg hr']
    simp only [e1, r1, hHc]
    rfl

/-- C17, counterexample: two calls of `rpc_connection_subscribe_event` for
the name `"ev"` send two `events/subscribe` frames; the claim says the second
call sends none. -/
theorem C17_counterexample :
    (run_subscribe_calls 3 "ev" ex_state [true, true]).map
        (fun s => s.sent.map (fun msg => msg.buf)) =
      some [subscribe_frame true "ev", subscribe_frame true "ev"] := by
  rfl

/-- C17, amended: over every sequence of `rpc_connection_subscribe_event`
and `rpc_connection_unsubscribe_event` calls for one event name, every call
returns and sends one frame, `events/subscribe` for a subscribe call and
`events/unsubscribe` for an unsubscribe call, with a Null id and the args
`[name]`, whatever was subscribed before; the calls keep no local
subscription count and leave the table `rco_subscriptions` as it is. -/
theorem C17_every_call_sends_a_frame (m : Nat) (name : String) (calls : List Bool)
    (st : State) :
    ∃ st1, run_subscribe_calls (m + 3) name st calls = some st1 ∧
      st1.sent.map (fun msg => msg.buf) =
        st.sent.map (fun msg => msg.buf) ++ calls.map (fun b => subscribe_frame b name) ∧
      st1.rco_subscriptions = st.rco_subscriptions := by
  induction calls generalizing st with
  | nil => exact ⟨st, rfl, by simp, rfl⟩
  | cons b rest ih =>
    cases b with
    | true =>
      obtain ⟨hf, fds, hcall⟩ := subscribe_event_spec m st name
      obtain ⟨st1, hrun, hsent, hsubs⟩ := ih
        { st with heap := hf, sent := st.sent ++ [⟨subscribe_frame true name, fds, 0⟩] }
      refine ⟨st1, ?_, ?_, hsubs⟩
      · simp only [run_subscribe_calls, if_true, hcall]
        exact hrun
      · rw [hsent]
        simp
    | false =>
      obtain ⟨hf, fds, r, hcall⟩ := unsubscribe_event_spec m st name
      obtain ⟨st1, hrun, hsent, hsubs⟩ := ih
        { st with heap := hf, sent := st.sent ++ [⟨subscribe_frame false name, fds, 0⟩] }
      refine ⟨st1, ?_, ?_, hsubs⟩
      · simp only [run_subscribe_calls, Bool.false_eq_true, if_false, hcall]
        exact hrun
      · rw [hsent]
        simp

/-! ## The event worker -/

/-- The worker does not exit in order when an event of the queue has a
name whose entry in `rco_subscriptions` is not a `struct rpc_subscription`
record. -/
theorem worker_misreads (st : State) (rsu_handlers : List (String × List Nat))
    (catch_all : Option Nat) (bad : Nat) (name : String) (data : Option Nat)
    (hname : rpc_dictionary_get_string st.heap bad "name" = some (some name))
    (hargs : rpc_dictionary_get_value st.heap bad "args" = some data)
    (hsub : (st.rco_subscriptions.lookup name).isSome)
    (hrec : rsu_handlers.lookup name = none) :
    ∀ (pre : List (Option Nat)) (post : List (Option Nat)) (log : List event_call),
      (∀ p ∈ pre, p ≠ none) →
      rpc_event_worker st rsu_handlers catch_all (pre ++ some bad :: post) log = none := by
  obtain ⟨r, hr⟩ := Option.isSome_iff_exists.mp hsub
  intro pre
  induction pre with
  | nil =>
    intro post log _
    cases catch_all with
    | none => simp [rpc_event_worker, hname, hargs]
    | some ca => simp [rpc_event_worker, hname, hargs, hr, hrec]
  | cons p pre ih =>
    intro post log hpre
    have ih2 := fun lg => ih post lg (fun q hq => hpre q (List.mem_cons_of_mem _ hq))
    cases p with
    | none => exact absurd rfl (hpre none (List.mem_cons_self _ _))
    | some ev =>
      simp only [List.cons_append, rpc_event_worker]
      split
      · split
        · exact ih2 _
        · split
          · rfl
          · exact ih2 _
      · rfl

/-- C18: for every sequence of events on the connection's queue followed by
the `NULL` poison value (each event a dictionary with a String `name`; the
catch-all handler set): when no event name has an entry in
`rco_subscriptions`, the event worker exits and has invoked the catch-all
handler once per event, in queue order, with the event's name and args, and
nothing popped after the poison value is handled; but when the name of an
event has an entry that is not a `struct rpc_subscription` record, as every
entry is that `on_events_subscribe` makes (an `int` reference count), the
worker reads the handler list out of that `int` and does not get to exit in
order. -/
theorem C18_worker_misreads_refcount_entries (st : State)
    (rsu_handlers : List (String × List Nat)) (catch_all : Nat)
    (evs : List (Nat × String × Option Nat)) (later : List (Option Nat))
    (hq : st.rco_event_queue = evs.map Prod.fst)
    (hev : ∀ e ∈ evs,
      rpc_dictionary_get_string st.heap e.1 "name" = some (some e.2.1) ∧
      rpc_dictionary_get_value st.heap e.1 "args" = some e.2.2) :
    ((∀ e ∈ evs, st.rco_subscriptions.lookup e.2.1 = none) →
      rpc_event_worker st rsu_handlers (some catch_all)
          (st.rco_event_queue.map some ++ none :: later) [] =
        some (evs.map (fun e => ⟨catch_all, e.2.1, e.2.2⟩))) ∧
    (∀ e ∈ evs, (st.rco_subscriptions.lookup e.2.1).isSome →
      rsu_handlers.lookup e.2.1 = none →
      rpc_event_worker st rsu_handlers (some catch_all)
          (st.rco_event_queue.map some ++ none :: later) [] = none) := by
  rw [hq]
  constructor
  · intro hnone
    suffices hgen : ∀ (log : List event_call),
        rpc_event_worker st rsu_handlers (some catch_all)
            ((evs.map Prod.fst).map some ++ none :: later) log =
          some (log ++ evs.map (fun e => ⟨catch_all, e.2.1, e.2.2⟩)) by
      simpa using hgen []
    clear hq
    induction evs with
    | nil =>
      intro log
      simp [rpc_event_worker]
    | cons e rest ih =>
      intro log
      obtain ⟨hname, hargs⟩ := hev e (List.mem_cons_self _ _)
      have hl := hnone e (List.mem_cons_self _ _)
      have ih2 := ih (fun g hg => hev g (List.mem_cons_of_mem _ hg))
        (fun g hg => hnone g (List.mem_cons_of_mem _ hg))
      have hstep : rpc_event_worker st rsu_handlers (some catch_all)
          (some e.1 :: ((rest.map Prod.fst).map some ++ none :: later)) log =
          rpc_event_worker st rsu_handlers (some catch_all)
            ((rest.map Prod.fst).map some ++ none :: later)
            (log ++ [⟨catch_all, e.2.1, e.2.2⟩]) := by
        simp only [rpc_event_worker, hname, hargs, hl]
      simp only [List.map_cons, List.cons_append]
      rw [hstep, ih2]
      simp only [List.append_assoc, List.singleton_append]
  · intro e he hsub hrec
    obtain ⟨hname, hargs⟩ := hev e he
    obtain ⟨pre, post, hsplit⟩ := List.append_of_mem he
    rw [hsplit]
    simp only [List.map_append, List.map_cons, List.append_assoc, List.cons_append]
    exact worker_misreads st rsu_handlers (some catch_all) e.1 e.2.1 e.2.2 hname hargs hsub hrec
      _ _ [] (by
        intro p hp
        simp only [List.mem_map] at hp
        obtain ⟨a, _, rfl⟩ := hp
        exact Option.some_ne_none _)

/-- C18 at concrete inputs: `ex_worker_state` holds the reference count 1
for `"ev"` in `rco_subscriptions` and the events `"ev"` and `"other"` in its
queue, and the worker does not get to exit; with no entry in
`rco_subscriptions` the worker invokes the catch-all handler 99 for both
events in order, and not for the event popped after the poison value. -/
theorem C18_worker_misreads_refcount_entries_witness :
    rpc_event_worker ex_worker_state [] (some 99)
        (ex_worker_state.rco_event_queue.map some ++ none :: [some 6]) [] = none ∧
    rpc_event_worker { ex_worker_state with rco_subscriptions := [] } [] (some 99)
        (ex_worker_state.rco_event_queue.map some ++ none :: [some 6]) [] =
      some [⟨99, "ev", some 1⟩, ⟨99, "other", none⟩] :=
  ⟨(C18_worker_misreads_refcount_entries ex_worker_state [] 99
      [(2, "ev", some 1), (4, "other", none)] [some 6] (by decide) (by
        intro e he
        simp only [List.mem_cons, List.mem_singleton, List.not_mem_nil, or_false] at he
        rcases he with rfl | rfl
        · exact ⟨(by decide), (by decide)⟩
        · exact ⟨(by decide), (by decide)⟩)).2 (2, "ev", some 1) (by decide) (by decide)
      (by decide),
   (C18_worker_misreads_refcount_entries { ex_worker_state with rco_subscriptions := [] } [] 99
      [(2, "ev", some 1), (4, "other", none)] [some 6] (by decide) (by
        intro e he
        simp only [List.mem_cons, List.mem_singleton, List.not_mem_nil, or_false] at he
        rcases he with rfl | rfl
        · exact ⟨(by decide), (by decide)⟩
        · exact ⟨(by decide), (by decide)⟩)).1 (by
        intro e he
        simp only [List.mem_cons, List.mem_singleton, List.not_mem_nil, or_false] at he
        rcases he with rfl | rfl <;> rfl)⟩

/-! ## Setting and stealing a value -/

theorem steal_pad_spec : ∀ (n : Nat) (h : Heap) (a : Nat) (rc : Int) (items : List Nat),
    h.get a = some ⟨rc, .rv_list items⟩ →
    ∃ h1, steal_pad n h a = some h1 ∧ h1.size = h.size + n ∧
      h1.get a = some ⟨rc, .rv_list (items ++ List.range' h.size n)⟩ ∧
      (∀ x, x < h.size → x ≠ a → h1.get x = h.get x) ∧
      (∀ j, j < n → h1.get (h.size + j) = some ⟨2, .rv_null⟩) := by
  intro n
  induction n with
  | zero =>
    intro h a rc items hg
    exact ⟨h, rfl, rfl, by simpa using hg, fun _ _ _ => rfl, fun j hj => by omega⟩
  | succ n ih =>
    intro h a rc items hg
    have hlt := Heap.get_lt hg
    have h1 : a ≠ h.size := by omega
    have h1' : h.size ≠ a := by omega
    have ga : (h.alloc ⟨1, .rv_null⟩).1.get a = some ⟨rc, .rv_list items⟩ := by
      rw [Heap.get_alloc_ne _ _ h1, hg]
    have gb : ((h.alloc ⟨1, .rv_null⟩).1.set a ⟨rc, .rv_list (items ++ [h.size])⟩).get h.size
        = some ⟨1, .rv_null⟩ := by
      rw [Heap.get_set_ne _ _ h1', Heap.get_alloc_same]
    obtain ⟨H, hH⟩ : ∃ H, H = ((h.alloc ⟨1, .rv_null⟩).1.set a
        ⟨rc, .rv_list (items ++ [h.size])⟩).set h.size ⟨2, .rv_null⟩ := ⟨_, rfl⟩
    have hstep : rpc_array_append_value (rpc_prim_create h .rv_null).1 a
        (rpc_prim_create h .rv_null).2 = some H := by
      simp only [rpc_prim_create, Heap.alloc_snd, rpc_array_append_value,
        append_stolen_eq h.size ga, rpc_retain_eq gb, hH]
      rfl
    have sH : H.size = h.size + 1 := by
      rw [hH, Heap.size_set, Heap.size_set, Heap.size_alloc]
    have gHa : H.get a = some ⟨rc, .rv_list (items ++ [h.size])⟩ := by
      rw [hH, Heap.get_set_ne _ _ h1]
      exact Heap.get_set_same _ (by rw [Heap.size_alloc]; omega)
    have gHn : H.get h.size = some ⟨2, .rv_null⟩ := by
      rw [hH]
      exact Heap.get_set_same _ (by rw [Heap.size_set, Heap.size_alloc]; omega)
    have oH : ∀ x, x < h.size → x ≠ a → H.get x = h.get x := by
      intro x hx hxa
      rw [hH, Heap.get_set_ne _ _ (by omega), Heap.get_set_ne _ _ hxa,
        Heap.get_alloc_ne _ _ (by omega)]
    obtain ⟨H1, hpad, s1, g1, o1, n1⟩ := ih H a rc (items ++ [h.size]) gHa
    refine ⟨H1, ?_, ?_, ?_, ?_, ?_⟩
    · simp only [steal_pad, hstep, hpad]
    · rw [s1, sH]; omega
    · rw [g1, sH, List.append_assoc]
      rfl
    · intro x hx hxa
      rw [o1 x (by omega) hxa, oH x hx hxa]
    · intro j hj
      cases j with
      | zero =>
        rw [Nat.add_zero, o1 h.size (by omega) (by omega), gHn]
      | succ j =>
        have := n1 j (by omega)
        rw [sH] at this
        rw [← this]
        congr 1
        omega

theorem lookup_entries_insert (es : List (String × Nat)) (k : String) (v : Nat) :
    (entries_insert es k v).lookup k = some v := by
  have e : entries_insert es k v = table_insert es k v := by
    unfold entries_insert table_insert
    cases es.lookup k <;> rfl
  rw [e, lookup_table_insert, if_pos rfl]

theorem references_left_append_ne (h : Heap) (seen : List Nat) {a x : Nat} (hne : x ≠ a) :
    references_left h (seen ++ [a]) x = references_left h seen x := by
  unfold references_left
  have e : (seen ++ [a]).count x = seen.count x := by
    simp [List.count_append, List.count_cons, hne.symm]
  rw [e]

theorem references_left_append_same (h : Heap) (seen : List Nat) {a : Nat} {o : rpc_object}
    (hg : h.get a = some o) :
    references_left h (seen ++ [a]) a = references_left h seen a - 1 := by
  unfold references_left
  simp only [hg, List.count_append, List.count_cons, List.count_nil, beq_self_eq_true, if_true]
  push_cast
  omega

theorem references_left_mono (h : Heap) (seen t : List Nat) (x : Nat) :
    references_left h (seen ++ t) x ≤ references_left h seen x := by
  unfold references_left
  cases h.get x with
  | none => simp
  | some o =>
    simp only [List.count_append]
    push_cast
    omega

theorem references_left_pos {h : Heap} {seen : List Nat} {x : Nat}
    (hp : 0 < references_left h seen x) :
    ∃ o, h.get x = some o ∧ references_left h seen x = o.ro_refcnt - (seen.count x : Int) := by
  unfold references_left at hp ⊢
  cases hg : h.get x with
  | none => simp [hg] at hp
  | some o => exact ⟨o, rfl, rfl⟩

/-- The visits made before are a prefix of the result. -/
theorem visit_each_extends {visit : List Nat → Nat → Option (List Nat)}
    (hvisit : ∀ seen a l, visit seen a = some l → ∃ t, l = seen ++ a :: t) :
    ∀ (cs seen l : List Nat), visit_each visit cs seen = some l → ∃ t, l = seen ++ t := by
  intro cs
  induction cs with
  | nil =>
    intro seen l hv
    simp only [visit_each, Option.some.injEq] at hv
    exact ⟨[], by simp [hv]⟩
  | cons c rest ih =>
    intro seen l hv
    simp only [visit_each] at hv
    cases h1 : visit seen c with
    | none => simp [h1] at hv
    | some s1 =>
      simp only [h1] at hv
      obtain ⟨t1, ht1⟩ := hvisit seen c s1 h1
      obtain ⟨t2, ht2⟩ := ih s1 l hv
      exact ⟨c :: t1 ++ t2, by rw [ht2, ht1]; simp⟩

theorem release_visits_extends : ∀ (n : Nat) (h : Heap) (seen : List Nat) (a : Nat)
    (l : List Nat), release_visits n h seen a = some l → ∃ t, l = seen ++ a :: t := by
  intro n
  induction n with
  | zero => intro h seen a l hv; simp [release_visits] at hv
  | succ n ih =>
    intro h seen a l hv
    unfold release_visits at hv
    split at hv
    · cases hv
    · split at hv
      · cases hg : h.get a with
        | none => simp [hg] at hv
        | some o =>
          simp only [hg] at hv
          obtain ⟨t, ht⟩ := visit_each_extends (ih h) _ _ _ hv
          exact ⟨t, by rw [ht]; simp⟩
      · simp only [Option.some.injEq] at hv
        exact ⟨[], by rw [← hv]⟩

/-- An object without a reference left is not visited again. -/
theorem visit_each_exhausted {visit : List Nat → Nat → Option (List Nat)} {h : Heap} {x : Nat}
    (hvisit : ∀ seen a l, visit seen a = some l → references_left h seen x ≤ 0 →
      l.count x = seen.count x) :
    ∀ (cs seen l : List Nat), visit_each visit cs seen = some l →
      references_left h seen x ≤ 0 → l.count x = seen.count x := by
  intro cs
  induction cs with
  | nil =>
    intro seen l hv _
    simp only [visit_each, Option.some.injEq] at hv
    rw [hv]
  | cons c rest ih =>
    intro seen l hv hx
    simp only [visit_each] at hv
    cases h1 : visit seen c with
    | none => simp [h1] at hv
    | some s1 =>
      simp only [h1] at hv
      have e1 := hvisit seen c s1 h1 hx
      have hx1 : references_left h s1 x ≤ 0 := by
        unfold references_left at hx ⊢
        rw [e1]
        exact hx
      rw [ih s1 l hv hx1, e1]

theorem release_visits_exhausted : ∀ (n : Nat) (h : Heap) (seen : List Nat) (a : Nat)
    (l : List Nat) (x : Nat), release_visits n h seen a = some l →
    references_left h seen x ≤ 0 → l.count x = seen.count x := by
  intro n
  induction n with
  | zero => intro h seen a l x hv; simp [release_visits] at hv
  | succ n ih =>
    intro h seen a l x hv hx
    unfold release_visits at hv
    split at hv
    · cases hv
    · rename_i hpos
      have hxa : x ≠ a := by
        intro e
        subst e
        exact hpos hx
      have e0 : (seen ++ [a]).count x = seen.count x := by
        simp [List.count_append, List.count_cons, hxa.symm]
      split at hv
      · cases hg : h.get a with
        | none => simp [hg] at hv
        | some o =>
          simp only [hg] at hv
          have := visit_each_exhausted (fun s c l2 hv2 hx2 => ih h s c l2 x hv2 hx2)
            _ _ _ hv (by rw [references_left_append_ne _ _ hxa]; exact hx)
          rw [this, e0]
      · simp only [Option.some.injEq] at hv
        rw [← hv, e0]

theorem references_left_exhausted {n : Nat} {h : Heap} {seen l : List Nat} {a x : Nat}
    (hv : release_visits n h seen a = some l) (hx : references_left h seen x ≤ 0) :
    references_left h l x = references_left h seen x := by
  have e := release_visits_exhausted n h seen a l x hv hx
  unfold references_left
  rw [e]

theorem cell_after_append_ne (h : Heap) (seen stack stack2 : List Nat) {a x : Nat}
    (hne : x ≠ a) (hs : x ∈ stack2 ↔ x ∈ stack) :
    cell_after h (seen ++ [a]) stack2 x = cell_after h seen stack x := by
  unfold cell_after
  have e : (seen ++ [a]).count x = seen.count x := by
    simp [List.count_append, List.count_cons, hne.symm]
  have m : x ∈ seen ++ [a] ↔ x ∈ seen := by simp [hne]
  rw [references_left_append_ne _ _ hne, e]
  simp only [m, hs]

theorem cell_after_stack_ne (h : Heap) (seen stack : List Nat) {a x : Nat} (hne : x ≠ a) :
    cell_after h seen (a :: stack) x = cell_after h seen stack x := by
  unfold cell_after
  have m : x ∈ a :: stack ↔ x ∈ stack := by simp [hne]
  simp only [m]

theorem cell_after_live {h : Heap} {seen stack : List Nat} {x : Nat} {o : rpc_object}
    (hg : h.get x = some o) (hp : 0 < references_left h seen x ∨ x ∈ stack) :
    cell_after h seen stack x =
      some { o with ro_refcnt := o.ro_refcnt - (seen.count x : Int) } := by
  unfold cell_after
  have hc : ¬ (x ∈ seen ∧ references_left h seen x ≤ 0 ∧ x ∉ stack) := by
    rintro ⟨_, h2, h3⟩
    rcases hp with hp | hp
    · omega
    · exact h3 hp
  rw [if_neg hc, hg]
  rfl

theorem after_visits_start (h : Heap) : after_visits h [] [] h := by
  refine ⟨rfl, fun x hx => (by cases hx), ?_⟩
  intro x
  unfold cell_after
  simp only [List.not_mem_nil, false_and, if_false, List.count_nil, Nat.cast_zero, sub_zero]
  cases h.get x <;> rfl

theorem count_ok_spec {h : Heap} {x : Nat} (hk : count_ok h x = true) :
    ∃ o, h.get x = some o ∧ 0 < o.ro_refcnt ∧ o.ro_refcnt < 2 ^ 31 := by
  unfold count_ok at hk
  cases hg : h.get x with
  | none => simp [hg] at hk
  | some o =>
    simp only [hg, decide_eq_true_eq] at hk
    exact ⟨o, rfl, hk⟩

theorem release_items_tracks (n : Nat) (h : Heap) (stack : List Nat)
    (ih : ∀ (seen : List Nat) (a : Nat) (l : List Nat) (H : Heap),
      release_visits n h seen a = some l → (∀ x ∈ l, count_ok h x = true) →
      after_visits h seen stack H →
      ∃ H2 r fr, rpc_release_impl n H a = some (H2, r) ∧ after_visits h l stack H2 ∧
        H2.freed = H.freed ++ fr ∧ fr.Nodup ∧
        (∀ x, x ∈ fr ↔ 0 < references_left h seen x ∧ references_left h l x ≤ 0)) :
    ∀ (cs seen l : List Nat) (i : Nat) (H : Heap),
      visit_each (release_visits n h) cs seen = some l → (∀ x ∈ l, count_ok h x = true) →
      after_visits h seen stack H →
      ∃ H2 fr, apply_items
          (fun _ v (hx : Heap) => (rpc_release_impl n hx v).map (fun r => (r.1, true)))
          cs i H = some (H2, false) ∧ after_visits h l stack H2 ∧
        H2.freed = H.freed ++ fr ∧ fr.Nodup ∧
        (∀ x, x ∈ fr ↔ 0 < references_left h seen x ∧ references_left h l x ≤ 0) := by
  intro cs
  induction cs with
  | nil =>
    intro seen l i H hv _ hrel
    simp only [visit_each, Option.some.injEq] at hv
    subst hv
    refine ⟨H, [], rfl, hrel, by simp, List.nodup_nil, ?_⟩
    intro x
    constructor
    · intro hx; cases hx
    · rintro ⟨h1, h2⟩; omega
  | cons c rest ihl =>
    intro seen l i H hv hok hrel
    simp only [visit_each] at hv
    cases h1 : release_visits n h seen c with
    | none => simp [h1] at hv
    | some s1 =>
      simp only [h1] at hv
      obtain ⟨t1, ht1⟩ := release_visits_extends _ _ _ _ _ h1
      obtain ⟨t2, ht2⟩ := visit_each_extends (release_visits_extends n h) _ _ _ hv
      have hok1 : ∀ x ∈ s1, count_ok h x = true := by
        intro x hx
        exact hok x (by rw [ht2]; exact List.mem_append_left _ hx)
      obtain ⟨H1, r, fr1, hr1, rel1, f1, nd1, m1⟩ := ih seen c s1 H h1 hok1 hrel
      obtain ⟨H2, fr2, hloop, rel2, f2, nd2, m2⟩ := ihl s1 l (i + 1) H1 hv hok rel1
      have hex : ∀ x, references_left h s1 x ≤ 0 →
          references_left h l x = references_left h s1 x := by
        intro x hx
        have e := visit_each_exhausted
          (fun s c l2 hv2 hx2 => release_visits_exhausted n h s c l2 x hv2 hx2) _ _ _ hv hx
        unfold references_left
        rw [e]
      refine ⟨H2, fr1 ++ fr2, ?_, rel2, by rw [f2, f1, List.append_assoc], ?_, ?_⟩
      · simp only [apply_items, hr1, Option.map_some']
        exact hloop
      · refine List.nodup_append.mpr ⟨nd1, nd2, ?_⟩
        intro x hx1 hx2
        have a1 := ((m1 x).mp hx1).2
        have a2 := ((m2 x).mp hx2).1
        omega
      · intro x
        rw [List.mem_append, m1 x, m2 x]
        have hm1 : references_left h s1 x ≤ references_left h seen x := by
          rw [ht1]
          exact references_left_mono _ _ _ _
        have hm2 : references_left h l x ≤ references_left h s1 x := by
          rw [ht2]
          exact references_left_mono _ _ _ _
        constructor
        · rintro (⟨a1, a2⟩ | ⟨a1, a2⟩)
          · exact ⟨a1, by rw [hex x a2]; exact a2⟩
          · exact ⟨by omega, a2⟩
        · rintro ⟨a1, a2⟩
          by_cases hz : references_left h s1 x ≤ 0
          · exact Or.inl ⟨a1, hz⟩
          · exact Or.inr ⟨by omega, a2⟩

theorem release_entries_as_items (n : Nat) :
    ∀ (es : List (String × Nat)) (i : Nat) (s s2 : Heap),
      apply_items (fun _ v (hx : Heap) => (rpc_release_impl n hx v).map (fun r => (r.1, true)))
        (es.map Prod.snd) i s = some (s2, false) →
      apply_entries (fun _ v (hx : Heap) => (rpc_release_impl n hx v).map (fun r => (r.1, true)))
        es s = some (s2, true) := by
  intro es
  induction es with
  | nil =>
    intro i s s2 h
    simp only [List.map_nil, apply_items, Option.some.injEq, Prod.mk.injEq, and_true] at h
    subst h
    rfl
  | cons e rest ih =>
    intro i s s2 h
    obtain ⟨k, v⟩ := e
    simp only [List.map_cons, apply_items] at h
    simp only [apply_entries]
    cases hg : rpc_release_impl n s v with
    | none => simp [hg] at h
    | some s1 =>
      simp only [hg, Option.map_some'] at h ⊢
      exact ih (i + 1) s1.1 s2 h

/-- One `rpc_release_impl`, followed on the reference counts: when the visits
of the release are `l`, the call returns and leaves the heap after these
visits; the objects it frees are those that had a reference left before and
have none after, once each. -/
theorem release_tracks : ∀ (n : Nat) (h : Heap) (stack seen : List Nat) (a : Nat) (l : List Nat)
    (H : Heap), release_visits n h seen a = some l → (∀ x ∈ l, count_ok h x = true) →
    after_visits h seen stack H →
    ∃ H2 r fr, rpc_release_impl n H a = some (H2, r) ∧ after_visits h l stack H2 ∧
      H2.freed = H.freed ++ fr ∧ fr.Nodup ∧
      (∀ x, x ∈ fr ↔ 0 < references_left h seen x ∧ references_left h l x ≤ 0) ∧
      (references_left h seen a = 1 → ∃ fr0, fr = fr0 ++ [a]) := by
  intro n
  induction n with
  | zero => intro h stack seen a l H hv; simp [release_visits] at hv
  | succ n ih =>
    intro h stack seen a l H hv hok hrel
    obtain ⟨t, ht⟩ := release_visits_extends _ _ _ _ _ hv
    have hal : a ∈ l := by rw [ht]; simp
    obtain ⟨o, hg, hpos0, hlt31⟩ := count_ok_spec (hok a hal)
    obtain ⟨c0, val⟩ := o
    simp only at hpos0 hlt31
    obtain ⟨hsize, hstack, hget⟩ := hrel
    have la : a < H.size := by rw [hsize]; exact Heap.get_lt hg
    unfold release_visits at hv
    have hrefs : references_left h seen a = c0 - (seen.count a : Int) := by
      simp only [references_left, hg]
    by_cases hpos : references_left h seen a ≤ 0
    · simp only [hpos, if_true] at hv
      cases hv
    · simp only [hpos, if_false] at hv
      have hns : a ∉ stack := fun hs => hpos (hstack a hs)
      have gH : H.get a = some ⟨c0 - (seen.count a : Int), val⟩ := by
        rw [hget a, cell_after_live hg (Or.inl (by omega))]
      have hmono : ∀ x, references_left h l x ≤ references_left h seen x := by
        intro x
        rw [ht]
        exact references_left_mono _ _ _ _
      have hcnt : (c0 - (seen.count a : Int)) ≤ c0 := by omega
      by_cases hc : references_left h seen a = 1
      · -- the visit takes the last reference
        simp only [hc, if_true, hg] at hv
        have hc1 : c0 - (seen.count a : Int) = 1 := by rw [← hrefs]; exact hc
        rw [hc1] at gH
        obtain ⟨H1, hH1⟩ : ∃ H1, H1 = H.set a ⟨0, val⟩ := ⟨_, rfl⟩
        have gH1 : H1.get a = some ⟨0, val⟩ := by rw [hH1]; exact Heap.get_set_same _ la
        have hr1 : references_left h (seen ++ [a]) a = 0 := by
          rw [references_left_append_same _ _ hg, hc]
          rfl
        have rel1 : after_visits h (seen ++ [a]) (a :: stack) H1 := by
          refine ⟨by rw [hH1, Heap.size_set, hsize], ?_, ?_⟩
          · intro x hx
            rcases List.mem_cons.mp hx with e | hx2
            · rw [e, hr1]
            · exact le_trans (references_left_mono _ _ _ _) (hstack x hx2)
          · intro x
            by_cases hxa : x = a
            · rw [hxa, gH1, cell_after_live hg (Or.inr (List.mem_cons_self _ _))]
              simp only [List.count_append, List.count_cons, List.count_nil, beq_self_eq_true,
                if_true, Option.some.injEq, rpc_object.mk.injEq, and_true]
              push_cast
              omega
            · rw [hH1, Heap.get_set_ne _ _ hxa, hget x]
              exact (cell_after_append_ne h seen stack (a :: stack) hxa (by simp [hxa])).symm
        obtain ⟨H2, fr, hloop, rel2, f2, nd2, m2⟩ :=
          release_items_tracks n h (a :: stack)
            (fun seen2 b l2 Hb e1 e2 e3 => by
              obtain ⟨H2, r, fr, q1, q2, q3, q4, q5, _⟩ :=
                ih h (a :: stack) seen2 b l2 Hb e1 e2 e3
              exact ⟨H2, r, fr, q1, q2, q3, q4, q5⟩)
            val.children (seen ++ [a]) l 0 H1 hv hok rel1
        have hrel : rpc_release_impl (n + 1) H a = some (H2.free a, 0) := by
          have hw : wrap_int32 0 = 0 := by decide
          cases val with
          | rv_list items =>
            simp only [rpc_value.children] at hloop
            simp [rpc_release_impl, gH, hw, rpc_array_apply, ← hH1, gH1, hloop]
          | rv_dict entries =>
            simp only [rpc_value.children] at hloop
            have hloop2 := release_entries_as_items n entries 0 H1 H2 hloop
            simp [rpc_release_impl, gH, hw, ← hH1, hloop2]
          | _ =>
            simp only [rpc_value.children, apply_items, Option.some.injEq, Prod.mk.injEq,
              and_true] at hloop
            subst hloop
            simp [rpc_release_impl, gH, hw, ← hH1]
        have hla : references_left h l a = 0 := by
          have e := visit_each_exhausted
            (fun s c l2 hv2 hx2 => release_visits_exhausted n h s c l2 a hv2 hx2) _ _ _ hv
            (le_of_eq hr1)
          unfold references_left at hr1 ⊢
          rw [e]
          exact hr1
        obtain ⟨s2, st2, g2⟩ := rel2
        refine ⟨H2.free a, 0, fr ++ [a], hrel, ⟨?_, ?_, ?_⟩, ?_, ?_, ?_, fun _ => ⟨fr, rfl⟩⟩
        · rw [Heap.size_free, s2]
        · intro x hx
          exact le_trans (hmono x) (hstack x hx)
        · intro x
          by_cases hxa : x = a
          · rw [hxa, Heap.get_free_same]
            unfold cell_after
            rw [if_pos ⟨hal, le_of_eq hla, hns⟩]
          · rw [Heap.get_free_ne _ hxa, g2 x, cell_after_stack_ne _ _ _ hxa]
        · simp only [Heap.free, f2, hH1, Heap.freed_set, List.append_assoc]
        · refine List.nodup_append.mpr ⟨nd2, List.nodup_singleton a, ?_⟩
          intro x hx1 hx2
          have e : x = a := by simpa using hx2
          have := ((m2 x).mp hx1).1
          rw [e, hr1] at this
          omega
        · intro x
          rw [List.mem_append, m2 x]
          by_cases hxa : x = a
          · subst hxa
            constructor
            · intro _
              exact ⟨by omega, le_of_eq hla⟩
            · intro _
              exact Or.inr (by simp)
          · rw [references_left_append_ne _ _ hxa]
            simp [hxa]
      · -- other references remain
        simp only [hc, if_false, Option.some.injEq] at hv
        subst hv
        have hc1 : 1 < c0 - (seen.count a : Int) := by
          rw [hrefs] at hpos hc
          omega
        have hrl := @release_leaf_keep H a (c0 - (seen.count a : Int)) val n gH hc1 (by omega)
        have hafter : references_left h (seen ++ [a]) a = c0 - (seen.count a : Int) - 1 := by
          rw [references_left_append_same _ _ hg, hrefs]
        refine ⟨_, _, [], hrl, ⟨?_, ?_, ?_⟩, by simp [Heap.freed_set], List.nodup_nil, ?_, ?_⟩
        · rw [Heap.size_set, hsize]
        · intro x hx
          exact le_trans (hmono x) (hstack x hx)
        · intro x
          by_cases hxa : x = a
          · rw [hxa, Heap.get_set_same _ la,
              cell_after_live hg (Or.inl (by rw [hafter]; omega))]
            simp only [List.count_append, List.count_cons, List.count_nil, beq_self_eq_true,
              if_true, Option.some.injEq, rpc_object.mk.injEq, and_true]
            push_cast
            omega
          · rw [Heap.get_set_ne _ _ hxa, hget x]
            exact (cell_after_append_ne h seen stack stack hxa Iff.rfl).symm
        · intro x
          constructor
          · intro hx; cases hx
          · rintro ⟨a1, a2⟩
            by_cases hxa : x = a
            · rw [hxa, hafter] at a2
              omega
            · rw [references_left_append_ne _ _ hxa] at a2
              omega
        · intro e
          exact absurd e hc

theorem release_visits_pos {n : Nat} {h : Heap} {seen l : List Nat} {a : Nat}
    (hv : release_visits n h seen a = some l) : 0 < references_left h seen a := by
  cases n with
  | zero => simp [release_visits] at hv
  | succ n =>
    unfold release_visits at hv
    by_cases hpos : references_left h seen a ≤ 0
    · simp only [hpos, if_true] at hv
      cases hv
    · omega

/-- Every object of the list has a reference left when the visits start. -/
theorem visit_each_pos {n : Nat} {h : Heap} :
    ∀ (cs seen l : List Nat), visit_each (release_visits n h) cs seen = some l →
      ∀ y ∈ cs, 0 < references_left h seen y := by
  intro cs
  induction cs with
  | nil => intro seen l _ y hy; cases hy
  | cons c rest ih =>
    intro seen l hv y hy
    simp only [visit_each] at hv
    cases h1 : release_visits n h seen c with
    | none => simp [h1] at hv
    | some s1 =>
      simp only [h1] at hv
      rcases List.mem_cons.mp hy with e | hy2
      · rw [e]
        exact release_visits_pos h1
      · obtain ⟨t1, ht1⟩ := release_visits_extends _ _ _ _ _ h1
        have := ih s1 l hv y hy2
        have hm : references_left h s1 y ≤ references_left h seen y := by
          rw [ht1]
          exact references_left_mono _ _ _ _
        omega

/-- The elements of an object that the release frees have a reference left
after the first visit. -/
theorem release_visits_children : ∀ (n : Nat) (h : Heap) (seen : List Nat) (a : Nat)
    (l : List Nat), release_visits n h seen a = some l →
    ∀ x o, h.get x = some o → 0 < references_left h seen x → references_left h l x ≤ 0 →
      ∀ y ∈ o.ro_value.children, 0 < references_left h (seen ++ [a]) y := by
  intro n
  induction n with
  | zero => intro h seen a l hv; simp [release_visits] at hv
  | succ n ih =>
    intro h seen a l hv x o ho hx0 hx1 y hy
    have hpos := release_visits_pos hv
    unfold release_visits at hv
    have hnp : ¬ references_left h seen a ≤ 0 := by omega
    simp only [hnp, if_false] at hv
    by_cases hc : references_left h seen a = 1
    · simp only [hc, if_true] at hv
      cases hg : h.get a with
      | none => simp [hg] at hv
      | some oa =>
        simp only [hg] at hv
        by_cases hxa : x = a
        · subst hxa
          rw [hg] at ho
          cases ho
          exact visit_each_pos _ _ _ hv y hy
        · -- the object is exhausted by the visit of one of the elements
          have hloop : ∀ (cs s : List Nat), visit_each (release_visits n h) cs s = some l →
              0 < references_left h s x → 0 < references_left h s y := by
            intro cs
            induction cs with
            | nil =>
              intro s hvs hs
              simp only [visit_each, Option.some.injEq] at hvs
              subst hvs
              omega
            | cons c rest ihc =>
              intro s hvs hs
              simp only [visit_each] at hvs
              cases h1 : release_visits n h s c with
              | none => simp [h1] at hvs
              | some s1 =>
                simp only [h1] at hvs
                by_cases hz : references_left h s1 x ≤ 0
                · have := ih h s c s1 h1 x o ho hs hz y hy
                  have hm := references_left_mono h s [c] y
                  omega
                · obtain ⟨t1, ht1⟩ := release_visits_extends _ _ _ _ _ h1
                  have := ihc s1 hvs (by omega)
                  have hm : references_left h s1 y ≤ references_left h s y := by
                    rw [ht1]
                    exact references_left_mono _ _ _ _
                  omega
          exact hloop _ _ hv (by rw [references_left_append_ne _ _ hxa]; exact hx0)
    · simp only [hc, if_false, Option.some.injEq] at hv
      subst hv
      by_cases hxa : x = a
      · subst hxa
        rw [references_left_append_same _ _ ho] at hx1
        omega
      · rw [references_left_append_ne _ _ hxa] at hx1
        omega

/-- An object that holds the released object is not freed by the release. -/
theorem holder_not_freed {n : Nat} {h : Heap} {old c : Nat} {l : List Nat} {oc : rpc_object}
    (hv : release_visits n h [] old = some l) (hok : ∀ x ∈ l, count_ok h x = true)
    (hc : h.get c = some oc) (hold : old ∈ oc.ro_value.children) (hcl : c ∈ l) :
    0 < references_left h l c := by
  by_contra hz
  obtain ⟨o, hg, hp, _⟩ := count_ok_spec (hok c hcl)
  rw [hc] at hg
  cases hg
  have h0 : 0 < references_left h [] c := by
    simp only [references_left, hc, List.count_nil, Nat.cast_zero, sub_zero]
    exact hp
  have h1 := release_visits_children n h [] old l hv c oc hc h0 (by omega) old hold
  obtain ⟨oo, hgo, _⟩ := references_left_pos (release_visits_pos hv)
  rw [references_left_append_same _ _ hgo] at h1
  -- the first visit of the occupant does not take its last reference
  cases n with
  | zero => simp [release_visits] at hv
  | succ n =>
    unfold release_visits at hv
    have hnp : ¬ references_left h [] old ≤ 0 := by omega
    have hn1 : ¬ references_left h [] old = 1 := by omega
    simp only [hnp, hn1, if_false, List.nil_append, Option.some.injEq] at hv
    subst hv
    have e : c = old := by simpa using hcl
    subst e
    rw [← List.nil_append [c], references_left_append_same _ _ hc] at hz
    omega

theorem references_left_congr {h h2 : Heap}
    (hcnt : ∀ x, (h2.get x).map rpc_object.ro_refcnt = (h.get x).map rpc_object.ro_refcnt)
    (seen : List Nat) (x : Nat) : references_left h2 seen x = references_left h seen x := by
  unfold references_left
  have := hcnt x
  cases h1 : h.get x <;> cases h2x : h2.get x <;> simp_all

/-- The visits depend only on the reference counts and on the elements of
the objects that are freed. -/
theorem release_visits_agree : ∀ (n : Nat) (h h2 : Heap) (seen : List Nat) (a : Nat)
    (l : List Nat), release_visits n h seen a = some l →
    (∀ x, (h2.get x).map rpc_object.ro_refcnt = (h.get x).map rpc_object.ro_refcnt) →
    (∀ x o, h.get x = some o → 0 < references_left h seen x → references_left h l x ≤ 0 →
      ∃ o2, h2.get x = some o2 ∧ o2.ro_value = o.ro_value) →
    release_visits n h2 seen a = some l := by
  intro n
  induction n with
  | zero => intro h h2 seen a l hv; simp [release_visits] at hv
  | succ n ih =>
    intro h h2 seen a l hv hcnt hpay
    have hpos := release_visits_pos hv
    have hv0 := hv
    unfold release_visits at hv ⊢
    have hnp : ¬ references_left h seen a ≤ 0 := by omega
    simp only [references_left_congr hcnt, hnp, if_false] at hv ⊢
    by_cases hc : references_left h seen a = 1
    · simp only [hc, if_true] at hv ⊢
      cases hg : h.get a with
      | none => simp [hg] at hv
      | some o =>
        simp only [hg] at hv
        have hr1 : references_left h (seen ++ [a]) a = 0 := by
          rw [references_left_append_same _ _ hg, hc]
          rfl
        have hla : references_left h l a = 0 := by
          have e := visit_each_exhausted
            (fun s c l2 hv2 hx2 => release_visits_exhausted n h s c l2 a hv2 hx2) _ _ _ hv
            (le_of_eq hr1)
          unfold references_left at hr1 ⊢
          rw [e]
          exact hr1
        obtain ⟨o2, hg2, hval⟩ : ∃ o2, h2.get a = some o2 ∧ o2.ro_value = o.ro_value :=
          hpay a o hg hpos (le_of_eq hla)
        obtain ⟨ta, hta⟩ := release_visits_extends _ _ _ _ _ hv0
        simp only [hg2, hval]
        have hloop : ∀ (cs s : List Nat), visit_each (release_visits n h) cs s = some l →
            (∀ x, references_left h s x ≤ references_left h seen x) →
            visit_each (release_visits n h2) cs s = some l := by
          intro cs
          induction cs with
          | nil => intro s hvs _; simpa [visit_each] using hvs
          | cons c rest ihc =>
            intro s hvs hms
            simp only [visit_each] at hvs ⊢
            cases h1 : release_visits n h s c with
            | none => simp [h1] at hvs
            | some s1 =>
              simp only [h1] at hvs
              obtain ⟨t1, ht1⟩ := release_visits_extends _ _ _ _ _ h1
              obtain ⟨t2, ht2⟩ := visit_each_extends (release_visits_extends n h) _ _ _ hvs
              have hm1 : ∀ x, references_left h s1 x ≤ references_left h s x := by
                intro x
                rw [ht1]
                exact references_left_mono _ _ _ _
              have h1b := ih h h2 s c s1 h1 hcnt (by
                intro x ox hox hp0 hp1
                have hm : references_left h l x ≤ references_left h s1 x := by
                  rw [ht2]
                  exact references_left_mono _ _ _ _
                have := hms x
                exact hpay x ox hox (by omega) (by omega))
              simp only [h1b]
              exact ihc s1 hvs (fun x => le_trans (hm1 x) (hms x))
        exact hloop _ _ hv (fun x => references_left_mono _ _ _ _)
    · simp only [hc, if_false] at hv ⊢
      exact hv

/-- One `rpc_release_impl` whose visits are `l`: the call returns; an object
that is not visited is as before, a visited object without a reference left
is freed, once, and every other visited object has the references left. -/
theorem release_spec (n : Nat) (h : Heap) (a : Nat) (l : List Nat)
    (hv : release_visits n h [] a = some l) (hok : ∀ x ∈ l, count_ok h x = true) :
    ∃ h2 r fr, rpc_release_impl n h a = some (h2, r) ∧ h2.size = h.size ∧
      (∀ x, x ∉ l → h2.get x = h.get x) ∧
      (∀ x ∈ l, ∀ o, h.get x = some o →
        h2.get x = if references_left h l x ≤ 0 then none
          else some { o with ro_refcnt := references_left h l x }) ∧
      h2.freed = h.freed ++ fr ∧ fr.Nodup ∧
      (∀ x, x ∈ fr ↔ x ∈ l ∧ references_left h l x ≤ 0) ∧
      (references_left h [] a = 1 → ∃ fr0, fr = fr0 ++ [a]) := by
  obtain ⟨h2, r, fr, hrel, ⟨s2, _, g2⟩, f2, nd, m, q⟩ :=
    release_tracks n h [] [] a l h hv hok (after_visits_start h)
  refine ⟨h2, r, fr, hrel, s2, ?_, ?_, f2, nd, ?_, q⟩
  · intro x hx
    rw [g2 x]
    unfold cell_after
    have hc : ¬ (x ∈ l ∧ references_left h l x ≤ 0 ∧ x ∉ ([] : List Nat)) := fun c => hx c.1
    rw [if_neg hc, List.count_eq_zero_of_not_mem hx]
    cases h.get x <;> simp
  · intro x hx o ho
    rw [g2 x]
    unfold cell_after
    by_cases hz : references_left h l x ≤ 0
    · rw [if_pos ⟨hx, hz, List.not_mem_nil _⟩, if_pos hz]
    · have hc : ¬ (x ∈ l ∧ references_left h l x ≤ 0 ∧ x ∉ ([] : List Nat)) := fun c => hz c.2.1
      rw [if_neg hc, if_neg hz, ho]
      simp only [references_left, ho, Option.map_some']
  · intro x
    rw [m x]
    constructor
    · rintro ⟨a1, a2⟩
      refine ⟨?_, a2⟩
      by_contra hx
      have e : references_left h l x = references_left h [] x := by
        unfold references_left
        rw [List.count_eq_zero_of_not_mem hx]
        rfl
      omega
    · rintro ⟨a1, a2⟩
      obtain ⟨o, hg, hp, _⟩ := count_ok_spec (hok x a1)
      refine ⟨?_, a2⟩
      simp only [references_left, hg, List.count_nil, Nat.cast_zero, sub_zero]
      exact hp

theorem steal_no_pad {i len : Nat} (hlt : i < len) (hlen : len ≤ 2 ^ 31) :
    (if 0 ≤ wrap_int32 (((i : Int) - (len : Int)) % 2 ^ 64)
      then (wrap_int32 (((i : Int) - (len : Int)) % 2 ^ 64)).toNat + 1
      else 0) = 0 := by
  have hneg : ¬ (0 ≤ wrap_int32 (((i : Int) - (len : Int)) % 2 ^ 64)) := by
    unfold wrap_int32
    omega
  rw [if_neg hneg]

/-- The call `rpc_array_steal_value` on an occupied slot: one release of the
occupant, then the store. -/
theorem array_steal_occupied (f : Nat) (h : Heap) (a i v old : Nat) (rc : Int)
    (items l : List Nat)
    (ha : h.get a = some ⟨rc, .rv_list items⟩) (hlen : items.length ≤ 2 ^ 31)
    (hi : items[i]? = some old)
    (hvis : release_visits f h [] old = some l) (hok : ∀ x ∈ l, count_ok h x = true) :
    ∃ h2 r fr, rpc_array_steal_value f h a i v =
        some (h2.set a ⟨rc - (l.count a : Int), .rv_list (items.set i v)⟩) ∧
      rpc_release_impl f h old = some (h2, r) ∧
      h2.get a = some ⟨rc - (l.count a : Int), .rv_list items⟩ ∧
      h2.size = h.size ∧
      (∀ x, x ∉ l → h2.get x = h.get x) ∧
      (∀ x ∈ l, ∀ o, h.get x = some o →
        h2.get x = if references_left h l x ≤ 0 then none
          else some { o with ro_refcnt := references_left h l x }) ∧
      h2.freed = h.freed ++ fr ∧ fr.Nodup ∧
      (∀ x, x ∈ fr ↔ x ∈ l ∧ references_left h l x ≤ 0) ∧
      (references_left h [] old = 1 → ∃ fr0, fr = fr0 ++ [old]) := by
  have hlt : i < items.length := by
    by_contra hge
    rw [List.getElem?_eq_none (by omega)] at hi
    cases hi
  have hpadn := steal_no_pad hlt hlen
  have hmem : old ∈ (rpc_object.mk rc (.rv_list items)).ro_value.children := by
    simp only [rpc_value.children]
    obtain ⟨hb, e⟩ := List.getElem?_eq_some.mp hi
    rw [← e]
    exact List.getElem_mem _
  obtain ⟨h2, r, fr, hrel, s2, o2, i2, f2, nd, m, q⟩ := release_spec f h old l hvis hok
  have g2a : h2.get a = some ⟨rc - (l.count a : Int), .rv_list items⟩ := by
    by_cases hal : a ∈ l
    · have hp := holder_not_freed hvis hok ha hmem hal
      rw [i2 a hal _ ha, if_neg (by omega)]
      simp only [references_left, ha]
    · rw [o2 a hal, ha, List.count_eq_zero_of_not_mem hal]
      simp
  refine ⟨h2, r, fr, ?_, hrel, g2a, s2, o2, i2, f2, nd, m, q⟩
  unfold rpc_array_steal_value
  simp only [ha, hpadn, steal_pad, hi, hrel, g2a]

/-- The call `rpc_dictionary_steal_value` on a key that has a value: the
store, then one release of the value that was replaced. -/
theorem dictionary_steal_occupied (f : Nat) (h : Heap) (c v old : Nat) (k : String) (rc : Int)
    (es : List (String × Nat)) (l : List Nat)
    (hc : h.get c = some ⟨rc, .rv_dict es⟩) (hl : es.lookup k = some old)
    (hvis : release_visits f h [] old = some l) (hok : ∀ x ∈ l, count_ok h x = true) :
    ∃ h1, rpc_dictionary_steal_value f h c k v = some h1 ∧
      h1.get c = some ⟨rc - (l.count c : Int), .rv_dict (entries_insert es k v)⟩ ∧
      (∀ x, x ≠ c → x ∉ l → h1.get x = h.get x) ∧
      (∀ x ∈ l, x ≠ c → ∀ o, h.get x = some o →
        h1.get x = if references_left h l x ≤ 0 then none
          else some { o with ro_refcnt := references_left h l x }) := by
  have lc := Heap.get_lt hc
  have hmem : old ∈ (rpc_object.mk rc (.rv_dict es)).ro_value.children := by
    simp only [rpc_value.children]
    exact lookup_mem_snd hl
  obtain ⟨H, hH⟩ : ∃ H, H = h.set c ⟨rc, .rv_dict (entries_insert es k v)⟩ := ⟨_, rfl⟩
  have gHc : H.get c = some ⟨rc, .rv_dict (entries_insert es k v)⟩ := by
    rw [hH]
    exact Heap.get_set_same _ lc
  have gHx : ∀ x, x ≠ c → H.get x = h.get x := by
    intro x hx
    rw [hH, Heap.get_set_ne _ _ hx]
  have hcnt : ∀ x, (H.get x).map rpc_object.ro_refcnt = (h.get x).map rpc_object.ro_refcnt := by
    intro x
    by_cases hxc : x = c
    · rw [hxc, gHc, hc]
      rfl
    · rw [gHx x hxc]
  have hrefs : ∀ s x, references_left H s x = references_left h s x :=
    fun s x => references_left_congr hcnt s x
  have hvisH : release_visits f H [] old = some l := by
    refine release_visits_agree f h H [] old l hvis hcnt ?_
    intro x o ho hp0 hp1
    by_cases hxc : x = c
    · subst hxc
      exfalso
      have hxl : x ∈ l := by
        by_contra hxl
        have e : references_left h l x = references_left h [] x := by
          unfold references_left
          rw [List.count_eq_zero_of_not_mem hxl]
          rfl
        omega
      have := holder_not_freed hvis hok hc hmem hxl
      omega
    · exact ⟨o, by rw [gHx x hxc, ho], rfl⟩
  have hokH : ∀ x ∈ l, count_ok H x = true := by
    intro x hx
    by_cases hxc : x = c
    · subst hxc
      have := hok x hx
      simp only [count_ok, hc, gHc] at this ⊢
      exact this
    · have := hok x hx
      simp only [count_ok, gHx x hxc] at this ⊢
      exact this
  obtain ⟨h2, r, fr, hrel, s2, o2, i2, f2, nd, m, q⟩ := release_spec f H old l hvisH hokH
  refine ⟨h2, ?_, ?_, ?_, ?_⟩
  · unfold rpc_dictionary_steal_value
    simp only [hc, hl, ← hH, hrel, Option.map_some']
  · by_cases hcl : c ∈ l
    · have hp := holder_not_freed hvis hok hc hmem hcl
      rw [i2 c hcl _ gHc, hrefs, if_neg (by omega)]
      simp only [references_left, hc]
    · rw [o2 c hcl, gHc, List.count_eq_zero_of_not_mem hcl]
      simp
  · intro x hxc hxl
    rw [o2 x hxl, gHx x hxc]
  · intro x hxl hxc o ho
    rw [i2 x hxl o (by rw [gHx x hxc, ho]), hrefs]

/-- The call `rpc_array_steal_value` on an index past the end of the array. -/
theorem array_steal_empty (f : Nat) (h : Heap) (c v index : Nat) (rc : Int)
    (items : List Nat)
    (hc : h.get c = some ⟨rc, .rv_list items⟩)
    (hge : items.length ≤ index) (hidx : index < items.length + 2 ^ 31)
    (hv : v < h.size) :
    ∃ h1 items1, rpc_array_steal_value (f + 1) h c index v = some h1 ∧
      h1.get c = some ⟨rc, .rv_list items1⟩ ∧ items1[index]? = some v ∧
      (v ≠ c → h1.get v = h.get v) := by
  have lc := Heap.get_lt hc
  obtain ⟨e, he⟩ : ∃ e, index = items.length + e := ⟨index - items.length, by omega⟩
  have hpadn : (if 0 ≤ wrap_int32 (((index : Int) - (items.length : Int)) % 2 ^ 64)
      then (wrap_int32 (((index : Int) - (items.length : Int)) % 2 ^ 64)).toNat + 1
      else 0) = e + 1 := by
    have hval : wrap_int32 (((index : Int) - (items.length : Int)) % 2 ^ 64) = (e : Int) := by
      unfold wrap_int32
      omega
    rw [hval, if_pos (by omega)]
    simp
  obtain ⟨hp, hpad, sp, gp, op, np⟩ := steal_pad_spec (e + 1) h c rc items hc
  have hslot : (items ++ List.range' h.size (e + 1))[index]? = some (h.size + e) := by
    rw [he, List.getElem?_append_right (by omega)]
    simp [List.getElem?_range']
  have gnull := np e (by omega)
  have hrel := @release_leaf_keep hp (h.size + e) 2 .rv_null f gnull (by decide) (by decide)
  have g2 : (hp.set (h.size + e) ⟨2 - 1, .rv_null⟩).get c =
      some ⟨rc, .rv_list (items ++ List.range' h.size (e + 1))⟩ := by
    rw [Heap.get_set_ne _ _ (by omega), gp]
  refine ⟨(hp.set (h.size + e) ⟨2 - 1, .rv_null⟩).set c
      ⟨rc, .rv_list ((items ++ List.range' h.size (e + 1)).set index v)⟩,
    (items ++ List.range' h.size (e + 1)).set index v, ?_, ?_, ?_, ?_⟩
  · unfold rpc_array_steal_value
    simp only [hc, hpadn, hpad, gp, hslot, hrel, g2]
  · exact Heap.get_set_same _ (by rw [Heap.size_set, sp]; omega)
  · have hl : index < (items ++ List.range' h.size (e + 1)).length := by
      simp only [List.length_append, List.length_range']
      omega
    simp [List.getElem?_set]
    omega
  · intro hne
    rw [Heap.get_set_ne _ _ hne, Heap.get_set_ne _ _ (by omega), op v hv hne]

/-- After a steal that left `v` with the count `cv`, `rpc_retain(v)` gives
the count `cv + 1` and leaves the payload of every object as it is. -/
theorem retain_after_steal {h1 : Heap} {v : Nat} {cv : Int} {vv1 : rpc_value}
    (g1v : h1.get v = some ⟨cv, vv1⟩) (hcv0 : 0 < cv) (hcv : cv < 2 ^ 31 - 1) :
    rpc_retain h1 v = some (h1.set v ⟨cv + 1, vv1⟩) ∧
      (h1.set v ⟨cv + 1, vv1⟩).get v = some ⟨cv + 1, vv1⟩ ∧
      (∀ c rc2 X, h1.get c = some ⟨rc2, X⟩ →
        ∃ rc3, (h1.set v ⟨cv + 1, vv1⟩).get c = some ⟨rc3, X⟩) := by
  have hw : wrap_int32 (cv + 1) = cv + 1 := wrap_int32_id (by omega) (by omega)
  have hret := rpc_retain_eq g1v
  simp only [hw] at hret
  have lv := Heap.get_lt g1v
  refine ⟨hret, Heap.get_set_same _ lv, ?_⟩
  intro c rc2 X hc
  by_cases e : c = v
  · subst e
    rw [g1v] at hc
    cases hc
    exact ⟨cv + 1, Heap.get_set_same _ lv⟩
  · exact ⟨rc2, by rw [Heap.get_set_ne _ _ e, hc]⟩

theorem get_value_payload {h1 h2 : Heap} {c : Nat} {r1 r2 : Int} {X : rpc_value} (s : slot)
    (g1 : h1.get c = some ⟨r1, X⟩) (g2 : h2.get c = some ⟨r2, X⟩) :
    get_value h2 c s = get_value h1 c s := by
  cases s with
  | index i => simp only [get_value, rpc_array_get_value, g1, g2]
  | key k =>
    simp only [get_value, rpc_dictionary_get_value, g1, g2]
    cases X <;> rfl

theorem set_after_steal {f : Nat} {h h1 : Heap} {c v : Nat} {s : slot} {cv rc2 : Int}
    {vv1 X : rpc_value} (hsteal : steal_value f h c s v = some h1)
    (g1v : h1.get v = some ⟨cv, vv1⟩) (hcv0 : 0 < cv) (hcv : cv < 2 ^ 31 - 1)
    (g1c : h1.get c = some ⟨rc2, X⟩) (hget : get_value h1 c s = some (some v)) :
    ∃ h2, rpc_retain h1 v = some h2 ∧ set_value f h c s v = some h2 ∧
      h2.get v = some ⟨cv + 1, vv1⟩ ∧ get_value h2 c s = some (some v) := by
  obtain ⟨hret, g2v, hpay⟩ := retain_after_steal g1v hcv0 hcv
  obtain ⟨rc3, g2c⟩ := hpay c rc2 X g1c
  refine ⟨_, hret, ?_, g2v, ?_⟩
  · cases s with
    | index i =>
      simp only [steal_value] at hsteal
      simp only [set_value, rpc_array_set_value, hsteal]
      exact hret
    | key k =>
      simp only [steal_value] at hsteal
      simp only [set_value, rpc_dictionary_set_value, hsteal]
      exact hret
  · rw [get_value_payload s g1c g2c]
    exact hget

/-- C20, counterexample. In `ex_slots` the Int64 at address 0 has reference
count 3 and is the occupant of index 0 of the array at address 2 and of key
`k` of the dictionary at address 3: stealing it into its own slot lowers its
count to 2, and setting it into its own slot leaves the count at 3, not one
higher; setting the Int64 at address 4, which only its array references, into
its own slot frees it and then retains the freed object. In `ex_nested` the
Int64 at address 0 has reference count 4 and is an element of the occupant
(address 1) of index 0 of the array at address 2 and of the occupant
(address 3) of key `k` of the dictionary at address 4, and only the
container references each occupant: stealing the Int64 into the slot frees
the occupant and lowers the count of the Int64 (to 2 and to 3), and setting
it leaves the count at 3 and at 4, not at 5. -/
theorem C20_counterexample :
    (steal_value 2 ex_slots 2 (.index 0) 0).map (fun h => h.get 0) =
      some (some ⟨2, .rv_i 1⟩) ∧
    (set_value 2 ex_slots 2 (.index 0) 0).map (fun h => h.get 0) =
      some (some ⟨3, .rv_i 1⟩) ∧
    (set_value 2 ex_slots 3 (.key "k") 0).map (fun h => h.get 0) =
      some (some ⟨3, .rv_i 1⟩) ∧
    (set_value 2 ex_slots 5 (.index 0) 4).isNone = true ∧
    ex_nested.get 0 = some ⟨4, .rv_i 1⟩ ∧
    occupant ex_nested 2 (.index 0) = some 1 ∧ occupant ex_nested 4 (.key "k") = some 3 ∧
    release_visits 3 ex_nested [] 1 = some [1, 0, 0] ∧
    release_visits 3 ex_nested [] 3 = some [3, 0] ∧
    (steal_value 3 ex_nested 2 (.index 0) 0).map (fun h => (h.get 0, h.get 1)) =
      some (some ⟨2, .rv_i 1⟩, none) ∧
    (set_value 3 ex_nested 2 (.index 0) 0).map (fun h => h.get 0) =
      some (some ⟨3, .rv_i 1⟩) ∧
    (steal_value 3 ex_nested 4 (.key "k") 0).map (fun h => (h.get 0, h.get 3)) =
      some (some ⟨3, .rv_i 1⟩, none) ∧
    (set_value 3 ex_nested 4 (.key "k") 0).map (fun h => h.get 0) =
      some (some ⟨4, .rv_i 1⟩) := by
  decide

/-- C20, amended: for arrays and for dictionaries, `set_value(container,
slot, v)` is `steal_value(container, slot, v)` followed by `retain(v)`; and
when the slot is empty (a new key, an index past the end) or the release of
its occupant returns and does not visit `v`, `steal_value` stores `v` in the
slot and leaves its reference count as it is, and `set_value` stores `v` and
leaves its reference count exactly one higher. The occupant may be an object
that only the container references, with or without elements, its objects
may be referenced from several places, and `v` may be the container. -/
theorem C20_set_is_steal_then_retain (f : Nat) (h : Heap) (c v : Nat) (s : slot) (cv : Int)
    (vv : rpc_value) (hs : slot_of h c s) (hv : h.get v = some ⟨cv, vv⟩) (hcv0 : 0 < cv)
    (hcv : cv < 2 ^ 31 - 1) (hocc : occupant_released (f + 1) h c v s) :
    ∃ h1 h2 vv1, steal_value (f + 1) h c s v = some h1 ∧ rpc_retain h1 v = some h2 ∧
      set_value (f + 1) h c s v = some h2 ∧
      h1.get v = some ⟨cv, vv1⟩ ∧ h2.get v = some ⟨cv + 1, vv1⟩ ∧ (v ≠ c → vv1 = vv) ∧
      get_value h1 c s = some (some v) ∧ get_value h2 c s = some (some v) := by
  have lv := Heap.get_lt hv
  -- it is enough to describe the container and `v` after the steal
  have hfin : ∀ (h1 : Heap) (rc2 : Int) (X : rpc_value),
      steal_value (f + 1) h c s v = some h1 → h1.get c = some ⟨rc2, X⟩ →
      (v = c → rc2 = cv) → (v ≠ c → h1.get v = some ⟨cv, vv⟩) →
      get_value h1 c s = some (some v) →
      ∃ h1 h2 vv1, steal_value (f + 1) h c s v = some h1 ∧ rpc_retain h1 v = some h2 ∧
        set_value (f + 1) h c s v = some h2 ∧
        h1.get v = some ⟨cv, vv1⟩ ∧ h2.get v = some ⟨cv + 1, vv1⟩ ∧ (v ≠ c → vv1 = vv) ∧
        get_value h1 c s = some (some v) ∧ get_value h2 c s = some (some v) := by
    intro h1 rc2 X hsteal g1c hsame hother hget
    by_cases e : v = c
    · have g1v : h1.get v = some ⟨cv, X⟩ := by rw [e, g1c, hsame e]
      obtain ⟨h2, hret, hset, g2v, hget2⟩ := set_after_steal hsteal g1v hcv0 hcv g1c hget
      exact ⟨h1, h2, X, hsteal, hret, hset, g1v, g2v, fun hn => absurd e hn, hget, hget2⟩
    · obtain ⟨h2, hret, hset, g2v, hget2⟩ :=
        set_after_steal hsteal (hother e) hcv0 hcv g1c hget
      exact ⟨h1, h2, vv, hsteal, hret, hset, hother e, g2v, fun _ => rfl, hget, hget2⟩
  have hrc : ∀ rc X, h.get c = some ⟨rc, X⟩ → v = c → rc = cv := by
    intro rc X hc e
    rw [e, hc] at hv
    cases hv
    rfl
  cases s with
  | index i =>
    obtain ⟨rc, items, hc, hlen, hidx⟩ := hs
    have lc := Heap.get_lt hc
    rcases Nat.lt_or_ge i items.length with hlt | hge
    · obtain ⟨old, hold⟩ : ∃ old, items[i]? = some old :=
        ⟨items[i], List.getElem?_eq_getElem hlt⟩
      obtain ⟨l, hvis, hok, hvl⟩ := hocc old (by simp only [occupant, hc, hold])
      obtain ⟨h2, r, fr, hsteal, _, g2a, s2, o2, _⟩ :=
        array_steal_occupied (f + 1) h c i v old rc items l hc hlen hold hvis hok
      refine hfin _ (rc - (l.count c : Int)) (.rv_list (items.set i v)) hsteal
        (Heap.get_set_same _ (by rw [s2]; exact lc)) ?_ ?_ ?_
      · intro e
        rw [List.count_eq_zero_of_not_mem (by rw [← e]; exact hvl)]
        simp only [Nat.cast_zero, sub_zero]
        exact hrc rc _ hc e
      · intro e
        rw [Heap.get_set_ne _ _ e, o2 v hvl, hv]
      · have hi2 : ¬ (i ≥ (items.set i v).length) := by
          rw [List.length_set]
          omega
        simp only [get_value, rpc_array_get_value,
          Heap.get_set_same _ (by rw [s2]; exact lc : c < h2.size), hi2, if_false]
        simp [List.getElem?_set, hlt]
    · obtain ⟨h1, items1, hsteal, g1c, hitem, hother⟩ :=
        array_steal_empty f h c v i rc items hc hge hidx lv
      refine hfin h1 rc (.rv_list items1) hsteal g1c (hrc rc _ hc) ?_ ?_
      · intro e
        rw [hother e, hv]
      · have hi : i < items1.length := by
          by_contra hge2
          rw [List.getElem?_eq_none (by omega)] at hitem
          cases hitem
        have hi2 : ¬ (i ≥ items1.length) := by omega
        simp only [get_value, rpc_array_get_value, g1c, hi2, if_false, hitem]
  | key k =>
    obtain ⟨rc, es, hc⟩ := hs
    have lc := Heap.get_lt hc
    cases hl : es.lookup k with
    | none =>
      have g1c : (h.set c ⟨rc, .rv_dict (entries_insert es k v)⟩).get c =
          some ⟨rc, .rv_dict (entries_insert es k v)⟩ := Heap.get_set_same _ lc
      refine hfin (h.set c ⟨rc, .rv_dict (entries_insert es k v)⟩) rc _ ?_ g1c
        (hrc rc _ hc) ?_ ?_
      · simp only [steal_value, rpc_dictionary_steal_value, hc, hl]
      · intro e
        rw [Heap.get_set_ne _ _ e, hv]
      · simp only [get_value, rpc_dictionary_get_value, g1c, lookup_entries_insert]
    | some old =>
      obtain ⟨l, hvis, hok, hvl⟩ := hocc old (by simp only [occupant, hc, hl])
      obtain ⟨h1, hsteal, g1c, hother, _⟩ :=
        dictionary_steal_occupied (f + 1) h c v old k rc es l hc hl hvis hok
      refine hfin h1 (rc - (l.count c : Int)) _ hsteal g1c ?_ ?_ ?_
      · intro e
        rw [List.count_eq_zero_of_not_mem (by rw [← e]; exact hvl)]
        simp only [Nat.cast_zero, sub_zero]
        exact hrc rc _ hc e
      · intro e
        rw [hother v e hvl, hv]
      · simp only [get_value, rpc_dictionary_get_value, g1c, lookup_entries_insert]

/-- C20, amended, at a concrete input: the Int64 at address 5 of `ex_nested`
is set at index 0 of the array at address 2, whose occupant (address 1) is an
array with two elements that only its container references. The release of
the occupant visits the address 1 and, twice, the address 0. -/
theorem C20_set_is_steal_then_retain_witness :
    ∃ h1 h2 vv1, steal_value (2 + 1) ex_nested 2 (.index 0) 5 = some h1 ∧
      rpc_retain h1 5 = some h2 ∧
      set_value (2 + 1) ex_nested 2 (.index 0) 5 = some h2 ∧
      h1.get 5 = some ⟨1, vv1⟩ ∧ h2.get 5 = some ⟨1 + 1, vv1⟩ ∧
      (5 ≠ 2 → vv1 = .rv_i 7) ∧
      get_value h1 2 (.index 0) = some (some 5) ∧
      get_value h2 2 (.index 0) = some (some 5) :=
  C20_set_is_steal_then_retain 2 ex_nested 2 5 (.index 0) 1 (.rv_i 7)
    ⟨1, [1], by decide, by decide, by decide⟩ (by decide) (by decide) (by decide)
    (by
      intro old ho
      have e : occupant ex_nested 2 (.index 0) = some 1 := by decide
      rw [e] at ho
      cases ho
      exact ⟨[1, 0, 0], by decide, by decide, by decide⟩)

/-! ## Stealing into an array -/

/-- C21: for every array of length `n`, every index `i ≥ n` (with `i - n`
in the range of the `int` loop counter) and every value `v`,
`rpc_array_steal_value(a, i, v)` returns, and afterwards the array has
length `i + 1`, its elements `0 … n-1` are the ones it had, its elements
`n … i-1` are Null objects, and its element `i` is `v`. -/
theorem C21_steal_past_end_pads_with_null (f : Nat) (h : Heap) (a i v : Nat) (rc : Int)
    (items : List Nat) (ha : h.get a = some ⟨rc, .rv_list items⟩)
    (hge : items.length ≤ i) (hidx : i < items.length + 2 ^ 31) :
    ∃ h1 items1, rpc_array_steal_value (f + 1) h a i v = some h1 ∧
      h1.get a = some ⟨rc, .rv_list items1⟩ ∧
      rpc_array_get_count h1 a = some (i + 1) ∧
      (∀ j, j < items.length → items1[j]? = items[j]?) ∧
      (∀ j, items.length ≤ j → j < i →
        ∃ x r, items1[j]? = some x ∧ h1.get x = some ⟨r, .rv_null⟩) ∧
      items1[i]? = some v := by
  have la := Heap.get_lt ha
  obtain ⟨e, he⟩ : ∃ e, i = items.length + e := ⟨i - items.length, by omega⟩
  have hpadn : (if 0 ≤ wrap_int32 (((i : Int) - (items.length : Int)) % 2 ^ 64)
      then (wrap_int32 (((i : Int) - (items.length : Int)) % 2 ^ 64)).toNat + 1
      else 0) = e + 1 := by
    have hval : wrap_int32 (((i : Int) - (items.length : Int)) % 2 ^ 64) = (e : Int) := by
      unfold wrap_int32
      omega
    rw [hval, if_pos (by omega)]
    simp
  obtain ⟨hp, hpad, sp, gp, op, np⟩ := steal_pad_spec (e + 1) h a rc items ha
  have hslot : (items ++ List.range' h.size (e + 1))[i]? = some (h.size + e) := by
    rw [he, List.getElem?_append_right (by omega)]
    simp [List.getElem?_range']
  have gnull := np e (by omega)
  have hrel := @release_leaf_keep hp (h.size + e) 2 .rv_null f gnull (by decide) (by decide)
  have g2 : (hp.set (h.size + e) ⟨2 - 1, .rv_null⟩).get a =
      some ⟨rc, .rv_list (items ++ List.range' h.size (e + 1))⟩ := by
    rw [Heap.get_set_ne _ _ (by omega), gp]
  have hl : (items ++ List.range' h.size (e + 1)).length = i + 1 := by
    simp only [List.length_append, List.length_range']
    omega
  have gfin : ((hp.set (h.size + e) ⟨2 - 1, .rv_null⟩).set a
      ⟨rc, .rv_list ((items ++ List.range' h.size (e + 1)).set i v)⟩).get a =
      some ⟨rc, .rv_list ((items ++ List.range' h.size (e + 1)).set i v)⟩ :=
    Heap.get_set_same _ (by rw [Heap.size_set, sp]; omega)
  refine ⟨(hp.set (h.size + e) ⟨2 - 1, .rv_null⟩).set a
      ⟨rc, .rv_list ((items ++ List.range' h.size (e + 1)).set i v)⟩,
    (items ++ List.range' h.size (e + 1)).set i v, ?_, gfin, ?_, ?_, ?_, ?_⟩
  · unfold rpc_array_steal_value
    simp only [ha, hpadn, hpad, gp, hslot, hrel, g2]
  · simp only [rpc_array_get_count, gfin, List.length_set, hl]
  · intro j hj
    rw [List.getElem?_set_ne (by omega), List.getElem?_append_left hj]
  · intro j hj1 hj2
    refine ⟨h.size + (j - items.length), 2, ?_, ?_⟩
    · rw [List.getElem?_set_ne (by omega), List.getElem?_append_right hj1,
        List.getElem?_range' h.size 1 (by omega : j - items.length < e + 1)]
      simp
    · rw [Heap.get_set_ne _ _ (by omega), Heap.get_set_ne _ _ (by omega)]
      exact np (j - items.length) (by omega)
  · simp [List.getElem?_set]
    omega

/-- C21 at a concrete input: the Int64 at address 1 of `ex_slots` is stolen
into index 3 of the array `[1]` at address 2. -/
theorem C21_steal_past_end_pads_with_null_witness :
    ∃ h1 items1, rpc_array_steal_value 2 ex_slots 2 3 1 = some h1 ∧
      h1.get 2 = some ⟨1, .rv_list items1⟩ ∧
      rpc_array_get_count h1 2 = some (3 + 1) ∧
      (∀ j, j < [0].length → items1[j]? = [0][j]?) ∧
      (∀ j, [0].length ≤ j → j < 3 →
        ∃ x r, items1[j]? = some x ∧ h1.get x = some ⟨r, .rv_null⟩) ∧
      items1[3]? = some 1 :=
  C21_steal_past_end_pads_with_null 1 ex_slots 2 3 1 1 [0] (by decide) (by decide) (by decide)

/-- C22: for every array of length `n` (at most 2^31), every index `i < n`
and every value `v`, when the release of the occupant of slot `i` finds a
reference to take at every object it visits (the visits are `l`, and the
reference counts of the visited objects are positive `int`s),
`rpc_array_steal_value(a, i, v)` returns, and the heap is the one after
exactly one `rpc_release_impl` of the prior occupant with `v` put at index
`i`. The occupant may be referenced from elsewhere too or by the array only,
and may have elements: an occupant with other references has one reference
less and nothing is freed; an occupant with a single reference is freed once,
after the objects that are freed with it; every visited object without a
reference left is freed once and every other visited object has one
reference less for each visit. The length of the array and every other
element are as before, and so is every object that is not visited. -/
theorem C22_steal_releases_occupant_once (f : Nat) (h : Heap) (a i v old : Nat) (rc co : Int)
    (items l : List Nat) (vo : rpc_value)
    (ha : h.get a = some ⟨rc, .rv_list items⟩) (hlen : items.length ≤ 2 ^ 31)
    (hi : items[i]? = some old) (hold : h.get old = some ⟨co, vo⟩)
    (hvis : release_visits f h [] old = some l) (hok : ∀ x ∈ l, count_ok h x = true) :
    ∃ h1 h2 r fr, rpc_array_steal_value f h a i v = some h1 ∧
      rpc_release_impl f h old = some (h2, r) ∧
      h2.get a = some ⟨rc - (l.count a : Int), .rv_list items⟩ ∧
      h1 = h2.set a ⟨rc - (l.count a : Int), .rv_list (items.set i v)⟩ ∧
      h1.get a = some ⟨rc - (l.count a : Int), .rv_list (items.set i v)⟩ ∧
      (items.set i v)[i]? = some v ∧ (items.set i v).length = items.length ∧
      (∀ j, j ≠ i → (items.set i v)[j]? = items[j]?) ∧
      (1 < co ∨ vo.children = [] → l = [old]) ∧
      (1 < co → h1.freed = h.freed ∧ (old ≠ a → h1.get old = some ⟨co - 1, vo⟩)) ∧
      (co = 1 → h1.get old = none ∧ (∃ fr0, h1.freed = h.freed ++ fr0 ++ [old]) ∧
        (vo.children = [] → h1.freed = h.freed ++ [old])) ∧
      h1.freed = h.freed ++ fr ∧ fr.Nodup ∧
      (∀ x, x ∈ fr ↔ x ∈ l ∧ references_left h l x ≤ 0) ∧
      (∀ x ∈ l, x ≠ a → ∀ o, h.get x = some o →
        h1.get x = if references_left h l x ≤ 0 then none
          else some { o with ro_refcnt := references_left h l x }) ∧
      (∀ x, x ≠ a → x ∉ l → h1.get x = h.get x) := by
  have la := Heap.get_lt ha
  have hlt : i < items.length := by
    by_contra hge
    rw [List.getElem?_eq_none (by omega)] at hi
    cases hi
  obtain ⟨t, ht⟩ := release_visits_extends _ _ _ _ _ hvis
  have hol : old ∈ l := by rw [ht]; simp
  have hr0 : references_left h [] old = co := by
    simp only [references_left, hold, List.count_nil, Nat.cast_zero, sub_zero]
  have hmem : old ∈ (rpc_object.mk rc (.rv_list items)).ro_value.children := by
    simp only [rpc_value.children]
    obtain ⟨hb, e⟩ := List.getElem?_eq_some.mp hi
    rw [← e]
    exact List.getElem_mem _
  -- the visits of a shared occupant and of one without elements
  have hl1 : 1 < co ∨ vo.children = [] → l = [old] := by
    intro hk
    cases f with
    | zero => simp [release_visits] at hvis
    | succ f =>
      have hpos := release_visits_pos hvis
      unfold release_visits at hvis
      have hnp : ¬ co ≤ 0 := by omega
      simp only [hr0, hnp, if_false, hold] at hvis
      by_cases hc1 : co = 1
      · have hleaf : vo.children = [] := by
          rcases hk with hk | hk
          · omega
          · exact hk
        simp only [hc1, if_true, hleaf, visit_each, List.nil_append, Option.some.injEq] at hvis
        exact hvis.symm
      · simp only [hc1, if_false, List.nil_append, Option.some.injEq] at hvis
        exact hvis.symm
  obtain ⟨h2, r, fr, hsteal, hrel, g2a, s2, o2, i2, f2, nd, m, q⟩ :=
    array_steal_occupied f h a i v old rc items l ha hlen hi hvis hok
  have gfin : (h2.set a ⟨rc - (l.count a : Int), .rv_list (items.set i v)⟩).get a =
      some ⟨rc - (l.count a : Int), .rv_list (items.set i v)⟩ :=
    Heap.get_set_same _ (by rw [s2]; exact la)
  refine ⟨h2.set a ⟨rc - (l.count a : Int), .rv_list (items.set i v)⟩, h2, r, fr, hsteal, hrel,
    g2a, rfl, gfin, ?_, ?_, ?_, hl1, ?_, ?_, by rw [Heap.freed_set, f2], nd, m, ?_, ?_⟩
  · simp [List.getElem?_set, hlt]
  · simp
  · intro j hj
    rw [List.getElem?_set_ne (fun e => hj e.symm)]
  · intro h1co
    have hrl : references_left h [old] old = co - 1 := by
      simp only [references_left, hold, List.count_cons, List.count_nil, beq_self_eq_true,
        if_true]
      push_cast
      omega
    have hfr : fr = [] := by
      apply List.eq_nil_iff_forall_not_mem.mpr
      intro x hx
      obtain ⟨hxl, hz⟩ := (m x).mp hx
      rw [hl1 (Or.inl h1co)] at hxl hz
      have e : x = old := by simpa using hxl
      rw [e, hrl] at hz
      omega
    refine ⟨by rw [Heap.freed_set, f2, hfr, List.append_nil], ?_⟩
    intro hne
    rw [Heap.get_set_ne _ _ hne, i2 old hol _ hold, hl1 (Or.inl h1co), hrl,
      if_neg (by omega)]
  · intro hc1
    have hla : references_left h l old ≤ 0 := by
      have hm : references_left h l old ≤ references_left h [old] old := by
        rw [ht]
        exact references_left_mono h [old] t old
      have hrl : references_left h [old] old = co - 1 := by
        simp only [references_left, hold, List.count_cons, List.count_nil, beq_self_eq_true,
          if_true]
        push_cast
        omega
      omega
    have hne : old ≠ a := by
      intro e
      have hal : a ∈ l := by rw [← e]; exact hol
      have := holder_not_freed hvis hok ha hmem hal
      rw [← e] at this
      omega
    obtain ⟨fr0, hfr0⟩ := q (by rw [hr0, hc1])
    refine ⟨?_, ⟨fr0, by rw [Heap.freed_set, f2, hfr0, List.append_assoc]⟩, ?_⟩
    · rw [Heap.get_set_ne _ _ hne, i2 old hol _ hold, if_pos hla]
    · intro hleaf
      have hfr : fr = [old] := by
        have hsub : ∀ x ∈ fr, x = old := by
          intro x hx
          have := ((m x).mp hx).1
          rw [hl1 (Or.inr hleaf)] at this
          simpa using this
        have hin : old ∈ fr := (m old).mpr ⟨hol, hla⟩
        rw [hfr0] at nd hsub ⊢
        cases fr0 with
        | nil => rfl
        | cons y ys =>
          exfalso
          have e1 : y = old := hsub y (by simp)
          rw [e1] at nd
          simp at nd
      rw [Heap.freed_set, f2, hfr]
  · intro x hxl hxa o ho
    rw [Heap.get_set_ne _ _ hxa]
    exact i2 x hxl o ho
  · intro x hxa hxl
    rw [Heap.get_set_ne _ _ hxa, o2 x hxl]

/-- C22 at a concrete input: the Int64 at address 5 of `ex_nested` is stolen
into index 0 of the array at address 2, whose occupant (address 1) is an
array with two elements that only its container references. The release of
the occupant visits the address 1 and, twice, the address 0: the occupant is
freed and its element, referenced from elsewhere too, has two references
less. -/
theorem C22_steal_releases_occupant_once_witness :
    ∃ h1 h2 r fr, rpc_array_steal_value 2 ex_nested 2 0 5 = some h1 ∧
      rpc_release_impl 2 ex_nested 1 = some (h2, r) ∧
      h2.get 2 = some ⟨1 - (([1, 0, 0] : List Nat).count 2 : Int), .rv_list [1]⟩ ∧
      h1 = h2.set 2 ⟨1 - (([1, 0, 0] : List Nat).count 2 : Int), .rv_list ([1].set 0 5)⟩ ∧
      h1.get 2 = some ⟨1 - (([1, 0, 0] : List Nat).count 2 : Int), .rv_list ([1].set 0 5)⟩ ∧
      ([1].set 0 5)[0]? = some 5 ∧ ([1].set 0 5).length = [1].length ∧
      (∀ j, j ≠ 0 → ([1].set 0 5)[j]? = [1][j]?) ∧
      ((1 : Int) < 1 ∨ (rpc_value.rv_list [0, 0]).children = [] → [1, 0, 0] = [1]) ∧
      ((1 : Int) < 1 → h1.freed = ex_nested.freed ∧
        (1 ≠ 2 → h1.get 1 = some ⟨1 - 1, .rv_list [0, 0]⟩)) ∧
      ((1 : Int) = 1 → h1.get 1 = none ∧
        (∃ fr0, h1.freed = ex_nested.freed ++ fr0 ++ [1]) ∧
        ((rpc_value.rv_list [0, 0]).children = [] → h1.freed = ex_nested.freed ++ [1])) ∧
      h1.freed = ex_nested.freed ++ fr ∧ fr.Nodup ∧
      (∀ x, x ∈ fr ↔ x ∈ [1, 0, 0] ∧ references_left ex_nested [1, 0, 0] x ≤ 0) ∧
      (∀ x ∈ [1, 0, 0], x ≠ 2 → ∀ o, ex_nested.get x = some o →
        h1.get x = if references_left ex_nested [1, 0, 0] x ≤ 0 then none
          else some { o with ro_refcnt := references_left ex_nested [1, 0, 0] x }) ∧
      (∀ x, x ≠ 2 → x ∉ [1, 0, 0] → h1.get x = ex_nested.get x) :=
  C22_steal_releases_occupant_once 2 ex_nested 2 0 5 1 1 1 [1] [1, 0, 0] (.rv_list [0, 0])
    (by decide) (by decide) (by decide) (by decide) (by decide) (by decide)

/-! ## Retrieval -/

theorem lookup_isSome_of_mem {β : Type} (es : List (String × β)) (k : String)
    (hk : k ∈ es.map Prod.fst) : (es.lookup k).isSome = true := by
  induction es with
  | nil => simp at hk
  | cons e rest ih =>
    obtain ⟨k1, v1⟩ := e
    rw [List.lookup_cons]
    cases hb : (k == k1) with
    | true => rfl
    | false =>
      simp only [List.map_cons, List.mem_cons] at hk
      rcases hk with h1 | h1
      · subst h1
        simp at hb
      · exact ih h1

/-- C23: for an array `a` and a dictionary `d`, both calls return without
error; `rpc_array_get_value(a, i)` is the null signal exactly when
`i ≥ count(a)` and the element at index `i` otherwise, and
`rpc_dictionary_get_value(d, k)` is the null signal exactly when `k` is not a
key of `d` and the value stored under `k` otherwise. -/
theorem C23_get_value_null_signal (h : Heap) (a d i : Nat) (k : String) (ra rd : Int)
    (items : List Nat) (entries : List (String × Nat))
    (ha : h.get a = some ⟨ra, .rv_list items⟩)
    (hd : h.get d = some ⟨rd, .rv_dict entries⟩) :
    (∃ r, rpc_array_get_value h a i = some r ∧
      (r = none ↔ ∃ n, rpc_array_get_count h a = some n ∧ n ≤ i) ∧
      (∀ n, rpc_array_get_count h a = some n → i < n → r = items[i]? ∧ r.isSome)) ∧
    (∃ r, rpc_dictionary_get_value h d k = some r ∧
      (r = none ↔ k ∉ entries.map Prod.fst) ∧
      (k ∈ entries.map Prod.fst → r = entries.lookup k ∧ r.isSome)) := by
  have hcount : rpc_array_get_count h a = some items.length := by
    simp only [rpc_array_get_count, ha]
  constructor
  · by_cases hi : i < items.length
    · have hge : ¬ (i ≥ items.length) := by omega
      refine ⟨items[i]?, ?_, ?_, ?_⟩
      · simp only [rpc_array_get_value, ha, hge, if_false]
      · rw [hcount, List.getElem?_eq_getElem hi]
        constructor
        · intro e
          cases e
        · rintro ⟨n, hn, hle⟩
          cases hn
          omega
      · intro n _ _
        rw [List.getElem?_eq_getElem hi]
        exact ⟨rfl, rfl⟩
    · have hge : i ≥ items.length := by omega
      refine ⟨none, ?_, ?_, ?_⟩
      · simp only [rpc_array_get_value, ha, hge, if_true]
      · rw [hcount]
        exact ⟨fun _ => ⟨_, rfl, hge⟩, fun _ => rfl⟩
      · intro n hn hlt
        rw [hcount] at hn
        cases hn
        omega
  · refine ⟨entries.lookup k, ?_, ?_, ?_⟩
    · simp only [rpc_dictionary_get_value, hd]
    · constructor
      · intro hl hmem
        have hsome := lookup_isSome_of_mem entries k hmem
        rw [hl] at hsome
        cases hsome
      · intro hnot
        exact lookup_none_of_not_mem entries k hnot
    · intro hmem
      exact ⟨rfl, lookup_isSome_of_mem entries k hmem⟩

/-- C23 at a concrete input: index 0 of the array at address 2 and key `k`
of the dictionary at address 3 of `ex_slots`. -/
theorem C23_get_value_null_signal_witness :
    (∃ r, rpc_array_get_value ex_slots 2 0 = some r ∧
      (r = none ↔ ∃ n, rpc_array_get_count ex_slots 2 = some n ∧ n ≤ 0) ∧
      (∀ n, rpc_array_get_count ex_slots 2 = some n → 0 < n → r = [0][0]? ∧ r.isSome)) ∧
    (∃ r, rpc_dictionary_get_value ex_slots 3 "k" = some r ∧
      (r = none ↔ "k" ∉ [("k", 0)].map Prod.fst) ∧
      ("k" ∈ [("k", 0)].map Prod.fst → r = [("k", 0)].lookup "k" ∧ r.isSome)) :=
  C23_get_value_null_signal ex_slots 2 3 0 "k" 1 1 [0] [("k", 0)] (by decide) (by decide)

/-! ## Iteration with a visitor -/

theorem apply_items_spec {σ : Type} (keep : Nat → Nat → Bool) (f : Nat → Nat → σ → σ) :
    ∀ (items : List Nat) (i0 : Nat) (s : σ),
      apply_items (fun i v s => some (f i v s, keep i v)) items i0 s =
        some ((visited (fun p => keep p.1 p.2) (items.enumFrom i0)).foldl
            (fun s p => f p.1 p.2 s) s,
          stopped_early (fun p => keep p.1 p.2) (items.enumFrom i0)) := by
  intro items
  induction items with
  | nil => intro i0 s; rfl
  | cons v rest ih =>
    intro i0 s
    cases hk : keep i0 v with
    | true =>
      simp only [apply_items, hk, ih, List.enumFrom_cons, visited, stopped_early,
        List.takeWhile_cons, List.dropWhile_cons, if_true, List.cons_append, List.foldl_cons,
        List.any_cons, Bool.not_true, Bool.false_or]
    | false =>
      simp only [apply_items, hk, List.enumFrom_cons, visited, stopped_early,
        List.takeWhile_cons, List.dropWhile_cons, Bool.false_eq_true, if_false,
        List.nil_append, List.take_succ_cons, List.take_zero, List.foldl_cons, List.foldl_nil,
        List.any_cons, Bool.not_false, Bool.true_or]

/-- C24: `rpc_array_apply` calls the visitor on the elements in increasing
index order, each with its index, up to and including the first element for
which the visitor returns false, and on no element after it; the flag it
returns is true exactly when the visitor returned false for an element, and
false otherwise, in particular for an empty array. Here the visitor updates
a state by `f` and continues exactly on the pairs `keep` accepts. -/
theorem C24_array_apply_order_and_flag {σ : Type} (h : Heap) (a : Nat) (rc : Int)
    (items : List Nat) (keep : Nat → Nat → Bool) (f : Nat → Nat → σ → σ) (s0 : σ)
    (ha : h.get a = some ⟨rc, .rv_list items⟩) :
    rpc_array_apply h a (fun i v s => some (f i v s, keep i v)) s0 =
        some ((visited (fun p => keep p.1 p.2) items.enum).foldl (fun s p => f p.1 p.2 s) s0,
          stopped_early (fun p => keep p.1 p.2) items.enum) ∧
    (stopped_early (fun p => keep p.1 p.2) items.enum = true ↔
      ∃ p ∈ items.enum, keep p.1 p.2 = false) ∧
    (items = [] → stopped_early (fun p => keep p.1 p.2) items.enum = false) := by
  refine ⟨?_, ?_, ?_⟩
  · simp only [rpc_array_apply, ha]
    exact apply_items_spec keep f items 0 s0
  · simp only [stopped_early, List.any_eq_true, Bool.not_eq_true']
  · intro he
    subst he
    rfl

/-- C24 at a concrete input: over the array `[1, 2]` of `ex_values`, with a
visitor that records its arguments and returns false at index 0, only the
element at index 0 is visited and the flag is true; with a visitor that
always returns true both elements are visited in order and the flag is
false. -/
theorem C24_array_apply_order_and_flag_witness :
    rpc_array_apply ex_values 5
        (fun i v (log : List (Nat × Nat)) => some (log ++ [(i, v)], decide (i ≠ 0))) [] =
      some ([(0, 2)], true) ∧
    rpc_array_apply ex_values 5
        (fun i v (log : List (Nat × Nat)) => some (log ++ [(i, v)], true)) [] =
      some ([(0, 2), (1, 3)], false) :=
  ⟨(C24_array_apply_order_and_flag ex_values 5 1 [2, 3] (fun i _ => decide (i ≠ 0))
      (fun i v (log : List (Nat × Nat)) => log ++ [(i, v)]) [] (by decide)).1,
    (C24_array_apply_order_and_flag ex_values 5 1 [2, 3] (fun _ _ => true)
      (fun i v (log : List (Nat × Nat)) => log ++ [(i, v)]) [] (by decide)).1⟩

theorem apply_entries_spec {σ : Type} (keep : String → Nat → Bool)
    (f : String → Nat → σ → σ) :
    ∀ (entries : List (String × Nat)) (s : σ),
      apply_entries (fun k v s => some (f k v s, keep k v)) entries s =
        some ((visited (fun p => keep p.1 p.2) entries).foldl (fun s p => f p.1 p.2 s) s,
          true) := by
  intro entries
  induction entries with
  | nil => intro s; rfl
  | cons e rest ih =>
    intro s
    obtain ⟨k, v⟩ := e
    cases hk : keep k v with
    | true =>
      simp only [apply_entries, hk, ih, visited, List.takeWhile_cons, List.dropWhile_cons,
        if_true, List.cons_append, List.foldl_cons]
    | false =>
      simp only [apply_entries, hk, visited, List.takeWhile_cons, List.dropWhile_cons,
        Bool.false_eq_true, if_false, List.nil_append, List.take_succ_cons, List.take_zero,
        List.foldl_cons, List.foldl_nil]

/-- C25, the code: `rpc_dictionary_apply` calls the visitor on the entries up
to and including the first one for which the visitor returns false, and the
value it returns is `true` in every case, also when every entry was visited
and when the dictionary is empty. Here the visitor updates a state by `f`
and continues exactly on the entries `keep` accepts. -/
theorem C25_dictionary_apply_returns_true {σ : Type} (h : Heap) (d : Nat) (rc : Int)
    (entries : List (String × Nat)) (keep : String → Nat → Bool) (f : String → Nat → σ → σ)
    (s0 : σ) (hd : h.get d = some ⟨rc, .rv_dict entries⟩) :
    rpc_dictionary_apply h d (fun k v s => some (f k v s, keep k v)) s0 =
      some ((visited (fun p => keep p.1 p.2) entries).foldl (fun s p => f p.1 p.2 s) s0,
        true) := by
  simp only [rpc_dictionary_apply, hd]
  exact apply_entries_spec keep f entries s0

/-- C25 at the failing input: for the empty dictionary, and for the
dictionary `{k: 1}` of `ex_slots` with a visitor that always returns true,
the value returned is `true`. -/
theorem C25_dictionary_apply_returns_true_witness :
    rpc_dictionary_apply (rpc_dictionary_create Heap.empty).1 0
        (fun k v (log : List (String × Nat)) => some (log ++ [(k, v)], true)) [] =
      some ([], true) ∧
    rpc_dictionary_apply ex_slots 3
        (fun k v (log : List (String × Nat)) => some (log ++ [(k, v)], true)) [] =
      some ([("k", 0)], true) :=
  ⟨C25_dictionary_apply_returns_true (rpc_dictionary_create Heap.empty).1 0 1 []
      (fun _ _ => true) (fun k v (log : List (String × Nat)) => log ++ [(k, v)]) []
      (by decide),
    C25_dictionary_apply_returns_true ex_slots 3 1 [("k", 0)]
      (fun _ _ => true) (fun k v (log : List (String × Nat)) => log ++ [(k, v)]) []
      (by decide)⟩

/-! ## Removal from an array -/

/-- C26, the code: for every array and every index `i ≤ count(a)`, so for
every index of an element, `rpc_array_remove_index(a, i)` aborts. -/
theorem C26_remove_index_aborts (h : Heap) (a i : Nat) (rc : Int) (items : List Nat)
    (ha : h.get a = some ⟨rc, .rv_list items⟩) (hi : i ≤ items.length) :
    rpc_array_get_count h a = some items.length ∧ rpc_array_remove_index h a i = none := by
  constructor
  · simp only [rpc_array_get_count, ha]
  · have hge : items.length ≥ i := hi
    simp only [rpc_array_remove_index, ha, hge, if_true]

/-- C26 at the failing input: index 0 of the array `[1, 2]` of
`ex_values`. -/
theorem C26_remove_index_aborts_witness :
    rpc_array_get_count ex_values 5 = some [2, 3].length ∧
      rpc_array_remove_index ex_values 5 0 = none :=
  C26_remove_index_aborts ex_values 5 0 1 [2, 3] (by decide) (by decide)

/-! ## Loading a schema -/

theorem apply_entries_flag {σ : Type} (applier : String → Nat → σ → Option (σ × Bool)) :
    ∀ (entries : List (String × Nat)) (s : σ) (r : σ × Bool),
      apply_entries applier entries s = some r → r.2 = true := by
  intro entries
  induction entries with
  | nil =>
    intro s r hr
    simp only [apply_entries, Option.some.injEq] at hr
    rw [← hr]
  | cons e rest ih =>
    intro s r hr
    obtain ⟨k, v⟩ := e
    simp only [apply_entries] at hr
    cases ha : applier k v s with
    | none => rw [ha] at hr; cases hr
    | some q =>
      obtain ⟨s1, b⟩ := q
      rw [ha] at hr
      cases b with
      | true => exact ih s1 r hr
      | false =>
        simp only [Option.some.injEq] at hr
        rw [← hr]

/-- C27, the code: `rpct_load_types` returns 0 for no input, whatever the
document is and whatever the readers of the declarations do, because
`rpct_read_file` sets its result to -1 whenever `rpc_dictionary_apply`
returns `true`, which it always does. For the document of `ex_schema`, with
readers that succeed on each declaration and register the type `Point` and
the function `distance`, it returns -1. -/
theorem C27_load_types_never_returns_0 :
    (∀ (fuel : Nat) (h : Heap) (context : rpct_context) (contents : Bool) (obj : Option Nat)
      (file_realm : Option String)
      (read_func find_or_load : String → String → rpct_context → Option (rpct_context × Int)),
      (rpct_load_types fuel h context contents obj file_realm read_func find_or_load).map
        (fun r => r.2.2) ≠ some 0) ∧
    (rpct_load_types 5 ex_schema ⟨[]⟩ true (some 21) (some "geometry") ex_read_func
        ex_find_or_load).map (fun r => r.2.2) = some (-1) := by
  constructor
  · intro fuel h context contents obj file_realm read_func find_or_load
    unfold rpct_load_types rpct_read_file
    cases contents with
    | false => simp
    | true =>
      cases obj with
      | none => simp
      | some o =>
        simp only [Bool.not_true, Bool.false_eq_true, if_false]
        cases hm : rpc_dictionary_get_value h o "meta" with
        | none => simp
        | some m =>
          cases file_realm with
          | none => simp
          | some realm =>
            simp only
            split
            · simp
            · rename_i ctx2 flag happ
              have hflag : flag = true := by
                unfold rpc_dictionary_apply at happ
                split at happ
                · exact apply_entries_flag _ _ _ _ happ
                · cases happ
              subst hflag
              split
              · simp
              · simp
  · decide

/-! ## Types -/

/-- C28, the code at the type instance `Point<int64>`: `rpct_canonical_type`
gives `Point<int64,>`, with a comma after the last argument; for the type
`int64`, which is not generic, it gives the name. -/
theorem C28_canonical_type_of_point :
    rpct_canonical_type ex_point_int64 = some "Point<int64,>" ∧
    "Point<int64,>" ≠ "Point<int64>" ∧
    rpct_canonical_type (.mk false ex_int64 []) = some "int64" := by
  decide

/-- C29, the code at the strings of the claim: `rpct_parse_type` gives the
text before each top-level comma, from the start of the string, and nothing
for the text after the last comma. -/
theorem C29_parse_type_of_examples :
    rpct_parse_type "A,B<C,D>,E" [] = (["A", "A,B<C,D>"], 2) ∧
    rpct_parse_type "T,U" [] = (["T"], 1) ∧
    rpct_parse_type "T" [] = ([], 0) := by
  decide

/-- C30, the code: when the realm `realm_name` exists and does not declare
`name`, `rpct_find_type` finds nothing, also when the global realm `*`
declares `name` (and a lookup in `*` itself finds it). -/
theorem C30_no_fallback_in_existing_realm (context : rpct_context) (realm_name name : String)
    (realm g : rpct_realm) (t : rpct_type)
    (hr : rpct_find_realm context realm_name = some realm)
    (hn : realm.types.lookup name = none)
    (hg : rpct_find_realm context "*" = some g) (ht : g.types.lookup name = some t) :
    rpct_find_type context realm_name name = none ∧
      rpct_find_type context "*" name = some t := by
  constructor
  · simp only [rpct_find_type, hr, hn]
  · simp only [rpct_find_type, hg, ht]

/-- C30 at the failing input: the name `int64` looked up from the realm
`geometry` of `ex_context`. -/
theorem C30_no_fallback_in_existing_realm_witness :
    rpct_find_type ex_context "geometry" "int64" = none ∧
      rpct_find_type ex_context "*" "int64" = some ex_int64 :=
  C30_no_fallback_in_existing_realm ex_context "geometry" "int64"
    { name := "geometry", types := [("Point", ex_point)], functions := [] }
    { name := "*", types := [("int64", ex_int64)], functions := [] } ex_int64
    (by decide) (by decide) (by decide) (by decide)

/-! ## Reading binary data -/

/-- C40: `rpc_data_get_bytes` on a Binary value of length L, with a buffer
that has room for the bytes copied: for `off > L` it returns 0 and leaves the
buffer as it was; otherwise it returns `min(n, L - off)`, the buffer starts
with the bytes at positions `off`, `off + 1`, ... of the data in order, the
rest of the buffer is as before, and every byte read lies inside the data.
On a value that is not Binary it returns 0 and leaves the buffer as it was. -/
theorem C40_get_bytes_copies_in_range (rc : Int) (v : rpc_value) (buffer : List Nat)
    (off n : Nat) :
    (∀ bytes copy, v = .rv_bin bytes copy → off > bytes.length →
      rpc_data_get_bytes ⟨rc, v⟩ buffer off n = some (buffer, 0)) ∧
    (∀ bytes copy, v = .rv_bin bytes copy → off ≤ bytes.length →
      min n (bytes.length - off) ≤ buffer.length →
      ∃ out, rpc_data_get_bytes ⟨rc, v⟩ buffer off n = some (out, min n (bytes.length - off)) ∧
        out.length = buffer.length ∧
        out.take (min n (bytes.length - off)) = (bytes.drop off).take (min n (bytes.length - off)) ∧
        (∀ j, j < min n (bytes.length - off) → out[j]? = bytes[off + j]?) ∧
        (∀ j, min n (bytes.length - off) ≤ j → out[j]? = buffer[j]?) ∧
        off + min n (bytes.length - off) ≤ bytes.length) ∧
    (v.type ≠ .RPC_TYPE_BINARY → rpc_data_get_bytes ⟨rc, v⟩ buffer off n = some (buffer, 0)) := by
  refine ⟨?_, ?_, ?_⟩
  · intro bytes copy hv hoff
    subst hv
    simp [rpc_data_get_bytes, rpc_object.ro_type, rpc_value.type, rpc_data_get_length, hoff]
  · intro bytes copy hv hoff hroom
    subst hv
    have hread : off + min n (bytes.length - off) ≤ bytes.length := by omega
    have hlen : ((bytes.drop off).take (min n (bytes.length - off))).length =
        min n (bytes.length - off) := by
      rw [List.length_take, List.length_drop]; omega
    refine ⟨(bytes.drop off).take (min n (bytes.length - off)) ++
      buffer.drop (min n (bytes.length - off)), ?_, ?_, ?_, ?_, ?_, hread⟩
    · simp only [rpc_data_get_bytes, rpc_object.ro_type, rpc_value.type, rpc_data_get_length,
        rpc_data_get_bytes_ptr, memcpy]
      rw [if_neg (by simp), if_neg (by omega), if_pos ⟨hread, hroom⟩]
      rfl
    · rw [List.length_append, hlen, List.length_drop]; omega
    · rw [List.take_append_of_le_length (by omega), List.take_take]
      simp
    · intro j hj
      rw [List.getElem?_append_left (by omega), List.getElem?_take_of_lt hj, List.getElem?_drop]
    · intro j hj
      rw [List.getElem?_append_right (by omega), hlen, List.getElem?_drop]
      congr 1
      omega
  · intro hv
    simp [rpc_data_get_bytes, rpc_object.ro_type, hv]

/-- C40 at concrete inputs: five bytes read from offset 2 with a request for
ten bytes, into a buffer of four; an offset behind the end; a String. -/
theorem C40_get_bytes_copies_in_range_witness :
    (∃ out, rpc_data_get_bytes ⟨1, .rv_bin [1, 2, 3, 4, 5] true⟩ [0, 0, 0, 0] 2 10 =
        some (out, min 10 ([1, 2, 3, 4, 5].length - 2)) ∧
        out.length = [0, 0, 0, 0].length ∧
        out.take (min 10 ([1, 2, 3, 4, 5].length - 2)) =
          ([1, 2, 3, 4, 5].drop 2).take (min 10 ([1, 2, 3, 4, 5].length - 2)) ∧
        (∀ j, j < min 10 ([1, 2, 3, 4, 5].length - 2) → out[j]? = [1, 2, 3, 4, 5][2 + j]?) ∧
        (∀ j, min 10 ([1, 2, 3, 4, 5].length - 2) ≤ j → out[j]? = [0, 0, 0, 0][j]?) ∧
        2 + min 10 ([1, 2, 3, 4, 5].length - 2) ≤ [1, 2, 3, 4, 5].length) ∧
    rpc_data_get_bytes ⟨1, .rv_bin [1, 2, 3, 4, 5] true⟩ [0, 0, 0, 0] 2 10 =
      some ([3, 4, 5, 0], 3) ∧
    rpc_data_get_bytes ⟨1, .rv_bin [1, 2, 3] true⟩ [9] 4 1 = some ([9], 0) ∧
    rpc_data_get_bytes ⟨1, .rv_str "abc"⟩ [9] 0 1 = some ([9], 0) :=
  ⟨(C40_get_bytes_copies_in_range 1 (.rv_bin [1, 2, 3, 4, 5] true) [0, 0, 0, 0] 2 10).2.1
      [1, 2, 3, 4, 5] true rfl (by decide) (by decide), by decide,
    (C40_get_bytes_copies_in_range 1 (.rv_bin [1, 2, 3] true) [9] 4 1).1 [1, 2, 3] true rfl
      (by decide),
    (C40_get_bytes_copies_in_range 1 (.rv_str "abc") [9] 0 1).2.2 (by decide)⟩

/-! ## Continuing a streamed call -/

theorem wrap_int64_id (x : Int) (h0 : -2 ^ 63 ≤ x) (h1 : x < 2 ^ 63) : wrap_int64 x = x := by
  unfold wrap_int64
  omega

/-- The frame `rpc_call_continue` sends and the state it leaves. -/
theorem continue_spec (m k : Nat) (st : State) (call : Nat) (sync : Bool) (c : rpc_call)
    (ri : Int) (vi : rpc_value) (ti : Tree) (hk : k ≤ m + 1)
    (hcall : st.calls[call]? = some (some c))
    (hi : st.heap.get c.rc_id = some ⟨ri, vi⟩) (hri : 0 < ri) (hri2 : ri < 2 ^ 31 - 1)
    (hti : toTree k st.heap c.rc_id = some ti) :
    ∃ hf fds,
      rpc_call_continue (m + 2) st call sync =
        some ({ st with
          heap := hf,
          calls := st.calls.set call (some { c with rc_status := .RPC_CALL_IN_PROGRESS }),
          sent := st.sent ++
            [⟨.dictionary [("namespace", .string "rpc"), ("name", .string "continue"),
                ("id", ti), ("args", .int64 (wrap_int64 (c.rc_seqno + 1)))], fds, 0⟩] },
          if sync then none else some 0) := by
  have li := Heap.get_lt hi
  have gn : (rpc_int64_create st.heap (wrap_int64 (c.rc_seqno + 1))).1.get st.heap.size =
      some ⟨1, .rv_i (wrap_int64 (c.rc_seqno + 1))⟩ :=
    Heap.get_alloc_same st.heap _
  have sn : (rpc_int64_create st.heap (wrap_int64 (c.rc_seqno + 1))).1.size =
      st.heap.size + 1 := Heap.size_alloc st.heap _
  have hold : ∀ x, x < st.heap.size →
      (rpc_int64_create st.heap (wrap_int64 (c.rc_seqno + 1))).1.get x = st.heap.get x :=
    fun x hx => Heap.get_alloc_ne st.heap _ (by omega)
  have hiH : (rpc_int64_create st.heap (wrap_int64 (c.rc_seqno + 1))).1.get c.rc_id =
      some ⟨ri, vi⟩ := by rw [hold _ li, hi]
  have htiH : toTree (m + 1) (rpc_int64_create st.heap (wrap_int64 (c.rc_seqno + 1))).1 c.rc_id =
      some ti := by
    refine toTree_mono (toTree_agree k st.heap _ c.rc_id ti hti ?_) hk
    intro x hx
    rw [hold x hx]
  have htaH : toTree (m + 1) (rpc_int64_create st.heap (wrap_int64 (c.rc_seqno + 1))).1
      st.heap.size = some (.int64 (wrap_int64 (c.rc_seqno + 1))) := by
    unfold toTree
    simp [gn]
  obtain ⟨H', epack, gs, g1, g2, gi, ga, tti, tta⟩ :=
    pack_frame_some (m + 2) (m + 1) (rpc_int64_create st.heap (wrap_int64 (c.rc_seqno + 1))).1
      "rpc" "continue" c.rc_id st.heap.size ri 1 vi _ ti _ hiH hri hri2 gn (by decide)
      (by decide) (by omega) htiH htaH
  rw [sn] at epack gs g1 g2
  obtain ⟨hf, fds, hsend⟩ :=
    send_frame_spec m { st with heap := H' } (st.heap.size + 1) (st.heap.size + 1 + 1)
      (st.heap.size + 1 + 2) c.rc_id st.heap.size "rpc" "continue" (ri + 1) (1 + 1) vi _ ti _
      gs g1 g2 gi (by omega) (by omega) ga (by decide) (by decide)
      (by refine ⟨?_, ?_, ?_, ?_, ?_, ?_, ?_, ?_, ?_, ?_⟩ <;> omega) tti tta
  refine ⟨hf, fds, ?_⟩
  simp only [rpc_call_continue, hcall]
  simp only [rpc_int64_create, rpc_prim_create, Heap.alloc_snd] at epack ⊢
  simp only [epack, hsend, update_call, hcall, Option.map_some']

/-- C36: `rpc_call_continue` on a call in state MoreAvailable whose last
received seqno is `s` (with `s + 1` in the range of `int64_t`) hands exactly
one message to the transport, the frame `rpc/continue` with the id of the call and the args
Int64 `s + 1`, and leaves the call with status InProgress and every other
field, the seqno among them, as before; the other calls and the outbound-call
table are as before. -/
theorem C36_continue_sends_next_seqno (m k : Nat) (st : State) (call : Nat) (sync : Bool)
    (c : rpc_call) (ri : Int) (vi : rpc_value) (ti : Tree) (hk : k ≤ m + 1)
    (hcall : st.calls[call]? = some (some c))
    (_hstat : c.rc_status = .RPC_CALL_MORE_AVAILABLE)
    (hs : c.rc_seqno + 1 < 2 ^ 63)
    (hi : st.heap.get c.rc_id = some ⟨ri, vi⟩) (hri : 0 < ri) (hri2 : ri < 2 ^ 31 - 1)
    (hti : toTree k st.heap c.rc_id = some ti) :
    ∃ st1 fds,
      rpc_call_continue (m + 2) st call sync = some (st1, if sync then none else some 0) ∧
      st1.sent = st.sent ++
        [⟨.dictionary [("namespace", .string "rpc"), ("name", .string "continue"), ("id", ti),
            ("args", .int64 (c.rc_seqno + 1))], fds, 0⟩] ∧
      st1.calls = st.calls.set call (some { c with rc_status := .RPC_CALL_IN_PROGRESS }) ∧
      rpc_call_status st1 call = some .RPC_CALL_IN_PROGRESS ∧
      (st1.calls[call]?).map (fun x => x.map (fun y => y.rc_seqno)) = some (some c.rc_seqno) ∧
      (∀ other, other ≠ call → st1.calls[other]? = st.calls[other]?) ∧
      st1.rco_calls = st.rco_calls := by
  obtain ⟨hf, fds, hrun⟩ := continue_spec m k st call sync c ri vi ti hk hcall hi hri hri2 hti
  have hw : wrap_int64 ((c.rc_seqno : Int) + 1) = (c.rc_seqno : Int) + 1 :=
    wrap_int64_id _ (by omega) (by exact_mod_cast hs)
  rw [hw] at hrun
  have hlt : call < st.calls.length := by
    by_contra hge
    rw [List.getElem?_eq_none (by omega)] at hcall
    exact absurd hcall (by simp)
  refine ⟨_, fds, hrun, rfl, rfl, ?_, ?_, ?_, rfl⟩
  · simp [rpc_call_status, List.getElem?_set, hlt]
  · simp [List.getElem?_set, hlt]
  · intro other hne
    simp only
    rw [List.getElem?_set_ne (Ne.symm hne)]

/-- C36 at a concrete input: the call of `ex_state_more`, whose last seqno
is 1; the frame carries Int64 2. -/
theorem C36_continue_sends_next_seqno_witness :
    ∃ st1 fds,
      rpc_call_continue 3 ex_state_more 0 false = some (st1, some 0) ∧
      st1.sent = ex_state_more.sent ++
        [⟨.dictionary [("namespace", .string "rpc"), ("name", .string "continue"),
            ("id", .string "id-1"), ("args", .int64 2)], fds, 0⟩] ∧
      st1.calls = ex_state_more.calls.set 0
        (some { ex_call_more with rc_status := .RPC_CALL_IN_PROGRESS }) ∧
      rpc_call_status st1 0 = some .RPC_CALL_IN_PROGRESS ∧
      (st1.calls[0]?).map (fun x => x.map (fun y => y.rc_seqno)) = some (some 1) ∧
      (∀ other, other ≠ 0 → st1.calls[other]? = ex_state_more.calls[other]?) ∧
      st1.rco_calls = ex_state_more.rco_calls :=
  C36_continue_sends_next_seqno 1 1 ex_state_more 0 false ex_call_more 1 (.rv_str "id-1")
    (.string "id-1") (by decide) (by decide) (by decide) (by decide) (by decide) (by decide)
    (by decide) rfl

/-! ## The seqno of a fragment frame -/

/-- The payload `{seqno, fragment}` built by `rpc_connection_send_fragment`. -/
theorem fragment_args_spec (f k : Nat) (h : Heap) (s : Int) (frag : Nat) (rf : Int)
    (vf : rpc_value) (tf : Tree)
    (hf : h.get frag = some ⟨rf, vf⟩) (hrf : 0 < rf) (hrf2 : rf < 2 ^ 31 - 1)
    (htf : toTree k h frag = some tf) :
    ∃ H1 H,
      rpc_dictionary_set_int64 f (rpc_dictionary_create h).1
          (rpc_dictionary_create h).2 "seqno" s = some H1 ∧
      rpc_dictionary_set_value f H1 (rpc_dictionary_create h).2 "fragment" frag = some H ∧
      H.size = h.size + 2 ∧
      H.get h.size = some ⟨1, .rv_dict [("seqno", h.size + 1), ("fragment", frag)]⟩ ∧
      H.get (h.size + 1) = some ⟨1, .rv_i s⟩ ∧
      toTree (k + 1) H h.size =
        some (.dictionary [("seqno", .int64 s), ("fragment", tf)]) ∧
      (∀ x, x < h.size → x ≠ frag → H.get x = h.get x) ∧
      (∀ x, x < h.size →
        (H.get x).map (fun o => o.ro_value) = (h.get x).map (fun o => o.ro_value)) := by
  have lf := Heap.get_lt hf
  have kpos := toTree_pos htf
  have g0 : (rpc_dictionary_create h).1.get h.size = some ⟨1, .rv_dict []⟩ :=
    Heap.get_alloc_same h _
  have s0 : (rpc_dictionary_create h).1.size = h.size + 1 := Heap.size_alloc h _
  have o0 : ∀ x, x ≠ h.size → (rpc_dictionary_create h).1.get x = h.get x :=
    fun x hx => Heap.get_alloc_ne h _ hx
  obtain ⟨H1, e1, s1, _, g1, n1, o1⟩ :=
    steal_fresh_new_key f (rpc_dictionary_create h).1 h.size "seqno" (.rv_i s) 1 [] g0 rfl
  rw [s0] at s1 g1 n1 o1
  have gf1 : H1.get frag = some ⟨rf, vf⟩ := by
    rw [o1 frag (by omega) (by omega), o0 frag (by omega), hf]
  obtain ⟨H2, e2, s2, _, g2, n2, o2⟩ :=
    set_value_new_key f H1 h.size frag "fragment" 1 rf _ vf g1 (by simp [List.lookup]) gf1
      (by omega) hrf hrf2
  have gs2 : H2.get (h.size + 1) = some ⟨1, .rv_i s⟩ := by
    rw [o2 _ (by omega) (by omega), n1]
  have hoth : ∀ x, x < h.size → x ≠ frag → H2.get x = h.get x := by
    intro x hx hxf
    rw [o2 x (by omega) hxf, o1 x (by omega) (by omega), o0 x (by omega)]
  have hval : ∀ x, x < h.size →
      (H2.get x).map (fun o => o.ro_value) = (h.get x).map (fun o => o.ro_value) := by
    intro x hx
    by_cases hxf : x = frag
    · subst hxf
      rw [n2, hf]
      rfl
    · rw [hoth x hx hxf]
  refine ⟨H1, H2, ?_, ?_, by omega, by simpa using g2, gs2, ?_, hoth, hval⟩
  · simp only [rpc_dictionary_set_int64, rpc_int64_create]
    exact e1
  · simp only [rpc_dictionary_create, rpc_prim_create, Heap.alloc_snd] at e2 ⊢
    exact e2
  · have t1 : toTree k H2 (h.size + 1) = some (.int64 s) := by
      obtain ⟨k1, rfl⟩ : ∃ k1, k = k1 + 1 := ⟨k - 1, by omega⟩
      unfold toTree; simp [gs2]
    have t2 : toTree k H2 frag = some tf := toTree_agree k h H2 frag tf htf hval
    unfold toTree
    simp [g2, mapOpt, t1, t2]

/-- The frame `rpc_connection_send_fragment` sends, for an id object. -/
theorem send_fragment_spec (m k : Nat) (st : State) (i frag : Nat) (ri rf : Int)
    (vi vf : rpc_value) (ti tf : Tree) (s : Int) (hk : k ≤ m)
    (hi : st.heap.get i = some ⟨ri, vi⟩) (hri : 0 < ri) (hri2 : ri < 2 ^ 31 - 1)
    (hf : st.heap.get frag = some ⟨rf, vf⟩) (hrf : 0 < rf) (hrf2 : rf < 2 ^ 31 - 1)
    (hne : i ≠ frag)
    (hti : toTree k st.heap i = some ti) (htf : toTree k st.heap frag = some tf) :
    ∃ hfin fds,
      rpc_connection_send_fragment (m + 2) st (some i) s frag =
        some { st with
          heap := hfin,
          sent := st.sent ++
            [⟨.dictionary [("namespace", .string "rpc"), ("name", .string "fragment"),
                ("id", ti),
                ("args", .dictionary [("seqno", .int64 s), ("fragment", tf)])],
              fds, 0⟩] } := by
  have li := Heap.get_lt hi
  obtain ⟨H1, H, ea1, ea2, hsz, hga1, _, hta, hold, hval⟩ :=
    fragment_args_spec (m + 2) k st.heap s frag rf vf tf hf hrf hrf2 htf
  have hiH : H.get i = some ⟨ri, vi⟩ := by rw [hold i li hne, hi]
  have htiH : toTree (m + 1) H i = some ti :=
    toTree_mono (toTree_agree k st.heap H i ti hti hval) (by omega)
  have htaH : toTree (m + 1) H st.heap.size = some
      (.dictionary [("seqno", .int64 s), ("fragment", tf)]) :=
    toTree_mono hta (by omega)
  obtain ⟨H', epack, gs, g1, g2, gi, ga, tti, tta⟩ :=
    pack_frame_some (m + 2) (m + 1) H "rpc" "fragment" i st.heap.size ri 1 vi _ ti _ hiH hri hri2
      hga1 (by decide) (by decide) (by omega) htiH htaH
  rw [hsz] at epack gs g1 g2
  obtain ⟨hfin, fds, hsend⟩ :=
    send_frame_spec m { st with heap := H' } (st.heap.size + 2) (st.heap.size + 2 + 1)
      (st.heap.size + 2 + 2) i st.heap.size "rpc" "fragment" (ri + 1) (1 + 1) vi _ ti _
      gs g1 g2 gi (by omega) (by omega) ga (by decide) (by decide)
      (by refine ⟨?_, ?_, ?_, ?_, ?_, ?_, ?_, ?_, ?_, ?_⟩ <;> omega) tti tta
  refine ⟨hfin, fds, ?_⟩
  simp only [rpc_connection_send_fragment, ea1, ea2]
  simp only [rpc_dictionary_create, rpc_prim_create, Heap.alloc_snd] at epack ⊢
  simp only [epack, hsend, Option.map_some']

/-- C33: for every seqno `s` the frame `rpc_connection_send_fragment` hands
to the transport carries the args `{seqno: Int64 s, fragment}`, the seqno
being an Int64 and not a UInt64; and `on_rpc_fragment`, handling a frame with
such args for a call of the outbound-call table, records the fragment as
result and 0 as seqno, whatever `s` is. -/
theorem C33_fragment_seqno_is_read_as_zero (m k : Nat) (st : State) (i frag : Nat)
    (ri rf : Int) (vi vf : rpc_value) (ti tf : Tree) (s : Int) (hk : k ≤ m)
    (hi : st.heap.get i = some ⟨ri, vi⟩) (hri : 0 < ri) (hri2 : ri < 2 ^ 31 - 1)
    (hf : st.heap.get frag = some ⟨rf, vf⟩) (hrf : 0 < rf) (hrf2 : rf < 2 ^ 31 - 1)
    (hne : i ≠ frag)
    (hti : toTree k st.heap i = some ti) (htf : toTree k st.heap frag = some tf) :
    (∃ hfin fds,
      rpc_connection_send_fragment (m + 2) st (some i) s frag =
        some { st with
          heap := hfin,
          sent := st.sent ++
            [⟨.dictionary [("namespace", .string "rpc"), ("name", .string "fragment"),
                ("id", ti),
                ("args", .dictionary [("seqno", .int64 s), ("fragment", tf)])],
              fds, 0⟩] }) ∧
    (∀ (fuel : Nat) (rst : State) (frame id call a sobj : Nat) (key : String) (rc : Int)
        (p : Option Nat) (o : rpc_object) (c : rpc_call),
      rpc_dictionary_get_value rst.heap frame "id" = some (some id) →
      rpc_dictionary_get_string rst.heap frame "namespace" = some (some "rpc") →
      rpc_dictionary_get_string rst.heap frame "name" = some (some "fragment") →
      rpc_dictionary_get_value rst.heap frame "args" = some (some a) →
      rpc_dictionary_get_value rst.heap a "seqno" = some (some sobj) →
      rst.heap.get sobj = some ⟨rc, .rv_i s⟩ →
      rpc_dictionary_get_value rst.heap a "fragment" = some p →
      rst.heap.get id = some o → rpc_string_get_string_ptr o = some key →
      rst.rco_calls.lookup key = some call → rst.calls[call]? = some (some c) →
      ∃ st1, rpc_connection_dispatch fuel rst frame = some st1 ∧
        st1.calls = rst.calls.set call
          (some { c with rc_status := .RPC_CALL_MORE_AVAILABLE, rc_result := p,
                         rc_seqno := 0 })) := by
  refine ⟨send_fragment_spec m k st i frag ri rf vi vf ti tf s hk hi hri hri2 hf hrf hrf2 hne
    hti htf, ?_⟩
  intro fuel rst frame id call a sobj key rc p o c hid hns hname hargs hs hsobj hp ho hkey
    htab hcall
  rw [dispatch_to_handler fuel rst frame id "rpc" "fragment" (some a)
    ⟨"rpc", "fragment", .on_rpc_fragment⟩ hid hns hname hargs (by decide)]
  simp [handler_fn.run, on_rpc_fragment, lookup_call, update_call, ho, hkey, htab, hcall,
    rpc_dictionary_get_uint64, hs, hsobj, hp, rpc_uint64_get_value]

/-- C33 at concrete inputs: the fragment `"chunk"` of `ex_state` is sent with
seqno 5 and the frame carries Int64 5; the receiver of that frame
(`ex_int_seqno_state`, frame 6) records seqno 0, not 5. -/
theorem C33_fragment_seqno_is_read_as_zero_witness :
    (∃ hfin fds,
      rpc_connection_send_fragment 3 ex_state (some 0) 5 7 =
        some { ex_state with
          heap := hfin,
          sent := ex_state.sent ++
            [⟨.dictionary [("namespace", .string "rpc"), ("name", .string "fragment"),
                ("id", .string "id-1"),
                ("args", .dictionary [("seqno", .int64 5), ("fragment", .string "chunk")])],
              fds, 0⟩] }) ∧
    (∃ st1, rpc_connection_dispatch 1 ex_int_seqno_state 6 = some st1 ∧
      st1.calls = ex_int_seqno_state.calls.set 0
        (some { ex_call with rc_status := .RPC_CALL_MORE_AVAILABLE, rc_result := some 4,
                             rc_seqno := 0 })) ∧
    (0 : Nat) ≠ 5 :=
  ⟨(C33_fragment_seqno_is_read_as_zero 1 1 ex_state 0 7 1 1 (.rv_str "id-1") (.rv_str "chunk")
      (.string "id-1") (.string "chunk") 5 (by decide) (by decide) (by decide) (by decide)
      (by decide) (by decide) (by decide) (by decide) rfl rfl).1,
   (C33_fragment_seqno_is_read_as_zero 1 1 ex_state 0 7 1 1 (.rv_str "id-1") (.rv_str "chunk")
      (.string "id-1") (.string "chunk") 5 (by decide) (by decide) (by decide) (by decide)
      (by decide) (by decide) (by decide) (by decide) rfl rfl).2 1 ex_int_seqno_state 6 0 0 5 3
      "id-1" 1 (some 4) ⟨1, .rv_str "id-1"⟩ ex_call (by decide) (by decide) (by decide)
      (by decide) (by decide) (by decide) (by decide) (by decide) (by decide) (by decide)
      (by decide),
   by decide⟩

/-! ## The shape of error payloads -/

/-- Reading `code` as an Int64 from the payload built by
`rpc_connection_send_err` gives the code. -/
theorem err_args_code (f : Nat) (h : Heap) (code : Int) (descr : String) :
    ∃ H1 H,
      rpc_dictionary_set_int64 f (rpc_dictionary_create h).1
          (rpc_dictionary_create h).2 "code" code = some H1 ∧
      rpc_dictionary_set_string f H1 (rpc_dictionary_create h).2 "message" descr = some H ∧
      rpc_dictionary_get_int64 H h.size "code" = some code := by
  have g0 : (rpc_dictionary_create h).1.get h.size = some ⟨1, .rv_dict []⟩ :=
    Heap.get_alloc_same h _
  have s0 : (rpc_dictionary_create h).1.size = h.size + 1 := Heap.size_alloc h _
  obtain ⟨H1, e1, s1, _, g1, n1, o1⟩ :=
    steal_fresh_new_key f (rpc_dictionary_create h).1 h.size "code" (.rv_i code) 1 [] g0 rfl
  rw [s0] at s1 g1 n1 o1
  obtain ⟨H2, e2, s2, _, g2, n2, o2⟩ :=
    steal_fresh_new_key f H1 h.size "message" (.rv_str descr) 1 _ g1 (by simp [List.lookup])
  rw [s1] at s2 g2 n2 o2
  have gc : H2.get (h.size + 1) = some ⟨1, .rv_i code⟩ := by
    rw [o2 _ (by omega) (by omega), n1]
  refine ⟨H1, H2, ?_, ?_, ?_⟩
  · simp only [rpc_dictionary_set_int64, rpc_int64_create]
    exact e1
  · simp only [rpc_dictionary_set_string, rpc_string_create]
    simp only [rpc_dictionary_create, rpc_prim_create, Heap.alloc_snd] at e2 ⊢
    exact e2
  · simp [rpc_dictionary_get_int64, rpc_dictionary_get_value, g2, List.lookup, gc,
      rpc_int64_get_value]

/-- Reading `code` as an Int64 from the payload that `rpc_call_timeout` sets
gives -1, the value `rpc_int64_get_value` returns for another kind. -/
theorem timeout_code_spec (fuel : Nat) (st : State) (call : Nat) (c : rpc_call)
    (hcall : st.calls[call]? = some (some c)) :
    ∃ h3, rpc_call_timeout fuel st call =
        some ({ st with
          heap := h3,
          calls := st.calls.set call
            (some { c with rc_status := .RPC_CALL_ERROR, rc_result := some st.heap.size }) },
          false) ∧
      toTree 2 h3 st.heap.size =
        some (.dictionary [("code", .uint64 ETIMEDOUT), ("message", .string "Call timed out")]) ∧
      rpc_dictionary_get_int64 h3 st.heap.size "code" = some (-1) := by
  simp +arith [rpc_call_timeout, hcall, rpc_dictionary_set_uint64, rpc_dictionary_set_string,
    rpc_dictionary_create, rpc_uint64_create, rpc_string_create, rpc_prim_create,
    rpc_dictionary_steal_value, Heap.get_set, Heap.get_alloc, Heap.alloc_snd, Heap.size_alloc,
    Heap.size_set, entries_insert, List.lookup, toTree, mapOpt, rpc_dictionary_get_int64,
    rpc_dictionary_get_value, rpc_int64_get_value]

/-- C34: the frame `rpc_connection_send_err` sends has the args `{code: Int64,
message: String}`, and reading `code` as an Int64 from the payload it builds
gives the code; the result `rpc_call_timeout` sets on a call is `{code:
UInt64 ETIMEDOUT, message: String}`, and reading its `code` as an Int64 gives
-1, not ETIMEDOUT. -/
theorem C34_timeout_code_is_not_int64 (m k : Nat) (st : State) (i : Nat) (ri : Int)
    (vi : rpc_value) (ti : Tree) (code : Int) (descr : String) (call : Nat) (c : rpc_call)
    (hk : k ≤ m + 1) (hm : 1 ≤ m)
    (hi : st.heap.get i = some ⟨ri, vi⟩) (hri : 0 < ri) (hri2 : ri < 2 ^ 31 - 1)
    (hti : toTree k st.heap i = some ti)
    (hcall : st.calls[call]? = some (some c)) :
    (∃ hf fds,
      rpc_connection_send_err (m + 2) st (some i) code descr =
        some { st with
          heap := hf,
          sent := st.sent ++
            [⟨.dictionary [("namespace", .string "rpc"), ("name", .string "error"), ("id", ti),
                ("args", .dictionary [("code", .int64 code), ("message", .string descr)])],
              fds, 0⟩] }) ∧
    (∃ H1 H,
      rpc_dictionary_set_int64 (m + 2) (rpc_dictionary_create st.heap).1
          (rpc_dictionary_create st.heap).2 "code" code = some H1 ∧
      rpc_dictionary_set_string (m + 2) H1 (rpc_dictionary_create st.heap).2 "message" descr =
        some H ∧
      rpc_dictionary_get_int64 H st.heap.size "code" = some code) ∧
    (∃ st1 d,
      rpc_call_timeout (m + 2) st call = some (st1, false) ∧
      rpc_call_status st1 call = some .RPC_CALL_ERROR ∧
      rpc_call_result st1 call = some (some d) ∧
      toTree 2 st1.heap d =
        some (.dictionary [("code", .uint64 ETIMEDOUT), ("message", .string "Call timed out")]) ∧
      rpc_dictionary_get_int64 st1.heap d "code" = some (-1) ∧
      (-1 : Int) ≠ ETIMEDOUT) := by
  refine ⟨send_err_some m k st i ri vi ti code descr hk hm hi hri hri2 hti,
    err_args_code (m + 2) st.heap code descr, ?_⟩
  obtain ⟨h3, hrun, htree, hint⟩ := timeout_code_spec (m + 2) st call c hcall
  have hlt : call < st.calls.length := by
    by_contra hge
    rw [List.getElem?_eq_none (by omega)] at hcall
    exact absurd hcall (by simp)
  refine ⟨_, st.heap.size, hrun, ?_, ?_, htree, hint, by decide⟩
  · simp [rpc_call_status, List.getElem?_set, hlt]
  · simp [rpc_call_result, List.getElem?_set, hlt]

/-- C34 at concrete inputs: the error frame for the id of `ex_state` with
code EINVAL, and the timeout of the call of `ex_state`. -/
theorem C34_timeout_code_is_not_int64_witness :
    (∃ hf fds,
      rpc_connection_send_err 3 ex_state (some 0) EINVAL "Malformed request" =
        some { ex_state with
          heap := hf,
          sent := ex_state.sent ++
            [⟨.dictionary [("namespace", .string "rpc"), ("name", .string "error"),
                ("id", .string "id-1"),
                ("args", .dictionary [("code", .int64 EINVAL),
                  ("message", .string "Malformed request")])],
              fds, 0⟩] }) ∧
    (∃ H1 H,
      rpc_dictionary_set_int64 3 (rpc_dictionary_create ex_state.heap).1
          (rpc_dictionary_create ex_state.heap).2 "code" EINVAL = some H1 ∧
      rpc_dictionary_set_string 3 H1 (rpc_dictionary_create ex_state.heap).2 "message"
          "Malformed request" = some H ∧
      rpc_dictionary_get_int64 H ex_state.heap.size "code" = some EINVAL) ∧
    (∃ st1 d,
      rpc_call_timeout 3 ex_state 0 = some (st1, false) ∧
      rpc_call_status st1 0 = some .RPC_CALL_ERROR ∧
      rpc_call_result st1 0 = some (some d) ∧
      toTree 2 st1.heap d =
        some (.dictionary [("code", .uint64 ETIMEDOUT), ("message", .string "Call timed out")]) ∧
      rpc_dictionary_get_int64 st1.heap d "code" = some (-1) ∧
      (-1 : Int) ≠ ETIMEDOUT) :=
  C34_timeout_code_is_not_int64 1 1 ex_state 0 1 (.rv_str "id-1") (.string "id-1") EINVAL
    "Malformed request" 0 ex_call (by decide) (by decide) (by decide) (by decide) (by decide)
    rfl (by decide)

/-! ## A call that cannot be sent -/

theorem set_last {α : Type} (l : List α) (x y : α) : (l ++ [x]).set l.length y = l ++ [y] := by
  induction l with
  | nil => rfl
  | cons a l ih => simp [List.set, ih]

/-- What `rpc_connection_call` does, for an args object: it hands the frame
`rpc/call` to the transport; when the transport refuses it the call record
is freed and `NULL` is returned, otherwise the timeout source is attached and
the call is returned. In both cases the outbound-call table has got the
entry for the new id. -/
theorem connection_call_spec (m k : Nat) (st : State) (name : String) (a : Nat) (ra : Int)
    (va : rpc_value) (ta : Tree) (uuid uuid2 : String) (hk : k ≤ m)
    (ha : st.heap.get a = some ⟨ra, va⟩) (hra : 0 < ra) (hra2 : ra < 2 ^ 31 - 1)
    (hta : toTree k st.heap a = some ta) :
    ∃ hf fds,
      rpc_connection_call (m + 2) st name (some a) uuid uuid2 =
        if st.rco_send_msg
            ⟨.dictionary [("namespace", .string "rpc"), ("name", .string "call"),
              ("id", .string uuid),
              ("args", .dictionary [("method", .string name), ("args", ta)])], fds, 0⟩ ≠ 0 then
          some ({ st with
            heap := hf,
            calls := st.calls ++ [none],
            rco_calls := table_insert st.rco_calls uuid st.calls.length,
            sent := st.sent ++
              [⟨.dictionary [("namespace", .string "rpc"), ("name", .string "call"),
                ("id", .string uuid),
                ("args", .dictionary [("method", .string name), ("args", ta)])], fds, 0⟩] },
            none)
        else
          some ({ st with
            heap := hf,
            calls := st.calls ++
              [some { rc_id := st.heap.size, rc_type := "call", rc_method := name,
                      rc_args := some a, rc_status := .RPC_CALL_IN_PROGRESS,
                      rc_result := none, rc_seqno := 0 }],
            rco_calls := table_insert st.rco_calls uuid st.calls.length,
            sent := st.sent ++
              [⟨.dictionary [("namespace", .string "rpc"), ("name", .string "call"),
                ("id", .string uuid),
                ("args", .dictionary [("method", .string name), ("args", ta)])], fds, 0⟩],
            sources := st.sources ++ [st.calls.length] },
            some st.calls.length) := by
  have la := Heap.get_lt ha
  have kpos := toTree_pos hta
  -- the id
  have gi0 : (rpc_new_id st.heap uuid).1.get st.heap.size = some ⟨1, .rv_str uuid⟩ :=
    Heap.get_alloc_same st.heap _
  have si0 : (rpc_new_id st.heap uuid).1.size = st.heap.size + 1 := Heap.size_alloc st.heap _
  have oi0 : ∀ x, x ≠ st.heap.size → (rpc_new_id st.heap uuid).1.get x = st.heap.get x :=
    fun x hx => Heap.get_alloc_ne st.heap _ hx
  have ei0 : (rpc_new_id st.heap uuid).2 = st.heap.size := Heap.alloc_snd st.heap _
  -- the payload
  have gp0 : (rpc_dictionary_create (rpc_new_id st.heap uuid).1).1.get (st.heap.size + 1) =
      some ⟨1, .rv_dict []⟩ := by
    have := Heap.get_alloc_same (rpc_new_id st.heap uuid).1 ⟨1, .rv_dict []⟩
    rw [si0] at this
    exact this
  have sp0 : (rpc_dictionary_create (rpc_new_id st.heap uuid).1).1.size = st.heap.size + 2 := by
    have := Heap.size_alloc (rpc_new_id st.heap uuid).1 ⟨1, .rv_dict []⟩
    rw [si0] at this
    exact this
  have op0 : ∀ x, x ≠ st.heap.size + 1 →
      (rpc_dictionary_create (rpc_new_id st.heap uuid).1).1.get x =
        (rpc_new_id st.heap uuid).1.get x := by
    intro x hx
    exact Heap.get_alloc_ne (rpc_new_id st.heap uuid).1 _ (by rw [si0]; exact hx)
  have ep0 : (rpc_dictionary_create (rpc_new_id st.heap uuid).1).2 = st.heap.size + 1 := by
    have := Heap.alloc_snd (rpc_new_id st.heap uuid).1 ⟨1, .rv_dict []⟩
    rw [si0] at this
    exact this
  -- the id made by `rpc_call_alloc`
  have gc0 : ∀ x, x < st.heap.size + 2 →
      (rpc_new_id (rpc_dictionary_create (rpc_new_id st.heap uuid).1).1 uuid2).1.get x =
        (rpc_dictionary_create (rpc_new_id st.heap uuid).1).1.get x := by
    intro x hx
    exact Heap.get_alloc_ne _ _ (by rw [sp0]; omega)
  have sc0 : (rpc_new_id (rpc_dictionary_create (rpc_new_id st.heap uuid).1).1 uuid2).1.size =
      st.heap.size + 3 := by
    have := Heap.size_alloc (rpc_dictionary_create (rpc_new_id st.heap uuid).1).1
      ⟨1, .rv_str uuid2⟩
    rw [sp0] at this
    exact this
  generalize hHc : (rpc_new_id (rpc_dictionary_create (rpc_new_id st.heap uuid).1).1 uuid2).1 = Hc
    at gc0 sc0
  have gpc : Hc.get (st.heap.size + 1) = some ⟨1, .rv_dict []⟩ := by
    rw [gc0 _ (by omega), gp0]
  have oc : ∀ x, x < st.heap.size → Hc.get x = st.heap.get x := by
    intro x hx
    rw [gc0 x (by omega), op0 x (by omega), oi0 x (by omega)]
  have gic : Hc.get st.heap.size = some ⟨1, .rv_str uuid⟩ := by
    rw [gc0 _ (by omega), op0 _ (by omega), gi0]
  -- the payload `{method, args}`
  obtain ⟨H2, e2, s2, _, g2, n2, o2⟩ :=
    steal_fresh_new_key (m + 2) Hc (st.heap.size + 1) "method" (.rv_str name) 1 [] gpc rfl
  rw [sc0] at s2 g2 n2 o2
  have ga2 : H2.get a = some ⟨ra, va⟩ := by
    rw [o2 a (by omega) (by omega), oc a la, ha]
  obtain ⟨H3, e3, s3, _, g3, n3, o3⟩ :=
    set_value_new_key (m + 2) H2 (st.heap.size + 1) a "args" 1 ra _ va g2
      (by simp [List.lookup]) ga2 (by omega) hra hra2
  have gm3 : H3.get (st.heap.size + 3) = some ⟨1, .rv_str name⟩ := by
    rw [o3 _ (by omega) (by omega), n2]
  have gi3 : H3.get st.heap.size = some ⟨1, .rv_str uuid⟩ := by
    rw [o3 _ (by omega) (by omega), o2 _ (by omega) (by omega), gic]
  have hval : ∀ x, x < st.heap.size →
      (H3.get x).map (fun o => o.ro_value) = (st.heap.get x).map (fun o => o.ro_value) := by
    intro x hx
    by_cases hxa : x = a
    · subst hxa
      rw [n3, ha]
      rfl
    · rw [o3 x (by omega) hxa, o2 x (by omega) (by omega), oc x hx]
  have tp3 : toTree (m + 1) H3 (st.heap.size + 1) =
      some (.dictionary [("method", .string name), ("args", ta)]) := by
    have t1 : toTree m H3 (st.heap.size + 3) = some (.string name) := by
      obtain ⟨m1, rfl⟩ : ∃ m1, m = m1 + 1 := ⟨m - 1, by omega⟩
      unfold toTree; simp [gm3]
    have t2 : toTree m H3 a = some ta :=
      toTree_mono (toTree_agree k st.heap H3 a ta hta hval) hk
    unfold toTree
    simp [g3, mapOpt, t1, t2]
  have ti3 : toTree (m + 1) H3 st.heap.size = some (.string uuid) := by
    unfold toTree; simp [gi3]
  have g3b : H3.get (st.heap.size + 1) =
      some ⟨1, .rv_dict [("method", st.heap.size + 3), ("args", a)]⟩ := by simpa using g3
  -- the frame
  obtain ⟨H4, epack, gs, g1, g2f, gi4, ga4, tti, tta⟩ :=
    pack_frame_some (m + 2) (m + 1) H3 "rpc" "call" st.heap.size (st.heap.size + 1) 1 1 _ _ _ _
      gi3 (by decide) (by decide) g3b (by decide) (by decide) (by omega) ti3 tp3
  rw [s3, s2] at epack gs g1 g2f
  obtain ⟨hf, fds, hsend⟩ :=
    send_frame_spec m
      { st with
        heap := H4,
        calls := st.calls ++
          [some { rc_id := st.heap.size, rc_type := "call", rc_method := name,
                  rc_args := some a, rc_status := .RPC_CALL_IN_PROGRESS,
                  rc_result := none, rc_seqno := 0 }],
        rco_calls := table_insert st.rco_calls uuid st.calls.length }
      (st.heap.size + 4) (st.heap.size + 4 + 1) (st.heap.size + 4 + 2) st.heap.size
      (st.heap.size + 1) "rpc" "call" (1 + 1) (1 + 1) _ _ _ _
      gs g1 g2f gi4 (by decide) (by decide) ga4 (by decide) (by decide)
      (by refine ⟨?_, ?_, ?_, ?_, ?_, ?_, ?_, ?_, ?_, ?_⟩ <;> omega) tti tta
  refine ⟨hf, fds, ?_⟩
  simp only [rpc_connection_call, rpc_call_alloc, update_call, ei0, ep0, hHc,
    List.getElem?_concat_length, set_last]
  have es2 : rpc_dictionary_set_string (m + 2) Hc (st.heap.size + 1) "method" name = some H2 := by
    simp only [rpc_dictionary_set_string, rpc_string_create]
    exact e2
  simp only [es2, e3, epack, gi4, rpc_string_get_string_ptr, hsend]
  by_cases hr : st.rco_send_msg
      ⟨.dictionary [("namespace", .string "rpc"), ("name", .string "call"),
        ("id", .string uuid),
        ("args", .dictionary [("method", .string name), ("args", ta)])], fds, 0⟩ ≠ 0
  · simp only [hr, if_true, rpc_call_destroy, set_last]
    simp
  · simp only [hr, if_false, List.getElem?_concat_length, set_last, Option.map_some']

/-- C35: when the transport refuses the `rpc/call` frame,
`rpc_connection_call` returns `NULL` and the call records that existed are
as before, but the outbound-call table is not as it was before the
invocation: it holds an entry for the id of the call that was not sent, and
that entry points at the record of the call, which has been freed. -/
theorem C35_failed_call_stays_in_table (m k : Nat) (st : State) (name : String) (a : Nat)
    (ra : Int) (va : rpc_value) (ta : Tree) (uuid uuid2 : String) (hk : k ≤ m)
    (ha : st.heap.get a = some ⟨ra, va⟩) (hra : 0 < ra) (hra2 : ra < 2 ^ 31 - 1)
    (hta : toTree k st.heap a = some ta)
    (hfail : ∀ msg, st.rco_send_msg msg ≠ 0)
    (hnew : st.rco_calls.lookup uuid = none) :
    ∃ st1,
      rpc_connection_call (m + 2) st name (some a) uuid uuid2 = some (st1, none) ∧
      (∀ call, call < st.calls.length → st1.calls[call]? = st.calls[call]?) ∧
      st1.rco_calls = st.rco_calls ++ [(uuid, st.calls.length)] ∧
      st1.rco_calls.lookup uuid = some st.calls.length ∧
      st1.calls[st.calls.length]? = some none ∧
      st1.rco_calls ≠ st.rco_calls := by
  obtain ⟨hf, fds, hrun⟩ :=
    connection_call_spec m k st name a ra va ta uuid uuid2 hk ha hra hra2 hta
  rw [if_pos (hfail _)] at hrun
  have htab : table_insert st.rco_calls uuid st.calls.length =
      st.rco_calls ++ [(uuid, st.calls.length)] := by
    simp only [table_insert, hnew]
  refine ⟨_, hrun, ?_, htab, ?_, ?_, ?_⟩
  · intro call hc
    simp only
    rw [List.getElem?_append_left hc]
  · simp only [lookup_table_insert, if_true]
  · simp
  · simp only [htab]
    intro h
    have := congrArg List.length h
    simp at this

/-- C35 at a concrete input: a call `hello` with the args object 3 on
`ex_state_down`, whose transport refuses every message; the new id is
`"id-2"`. -/
theorem C35_failed_call_stays_in_table_witness :
    ∃ st1,
      rpc_connection_call 3 ex_state_down "hello" (some 3) "id-2" "id-3" = some (st1, none) ∧
      (∀ call, call < ex_state_down.calls.length →
        st1.calls[call]? = ex_state_down.calls[call]?) ∧
      st1.rco_calls = ex_state_down.rco_calls ++ [("id-2", ex_state_down.calls.length)] ∧
      st1.rco_calls.lookup "id-2" = some ex_state_down.calls.length ∧
      st1.calls[ex_state_down.calls.length]? = some none ∧
      st1.rco_calls ≠ ex_state_down.rco_calls :=
  C35_failed_call_stays_in_table 1 1 ex_state_down "hello" 3 1 (.rv_i 5) (.int64 5) "id-2" "id-3"
    (by decide) (by decide) (by decide) (by decide) rfl (fun _ => (by decide : (-1 : Int) ≠ 0)) (by decide)

/-! ## What an inbound frame for an outbound call leaves alone -/

theorem update_call_same_but_call {st st1 : State} {call : Nat} {f : rpc_call → rpc_call}
    {key : String} (htab : st.rco_calls.lookup key = some call)
    (h : update_call st call f = some st1) : st.same_but_call st1 key := by
  unfold update_call at h
  split at h
  · simp only [Option.some.injEq] at h
    subst h
    refine ⟨rfl, rfl, rfl, rfl, rfl, rfl, rfl, rfl, rfl, by simp, ?_⟩
    intro other hne
    rw [htab] at hne
    simp only
    rw [List.getElem?_set_ne]
    intro heq
    exact hne (by rw [heq])
  · simp at h

theorem same_but_call_handled (st : State) (log : List handler_call) (key : String) :
    st.same_but_call { st with handled := log } key :=
  ⟨rfl, rfl, rfl, rfl, rfl, rfl, rfl, rfl, rfl, rfl, fun _ _ => rfl⟩

theorem same_but_call_trans {st st1 st2 : State} {key : String}
    (h1 : st.same_but_call st1 key) (h2 : st1.same_but_call st2 key) :
    st.same_but_call st2 key := by
  obtain ⟨a1, a2, a3, a4, a5, a6, a7, a8, a9, a10, a11⟩ := h1
  obtain ⟨b1, b2, b3, b4, b5, b6, b7, b8, b9, b10, b11⟩ := h2
  refine ⟨b1.trans a1, b2.trans a2, b3.trans a3, b4.trans a4, b5.trans a5, b6.trans a6,
    b7.trans a7, b8.trans a8, b9.trans a9, b10.trans a10, ?_⟩
  intro other hne
  rw [b11 other (by rw [a3]; exact hne), a11 other hne]

/-- Each of the four handlers of an outbound call, on an id that is the
String `key`: when the table has no entry for `key` the state is returned as
it is, and otherwise the handler stores through the call of that entry
only. -/
theorem outbound_handler_frame (fuel : Nat) (st : State) (key : String) (args : Option Nat)
    (id : Nat) (o : rpc_object) (f : handler_fn)
    (hf : f = .on_rpc_response ∨ f = .on_rpc_fragment ∨ f = .on_rpc_end ∨ f = .on_rpc_error)
    (ho : st.heap.get id = some o) (hkey : rpc_string_get_string_ptr o = some key) :
    (st.rco_calls.lookup key = none → f.run fuel st args id = some st) ∧
    (∀ st1, f.run fuel st args id = some st1 → st.same_but_call st1 key) := by
  have hl : lookup_call st id = some (st.rco_calls.lookup key) := by
    simp [lookup_call, ho, hkey]
  have hsame : st.same_but_call st key := same_but_call_handled st st.handled key
  rcases hf with h | h | h | h <;> subst h
  · simp only [handler_fn.run, on_rpc_response, hl]
    cases htab : st.rco_calls.lookup key with
    | none => exact ⟨fun _ => rfl, fun st1 h1 => by cases h1; exact hsame⟩
    | some call =>
      exact ⟨fun h => (by cases h), fun st1 h1 => update_call_same_but_call htab h1⟩
  · simp only [handler_fn.run, on_rpc_fragment, hl]
    cases htab : st.rco_calls.lookup key with
    | none => exact ⟨fun _ => rfl, fun st1 h1 => by cases h1; exact hsame⟩
    | some call =>
      refine ⟨fun h => (by cases h), fun st1 h1 => ?_⟩
      simp only at h1
      split at h1
      · cases h1
      · split at h1
        · exact update_call_same_but_call htab h1
        · cases h1
  · simp only [handler_fn.run, on_rpc_end, hl]
    cases htab : st.rco_calls.lookup key with
    | none => exact ⟨fun _ => rfl, fun st1 h1 => by cases h1; exact hsame⟩
    | some call =>
      exact ⟨fun h => (by cases h), fun st1 h1 => update_call_same_but_call htab h1⟩
  · simp only [handler_fn.run, on_rpc_error, hl]
    cases htab : st.rco_calls.lookup key with
    | none => exact ⟨fun _ => rfl, fun st1 h1 => by cases h1; exact hsame⟩
    | some call =>
      exact ⟨fun h => (by cases h), fun st1 h1 => update_call_same_but_call htab h1⟩

/-- C38: dispatching an `rpc/response`, `rpc/fragment`, `rpc/end` or
`rpc/error` frame whose id is the String X leaves every call record other
than the one the outbound-call table holds under X as it was, adds and removes
no table entry and no call record, leaves the heap, the other tables and the
event queue as they were and sends nothing; when X is not in the table the
dispatch returns and nothing of the connection has changed (only the record
of invoked handlers has one more item); and when X is in the table the
dispatch returns (for `rpc/fragment`: when the args are a dictionary). -/
theorem C38_inbound_frame_touches_one_call (fuel : Nat) (st : State) (frame id : Nat)
    (name key : String) (args : Option Nat) (o : rpc_object)
    (hid : rpc_dictionary_get_value st.heap frame "id" = some (some id))
    (hns : rpc_dictionary_get_string st.heap frame "namespace" = some (some "rpc"))
    (hname : rpc_dictionary_get_string st.heap frame "name" = some (some name))
    (hargs : rpc_dictionary_get_value st.heap frame "args" = some args)
    (hname4 : name = "response" ∨ name = "fragment" ∨ name = "end" ∨ name = "error")
    (ho : st.heap.get id = some o) (hkey : rpc_string_get_string_ptr o = some key) :
    (∀ st1, rpc_connection_dispatch fuel st frame = some st1 → st.same_but_call st1 key) ∧
    (st.rco_calls.lookup key = none →
      rpc_connection_dispatch fuel st frame =
        some { st with handled := st.handled ++ [⟨"rpc", name, args, id⟩] }) ∧
    (∀ call c, st.rco_calls.lookup key = some call → st.calls[call]? = some (some c) →
      (name = "fragment" → ∃ a s p, args = some a ∧
        rpc_dictionary_get_uint64 st.heap a "seqno" = some s ∧
        rpc_dictionary_get_value st.heap a "fragment" = some p) →
      ∃ st1, rpc_connection_dispatch fuel st frame = some st1 ∧ st.same_but_call st1 key) := by
  obtain ⟨f, hf, hfind⟩ : ∃ f : handler_fn,
      (f = .on_rpc_response ∨ f = .on_rpc_fragment ∨ f = .on_rpc_end ∨ f = .on_rpc_error) ∧
      handlers.find? (fun hd => hd.ns = "rpc" ∧ hd.name = name) = some ⟨"rpc", name, f⟩ := by
    rcases hname4 with h | h | h | h <;> subst h
    · exact ⟨.on_rpc_response, Or.inl rfl, by decide⟩
    · exact ⟨.on_rpc_fragment, Or.inr (Or.inl rfl), by decide⟩
    · exact ⟨.on_rpc_end, Or.inr (Or.inr (Or.inl rfl)), by decide⟩
    · exact ⟨.on_rpc_error, Or.inr (Or.inr (Or.inr rfl)), by decide⟩
  have hdisp := dispatch_to_handler fuel st frame id "rpc" name args ⟨"rpc", name, f⟩ hid hns
    hname hargs hfind
  simp only at hdisp
  obtain ⟨hnone, hframe⟩ := outbound_handler_frame fuel
    { st with handled := st.handled ++ [⟨"rpc", name, args, id⟩] } key args id o f hf ho hkey
  have h1 : ∀ st1, rpc_connection_dispatch fuel st frame = some st1 →
      st.same_but_call st1 key := by
    intro st1 hrun
    rw [hdisp] at hrun
    exact same_but_call_trans (same_but_call_handled st _ key) (hframe st1 hrun)
  refine ⟨h1, ?_, ?_⟩
  · intro htab
    rw [hdisp]
    exact hnone htab
  · intro call c htab hcall hfrag
    have hex : ∃ st1, rpc_connection_dispatch fuel st frame = some st1 := by
      rw [hdisp]
      rcases hf with h | h | h | h <;> subst h
      · simp [handler_fn.run, on_rpc_response, lookup_call, update_call, ho, hkey, htab, hcall]
      · have hn : name = "fragment" := by
          rcases hname4 with h | h | h | h <;> subst h <;> first | rfl | (revert hfind; decide)
        obtain ⟨a, s, p, ha, hs, hp⟩ := hfrag hn
        simp [handler_fn.run, on_rpc_fragment, lookup_call, update_call, ho, hkey, htab, hcall,
          ha, hs, hp]
      · simp [handler_fn.run, on_rpc_end, lookup_call, update_call, ho, hkey, htab, hcall]
      · simp [handler_fn.run, on_rpc_error, lookup_call, update_call, ho, hkey, htab, hcall]
    obtain ⟨st1, hrun⟩ := hex
    exact ⟨st1, hrun, h1 st1 hrun⟩

/-- C38 at concrete inputs: the `rpc/response` frame of `ex_heap` on
`ex_state_unlisted`, whose table is empty, and the `rpc/fragment` frame on
`ex_state`, whose table holds the id. -/
theorem C38_inbound_frame_touches_one_call_witness :
    rpc_connection_dispatch 1 ex_state_unlisted 4 =
      some { ex_state_unlisted with
        handled := ex_state_unlisted.handled ++ [⟨"rpc", "response", some 3, 0⟩] } ∧
    (∃ st1, rpc_connection_dispatch 1 ex_state 9 = some st1 ∧
      ex_state.same_but_call st1 "id-1") :=
  ⟨(C38_inbound_frame_touches_one_call 1 ex_state_unlisted 4 0 "response" "id-1" (some 3)
      ⟨1, .rv_str "id-1"⟩ (by decide) (by decide) (by decide) (by decide) (Or.inl rfl)
      (by decide) (by decide)).2.1 (by decide),
   (C38_inbound_frame_touches_one_call 1 ex_state 9 0 "fragment" "id-1" (some 8)
      ⟨1, .rv_str "id-1"⟩ (by decide) (by decide) (by decide) (by decide) (Or.inr (Or.inl rfl))
      (by decide) (by decide)).2.2 0 ex_call (by decide) (by decide)
      (fun _ => ⟨8, 1, some 7, rfl, by decide, by decide⟩)⟩

/-! ## Dispatch of a packed frame -/

theorem update_call_sent {st st1 : State} {call : Nat} {f : rpc_call → rpc_call}
    (h : update_call st call f = some st1) : st1.sent = st.sent := by
  unfold update_call at h
  split at h
  · cases h; rfl
  · cases h

/-- A handler of the table sends nothing, except `on_rpc_call` on a
connection without a server. -/
theorem handler_sent (fuel : Nat) (f : handler_fn) (st st1 : State) (args : Option Nat)
    (id : Nat) (hsrv : f ≠ .on_rpc_call ∨ st.rco_server ≠ none)
    (h : f.run fuel st args id = some st1) : st1.sent = st.sent := by
  cases f
  · -- on_rpc_call
    have hs : st.rco_server ≠ none := by
      rcases hsrv with h1 | h1
      · exact absurd rfl h1
      · exact h1
    simp only [handler_fn.run, on_rpc_call] at h
    split at h
    · rename_i h0; exact absurd h0 hs
    · split at h
      · cases h
      · split at h
        · split at h
          · cases h
          · cases h; rfl
        · cases h
  · simp only [handler_fn.run, on_rpc_response] at h
    split at h
    · cases h
    · cases h; rfl
    · exact update_call_sent h
  · simp only [handler_fn.run, on_rpc_fragment] at h
    split at h
    · cases h
    · cases h; rfl
    · split at h
      · cases h
      · split at h
        · exact update_call_sent h
        · cases h
  · simp only [handler_fn.run, on_rpc_continue] at h
    split at h
    · cases h
    · split at h
      · cases h
      · split at h
        · cases h; rfl
        · cases h; rfl
  · simp only [handler_fn.run, on_rpc_end] at h
    split at h
    · cases h
    · cases h; rfl
    · exact update_call_sent h
  · simp only [handler_fn.run, on_rpc_abort] at h
    split at h
    · cases h
    · cases h; rfl
    · cases h; rfl
  · simp only [handler_fn.run, on_rpc_error] at h
    split at h
    · cases h
    · cases h; rfl
    · exact update_call_sent h
  · simp only [handler_fn.run, on_events_event] at h
    split at h
    · cases h; rfl
    · cases h; rfl
  · simp only [handler_fn.run, on_events_event_burst] at h
    split at h
    · cases h
    · cases hr : rpc_array_apply st.heap _ _ st.rco_event_queue with
      | none => rw [hr] at h; cases h
      | some r => rw [hr] at h; cases h; rfl
  · simp only [handler_fn.run, on_events_subscribe] at h
    split at h
    · cases h
    · cases hr : rpc_array_apply st.heap _ _ st.rco_subscriptions with
      | none => rw [hr] at h; cases h
      | some r => rw [hr] at h; cases h; rfl
  · simp only [handler_fn.run, on_events_unsubscribe] at h
    split at h
    · cases h
    · cases hr : rpc_array_apply st.heap _ _ st.rco_subscriptions with
      | none => rw [hr] at h; cases h
      | some r => rw [hr] at h; cases h; rfl

/-- C39, counterexample: on `ex_state`, a connection without a server, the
frame packed for the pair `rpc`/`call` with the id `"id-1"` is dispatched to
`on_rpc_call`, and an error frame goes out: `rpc/error` with the code
ENOTSUP. -/
theorem C39_counterexample :
    (⟨"rpc", "call", .on_rpc_call⟩ : message_handler) ∈ handlers ∧
    ex_state.rco_server = none ∧
    ((rpc_pack_frame 3 ex_state.heap "rpc" "call" (some 0) 3).bind
      (fun r => rpc_connection_dispatch 3 { ex_state with heap := r.1 } r.2)).map
        (fun st1 => st1.sent.map (fun w => w.buf)) =
      some [.dictionary [("namespace", .string "rpc"), ("name", .string "error"),
        ("id", .string "id-1"),
        ("args", .dictionary [("code", .int64 ENOTSUP), ("message", .string "Not supported")])]] := by
  refine ⟨by decide, rfl, ?_⟩
  rfl

/-- A handler of the table leaves the record of invoked handlers as it is. -/
theorem handler_handled (fuel : Nat) (f : handler_fn) (st st1 : State) (args : Option Nat)
    (id : Nat) (h : f.run fuel st args id = some st1) : st1.handled = st.handled := by
  have hup : ∀ {s s1 : State} {call : Nat} {g : rpc_call → rpc_call},
      update_call s call g = some s1 → s1.handled = s.handled := by
    intro s s1 call g hu
    unfold update_call at hu
    split at hu
    · cases hu; rfl
    · cases hu
  cases f
  · simp only [handler_fn.run, on_rpc_call] at h
    split at h
    · simp only [rpc_connection_send_err] at h
      split at h
      · cases h
      · split at h
        · cases h
        · split at h
          · cases h
          · rename_i h4 frame hp
            cases hs : rpc_send_frame fuel { st with heap := h4 } frame with
            | none => rw [hs] at h; cases h
            | some r =>
              rw [hs] at h
              cases h
              exact (send_frame_calls hs).2.2.1
    · split at h
      · cases h
      · split at h
        · split at h
          · cases h
          · cases h; rfl
        · cases h
  · simp only [handler_fn.run, on_rpc_response] at h
    split at h
    · cases h
    · cases h; rfl
    · exact hup h
  · simp only [handler_fn.run, on_rpc_fragment] at h
    split at h
    · cases h
    · cases h; rfl
    · split at h
      · cases h
      · split at h
        · exact hup h
        · cases h
  · simp only [handler_fn.run, on_rpc_continue] at h
    split at h
    · cases h
    · split at h
      · cases h
      · split at h
        · cases h; rfl
        · cases h; rfl
  · simp only [handler_fn.run, on_rpc_end] at h
    split at h
    · cases h
    · cases h; rfl
    · exact hup h
  · simp only [handler_fn.run, on_rpc_abort] at h
    split at h
    · cases h
    · cases h; rfl
    · cases h; rfl
  · simp only [handler_fn.run, on_rpc_error] at h
    split at h
    · cases h
    · cases h; rfl
    · exact hup h
  · simp only [handler_fn.run, on_events_event] at h
    split at h
    · cases h; rfl
    · cases h; rfl
  · simp only [handler_fn.run, on_events_event_burst] at h
    split at h
    · cases h
    · cases hr : rpc_array_apply st.heap _ _ st.rco_event_queue with
      | none => rw [hr] at h; cases h
      | some r => rw [hr] at h; cases h; rfl
  · simp only [handler_fn.run, on_events_subscribe] at h
    split at h
    · cases h
    · cases hr : rpc_array_apply st.heap _ _ st.rco_subscriptions with
      | none => rw [hr] at h; cases h
      | some r => rw [hr] at h; cases h; rfl
  · simp only [handler_fn.run, on_events_unsubscribe] at h
    split at h
    · cases h
    · cases hr : rpc_array_apply st.heap _ _ st.rco_subscriptions with
      | none => rw [hr] at h; cases h
      | some r => rw [hr] at h; cases h; rfl

/-- Every entry of the table `handlers` is the first one for its pair. -/
theorem handlers_find (hd : message_handler) (hhd : hd ∈ handlers) :
    handlers.find? (fun x => x.ns = hd.ns ∧ x.name = hd.name) = some hd := by
  simp only [handlers, List.mem_cons, List.mem_singleton, List.not_mem_nil, or_false] at hhd
  rcases hhd with h | h | h | h | h | h | h | h | h | h | h <;> subst h <;> decide

/-- The lookups of the dispatcher on a frame `{namespace, name, id, args}`. -/
theorem dispatch_packed (fuel : Nat) (st : State) (hd : message_handler) (frame p1 p2 i a : Nat)
    (rc r1 r2 : Int) (hhd : hd ∈ handlers)
    (gs : st.heap.get frame =
      some ⟨rc, .rv_dict [("namespace", p1), ("name", p2), ("id", i), ("args", a)]⟩)
    (g1 : st.heap.get p1 = some ⟨r1, .rv_str hd.ns⟩)
    (g2 : st.heap.get p2 = some ⟨r2, .rv_str hd.name⟩) :
    rpc_connection_dispatch fuel st frame =
      hd.handler.run fuel { st with handled := st.handled ++ [⟨hd.ns, hd.name, some a, i⟩] }
        (some a) i := by
  refine dispatch_to_handler fuel st frame i hd.ns hd.name (some a) hd ?_ ?_ ?_ ?_
    (handlers_find hd hhd)
  · simp [rpc_dictionary_get_value, gs, List.lookup]
  · simp [rpc_dictionary_get_string, rpc_dictionary_get_value, gs, List.lookup, g1,
      rpc_string_get_string_ptr]
  · simp [rpc_dictionary_get_string, rpc_dictionary_get_value, gs, List.lookup, g2,
      rpc_string_get_string_ptr]
  · simp [rpc_dictionary_get_value, gs, List.lookup]

/-- C39, amended: for each of the eleven entries of the table `handlers`, every
args object and every id (an object, or omitted and then packed as a new Null
object), `rpc_pack_frame` returns a frame with exactly the four keys
`namespace`, `name`, `id` and `args`, and `rpc_connection_dispatch` on that
frame is the invocation of the handler of that entry, once, with those args
and that id: the dispatcher itself sends no error frame. Whatever is sent is
sent by the handler, and no handler sends anything except `on_rpc_call` on a
connection without a server. -/
theorem C39_packed_frame_reaches_handler (f k fuel : Nat) (st : State) (hd : message_handler)
    (id : Option Nat) (a : Nat) (ra : Int) (va : rpc_value) (ta : Tree)
    (hhd : hd ∈ handlers)
    (ha : st.heap.get a = some ⟨ra, va⟩) (hra : 0 < ra) (hra2 : ra < 2 ^ 31 - 1)
    (hta : toTree k st.heap a = some ta)
    (hidv : ∀ i, id = some i → ∃ ri vi ti, st.heap.get i = some ⟨ri, vi⟩ ∧ 0 < ri ∧
      ri < 2 ^ 31 - 1 ∧ i ≠ a ∧ toTree k st.heap i = some ti) :
    ∃ H frame idv p1 p2,
      rpc_pack_frame f st.heap hd.ns hd.name id a = some (H, frame) ∧
      H.get frame =
        some ⟨1, .rv_dict [("namespace", p1), ("name", p2), ("id", idv), ("args", a)]⟩ ∧
      H.get p1 = some ⟨1, .rv_str hd.ns⟩ ∧ H.get p2 = some ⟨1, .rv_str hd.name⟩ ∧
      (∀ i, id = some i → idv = i) ∧
      (id = none → st.heap.size ≤ idv ∧ ∃ rc, H.get idv = some ⟨rc, .rv_null⟩) ∧
      rpc_connection_dispatch fuel { st with heap := H } frame =
        hd.handler.run fuel
          { st with heap := H, handled := st.handled ++ [⟨hd.ns, hd.name, some a, idv⟩] }
          (some a) idv ∧
      (∀ st1, rpc_connection_dispatch fuel { st with heap := H } frame = some st1 →
        st1.handled = st.handled ++ [⟨hd.ns, hd.name, some a, idv⟩] ∧
        (hd.handler ≠ .on_rpc_call ∨ st.rco_server ≠ none → st1.sent = st.sent)) := by
  cases id with
  | some i =>
    obtain ⟨ri, vi, ti, hi, hri, hri2, hne, hti⟩ := hidv i rfl
    obtain ⟨H, epack, gs, g1, g2, _, _, _, _⟩ :=
      pack_frame_some f k st.heap hd.ns hd.name i a ri ra vi va ti ta hi hri hri2 ha hra hra2
        hne hti hta
    have hdisp := dispatch_packed fuel { st with heap := H } hd st.heap.size (st.heap.size + 1)
      (st.heap.size + 2) i a 1 1 1 hhd gs g1 g2
    refine ⟨H, st.heap.size, i, st.heap.size + 1, st.heap.size + 2, epack, gs, g1, g2,
      fun j hj => (by cases hj; rfl), fun h => (by cases h), hdisp, ?_⟩
    intro st1 hrun
    rw [hdisp] at hrun
    have hh := handler_handled fuel hd.handler
      { st with heap := H, handled := st.handled ++ [⟨hd.ns, hd.name, some a, i⟩] } st1
      (some a) i hrun
    refine ⟨hh, fun hsrv => ?_⟩
    exact handler_sent fuel hd.handler
      { st with heap := H, handled := st.handled ++ [⟨hd.ns, hd.name, some a, i⟩] } st1
      (some a) i hsrv hrun
  | none =>
    obtain ⟨H, epack, gs, g1, g2, g3, _, _, _, _, _⟩ :=
      pack_frame_none_heap f k st.heap hd.ns hd.name a ra va ta ha hra hra2 hta
    have hdisp := dispatch_packed fuel { st with heap := H } hd st.heap.size (st.heap.size + 1)
      (st.heap.size + 2) (st.heap.size + 3) a 1 1 1 hhd gs g1 g2
    refine ⟨H, st.heap.size, st.heap.size + 3, st.heap.size + 1, st.heap.size + 2, epack, gs,
      g1, g2, fun j hj => (by cases hj), fun _ => ⟨(by omega), _, g3⟩, hdisp, ?_⟩
    intro st1 hrun
    rw [hdisp] at hrun
    have hh := handler_handled fuel hd.handler
      { st with heap := H, handled := st.handled ++ [⟨hd.ns, hd.name, some a, (st.heap.size + 3)⟩] } st1
      (some a) (st.heap.size + 3) hrun
    refine ⟨hh, fun hsrv => ?_⟩
    exact handler_sent fuel hd.handler
      { st with heap := H, handled := st.handled ++ [⟨hd.ns, hd.name, some a, (st.heap.size + 3)⟩] } st1
      (some a) (st.heap.size + 3) hsrv hrun

/-- C39, amended, at concrete inputs: the pair `rpc`/`response` packed with
the id `"id-1"` and the args 5 of `ex_heap`, dispatched on `ex_state`; and the
pair `events`/`event` packed without an id. -/
theorem C39_packed_frame_reaches_handler_witness :
    (∃ H frame idv p1 p2,
      rpc_pack_frame 1 ex_state.heap "rpc" "response" (some 0) 3 = some (H, frame) ∧
      H.get frame =
        some ⟨1, .rv_dict [("namespace", p1), ("name", p2), ("id", idv), ("args", 3)]⟩ ∧
      H.get p1 = some ⟨1, .rv_str "rpc"⟩ ∧ H.get p2 = some ⟨1, .rv_str "response"⟩ ∧
      (∀ i, some 0 = some i → idv = i) ∧
      ((some 0 : Option Nat) = none →
        ex_state.heap.size ≤ idv ∧ ∃ rc, H.get idv = some ⟨rc, .rv_null⟩) ∧
      rpc_connection_dispatch 1 { ex_state with heap := H } frame =
        handler_fn.on_rpc_response.run 1
          { ex_state with
            heap := H,
            handled := ex_state.handled ++ [⟨"rpc", "response", some 3, idv⟩] }
          (some 3) idv ∧
      (∀ st1, rpc_connection_dispatch 1 { ex_state with heap := H } frame = some st1 →
        st1.handled = ex_state.handled ++ [⟨"rpc", "response", some 3, idv⟩] ∧
        (handler_fn.on_rpc_response ≠ .on_rpc_call ∨ ex_state.rco_server ≠ none →
          st1.sent = ex_state.sent))) ∧
    (∃ H frame idv p1 p2,
      rpc_pack_frame 1 ex_state.heap "events" "event" none 3 = some (H, frame) ∧
      H.get frame =
        some ⟨1, .rv_dict [("namespace", p1), ("name", p2), ("id", idv), ("args", 3)]⟩ ∧
      H.get p1 = some ⟨1, .rv_str "events"⟩ ∧ H.get p2 = some ⟨1, .rv_str "event"⟩ ∧
      (∀ i, (none : Option Nat) = some i → idv = i) ∧
      ((none : Option Nat) = none →
        ex_state.heap.size ≤ idv ∧ ∃ rc, H.get idv = some ⟨rc, .rv_null⟩) ∧
      rpc_connection_dispatch 1 { ex_state with heap := H } frame =
        handler_fn.on_events_event.run 1
          { ex_state with
            heap := H,
            handled := ex_state.handled ++ [⟨"events", "event", some 3, idv⟩] }
          (some 3) idv ∧
      (∀ st1, rpc_connection_dispatch 1 { ex_state with heap := H } frame = some st1 →
        st1.handled = ex_state.handled ++ [⟨"events", "event", some 3, idv⟩] ∧
        (handler_fn.on_events_event ≠ .on_rpc_call ∨ ex_state.rco_server ≠ none →
          st1.sent = ex_state.sent))) :=
  ⟨C39_packed_frame_reaches_handler 1 1 1 ex_state ⟨"rpc", "response", .on_rpc_response⟩
      (some 0) 3 1 (.rv_i 5) (.int64 5) (by decide) (by decide) (by decide) (by decide) rfl
      (fun i hi => ⟨1, .rv_str "id-1", .string "id-1", (by cases hi; decide), (by decide),
        (by decide), (by cases hi; decide), (by cases hi; rfl)⟩),
   C39_packed_frame_reaches_handler 1 1 1 ex_state ⟨"events", "event", .on_events_event⟩
      none 3 1 (.rv_i 5) (.int64 5) (by decide) (by decide) (by decide) (by decide) rfl
      (fun i hi => (by cases hi))⟩

/-! ## Instantiation of a type declaration -/

/-- C31: `rpct_instantiate_type` gives `NULL` when the name of the
declaration is unknown (first part); but when the type is generic and its one
argument does not match or names an unknown type, the function gives an
instance all the same, and that instance holds `NULL` as its specialization
(second part): the result of the inner call is stored without a test. -/
theorem C31_unknown_argument_is_not_checked
    (regex : String → Option (String × Option String)) (context : rpct_context)
    (fuel : Nat) (decl realm decltype dv v : String) (declvars : Option String)
    (type : rpct_type)
    (hm : regex decl = some (decltype, declvars)) :
    (rpct_find_type context realm decltype = none →
      rpct_instantiate_type regex context (fuel + 1) decl realm = some none) ∧
    (rpct_find_type context realm decltype = some type → type.generic = true →
      declvars = some dv → (rpct_parse_type dv []).1 = [v] → type.generic_vars.length = 1 →
      (regex v = none ∨
        ∃ n d, regex v = some (n, d) ∧ rpct_find_type context realm n = none) →
      rpct_instantiate_type regex context (fuel + 2) decl realm =
        some (some (.mk false type [none])) ∧
      rpct_type_is_fully_specialized (.mk false type [none]) = false) := by
  refine ⟨fun hnone => ?_, fun ht hg hdv hp hv hunknown => ⟨?_, rfl⟩⟩
  · simp only [rpct_instantiate_type, hm, hnone]
  · subst hdv
    have hsub : rpct_instantiate_type regex context (fuel + 1) v realm = some none := by
      rcases hunknown with h | ⟨n, d, h, hn⟩
      · simp only [rpct_instantiate_type, h]
      · simp only [rpct_instantiate_type, h, hn]
    rw [rpct_instantiate_type]
    simp only [hm, ht, hg, if_true, hp, List.length_singleton, hv, ne_eq, not_true_eq_false,
      if_false, mapOpt, hsub, Option.map_some']

/-- C31 at concrete inputs, with the matcher `ex_instance_regex` and the
context `ex_box_context`: `nosuch` gives `NULL`; `Box<nosuch,int64>`, which
names an unknown type and has two arguments for the one variable of `Box`,
gives an instance with a missing specialization; `Box<int64,int64>`, with two
arguments, gives an instance; and `Box<int64>`, with one argument, gives
`NULL`. -/
theorem C31_unknown_argument_is_not_checked_witness :
    rpct_instantiate_type ex_instance_regex ex_box_context 1 "nosuch" "*" = some none ∧
    (rpct_instantiate_type ex_instance_regex ex_box_context 2 "Box<nosuch,int64>" "*" =
        some (some (.mk false ex_box [none])) ∧
      rpct_type_is_fully_specialized (.mk false ex_box [none]) = false) ∧
    rpct_instantiate_type ex_instance_regex ex_box_context 2 "Box<int64,int64>" "*" =
      some (some (.mk false ex_box [some (.mk false ex_int64 [])])) ∧
    rpct_instantiate_type ex_instance_regex ex_box_context 2 "Box<int64>" "*" = some none :=
  ⟨(C31_unknown_argument_is_not_checked ex_instance_regex ex_box_context 0 "nosuch" "*"
      "nosuch" "" "" none ex_box (by decide)).1 (by decide),
   (C31_unknown_argument_is_not_checked ex_instance_regex ex_box_context 0 "Box<nosuch,int64>"
      "*" "Box" "nosuch,int64" "nosuch" (some "nosuch,int64") ex_box (by decide)).2 (by decide)
      rfl rfl (by decide) rfl (Or.inr ⟨"nosuch", none, (by decide), (by decide)⟩),
   rfl, rfl⟩

/-! ## Initialisation of the type system -/

/-- C32, the code after `rpct_init`: the function returns 0, the table of
realms is empty, so the realm `*` does not exist and `rpct_find_type` gives
`NULL` for every realm and every name, the fourteen builtin names among
them; the realm built by the function has no types; and the table of names
holds `binray` where the builtin `binary` is meant. -/
theorem C32_init_registers_nothing :
    rpct_init.ret = 0 ∧
    rpct_find_realm rpct_init.context "*" = none ∧
    (∀ realm name, rpct_find_type rpct_init.context realm name = none) ∧
    (∀ name ∈ ["null", "bool", "uint64", "int64", "double", "date", "string", "binary", "fd",
        "dictionary", "array", "shmem", "error", "any"],
      rpct_find_type rpct_init.context "*" name = none) ∧
    rpct_init.realm.types = [] ∧
    rpct_init.types.length = 14 ∧
    "binary" ∉ builtin_types ∧ "binray" ∈ builtin_types := by
  refine ⟨rfl, rfl, fun realm name => ?_, fun name _ => ?_, rfl, rfl, by decide, by decide⟩
  · simp [rpct_find_type, rpct_find_realm, rpct_init, List.lookup]
  · simp [rpct_find_type, rpct_find_realm, rpct_init, List.lookup]

/-! ## Fully specialized instances -/

/-- What the loop of `rpct_type_is_fully_specialized` computes. -/
theorem fully_specialized_loop_iff (l : List (Option rpct_typei)) :
    fully_specialized_loop l = true ↔ ∀ s ∈ l, ∃ x, s = some x ∧ x.is_proxy = false := by
  induction l with
  | nil => simp [fully_specialized_loop]
  | cons s rest ih =>
    cases s with
    | none =>
      simp only [fully_specialized_loop, Bool.false_eq_true, false_iff]
      intro h
      obtain ⟨x, hx, _⟩ := h none (List.mem_cons_self _ _)
      cases hx
    | some x =>
      simp only [fully_specialized_loop]
      cases hp : x.is_proxy with
      | true =>
        simp only [if_true, Bool.false_eq_true, false_iff]
        intro h
        obtain ⟨y, hy, hy2⟩ := h (some x) (List.mem_cons_self _ _)
        cases hy
        rw [hp] at hy2
        cases hy2
      | false =>
        simp only [Bool.false_eq_true, if_false, ih]
        constructor
        · intro h s hs
          rcases List.mem_cons.mp hs with h1 | h1
          · exact ⟨x, h1, hp⟩
          · exact h s h1
        · intro h s hs
          exact h s (List.mem_cons_of_mem _ hs)

theorem has_inner_proxy_eq (x : rpct_typei) : x.has_inner_proxy = has_proxy_in x.specs := by
  cases x
  simp [rpct_typei.has_inner_proxy, rpct_typei.specs]

/-- C37: `rpct_type_is_fully_specialized(inst)` looks at the specializations
of `inst` itself and at nothing below them: it is true exactly when every
specialization of `inst` is present and is not a proxy placeholder. So it is
true for an instance in which no proxy is nested and no specialization is
missing, as claimed; but it is also true for every instance whose one
specialization is not a proxy itself and holds a proxy somewhere inside, at
the second level or deeper, where the claim requires false. -/
theorem C37_deep_proxy_is_not_seen (inst inner : rpct_typei) (proxy : Bool)
    (type : rpct_type) :
    (rpct_type_is_fully_specialized inst = true ↔
      ∀ s ∈ inst.specs, ∃ x, s = some x ∧ x.is_proxy = false) ∧
    (inst.has_inner_proxy = false → (∀ s ∈ inst.specs, s ≠ none) →
      rpct_type_is_fully_specialized inst = true) ∧
    (inner.is_proxy = false → inner.has_inner_proxy = true →
      rpct_type_is_fully_specialized (.mk proxy type [some inner]) = true ∧
      (rpct_typei.mk proxy type [some inner]).has_inner_proxy = true) := by
  refine ⟨fully_specialized_loop_iff inst.specs, fun hno hall => ?_, fun hp hin => ⟨?_, ?_⟩⟩
  · refine (fully_specialized_loop_iff inst.specs).mpr ?_
    rw [has_inner_proxy_eq] at hno
    generalize inst.specs = l at hno hall
    induction l with
    | nil => intro s hs; cases hs
    | cons s rest ih =>
      cases s with
      | none => exact absurd rfl (hall none (List.mem_cons_self _ _))
      | some x =>
        simp only [has_proxy_in, Bool.or_eq_false_iff] at hno
        intro s hs
        rcases List.mem_cons.mp hs with h1 | h1
        · exact ⟨x, h1, hno.1.1⟩
        · exact ih hno.2 (fun s hs => hall s (List.mem_cons_of_mem _ hs)) s h1
  · simp [rpct_type_is_fully_specialized, rpct_typei.specs, fully_specialized_loop, hp]
  · simp [rpct_typei.has_inner_proxy, has_proxy_in, hin]

/-- C37 at concrete inputs: `Box<Box<T>>` with a proxy at the second level
gives true although a proxy is nested in it; `Point<int64>`, in which no
proxy is nested, gives true; and the instance of `Box` whose specialization
is missing gives false. -/
theorem C37_deep_proxy_is_not_seen_witness :
    (rpct_type_is_fully_specialized ex_box_box_proxy = true ∧
      ex_box_box_proxy.has_inner_proxy = true) ∧
    rpct_type_is_fully_specialized ex_point_int64 = true ∧
    rpct_type_is_fully_specialized ex_box_missing = false ∧
    ex_box_missing.has_inner_proxy = false :=
  ⟨(C37_deep_proxy_is_not_seen ex_point_int64 (.mk false ex_box [some (.mk true ex_int64 [])])
      false ex_box).2.2 (by decide) (by decide),
   (C37_deep_proxy_is_not_seen ex_point_int64 ex_point_int64 false ex_box).2.1 (by decide)
      (fun s hs => (by
        simp only [ex_point_int64, rpct_typei.specs, List.mem_singleton] at hs
        rw [hs]
        exact Option.some_ne_none _)),
   by decide, by decide⟩

end Librpc
